import Mathlib

/-!
# Secure endpoint (`legacy_secure_endpoint.cc`): shallow embedding

The endpoint is embedded as explicit state passing over `secure_endpoint`.
Pointers into a staging slice (`cur`, `end`) are offsets from the slice's
start pointer.  Loops whose termination depends on the framer take a fuel
argument and return `none` when it runs out.  Every call that leaves the
endpoint (framer, wrapped endpoint, closure scheduling, memory owner) is
appended to a log, so that statements about "the calls of a write" are
statements about that log.
-/

namespace SecureEndpoint

/-! ## Data model -/

/-- One octet (`uint8_t`). -/
abbrev Byte := Nat

/-- Contents of a `grpc_slice`: its bytes from start pointer to end pointer. -/
abbrev grpc_slice := List Byte

/-- Modelled from the spec: the byte-slice buffer (`grpc_slice_buffer`, declared
in `grpc/slice_buffer.h`, absent here) is "an ordered sequence of byte ranges";
`count` is the number of slices and `length` the sum of their lengths. -/
abbrev grpc_slice_buffer := List grpc_slice

/-- A `grpc_closure*` that is not null, identified by its address. -/
abbrev grpc_closure := Nat

def STAGING_BUFFER_SIZE : Nat := 8192

/-- Field `length` of a slice buffer: the sum of the lengths of its slices. -/
def buffer_length (b : grpc_slice_buffer) : Nat :=
  (b.map List.length).sum

/-- The bytes of a slice buffer, concatenated in slice order. -/
def buffer_bytes (b : grpc_slice_buffer) : List Byte :=
  b.flatten

/-- Modelled from the spec: `tsi_result` (declared in
`transport_security_interface.h`, absent here).  The endpoint only compares
against `TSI_OK`; all other enumerators are kept by their numeric code. -/
inductive tsi_result where
  | TSI_OK
  | TSI_ERROR (code : Nat)
  deriving DecidableEq, Repr

/-- Modelled from the spec: `grpc_error_handle` (an `absl::Status`, declared
outside this source tree) with the constructions the endpoint uses:
`absl::OkStatus()`, `absl::CancelledError(msg)`, `GRPC_ERROR_CREATE(msg)`,
`GRPC_ERROR_CREATE_REFERENCING(msg, &child, 1)`, and any other status the
wrapped endpoint may deliver. -/
inductive grpc_error_handle where
  | OkStatus
  | CancelledError (message : String)
  | GRPC_ERROR_CREATE (message : String)
  | GRPC_ERROR_CREATE_REFERENCING (message : String) (child : grpc_error_handle)
  | other (code : Nat) (message : String)
  deriving DecidableEq, Repr

/-- Method `ok()` of a status. -/
def grpc_error_handle.ok : grpc_error_handle → Bool
  | .OkStatus => true
  | _ => false

/-- What one call of `tsi_frame_protector_protect` or
`tsi_frame_protector_unprotect` returns: the status, the in/out parameter
`*processed_size`, the bytes written at the output pointer (their number is the
in/out parameter `*output_size`), and the protector's next state. -/
structure FrameCall (σ : Type) where
  result : tsi_result
  processed : Nat
  out : List Byte
  state : σ

/-- What one call of `tsi_frame_protector_protect_flush` returns. -/
structure FlushCall (σ : Type) where
  result : tsi_result
  out : List Byte
  still_pending : Nat
  state : σ

/-- Modelled from the spec: the copying framer (`tsi_frame_protector`, declared
in `transport_security_interface.h`, absent here), a "stateful byte pump":
`protect(in_bytes, &in_len, out_bytes, &out_len)`,
`flush(out_bytes, &out_len, &pending)` and
`unprotect(in_bytes, &in_len, out_bytes, &out_len)`.  Each function receives the
protector state, the input bytes available and the capacity of the output
area. -/
structure tsi_frame_protector (σ : Type) where
  protect : σ → List Byte → Nat → FrameCall σ
  protect_flush : σ → Nat → FlushCall σ
  unprotect : σ → List Byte → Nat → FrameCall σ

/-- Result of `tsi_zero_copy_grpc_protector_protect`: status, what is left in the
input buffer, the output buffer after the call, next state. -/
structure ZeroCopyProtectCall (ζ : Type) where
  result : tsi_result
  unprotected_slices : grpc_slice_buffer
  protected_slices : grpc_slice_buffer
  state : ζ

/-- Result of `tsi_zero_copy_grpc_protector_unprotect`: status, what is left in
the input buffer, the output buffer after the call, the value left in
`*min_progress_size`, next state. -/
structure ZeroCopyUnprotectCall (ζ : Type) where
  result : tsi_result
  protected_slices : grpc_slice_buffer
  unprotected_slices : grpc_slice_buffer
  min_progress_size : Int
  state : ζ

/-- Modelled from the spec: the zero-copy framer
(`tsi_zero_copy_grpc_protector`, declared in `transport_security_grpc.h`, absent
here): `protect(in_buffer, out_buffer)` and
`unprotect(in_buffer, out_buffer, &min_progress)` operating on slice buffers. -/
structure tsi_zero_copy_grpc_protector (ζ : Type) where
  protect : ζ → grpc_slice_buffer → grpc_slice_buffer → ZeroCopyProtectCall ζ
  unprotect : ζ → grpc_slice_buffer → grpc_slice_buffer → Int → ZeroCopyUnprotectCall ζ

/-- Calls that leave the endpoint, in the order they are made.  A zero-copy
`protect` call is logged with the buffer it was given, the status it returned
and that buffer as the call left it. -/
inductive Event where
  | protect (input : List Byte) (capacity : Nat) (result : tsi_result)
      (processed : Nat) (out : List Byte)
  | protect_flush (capacity : Nat) (result : tsi_result) (out : List Byte)
      (still_pending : Nat)
  | unprotect (input : List Byte) (capacity : Nat) (result : tsi_result)
      (processed : Nat) (out : List Byte)
  | zero_copy_protect (input : grpc_slice_buffer) (result : tsi_result)
      (remaining : grpc_slice_buffer)
  | zero_copy_unprotect (input : grpc_slice_buffer) (result : tsi_result)
  | post_reclaimer
  | grpc_endpoint_read (urgent : Bool) (min_progress_size : Int)
  | grpc_endpoint_write (output : grpc_slice_buffer) (max_frame_size : Int)
  | run (closure : Option grpc_closure) (error : grpc_error_handle)
  deriving DecidableEq, Repr

/-- The fields of `struct secure_endpoint` that the read, write, reclaimer and
destroy paths use.  `wrapped_ep` is `none` once it has been reset.  `protector`
is the copying framer's state, `zero_copy_protector` is `none` for a null
pointer.  `read_buffer` is the pointer to the caller's destination together
with that buffer's contents.  `reclaimers` counts the callbacks registered
with `memory_owner` that have not run, `deleted` records `delete ep`. -/
structure secure_endpoint (σ ζ : Type) where
  wrapped_ep : Option Nat
  protector : σ
  zero_copy_protector : Option ζ
  read_cb : Option grpc_closure
  write_cb : Option grpc_closure
  read_buffer : Option grpc_slice_buffer
  source_buffer : grpc_slice_buffer
  leftover_bytes : grpc_slice_buffer
  read_staging_buffer : grpc_slice
  write_staging_buffer : grpc_slice
  output_buffer : grpc_slice_buffer
  has_posted_reclaimer : Bool
  min_progress_size : Int
  protector_staging_buffer : grpc_slice_buffer
  ref : Int
  reclaimers : Nat
  deleted : Bool

/-- `EventEngine::Endpoint::WriteArgs`, of which the endpoint reads
`max_frame_size()`. -/
structure WriteArgs where
  max_frame_size : Int
  deriving DecidableEq, Repr

/-! ## Slice primitives -/

/-- A slice of `n` bytes from `memory_owner.MakeSlice`; its contents are not
initialised by the endpoint and are taken to be zero. -/
def MakeSlice (n : Nat) : grpc_slice :=
  List.replicate n 0

def grpc_empty_slice : grpc_slice := []

/-- Memory effect of a framer call that writes `out` at offset `cur` of a
slice. -/
def write_at (slice : grpc_slice) (cur : Nat) (out : List Byte) : grpc_slice :=
  slice.take cur ++ out ++ slice.drop (cur + out.length)

/-- Modelled from the spec: "append slice" of the byte-slice buffer. -/
def grpc_slice_buffer_add (b : grpc_slice_buffer) (s : grpc_slice) : grpc_slice_buffer :=
  b ++ [s]

/-- Modelled from the spec: "append-taking-ownership" of the byte-slice buffer. -/
def grpc_slice_buffer_add_indexed (b : grpc_slice_buffer) (s : grpc_slice) :
    grpc_slice_buffer :=
  b ++ [s]

/-- Modelled from the spec: "split-prefix (returns first N bytes as a new buffer,
mutating the source)", here on one slice: the head and the remaining tail. -/
def grpc_slice_split_head (source : grpc_slice) (split : Nat) : grpc_slice × grpc_slice :=
  (source.take split, source.drop split)

/-- Modelled from the spec: "move-first-N-into-another-buffer".  Whole slices are
moved while they fit, the slice that straddles the boundary is split.  Returns
the source after the move and the slices appended to the destination. -/
def move_first : grpc_slice_buffer → Nat → grpc_slice_buffer × grpc_slice_buffer
  | [], _ => ([], [])
  | s :: rest, n =>
    if n = 0 then (s :: rest, [])
    else if s.length < n then
      let r := move_first rest (n - s.length)
      (r.1, s :: r.2)
    else if s.length = n then (rest, [s])
    else (s.drop n :: rest, [s.take n])

def grpc_slice_buffer_move_first (src : grpc_slice_buffer) (n : Nat)
    (dst : grpc_slice_buffer) : grpc_slice_buffer × grpc_slice_buffer :=
  ((move_first src n).1, dst ++ (move_first src n).2)

/-- The conversion `static_cast<size_t>` of a signed value. -/
def static_cast_size_t (v : Int) : Nat :=
  (v % (2 ^ 64 : Int)).toNat

/-! ## Reference count and reclaimer -/

/-- `SECURE_ENDPOINT_REF`. -/
def secure_endpoint_ref {σ ζ : Type} (ep : secure_endpoint σ ζ) : secure_endpoint σ ζ :=
  { ep with ref := ep.ref + 1 }

/-- `SECURE_ENDPOINT_UNREF`: the endpoint is deleted when the count reaches
zero. -/
def secure_endpoint_unref {σ ζ : Type} (ep : secure_endpoint σ ζ) : secure_endpoint σ ζ :=
  if ep.ref - 1 = 0 then { ep with ref := ep.ref - 1, deleted := true }
  else { ep with ref := ep.ref - 1 }

def maybe_post_reclaimer {σ ζ : Type} (ep : secure_endpoint σ ζ) :
    secure_endpoint σ ζ × List Event :=
  if !ep.has_posted_reclaimer then
    ({ secure_endpoint_ref ep with
        has_posted_reclaimer := true, reclaimers := ep.reclaimers + 1 },
      [Event.post_reclaimer])
  else (ep, [])

/-- The callback given to `PostReclaimer`; `sweep` tells whether the optional
sweep has a value. -/
def reclaimer_callback {σ ζ : Type} (ep : secure_endpoint σ ζ) (sweep : Bool) :
    secure_endpoint σ ζ :=
  let ep0 := { ep with reclaimers := ep.reclaimers - 1 }
  let ep1 :=
    if sweep then
      { ep0 with
          read_staging_buffer := grpc_empty_slice,
          write_staging_buffer := grpc_empty_slice,
          has_posted_reclaimer := false }
    else ep0
  secure_endpoint_unref ep1

/-! ## Write path -/

/-- The endpoint together with the local variables of `endpoint_write` and the
log of calls made so far. -/
structure WriteLoop (σ ζ : Type) where
  ep : secure_endpoint σ ζ
  cur : Nat
  end_ : Nat
  result : tsi_result
  log : List Event

def flush_write_staging_buffer {σ ζ : Type} (s : WriteLoop σ ζ) : WriteLoop σ ζ :=
  let ep1 := { s.ep with
    output_buffer := grpc_slice_buffer_add_indexed s.ep.output_buffer s.ep.write_staging_buffer,
    write_staging_buffer := MakeSlice STAGING_BUFFER_SIZE }
  let r := maybe_post_reclaimer ep1
  { s with ep := r.1, cur := 0, end_ := r.1.write_staging_buffer.length, log := s.log ++ r.2 }

/-- The loop `while (message_size > 0)` of the copying write, for one source
slice whose unprocessed bytes are `message_bytes`. -/
def protect_loop {σ ζ : Type} (F : tsi_frame_protector σ) :
    Nat → WriteLoop σ ζ → List Byte → Option (WriteLoop σ ζ)
  | 0, _, _ => none
  | fuel + 1, s, message_bytes =>
    if message_bytes.length > 0 then
      let c := F.protect s.ep.protector message_bytes (s.end_ - s.cur)
      let s1 : WriteLoop σ ζ := { s with
        ep := { s.ep with
          protector := c.state,
          write_staging_buffer := write_at s.ep.write_staging_buffer s.cur c.out },
        result := c.result,
        log := s.log ++ [Event.protect message_bytes (s.end_ - s.cur) c.result c.processed c.out] }
      if c.result ≠ tsi_result.TSI_OK then some s1
      else
        let s2 : WriteLoop σ ζ := { s1 with cur := s1.cur + c.out.length }
        let s3 := if s2.cur = s2.end_ then flush_write_staging_buffer s2 else s2
        protect_loop F fuel s3 (message_bytes.drop c.processed)
    else some s

/-- The loop `for (i = 0; i < slices->count; i++)` of the copying write. -/
def protect_slices {σ ζ : Type} (F : tsi_frame_protector σ) (fuel : Nat) :
    WriteLoop σ ζ → List grpc_slice → Option (WriteLoop σ ζ)
  | s, [] => some s
  | s, plain :: rest =>
    match protect_loop F fuel s plain with
    | none => none
    | some s1 =>
      if s1.result ≠ tsi_result.TSI_OK then some s1
      else protect_slices F fuel s1 rest

/-- The loop `do ... while (still_pending_size > 0)` of the copying write. -/
def protect_flush_loop {σ ζ : Type} (F : tsi_frame_protector σ) :
    Nat → WriteLoop σ ζ → Option (WriteLoop σ ζ)
  | 0, _ => none
  | fuel + 1, s =>
    let c := F.protect_flush s.ep.protector (s.end_ - s.cur)
    let s1 : WriteLoop σ ζ := { s with
      ep := { s.ep with
        protector := c.state,
        write_staging_buffer := write_at s.ep.write_staging_buffer s.cur c.out },
      result := c.result,
      log := s.log ++ [Event.protect_flush (s.end_ - s.cur) c.result c.out c.still_pending] }
    if c.result ≠ tsi_result.TSI_OK then some s1
    else
      let s2 : WriteLoop σ ζ := { s1 with cur := s1.cur + c.out.length }
      let s3 := if s2.cur = s2.end_ then flush_write_staging_buffer s2 else s2
      if c.still_pending > 0 then protect_flush_loop F fuel s3 else some s3

/-- The statement `if (cur != GRPC_SLICE_START_PTR(ep->write_staging_buffer))`
that closes the copying write. -/
def write_split_head {σ ζ : Type} (s : WriteLoop σ ζ) : WriteLoop σ ζ :=
  if s.cur ≠ 0 then
    let h := grpc_slice_split_head s.ep.write_staging_buffer s.cur
    { s with ep := { s.ep with
        output_buffer := grpc_slice_buffer_add s.ep.output_buffer h.1,
        write_staging_buffer := h.2 } }
  else s

/-- The branch `else` (frame protector) of `endpoint_write`. -/
def copying_write {σ ζ : Type} (F : tsi_frame_protector σ) (fuel : Nat)
    (s : WriteLoop σ ζ) (slices : grpc_slice_buffer) : Option (WriteLoop σ ζ) :=
  match protect_slices F fuel s slices with
  | none => none
  | some s1 =>
    if s1.result = tsi_result.TSI_OK then
      match protect_flush_loop F fuel s1 with
      | none => none
      | some s2 => some (write_split_head s2)
    else some s1

/-- The endpoint, the caller's source buffer, the state behind
`ep->zero_copy_protector` and the local `result` of the zero-copy branch of
`endpoint_write`. -/
structure ZeroCopyLoop (σ ζ : Type) where
  ep : secure_endpoint σ ζ
  z : ζ
  slices : grpc_slice_buffer
  result : tsi_result
  log : List Event

/-- One call `tsi_zero_copy_grpc_protector_protect(zero_copy_protector, input,
&ep->output_buffer)`, where `staged` tells whether `input` is
`protector_staging_buffer` or the caller's `slices`. -/
def zero_copy_protect_call {σ ζ : Type} (Z : tsi_zero_copy_grpc_protector ζ)
    (staged : Bool) (s : ZeroCopyLoop σ ζ) : ZeroCopyLoop σ ζ :=
  let input := if staged then s.ep.protector_staging_buffer else s.slices
  let c := Z.protect s.z input s.ep.output_buffer
  { ep := { s.ep with
      zero_copy_protector := some c.state,
      output_buffer := c.protected_slices,
      protector_staging_buffer :=
        if staged then c.unprotected_slices else s.ep.protector_staging_buffer },
    z := c.state,
    slices := if staged then s.slices else c.unprotected_slices,
    result := c.result,
    log := s.log ++ [Event.zero_copy_protect input c.result c.unprotected_slices] }

/-- The loop `while (slices->length > max_frame_size && result == TSI_OK)` of
the zero-copy write. -/
def zero_copy_chunk_loop {σ ζ : Type} (Z : tsi_zero_copy_grpc_protector ζ)
    (max_frame_size : Nat) : Nat → ZeroCopyLoop σ ζ → Option (ZeroCopyLoop σ ζ)
  | 0, _ => none
  | fuel + 1, s =>
    if buffer_length s.slices > max_frame_size ∧ s.result = tsi_result.TSI_OK then
      let m := grpc_slice_buffer_move_first s.slices max_frame_size
        s.ep.protector_staging_buffer
      let s1 : ZeroCopyLoop σ ζ := { s with
        ep := { s.ep with protector_staging_buffer := m.2 }, slices := m.1 }
      zero_copy_chunk_loop Z max_frame_size fuel (zero_copy_protect_call Z true s1)
    else some s

/-- The branch `if (ep->zero_copy_protector != nullptr)` of `endpoint_write`. -/
def zero_copy_write {σ ζ : Type} (Z : tsi_zero_copy_grpc_protector ζ) (fuel : Nat)
    (args : WriteArgs) (s : ZeroCopyLoop σ ζ) : Option (ZeroCopyLoop σ ζ) :=
  match zero_copy_chunk_loop Z (static_cast_size_t args.max_frame_size) fuel
      { s with result := tsi_result.TSI_OK } with
  | none => none
  | some s1 =>
    let s2 :=
      if s1.result = tsi_result.TSI_OK ∧ buffer_length s1.slices > 0 then
        zero_copy_protect_call Z false s1
      else s1
    some { s2 with ep := { s2.ep with protector_staging_buffer := [] } }

/-- What `endpoint_write` leaves behind: the endpoint, the caller's source
buffer, and the calls made. -/
structure WriteDone (σ ζ : Type) where
  ep : secure_endpoint σ ζ
  slices : grpc_slice_buffer
  result : tsi_result
  log : List Event

/-- The tail of `endpoint_write`, after the lock is released. -/
def write_finish {σ ζ : Type} (tsi_result_to_string : tsi_result → String)
    (ep : secure_endpoint σ ζ) (slices : grpc_slice_buffer) (result : tsi_result)
    (log : List Event) (cb : Option grpc_closure) (args : WriteArgs) : WriteDone σ ζ :=
  if result ≠ tsi_result.TSI_OK then
    { ep := { ep with output_buffer := [] },
      slices := slices,
      result := result,
      log := log ++ [Event.run cb (grpc_error_handle.GRPC_ERROR_CREATE
        ("Wrap failed (" ++ tsi_result_to_string result ++ ")"))] }
  else
    let ep1 := { secure_endpoint_ref ep with write_cb := cb }
    { ep := ep1,
      slices := slices,
      result := result,
      log := log ++ [Event.grpc_endpoint_write ep1.output_buffer args.max_frame_size] }

def endpoint_write {σ ζ : Type} (F : tsi_frame_protector σ)
    (Z : tsi_zero_copy_grpc_protector ζ) (tsi_result_to_string : tsi_result → String)
    (fuel : Nat) (ep : secure_endpoint σ ζ) (slices : grpc_slice_buffer)
    (cb : Option grpc_closure) (args : WriteArgs) : Option (WriteDone σ ζ) :=
  let ep0 := { ep with output_buffer := [] }
  match ep0.zero_copy_protector with
  | some z =>
    match zero_copy_write Z fuel args
        { ep := ep0, z := z, slices := slices, result := tsi_result.TSI_OK, log := [] } with
    | none => none
    | some s => some (write_finish tsi_result_to_string s.ep s.slices s.result s.log cb args)
  | none =>
    match copying_write F fuel
        { ep := ep0, cur := 0, end_ := ep0.write_staging_buffer.length,
          result := tsi_result.TSI_OK, log := [] } slices with
    | none => none
    | some s => some (write_finish tsi_result_to_string s.ep slices s.result s.log cb args)

/-- `on_write`: the completion of the wrapped write. -/
def on_write {σ ζ : Type} (ep : secure_endpoint σ ζ) (error : grpc_error_handle) :
    secure_endpoint σ ζ × List Event :=
  let cb := ep.write_cb
  (secure_endpoint_unref { ep with write_cb := none }, [Event.run cb error])

/-! ## Read path -/

/-- The endpoint together with the local variables of `on_read` and the log of
calls made so far. -/
structure ReadLoop (σ ζ : Type) where
  ep : secure_endpoint σ ζ
  cur : Nat
  end_ : Nat
  keep_looping : Bool
  result : tsi_result
  log : List Event

/-- A statement that changes the buffer `ep->read_buffer` points to.  A null
`read_buffer` stays null: the theorems about reads start from a non-null one. -/
def update_read_buffer {σ ζ : Type} (ep : secure_endpoint σ ζ)
    (f : grpc_slice_buffer → grpc_slice_buffer) : secure_endpoint σ ζ :=
  { ep with read_buffer := ep.read_buffer.map f }

def flush_read_staging_buffer {σ ζ : Type} (s : ReadLoop σ ζ) : ReadLoop σ ζ :=
  let ep1 := update_read_buffer s.ep
    (fun b => grpc_slice_buffer_add_indexed b s.ep.read_staging_buffer)
  let ep2 := { ep1 with read_staging_buffer := MakeSlice STAGING_BUFFER_SIZE }
  { s with ep := ep2, cur := 0, end_ := ep2.read_staging_buffer.length }

/-- The loop `while (message_size > 0 || keep_looping)` of the copying read, for
one source slice whose unprocessed bytes are `message_bytes`. -/
def unprotect_loop {σ ζ : Type} (F : tsi_frame_protector σ) :
    Nat → ReadLoop σ ζ → List Byte → Option (ReadLoop σ ζ)
  | 0, _, _ => none
  | fuel + 1, s, message_bytes =>
    if message_bytes.length > 0 ∨ s.keep_looping = true then
      let c := F.unprotect s.ep.protector message_bytes (s.end_ - s.cur)
      let s1 : ReadLoop σ ζ := { s with
        ep := { s.ep with
          protector := c.state,
          read_staging_buffer := write_at s.ep.read_staging_buffer s.cur c.out },
        result := c.result,
        log := s.log ++
          [Event.unprotect message_bytes (s.end_ - s.cur) c.result c.processed c.out] }
      if c.result ≠ tsi_result.TSI_OK then some s1
      else
        let s2 : ReadLoop σ ζ := { s1 with cur := s1.cur + c.out.length }
        let s3 : ReadLoop σ ζ :=
          if s2.cur = s2.end_ then { flush_read_staging_buffer s2 with keep_looping := true }
          else if c.out.length > 0 then { s2 with keep_looping := true }
          else { s2 with keep_looping := false }
        unprotect_loop F fuel s3 (message_bytes.drop c.processed)
    else some s

/-- The loop `for (i = 0; i < ep->source_buffer.count; i++)` of the copying
read. -/
def unprotect_slices {σ ζ : Type} (F : tsi_frame_protector σ) (fuel : Nat) :
    ReadLoop σ ζ → List grpc_slice → Option (ReadLoop σ ζ)
  | s, [] => some s
  | s, encrypted :: rest =>
    match unprotect_loop F fuel s encrypted with
    | none => none
    | some s1 =>
      if s1.result ≠ tsi_result.TSI_OK then some s1
      else unprotect_slices F fuel s1 rest

/-- The statement `if (cur != GRPC_SLICE_START_PTR(ep->read_staging_buffer))`
that closes the copying read. -/
def read_split_head {σ ζ : Type} (s : ReadLoop σ ζ) : ReadLoop σ ζ :=
  if s.cur ≠ 0 then
    let h := grpc_slice_split_head s.ep.read_staging_buffer s.cur
    { s with ep := { update_read_buffer s.ep (fun b => grpc_slice_buffer_add b h.1) with
        read_staging_buffer := h.2 } }
  else s

/-- The branch `else` (frame protector) of `on_read`. -/
def copying_read {σ ζ : Type} (F : tsi_frame_protector σ) (fuel : Nat)
    (s : ReadLoop σ ζ) : Option (ReadLoop σ ζ) :=
  match unprotect_slices F fuel s s.ep.source_buffer with
  | none => none
  | some s1 => some (read_split_head s1)

/-- The branch `else if (ep->zero_copy_protector != nullptr)` of `on_read`. -/
def zero_copy_read {σ ζ : Type} (Z : tsi_zero_copy_grpc_protector ζ) (z : ζ)
    (s : ReadLoop σ ζ) : ReadLoop σ ζ :=
  let c := Z.unprotect z s.ep.source_buffer (s.ep.read_buffer.getD []) 1
  let min_progress_size := max 1 c.min_progress_size
  { s with
    ep := { update_read_buffer s.ep (fun _ => c.unprotected_slices) with
      zero_copy_protector := some c.state,
      source_buffer := c.protected_slices,
      min_progress_size :=
        if c.result ≠ tsi_result.TSI_OK then 1 else min_progress_size },
    result := c.result,
    log := s.log ++ [Event.zero_copy_unprotect s.ep.source_buffer c.result] }

/-- What `on_read` leaves behind: the endpoint, the contents of the caller's
destination buffer when `read_cb` is scheduled (`none` if `read_buffer` was
null), the local `result`, and the calls made. -/
structure ReadDone (σ ζ : Type) where
  ep : secure_endpoint σ ζ
  dst : Option grpc_slice_buffer
  result : tsi_result
  log : List Event

def call_read_cb {σ ζ : Type} (ep : secure_endpoint σ ζ) (result : tsi_result)
    (log : List Event) (error : grpc_error_handle) : ReadDone σ ζ :=
  { ep := secure_endpoint_unref { ep with read_buffer := none },
    dst := ep.read_buffer,
    result := result,
    log := log ++ [Event.run ep.read_cb error] }

/-- The tail of `on_read`, after the lock is released. -/
def read_finish {σ ζ : Type} (tsi_result_to_string : tsi_result → String)
    (s : ReadLoop σ ζ) (error : grpc_error_handle) : ReadDone σ ζ :=
  if !error.ok then
    call_read_cb s.ep s.result s.log
      (grpc_error_handle.GRPC_ERROR_CREATE_REFERENCING "Secure read failed" error)
  else
    let ep1 := { s.ep with source_buffer := [] }
    if s.result ≠ tsi_result.TSI_OK then
      call_read_cb (update_read_buffer ep1 (fun _ => [])) s.result s.log
        (grpc_error_handle.GRPC_ERROR_CREATE
          ("Unwrap failed (" ++ tsi_result_to_string s.result ++ ")"))
    else call_read_cb ep1 s.result s.log grpc_error_handle.OkStatus

def on_read {σ ζ : Type} (F : tsi_frame_protector σ)
    (Z : tsi_zero_copy_grpc_protector ζ) (tsi_result_to_string : tsi_result → String)
    (fuel : Nat) (ep : secure_endpoint σ ζ) (error : grpc_error_handle) :
    Option (ReadDone σ ζ) :=
  let error :=
    if ep.wrapped_ep.isNone ∧ error.ok = true then
      grpc_error_handle.CancelledError "secure endpoint shutdown"
    else error
  let s0 : ReadLoop σ ζ :=
    { ep := ep, cur := 0, end_ := ep.read_staging_buffer.length, keep_looping := false,
      result := tsi_result.TSI_OK, log := [] }
  if !error.ok then
    some (read_finish tsi_result_to_string
      { s0 with ep := update_read_buffer ep (fun _ => []) } error)
  else
    match ep.zero_copy_protector with
    | some z => some (read_finish tsi_result_to_string (zero_copy_read Z z s0) error)
    | none =>
      match copying_read F fuel s0 with
      | none => none
      | some s => some (read_finish tsi_result_to_string s error)

/-- How a call of `endpoint_read` ends: the wrapped read was issued and its
completion is outstanding; or the leftover bytes were unprotected and `on_read`
ran before the call returned; or `CHECK_EQ(ep->leftover_bytes.count, 0u)`
failed; or the fuel ran out inside `on_read`. -/
inductive ReadCall (σ ζ : Type) where
  | issued (ep : secure_endpoint σ ζ) (log : List Event)
  | completed (done : ReadDone σ ζ)
  | check_failed
  | out_of_fuel

/-- `endpoint_read`.  The destination `slices` is reset on entry, so its
previous contents do not appear. -/
def endpoint_read {σ ζ : Type} (F : tsi_frame_protector σ)
    (Z : tsi_zero_copy_grpc_protector ζ) (tsi_result_to_string : tsi_result → String)
    (fuel : Nat) (ep : secure_endpoint σ ζ) (_slices : grpc_slice_buffer)
    (cb : Option grpc_closure) (urgent : Bool) : ReadCall σ ζ :=
  let ep1 := secure_endpoint_ref { ep with read_cb := cb, read_buffer := some [] }
  if ep1.leftover_bytes.length ≠ 0 then
    let ep2 := { ep1 with
      leftover_bytes := ep1.source_buffer, source_buffer := ep1.leftover_bytes }
    if ep2.leftover_bytes.length ≠ 0 then ReadCall.check_failed
    else
      match on_read F Z tsi_result_to_string fuel ep2 grpc_error_handle.OkStatus with
      | none => ReadCall.out_of_fuel
      | some d => ReadCall.completed d
  else
    ReadCall.issued ep1 [Event.grpc_endpoint_read urgent ep1.min_progress_size]

/-- The wrapped endpoint completes a read that was issued: it has put `data`
into `source_buffer` and runs the closure `on_read` with `error`. -/
def wrapped_read_done {σ ζ : Type} (F : tsi_frame_protector σ)
    (Z : tsi_zero_copy_grpc_protector ζ) (tsi_result_to_string : tsi_result → String)
    (fuel : Nat) (ep : secure_endpoint σ ζ) (data : grpc_slice_buffer)
    (error : grpc_error_handle) : Option (ReadDone σ ζ) :=
  on_read F Z tsi_result_to_string fuel { ep with source_buffer := data } error

/-! ## Destroy -/

/-- `endpoint_destroy`: `memory_owner.Reset()` runs the registered reclaimer
callbacks without a sweep. -/
def endpoint_destroy {σ ζ : Type} (ep : secure_endpoint σ ζ) : secure_endpoint σ ζ :=
  let ep1 := { ep with wrapped_ep := none }
  let ep2 := if ep1.reclaimers > 0 then reclaimer_callback ep1 false else ep1
  secure_endpoint_unref ep2

/-! ## Observations on the log -/

/-- Bytes that a `protect` or `protect_flush` call wrote to its output area. -/
def Event.protect_out : Event → List Byte
  | .protect _ _ _ _ out => out
  | .protect_flush _ _ out _ => out
  | _ => []

/-- Bytes of its input that a `protect` call consumed. -/
def Event.protect_in : Event → List Byte
  | .protect input _ _ processed _ => input.take processed
  | _ => []

/-- Bytes that an `unprotect` call wrote to its output area. -/
def Event.unprotect_out : Event → List Byte
  | .unprotect _ _ _ _ out => out
  | _ => []

/-- Bytes of its input that an `unprotect` call consumed. -/
def Event.unprotect_in : Event → List Byte
  | .unprotect input _ _ processed _ => input.take processed
  | _ => []

/-- The status a framer call returned; `none` for the other events. -/
def Event.framer_result : Event → Option tsi_result
  | .protect _ _ r _ _ => some r
  | .protect_flush _ r _ _ => some r
  | .unprotect _ _ r _ _ => some r
  | .zero_copy_protect _ r _ => some r
  | .zero_copy_unprotect _ r => some r
  | _ => none

/-- Whether the event is a call into a framer. -/
def Event.is_framer_call (e : Event) : Bool :=
  e.framer_result.isSome

/-- The event is not a framer call that returned a status other than
`TSI_OK`. -/
def Event.call_ok (e : Event) : Bool :=
  match e.framer_result with
  | some (tsi_result.TSI_ERROR _) => false
  | _ => true

/-- Every framer call of the log returned `TSI_OK`. -/
def calls_ok (log : List Event) : Prop :=
  ∀ e ∈ log, e.call_ok = true

instance calls_ok_decidable (log : List Event) : Decidable (calls_ok log) := by
  unfold calls_ok; infer_instance

/-- The bytes emitted by the `protect` and `protect_flush` calls, in call order. -/
def protect_emitted (log : List Event) : List Byte :=
  log.flatMap Event.protect_out

/-- The sum of the byte counts reported by the `protect` and `protect_flush`
calls. -/
def protect_emitted_count (log : List Event) : Nat :=
  (log.map (fun e => e.protect_out.length)).sum

/-- The bytes consumed by the `protect` calls, in call order. -/
def protect_consumed (log : List Event) : List Byte :=
  log.flatMap Event.protect_in

/-- The bytes emitted by the `unprotect` calls, in call order. -/
def unprotect_emitted (log : List Event) : List Byte :=
  log.flatMap Event.unprotect_out

/-- The bytes consumed by the `unprotect` calls, in call order. -/
def unprotect_consumed (log : List Event) : List Byte :=
  log.flatMap Event.unprotect_in

/-- The closure runs of the log: which closure, with which status. -/
def runs : List Event → List (Option grpc_closure × grpc_error_handle)
  | [] => []
  | Event.run cb error :: l => (cb, error) :: runs l
  | _ :: l => runs l

/-- The buffers handed to the wrapped endpoint's write, in call order. -/
def wrapped_writes : List Event → List grpc_slice_buffer
  | [] => []
  | Event.grpc_endpoint_write output _ :: l => output :: wrapped_writes l
  | _ :: l => wrapped_writes l

/-- The contract of the copying framer's interface on sizes: a call writes no
more than the capacity it was given and consumes no more than the input it was
given. -/
structure well_behaved {σ : Type} (F : tsi_frame_protector σ) : Prop where
  protect_out : ∀ s inp cap, (F.protect s inp cap).out.length ≤ cap
  protect_processed : ∀ s inp cap, (F.protect s inp cap).processed ≤ inp.length
  flush_out : ∀ s cap, (F.protect_flush s cap).out.length ≤ cap
  unprotect_out : ∀ s inp cap, (F.unprotect s inp cap).out.length ≤ cap
  unprotect_processed : ∀ s inp cap, (F.unprotect s inp cap).processed ≤ inp.length

/-- Replays the framer calls of a log from protector state `p`: `some` of the
state reached when every logged response is the one the framer gives there,
`none` otherwise. -/
def replay {σ : Type} (F : tsi_frame_protector σ) : σ → List Event → Option σ
  | p, [] => some p
  | p, Event.protect m cap r n out :: l =>
    if (F.protect p m cap).result = r ∧ (F.protect p m cap).processed = n
        ∧ (F.protect p m cap).out = out then
      replay F (F.protect p m cap).state l
    else none
  | p, Event.protect_flush cap r out pending :: l =>
    if (F.protect_flush p cap).result = r ∧ (F.protect_flush p cap).out = out
        ∧ (F.protect_flush p cap).still_pending = pending then
      replay F (F.protect_flush p cap).state l
    else none
  | p, Event.unprotect m cap r n out :: l =>
    if (F.unprotect p m cap).result = r ∧ (F.unprotect p m cap).processed = n
        ∧ (F.unprotect p m cap).out = out then
      replay F (F.unprotect p m cap).state l
    else none
  | p, _ :: l => replay F p l

/-! ## Intermediate states of the loops -/

/-- State after a framer call on the write path, before the status is looked
at. -/
def write_called {σ ζ : Type} (s : WriteLoop σ ζ) (p : σ) (out : List Byte)
    (res : tsi_result) (ev : Event) : WriteLoop σ ζ :=
  { s with
    ep := { s.ep with
      protector := p,
      write_staging_buffer := write_at s.ep.write_staging_buffer s.cur out },
    result := res,
    log := s.log ++ [ev] }

/-- State after `cur += size` and the test `cur == end` on the write path. -/
def write_advanced {σ ζ : Type} (s1 : WriteLoop σ ζ) (n : Nat) : WriteLoop σ ζ :=
  if ({ s1 with cur := s1.cur + n } : WriteLoop σ ζ).cur
      = ({ s1 with cur := s1.cur + n } : WriteLoop σ ζ).end_ then
    flush_write_staging_buffer { s1 with cur := s1.cur + n }
  else { s1 with cur := s1.cur + n }

def protect_event {σ : Type} (m : List Byte) (cap : Nat) (c : FrameCall σ) : Event :=
  Event.protect m cap c.result c.processed c.out

def protect_flush_event {σ : Type} (cap : Nat) (c : FlushCall σ) : Event :=
  Event.protect_flush cap c.result c.out c.still_pending

def unprotect_event {σ : Type} (m : List Byte) (cap : Nat) (c : FrameCall σ) : Event :=
  Event.unprotect m cap c.result c.processed c.out

/-- The fields of the endpoint that the locked part of `endpoint_write` on the
copying path never assigns. -/
def write_frame {σ ζ : Type} (ep : secure_endpoint σ ζ) :=
  (ep.wrapped_ep, ep.zero_copy_protector, ep.read_cb, ep.write_cb, ep.read_buffer,
    ep.source_buffer, ep.leftover_bytes, ep.read_staging_buffer, ep.min_progress_size,
    ep.protector_staging_buffer, ep.deleted)

/-- Invariant of the copying write between framer calls, relative to the
endpoint `ep0` at entry (after `output_buffer` was reset). -/
structure WriteInv {σ ζ : Type} (F : tsi_frame_protector σ) (ep0 : secure_endpoint σ ζ)
    (s : WriteLoop σ ζ) : Prop where
  end_eq : s.end_ = s.ep.write_staging_buffer.length
  cur_le : s.cur ≤ s.end_
  replayed : replay F ep0.protector s.log = some s.ep.protector
  bytes : s.result = tsi_result.TSI_OK →
    buffer_bytes s.ep.output_buffer ++ s.ep.write_staging_buffer.take s.cur
      = protect_emitted s.log ∧ calls_ok s.log
  failed : s.result ≠ tsi_result.TSI_OK →
    ∃ l ev, s.log = l ++ [ev] ∧ calls_ok l ∧ ev.framer_result = some s.result
  frame : write_frame s.ep = write_frame ep0
  quiet : runs s.log = [] ∧ wrapped_writes s.log = []
  reclaimer :
    (s.ep.has_posted_reclaimer = ep0.has_posted_reclaimer ∧ s.ep.ref = ep0.ref
      ∧ s.ep.reclaimers = ep0.reclaimers ∧ s.log.count Event.post_reclaimer = 0) ∨
    (ep0.has_posted_reclaimer = false ∧ s.ep.has_posted_reclaimer = true
      ∧ s.ep.ref = ep0.ref + 1 ∧ s.ep.reclaimers = ep0.reclaimers + 1
      ∧ s.log.count Event.post_reclaimer = 1)

/-- The last framer call of a log. -/
def last_call (log : List Event) : Option Event :=
  log.reverse.find? Event.is_framer_call

/-- The last framer call of the log is a `protect_flush` that reported nothing
pending. -/
def flushed (log : List Event) : Prop :=
  ∃ cap r out, last_call log = some (Event.protect_flush cap r out 0)

/-- The last framer call of the log, if it is an `unprotect`, was given room and
emitted nothing. -/
def drained (log : List Event) : Prop :=
  ∀ m cap r n out, last_call log = some (Event.unprotect m cap r n out) →
    out = [] ∧ 0 < cap

/-- What holds when the locked part of the copying `endpoint_write` is left,
relative to the endpoint `ep0` at entry and the source `slices`. -/
structure WriteEnd {σ ζ : Type} (F : tsi_frame_protector σ) (ep0 : secure_endpoint σ ζ)
    (slices : grpc_slice_buffer) (s : WriteLoop σ ζ) : Prop where
  replayed : replay F ep0.protector s.log = some s.ep.protector
  ok : s.result = tsi_result.TSI_OK →
    buffer_bytes s.ep.output_buffer = protect_emitted s.log ∧ calls_ok s.log
      ∧ protect_consumed s.log = buffer_bytes slices ∧ flushed s.log
  failed : s.result ≠ tsi_result.TSI_OK →
    ∃ l ev, s.log = l ++ [ev] ∧ calls_ok l ∧ ev.framer_result = some s.result
  frame : write_frame s.ep = write_frame ep0
  quiet : runs s.log = [] ∧ wrapped_writes s.log = []
  reclaimer :
    (s.ep.has_posted_reclaimer = ep0.has_posted_reclaimer ∧ s.ep.ref = ep0.ref
      ∧ s.ep.reclaimers = ep0.reclaimers ∧ s.log.count Event.post_reclaimer = 0) ∨
    (ep0.has_posted_reclaimer = false ∧ s.ep.has_posted_reclaimer = true
      ∧ s.ep.ref = ep0.ref + 1 ∧ s.ep.reclaimers = ep0.reclaimers + 1
      ∧ s.log.count Event.post_reclaimer = 1)

/-! ## Construction and concrete framers -/

/-- `grpc_legacy_secure_endpoint_create`: the state the constructor leaves. -/
def grpc_legacy_secure_endpoint_create {σ ζ : Type} (protector : σ)
    (zero_copy_protector : Option ζ) (to_wrap : Nat) (leftover_slices : List grpc_slice) :
    secure_endpoint σ ζ :=
  { wrapped_ep := some to_wrap,
    protector := protector,
    zero_copy_protector := zero_copy_protector,
    read_cb := none,
    write_cb := none,
    read_buffer := none,
    source_buffer := [],
    leftover_bytes := leftover_slices,
    read_staging_buffer :=
      if zero_copy_protector.isSome then grpc_empty_slice else MakeSlice STAGING_BUFFER_SIZE,
    write_staging_buffer :=
      if zero_copy_protector.isSome then grpc_empty_slice else MakeSlice STAGING_BUFFER_SIZE,
    output_buffer := [],
    has_posted_reclaimer := false,
    min_progress_size := 1,
    protector_staging_buffer := [],
    ref := 1,
    reclaimers := 0,
    deleted := false }

/-- A copying framer that hands bytes through unchanged, as many as the output
area takes; it keeps no state. -/
def identity_protector : tsi_frame_protector Unit where
  protect := fun _ inp cap =>
    { result := tsi_result.TSI_OK, processed := min inp.length cap,
      out := inp.take (min inp.length cap), state := () }
  protect_flush := fun _ _ =>
    { result := tsi_result.TSI_OK, out := [], still_pending := 0, state := () }
  unprotect := fun _ inp cap =>
    { result := tsi_result.TSI_OK, processed := min inp.length cap,
      out := inp.take (min inp.length cap), state := () }

/-- A copying framer with an internal queue.  `protect` takes all of its input,
adds one to each byte and queues the result; queued bytes leave as the output
area allows, and `protect_flush` reports how many stay queued.  `unprotect`
does the same, subtracting one. -/
def queue_protector : tsi_frame_protector (List Byte) where
  protect := fun q inp cap =>
    { result := tsi_result.TSI_OK, processed := inp.length,
      out := (q ++ inp.map (· + 1)).take cap, state := (q ++ inp.map (· + 1)).drop cap }
  protect_flush := fun q cap =>
    { result := tsi_result.TSI_OK, out := q.take cap,
      still_pending := (q.drop cap).length, state := q.drop cap }
  unprotect := fun q inp cap =>
    { result := tsi_result.TSI_OK, processed := inp.length,
      out := (q ++ inp.map (· - 1)).take cap, state := (q ++ inp.map (· - 1)).drop cap }

/-- A copying framer whose state counts the calls it still answers with
`TSI_OK`; after that every call fails with `TSI_ERROR code`.  While it answers
it behaves as `identity_protector`. -/
def limited_protector (code : Nat) : tsi_frame_protector Nat where
  protect := fun k inp cap =>
    if k = 0 then
      { result := tsi_result.TSI_ERROR code, processed := 0, out := [], state := 0 }
    else
      { result := tsi_result.TSI_OK, processed := min inp.length cap,
        out := inp.take (min inp.length cap), state := k - 1 }
  protect_flush := fun k _ =>
    if k = 0 then
      { result := tsi_result.TSI_ERROR code, out := [], still_pending := 0, state := 0 }
    else { result := tsi_result.TSI_OK, out := [], still_pending := 0, state := k - 1 }
  unprotect := fun k inp cap =>
    if k = 0 then
      { result := tsi_result.TSI_ERROR code, processed := 0, out := [], state := 0 }
    else
      { result := tsi_result.TSI_OK, processed := min inp.length cap,
        out := inp.take (min inp.length cap), state := k - 1 }

/-- A zero-copy framer that moves its whole input to the end of the output
buffer; on unprotect it leaves the hint it was given. -/
def passthrough_zero_copy : tsi_zero_copy_grpc_protector Unit where
  protect := fun _ input output =>
    { result := tsi_result.TSI_OK, unprotected_slices := [],
      protected_slices := output ++ input, state := () }
  unprotect := fun _ input output hint =>
    { result := tsi_result.TSI_OK, protected_slices := [],
      unprotected_slices := output ++ input, min_progress_size := hint, state := () }

/-- A zero-copy framer whose state counts the calls it still answers with
`TSI_OK`, behaving as `passthrough_zero_copy`; after that every call fails
with `TSI_ERROR code` and moves nothing. -/
def limited_zero_copy (code : Nat) : tsi_zero_copy_grpc_protector Nat where
  protect := fun k input output =>
    if k = 0 then
      { result := tsi_result.TSI_ERROR code, unprotected_slices := input,
        protected_slices := output, state := 0 }
    else
      { result := tsi_result.TSI_OK, unprotected_slices := [],
        protected_slices := output ++ input, state := k - 1 }
  unprotect := fun k input output hint =>
    if k = 0 then
      { result := tsi_result.TSI_ERROR code, protected_slices := input,
        unprotected_slices := output, min_progress_size := hint, state := 0 }
    else
      { result := tsi_result.TSI_OK, protected_slices := [],
        unprotected_slices := output ++ input, min_progress_size := hint, state := k - 1 }

/-- A rendering of `tsi_result` for the examples; the endpoint takes
`tsi_result_to_string` as given. -/
def example_result_to_string : tsi_result → String
  | tsi_result.TSI_OK => "TSI_OK"
  | tsi_result.TSI_ERROR code => "TSI_ERROR_" ++ toString code

/-- A copying endpoint whose staging slices were emptied by a reclaimer sweep
and which has no reclaimer posted. -/
def swept_endpoint {σ : Type} (protector : σ) : secure_endpoint σ Unit :=
  { (grpc_legacy_secure_endpoint_create protector none 1 [] : secure_endpoint σ Unit) with
    read_staging_buffer := grpc_empty_slice, write_staging_buffer := grpc_empty_slice }

/-- A copying endpoint whose staging slices have `k` bytes left, as after
earlier operations split the rest off their heads. -/
def remnant_endpoint {σ : Type} (protector : σ) (k : Nat) : secure_endpoint σ Unit :=
  { (grpc_legacy_secure_endpoint_create protector none 1 [] : secure_endpoint σ Unit) with
    read_staging_buffer := List.replicate k 0, write_staging_buffer := List.replicate k 0 }

/-- State after a framer call on the read path, before the status is looked
at. -/
def read_called {σ ζ : Type} (s : ReadLoop σ ζ) (p : σ) (out : List Byte)
    (res : tsi_result) (ev : Event) : ReadLoop σ ζ :=
  { s with
    ep := { s.ep with
      protector := p,
      read_staging_buffer := write_at s.ep.read_staging_buffer s.cur out },
    result := res,
    log := s.log ++ [ev] }

/-- State after `cur += size` and the tests that set `keep_looping` on the read
path. -/
def read_advanced {σ ζ : Type} (s1 : ReadLoop σ ζ) (n : Nat) : ReadLoop σ ζ :=
  if ({ s1 with cur := s1.cur + n } : ReadLoop σ ζ).cur
      = ({ s1 with cur := s1.cur + n } : ReadLoop σ ζ).end_ then
    { flush_read_staging_buffer { s1 with cur := s1.cur + n } with keep_looping := true }
  else if n > 0 then { s1 with cur := s1.cur + n, keep_looping := true }
  else { s1 with cur := s1.cur + n, keep_looping := false }

/-- The fields of the endpoint that the locked part of `on_read` on the copying
path never assigns. -/
def read_frame {σ ζ : Type} (ep : secure_endpoint σ ζ) :=
  (ep.wrapped_ep, ep.zero_copy_protector, ep.read_cb, ep.write_cb, ep.source_buffer,
    ep.leftover_bytes, ep.write_staging_buffer, ep.output_buffer, ep.has_posted_reclaimer,
    ep.min_progress_size, ep.protector_staging_buffer, ep.ref, ep.reclaimers, ep.deleted)

/-- Invariant of the copying read between framer calls, relative to the endpoint
`ep0` at entry and the contents `d0` of the destination at entry. -/
structure ReadInv {σ ζ : Type} (F : tsi_frame_protector σ) (ep0 : secure_endpoint σ ζ)
    (d0 : grpc_slice_buffer) (s : ReadLoop σ ζ) : Prop where
  end_eq : s.end_ = s.ep.read_staging_buffer.length
  cur_le : s.cur ≤ s.end_
  replayed : replay F ep0.protector s.log = some s.ep.protector
  dst : ∃ d, s.ep.read_buffer = some d ∧ (s.result = tsi_result.TSI_OK →
    buffer_bytes d ++ s.ep.read_staging_buffer.take s.cur
      = buffer_bytes d0 ++ unprotect_emitted s.log ∧ calls_ok s.log)
  failed : s.result ≠ tsi_result.TSI_OK →
    ∃ l ev, s.log = l ++ [ev] ∧ calls_ok l ∧ ev.framer_result = some s.result
  is_drained : s.result = tsi_result.TSI_OK → s.keep_looping = false → drained s.log
  frame : read_frame s.ep = read_frame ep0
  quiet : runs s.log = [] ∧ wrapped_writes s.log = []

/-- What holds when the locked part of the copying `on_read` is left, relative
to the endpoint `ep0` at entry and the contents `d0` of the destination at
entry. -/
structure ReadEnd {σ ζ : Type} (F : tsi_frame_protector σ) (ep0 : secure_endpoint σ ζ)
    (d0 : grpc_slice_buffer) (s : ReadLoop σ ζ) : Prop where
  replayed : replay F ep0.protector s.log = some s.ep.protector
  dst : ∃ d, s.ep.read_buffer = some d ∧ (s.result = tsi_result.TSI_OK →
    buffer_bytes d = buffer_bytes d0 ++ unprotect_emitted s.log ∧ calls_ok s.log
      ∧ unprotect_consumed s.log = buffer_bytes ep0.source_buffer ∧ drained s.log)
  failed : s.result ≠ tsi_result.TSI_OK →
    ∃ l m cap n out, s.log = l ++ [Event.unprotect m cap s.result n out] ∧ calls_ok l
      ∧ ∃ rest, unprotect_consumed l ++ m ++ rest = buffer_bytes ep0.source_buffer
  frame : read_frame s.ep = read_frame ep0
  quiet : runs s.log = [] ∧ wrapped_writes s.log = []

/-- The input buffers of the zero-copy `protect` calls, in call order. -/
def zero_copy_inputs : List Event → List grpc_slice_buffer
  | [] => []
  | Event.zero_copy_protect input _ _ :: l => input :: zero_copy_inputs l
  | _ :: l => zero_copy_inputs l

/-- The sizes of the pieces into which a source of `L` bytes is cut for a
maximum frame size `M`: pieces of `M` bytes while more than `M` bytes are left,
then what is left if it is not empty.  The first argument bounds the number of
pieces. -/
def chunk_sizes (M : Nat) : Nat → Nat → List Nat
  | 0, _ => []
  | k + 1, L =>
    if L > M then M :: chunk_sizes M k (L - M)
    else if L > 0 then [L]
    else []

/-- The fields of the endpoint that the locked part of `endpoint_write` on the
zero-copy path never assigns. -/
def zero_copy_frame {σ ζ : Type} (ep : secure_endpoint σ ζ) :=
  (ep.wrapped_ep, ep.protector, ep.read_cb, ep.write_cb, ep.read_buffer, ep.source_buffer,
    ep.leftover_bytes, ep.read_staging_buffer, ep.write_staging_buffer,
    ep.has_posted_reclaimer, ep.min_progress_size, ep.ref, ep.reclaimers, ep.deleted)

/-- Invariant of the zero-copy write between framer calls, relative to the
endpoint `ep0` at entry. -/
structure ZeroCopyInv {σ ζ : Type} (ep0 : secure_endpoint σ ζ) (s : ZeroCopyLoop σ ζ) :
    Prop where
  ok : s.result = tsi_result.TSI_OK → calls_ok s.log
  failed : s.result ≠ tsi_result.TSI_OK →
    ∃ l ev, s.log = l ++ [ev] ∧ calls_ok l ∧ ev.framer_result = some s.result
  frame : zero_copy_frame s.ep = zero_copy_frame ep0
  quiet : runs s.log = [] ∧ wrapped_writes s.log = []
      ∧ s.log.count Event.post_reclaimer = 0

/-- The error `on_read` works with: a cancellation when the wrapped endpoint has
been released and the wrapped read reported success, the reported status
otherwise. -/
def read_error {σ ζ : Type} (ep : secure_endpoint σ ζ) (error : grpc_error_handle) :
    grpc_error_handle :=
  if ep.wrapped_ep.isNone ∧ error.ok = true then
    grpc_error_handle.CancelledError "secure endpoint shutdown"
  else error

/-- Whether a status is a cancellation or references one, however deep. -/
def reports_cancellation : grpc_error_handle → Bool
  | grpc_error_handle.CancelledError _ => true
  | grpc_error_handle.GRPC_ERROR_CREATE_REFERENCING _ child => reports_cancellation child
  | _ => false

/-- The framer calls of a log. -/
def framer_calls (log : List Event) : List Event :=
  log.filter Event.is_framer_call

/-! ## Progress of a copying framer -/

/-- A copying framer makes progress, measured by a rank of its state: given
room in the output area, a successful `protect` on a non-empty input consumes a
byte or lowers the rank; a successful `protect_flush` reports nothing pending or
lowers the rank; a successful `unprotect` consumes a byte, or lowers the rank,
or has no input and emits nothing. -/
structure productive {σ : Type} (F : tsi_frame_protector σ) (rank : σ → Nat) : Prop where
  protect : ∀ s inp cap, inp ≠ [] → 0 < cap →
    (F.protect s inp cap).result = tsi_result.TSI_OK →
    0 < (F.protect s inp cap).processed ∨ rank (F.protect s inp cap).state < rank s
  flush : ∀ s cap, 0 < cap → (F.protect_flush s cap).result = tsi_result.TSI_OK →
    (F.protect_flush s cap).still_pending = 0
      ∨ rank (F.protect_flush s cap).state < rank s
  unprotect : ∀ s inp cap, 0 < cap → (F.unprotect s inp cap).result = tsi_result.TSI_OK →
    0 < (F.unprotect s inp cap).processed ∨ rank (F.unprotect s inp cap).state < rank s
      ∨ (inp = [] ∧ (F.unprotect s inp cap).out = [])

/-- The cursor of the write loops lies in the staging slice. -/
def write_entry {σ ζ : Type} (s : WriteLoop σ ζ) : Prop :=
  s.end_ = s.ep.write_staging_buffer.length ∧ s.cur ≤ s.end_

/-- The cursor of the write loops lies in the staging slice, with room left. -/
def write_ready {σ ζ : Type} (s : WriteLoop σ ζ) : Prop :=
  s.end_ = s.ep.write_staging_buffer.length ∧ s.cur < s.end_

/-- The cursor of the read loops lies in the staging slice. -/
def read_entry {σ ζ : Type} (s : ReadLoop σ ζ) : Prop :=
  s.end_ = s.ep.read_staging_buffer.length ∧ s.cur ≤ s.end_

/-- The cursor of the read loops lies in the staging slice, with room left. -/
def read_ready {σ ζ : Type} (s : ReadLoop σ ζ) : Prop :=
  s.end_ = s.ep.read_staging_buffer.length ∧ s.cur < s.end_

/-! ## Framer pairs and successive reads -/

/-- The event is a call of the copying framer's `protect` or `protect_flush`. -/
def Event.is_protect_call : Event → Bool
  | .protect _ _ _ _ _ => true
  | .protect_flush _ _ _ _ => true
  | _ => false

/-- The event is a call of the copying framer's `unprotect`. -/
def Event.is_unprotect_call : Event → Bool
  | .unprotect _ _ _ _ _ => true
  | _ => false

/-- A log whose framer calls are all `protect` or `protect_flush` calls. -/
def writer_log (log : List Event) : Prop :=
  ∀ e ∈ log, e.is_framer_call = true → e.is_protect_call = true

/-- A log whose framer calls are all `unprotect` calls. -/
def reader_log (log : List Event) : Prop :=
  ∀ e ∈ log, e.is_framer_call = true → e.is_unprotect_call = true

/-- The matching loopback framer of the round trip, in the spec's words "one
whose unprotect inverts the byte stream produced by protect plus flush": with
the writer's framer started in state `p0` and the reader's in state `u0`,
`protect` and `protect_flush` do not fail; `unprotect` does not fail while it
is fed a stream that protect plus flush produced; and once the reader has
consumed all of such a stream and its last call had room and emitted nothing,
what it emitted is what the writer consumed. -/
structure loopback {σ : Type} (F : tsi_frame_protector σ) (p0 u0 : σ) : Prop where
  protect_ok : ∀ wlog p, writer_log wlog → replay F p0 wlog = some p → calls_ok wlog →
    ∀ m cap, (F.protect p m cap).result = tsi_result.TSI_OK
  flush_ok : ∀ wlog p, writer_log wlog → replay F p0 wlog = some p → calls_ok wlog →
    ∀ cap, (F.protect_flush p cap).result = tsi_result.TSI_OK
  unprotect_ok : ∀ wlog p rlog u, writer_log wlog → replay F p0 wlog = some p →
    calls_ok wlog → flushed wlog → reader_log rlog → replay F u0 rlog = some u →
    calls_ok rlog →
    ∀ m rest cap, unprotect_consumed rlog ++ m ++ rest = protect_emitted wlog →
      (F.unprotect u m cap).result = tsi_result.TSI_OK
  inverts : ∀ wlog p rlog u, writer_log wlog → replay F p0 wlog = some p →
    calls_ok wlog → flushed wlog → reader_log rlog → replay F u0 rlog = some u →
    calls_ok rlog → drained rlog →
    unprotect_consumed rlog = protect_emitted wlog →
    unprotect_emitted rlog = protect_consumed wlog

/-- The count `processed_message_size` that an `unprotect` call reported. -/
def Event.unprotect_processed : Event → Nat
  | .unprotect _ _ _ processed _ => processed
  | _ => 0

/-- The entry `read` of `vtable`: the caller's `min_progress_size` is the
parameter that `endpoint_read` leaves unnamed and does not use. -/
def vtable_read {σ ζ : Type} (F : tsi_frame_protector σ)
    (Z : tsi_zero_copy_grpc_protector ζ) (tsi_result_to_string : tsi_result → String)
    (fuel : Nat) (ep : secure_endpoint σ ζ) (slices : grpc_slice_buffer)
    (cb : Option grpc_closure) (urgent : Bool) (_min_progress_size : Int) : ReadCall σ ζ :=
  endpoint_read F Z tsi_result_to_string fuel ep slices cb urgent

/-- The hints handed to the wrapped endpoint's read, in call order. -/
def wrapped_read_hints : List Event → List Int
  | [] => []
  | Event.grpc_endpoint_read _ min_progress_size :: l => min_progress_size :: wrapped_read_hints l
  | _ :: l => wrapped_read_hints l

/-- An endpoint between public operations, together with what its environment
owes it: whether a read was submitted whose completion has not been delivered,
whether a write was handed to the wrapped endpoint whose completion has not been
delivered, and whether `destroy` was called. -/
structure endpoint_state (σ ζ : Type) where
  ep : secure_endpoint σ ζ
  read_in_flight : Bool
  write_in_flight : Bool
  destroyed : Bool

/-- What can happen to an endpoint: the caller reads, writes or destroys; the
wrapped endpoint completes the read or the write it was given; the memory quota
runs the registered reclaimer with a sweep, or without one (cancellation). -/
inductive Operation where
  | read (slices : grpc_slice_buffer) (cb : grpc_closure) (urgent : Bool)
      (min_progress_size : Int)
  | wrapped_read_completes (data : grpc_slice_buffer) (error : grpc_error_handle)
  | write (slices : grpc_slice_buffer) (cb : grpc_closure) (args : WriteArgs)
  | wrapped_write_completes (error : grpc_error_handle)
  | reclaimer_sweep
  | reclaimer_cancel
  | destroy
  deriving Repr

/-- One operation.  The caller keeps the endpoint's contract: no read or write
after `destroy`, one read and one write at a time, closures that are not null,
`destroy` once.  A completion comes only for an operation in flight, and the
reclaimer runs only while it is registered.  `none` when the operation is not
allowed in the state, when `CHECK_EQ` fails, or when the fuel runs out. -/
def perform {σ ζ : Type} (F : tsi_frame_protector σ) (Z : tsi_zero_copy_grpc_protector ζ)
    (tsi_result_to_string : tsi_result → String) (fuel : Nat) :
    Operation → endpoint_state σ ζ → Option (endpoint_state σ ζ)
  | Operation.read slices cb urgent min_progress_size, s =>
    if s.destroyed = false ∧ s.read_in_flight = false then
      match vtable_read F Z tsi_result_to_string fuel s.ep slices (some cb) urgent
          min_progress_size with
      | ReadCall.issued ep1 _ => some { s with ep := ep1, read_in_flight := true }
      | ReadCall.completed d => some { s with ep := d.ep }
      | ReadCall.check_failed => none
      | ReadCall.out_of_fuel => none
    else none
  | Operation.wrapped_read_completes data error, s =>
    if s.read_in_flight = true then
      match wrapped_read_done F Z tsi_result_to_string fuel s.ep data error with
      | none => none
      | some r => some { s with ep := r.ep, read_in_flight := false }
    else none
  | Operation.write slices cb args, s =>
    if s.destroyed = false ∧ s.write_in_flight = false then
      match endpoint_write F Z tsi_result_to_string fuel s.ep slices (some cb) args with
      | none => none
      | some r =>
        some { s with ep := r.ep, write_in_flight := decide (r.result = tsi_result.TSI_OK) }
    else none
  | Operation.wrapped_write_completes error, s =>
    if s.write_in_flight = true then
      some { s with ep := (on_write s.ep error).1, write_in_flight := false }
    else none
  | Operation.reclaimer_sweep, s =>
    if s.ep.reclaimers > 0 then some { s with ep := reclaimer_callback s.ep true } else none
  | Operation.reclaimer_cancel, s =>
    if s.ep.reclaimers > 0 then some { s with ep := reclaimer_callback s.ep false } else none
  | Operation.destroy, s =>
    if s.destroyed = false then
      some { s with ep := endpoint_destroy s.ep, destroyed := true }
    else none

/-- The state in which `grpc_legacy_secure_endpoint_create` hands the endpoint
to its caller. -/
def created {σ ζ : Type} (protector : σ) (zero_copy_protector : Option ζ) (to_wrap : Nat)
    (leftover_slices : List grpc_slice) : endpoint_state σ ζ :=
  { ep := grpc_legacy_secure_endpoint_create protector zero_copy_protector to_wrap
      leftover_slices,
    read_in_flight := false, write_in_flight := false, destroyed := false }

/-- The states an endpoint reaches from its construction by operations. -/
inductive reachable {σ ζ : Type} (F : tsi_frame_protector σ)
    (Z : tsi_zero_copy_grpc_protector ζ) (tsi_result_to_string : tsi_result → String) :
    endpoint_state σ ζ → Prop where
  | construction (protector : σ) (zero_copy_protector : Option ζ) (to_wrap : Nat)
      (leftover_slices : List grpc_slice) :
      reachable F Z tsi_result_to_string
        (created protector zero_copy_protector to_wrap leftover_slices)
  | operation (s s' : endpoint_state σ ζ) (fuel : Nat) (op : Operation) :
      reachable F Z tsi_result_to_string s →
      perform F Z tsi_result_to_string fuel op s = some s' →
      reachable F Z tsi_result_to_string s'

/-- The number of operations of a kind that are in flight: one or none. -/
def in_flight (b : Bool) : Int :=
  if b then 1 else 0

/-- What ties the fields of the endpoint to the operations in flight. -/
structure consistent {σ ζ : Type} (s : endpoint_state σ ζ) : Prop where
  refs : s.ep.ref = (if s.destroyed then 0 else 1) + in_flight s.read_in_flight
    + in_flight s.write_in_flight + (s.ep.reclaimers : Int)
  freed : s.ep.deleted = true ↔ s.ep.ref = 0
  one_reclaimer : s.ep.reclaimers ≤ 1
  posted : 0 < s.ep.reclaimers → s.ep.has_posted_reclaimer = true
  read_dst : s.ep.read_buffer.isSome = s.read_in_flight
  write_closure : s.ep.write_cb.isSome = s.write_in_flight
  min_progress : 1 ≤ s.ep.min_progress_size
  released : s.ep.wrapped_ep.isNone = s.destroyed
  unregistered : s.destroyed = true → s.ep.reclaimers = 0

/-! ## Execution context (`exec_ctx.h`) -/

def GRPC_EXEC_CTX_FLAG_IS_FINISHED : Nat := 1

def GRPC_EXEC_CTX_FLAG_IS_INTERNAL_THREAD : Nat := 4

/-- The state of one thread: `exec_ctx_`, the thread-local pointer to the
current `ExecCtx` (`none` for `nullptr`, otherwise the object's address);
everything else the thread can change; and, for each run of a callable handed
to `EnsureRunInExecCtx`, the context that was current when it started. -/
structure Thread (ω : Type) where
  exec_ctx_ : Option Nat
  rest : ω
  calls : List (Option Nat)

/-- The members of an `ExecCtx` object that its constructor and destructor
use. -/
structure ExecCtx where
  flags_ : Nat
  last_exec_ctx_ : Option Nat

/-- What `ExecCtx`'s constructor and destructor call that is declared outside
`exec_ctx.h`: `Fork::IncExecCtxCount`, `Fork::DecExecCtxCount` and
`ExecCtx::Flush`, each by its effect on the rest of the thread's state. -/
structure ExecCtxCalls (ω : Type) where
  IncExecCtxCount : ω → ω
  DecExecCtxCount : ω → ω
  Flush : ω → ω

/-- A callable `f`, by its effect on the rest of the thread's state, given the
context that is current when it runs.  Contexts that `f` creates live on its
own stack and are gone when it returns, so `exec_ctx_` is as `f` found it. -/
abbrev Callable (ω : Type) := Option Nat → ω → ω

/-- `ExecCtx::Get`. -/
def ExecCtx.Get {ω : Type} (t : Thread ω) : Option Nat :=
  t.exec_ctx_

/-- `ExecCtx::Set`. -/
def ExecCtx.Set {ω : Type} (ctx : Option Nat) (t : Thread ω) : Thread ω :=
  { t with exec_ctx_ := ctx }

/-- `ExecCtx::ExecCtx()` for an object at address `this`: the member initializer
`last_exec_ctx_ = Get()` runs before the body. -/
def ExecCtx.construct {ω : Type} (env : ExecCtxCalls ω) (this : Nat) (t : Thread ω) :
    ExecCtx × Thread ω :=
  let last := ExecCtx.Get t
  let t1 := { t with rest := env.IncExecCtxCount t.rest }
  ({ flags_ := GRPC_EXEC_CTX_FLAG_IS_FINISHED, last_exec_ctx_ := last },
    ExecCtx.Set (some this) t1)

/-- `ExecCtx::~ExecCtx()`. -/
def ExecCtx.destruct {ω : Type} (env : ExecCtxCalls ω) (self : ExecCtx) (t : Thread ω) :
    Thread ω :=
  let self1 := { self with flags_ := self.flags_ ||| GRPC_EXEC_CTX_FLAG_IS_FINISHED }
  let t1 := { t with rest := env.Flush t.rest }
  let t2 := ExecCtx.Set self1.last_exec_ctx_ t1
  if GRPC_EXEC_CTX_FLAG_IS_INTERNAL_THREAD &&& self1.flags_ = 0 then
    { t2 with rest := env.DecExecCtxCount t2.rest }
  else t2

/-- The call `f()`. -/
def invoke {ω : Type} (f : Callable ω) (t : Thread ω) : Thread ω :=
  { t with rest := f t.exec_ctx_ t.rest, calls := t.calls ++ [t.exec_ctx_] }

/-- `EnsureRunInExecCtx(f)`, where `this` is the address of the local
`exec_ctx` of the first branch. -/
def EnsureRunInExecCtx {ω : Type} (env : ExecCtxCalls ω) (this : Nat) (f : Callable ω)
    (t : Thread ω) : Thread ω :=
  if ExecCtx.Get t = none then
    let c := ExecCtx.construct env this t
    ExecCtx.destruct env c.1 (invoke f c.2)
  else invoke f t

/-- A sequence of operations, each with the same fuel. -/
def perform_all {σ ζ : Type} (F : tsi_frame_protector σ) (Z : tsi_zero_copy_grpc_protector ζ)
    (tsi_result_to_string : tsi_result → String) (fuel : Nat) :
    List Operation → endpoint_state σ ζ → Option (endpoint_state σ ζ)
  | [], s => some s
  | op :: ops, s =>
    match perform F Z tsi_result_to_string fuel op s with
    | none => none
    | some s1 => perform_all F Z tsi_result_to_string fuel ops s1

/-- A zero-copy framer that behaves as `passthrough_zero_copy` and reports the
hint `hint` on unprotect. -/
def hinting_zero_copy (hint : Int) : tsi_zero_copy_grpc_protector Unit where
  protect := fun _ input output =>
    { result := tsi_result.TSI_OK, unprotected_slices := [],
      protected_slices := output ++ input, state := () }
  unprotect := fun _ input output _ =>
    { result := tsi_result.TSI_OK, protected_slices := [],
      unprotected_slices := output ++ input, min_progress_size := hint, state := () }

/-- Some framer call of the log returned `TSI_OK`. -/
def some_call_ok (log : List Event) : Prop :=
  ∃ e ∈ log, e.framer_result = some tsi_result.TSI_OK

/-- The codes of `absl::Status` that the filter produces itself; the others are
told apart by their number. -/
inductive absl_StatusCode where
  | kOk
  | kUnavailable
  | other (code : Nat)
  deriving DecidableEq, Repr

/-- An `absl::Status`: a code and a message. -/
structure absl_Status where
  code : absl_StatusCode
  message : String
  deriving DecidableEq, Repr

def absl_Status.ok (s : absl_Status) : Bool :=
  decide (s.code = absl_StatusCode.kOk)

def absl_OkStatus : absl_Status :=
  { code := absl_StatusCode.kOk, message := "" }

def absl_UnavailableError (message : String) : absl_Status :=
  { code := absl_StatusCode.kUnavailable, message := message }

/-- An `absl::StatusOr<T>`: a value, or a status that is not OK. -/
inductive absl_StatusOr (τ : Type) where
  | value (v : τ)
  | error (s : absl_Status)

def absl_StatusOr.ok {τ : Type} : absl_StatusOr τ → Bool
  | .value _ => true
  | .error _ => false

/-- Method `status()`: the stored status, `OkStatus` when a value is held. -/
def absl_StatusOr.status {τ : Type} : absl_StatusOr τ → absl_Status
  | .value _ => absl_OkStatus
  | .error s => s

/-- `ServerConfigSelector::CallConfig`, of which the filter reads the two
members `service_config` and `method_configs`. -/
structure CallConfig (κ μ : Type) where
  method_configs : μ
  service_config : κ

/-- A `ServerConfigSelector`: its virtual method `GetCallConfig`, over the
client metadata `δ`. -/
structure ServerConfigSelector (δ κ μ : Type) where
  GetCallConfig : δ → absl_StatusOr (CallConfig κ μ)

/-- What the filter does with the call's arena: the calls
`GetContext<Arena>()->New<ServiceConfigCallData>(GetContext<Arena>())` and
`SetServiceConfig(service_config, method_configs)` on the object created. -/
inductive ArenaCall (κ μ : Type) where
  | New_ServiceConfigCallData
  | SetServiceConfig (service_config : κ) (method_configs : μ)

/-- The member `config_selector_` of `ServerConfigSelectorFilter`: an optional
that the constructor fills and the watcher overwrites. -/
structure ServerConfigSelectorFilter (δ κ μ : Type) where
  config_selector_ : Option (absl_StatusOr (ServerConfigSelector δ κ μ))

/-- `ServerConfigSelectorFilter::config_selector()`: `config_selector_.value()`,
which throws when the optional is empty (`none`). -/
def ServerConfigSelectorFilter.config_selector {δ κ μ : Type}
    (filter : ServerConfigSelectorFilter δ κ μ) :
    Option (absl_StatusOr (ServerConfigSelector δ κ μ)) :=
  filter.config_selector_

/-- `ServerConfigSelectorFilter::Call::OnClientInitialMetadata`: the returned
status and the calls made on the arena, in order; `none` when
`config_selector()` throws.  `StatusToString` is taken as given. -/
def OnClientInitialMetadata {δ κ μ : Type} (StatusToString : absl_Status → String)
    (md : δ) (filter : ServerConfigSelectorFilter δ κ μ) :
    Option (absl_Status × List (ArenaCall κ μ)) :=
  match filter.config_selector with
  | none => none
  | some sel =>
    match sel with
    | .error s => some (s, [])
    | .value selector =>
      match selector.GetCallConfig md with
      | .error s => some (absl_UnavailableError (StatusToString s), [])
      | .value call_config =>
        some (absl_OkStatus,
          [ArenaCall.New_ServiceConfigCallData,
            ArenaCall.SetServiceConfig call_config.service_config
              call_config.method_configs])

/-! ## Context list entries (`context_list_entry.h`) -/

/-- A `ContextListEntry`; a null `trace_context_` is `none`. -/
structure ContextListEntry where
  trace_context_ : Option Nat
  outbuf_offset_ : Int
  num_traced_bytes_in_chunk_ : Int
  byte_offset_in_stream_ : Nat
  stream_index_ : Nat
  deriving DecidableEq, Repr

/-- The objects in memory, by address. -/
abbrev ContextListMemory := Nat → ContextListEntry

/-- The assignment of one object in memory. -/
def ContextListMemory.set (mem : ContextListMemory) (address : Nat) (e : ContextListEntry) :
    ContextListMemory :=
  fun a => if a = address then e else mem a

/-- The move constructor `ContextListEntry(ContextListEntry&& other)`: the new
object is built at address `this`, which holds no object before, from the one
at address `other`. -/
def ContextListEntry.move_construct (mem : ContextListMemory) (this other : Nat) :
    ContextListMemory :=
  let mem1 := mem.set this
    { trace_context_ := (mem other).trace_context_,
      outbuf_offset_ := (mem other).outbuf_offset_,
      num_traced_bytes_in_chunk_ := (mem other).num_traced_bytes_in_chunk_,
      byte_offset_in_stream_ := (mem other).byte_offset_in_stream_,
      stream_index_ := (mem other).stream_index_ }
  mem1.set other { mem1 other with trace_context_ := none }

/-- The move assignment `operator=(ContextListEntry&& other)`, statement by
statement. -/
def ContextListEntry.move_assign (mem : ContextListMemory) (this other : Nat) :
    ContextListMemory :=
  if this ≠ other then
    let mem1 := mem.set this { mem this with trace_context_ := (mem other).trace_context_ }
    let mem2 := mem1.set other { mem1 other with trace_context_ := none }
    let mem3 := mem2.set this { mem2 this with outbuf_offset_ := (mem2 other).outbuf_offset_ }
    let mem4 := mem3.set this
      { mem3 this with
        num_traced_bytes_in_chunk_ := (mem3 other).num_traced_bytes_in_chunk_ }
    let mem5 := mem4.set this
      { mem4 this with byte_offset_in_stream_ := (mem4 other).byte_offset_in_stream_ }
    mem5.set this { mem5 this with stream_index_ := (mem5 other).stream_index_ }
  else mem

/-- The destructor `~ContextListEntry()`: the arguments with which the delete
function is invoked. -/
def ContextListEntry.destruct (e : ContextListEntry) : List Nat :=
  match e.trace_context_ with
  | some context => [context]
  | none => []

/-! ## The loops, call by call -/

/-- The condition of the loop
`while (slices->length > max_frame_size && result == TSI_OK)` of the zero-copy
write. -/
def zero_copy_chunk_condition {σ ζ : Type} (max_frame_size : Nat) (s : ZeroCopyLoop σ ζ) :
    Prop :=
  buffer_length s.slices > max_frame_size ∧ s.result = tsi_result.TSI_OK

/-- The body of that loop: `grpc_slice_buffer_move_first` into
`protector_staging_buffer`, then the framer call on it. -/
def zero_copy_chunk_iteration {σ ζ : Type} (Z : tsi_zero_copy_grpc_protector ζ)
    (max_frame_size : Nat) (s : ZeroCopyLoop σ ζ) : ZeroCopyLoop σ ζ :=
  let m := grpc_slice_buffer_move_first s.slices max_frame_size
    s.ep.protector_staging_buffer
  zero_copy_protect_call Z true
    { s with ep := { s.ep with protector_staging_buffer := m.2 }, slices := m.1 }

/-- The `protect_flush` calls of a log, in call order. -/
def flush_calls (log : List Event) : List Event :=
  log.filter (fun e => match e with
    | Event.protect_flush _ _ _ _ => true
    | _ => false)

/-- The `protect` calls of a log, in call order. -/
def protect_calls (log : List Event) : List Event :=
  log.filter (fun e => match e with
    | Event.protect _ _ _ _ _ => true
    | _ => false)

/-- A run of the loop `do ... while (still_pending_size > 0)` seen as the list
of its `protect_flush` calls: there is a first call; a call is followed by
another exactly when it returned `TSI_OK` and reported bytes pending. -/
def flush_chain : List Event → Prop
  | [] => False
  | [Event.protect_flush _ r _ pending] => ¬ (r = tsi_result.TSI_OK ∧ 0 < pending)
  | Event.protect_flush _ r _ pending :: e :: l =>
    (r = tsi_result.TSI_OK ∧ 0 < pending) ∧ flush_chain (e :: l)
  | _ :: _ => False

/-- A run without framer error of the loop
`while (message_size > 0 || keep_looping)` of `on_read` over one source slice,
seen as the list of its `unprotect` calls.  `m` is what is left of the slice
and `keep_looping` the flag, which a call sets when it filled the staging slice
(it emitted as many bytes as the capacity it was given) or emitted at least one
byte.  The loop runs again exactly when bytes are left or the flag is set. -/
def unprotect_chain : List Byte → Bool → List Event → Prop
  | m, keep_looping, [] => m = [] ∧ keep_looping = false
  | m, keep_looping, Event.unprotect input cap r processed out :: l =>
    (m ≠ [] ∨ keep_looping = true) ∧ input = m ∧ r = tsi_result.TSI_OK
      ∧ unprotect_chain (m.drop processed) (decide (out.length = cap ∨ 0 < out.length)) l
  | _, _, _ :: _ => False

/-- The `unprotect` calls of a copying read without framer error, slice by
slice: one run of the loop per source slice, each entered with the flag
`keep_looping` clear. -/
def unprotect_chains : List grpc_slice → List Event → Prop
  | [], l => l = []
  | m :: rest, l =>
    ∃ l₁ l₂, l = l₁ ++ l₂ ∧ unprotect_chain m false l₁ ∧ unprotect_chains rest l₂

/-- What the loops over the source slices of a copying write leave for the flush
loop: no `protect_flush` call was made, and a status other than `TSI_OK` is
the status of a `protect` call. -/
def protect_phase {σ ζ : Type} (s : WriteLoop σ ζ) : Prop :=
  flush_calls s.log = []
    ∧ (s.result ≠ tsi_result.TSI_OK →
        ∃ e ∈ protect_calls s.log, e.framer_result ≠ some tsi_result.TSI_OK)

/-- Calls of `protect_flush` that each returned `TSI_OK` and reported bytes
pending. -/
def flush_open : List Event → Prop
  | [] => True
  | Event.protect_flush _ r _ pending :: l =>
    (r = tsi_result.TSI_OK ∧ 0 < pending) ∧ flush_open l
  | _ :: _ => False

/-- The last `protect_flush` call of a list returned `TSI_OK` and reported
nothing pending. -/
def flush_done (calls : List Event) : Prop :=
  ∃ cap out, calls.getLast? = some (Event.protect_flush cap tsi_result.TSI_OK out 0)

/-! ## Lengths of the staging slices -/

/-- Where the cursor of a copying write stands and which slices it has appended
to `output_buffer`, in terms of the number of bytes emitted so far, for a write
that found a staging slice of `L0` bytes.  While fewer than `L0` bytes were
emitted the slice in use is the one found, nothing was appended and the cursor
is that many bytes in.  From `L0` bytes on the slice found was appended whole,
then a fresh slice of `STAGING_BUFFER_SIZE` bytes for every further
`STAGING_BUFFER_SIZE` bytes, and the cursor is the remainder into a fresh
slice. -/
def write_shape {σ ζ : Type} (L0 : Nat) (s : WriteLoop σ ζ) : Prop :=
  s.end_ = s.ep.write_staging_buffer.length ∧ s.cur < s.end_
    ∧ ((protect_emitted s.log).length < L0 →
        s.end_ = L0 ∧ s.cur = (protect_emitted s.log).length ∧ s.ep.output_buffer = [])
    ∧ (L0 ≤ (protect_emitted s.log).length →
        s.end_ = STAGING_BUFFER_SIZE
          ∧ s.cur = ((protect_emitted s.log).length - L0) % STAGING_BUFFER_SIZE
          ∧ s.ep.output_buffer.map List.length
              = L0 :: List.replicate
                  (((protect_emitted s.log).length - L0) / STAGING_BUFFER_SIZE)
                  STAGING_BUFFER_SIZE)

/-- The cursor of the write loops lies in a staging slice of at most
`STAGING_BUFFER_SIZE` bytes, and no slice of `output_buffer` is longer. -/
def write_bounded {σ ζ : Type} (s : WriteLoop σ ζ) : Prop :=
  write_entry s ∧ s.end_ ≤ STAGING_BUFFER_SIZE
    ∧ ∀ slice ∈ s.ep.output_buffer, slice.length ≤ STAGING_BUFFER_SIZE

/-- The cursor of the read loops lies in a staging slice of at most
`STAGING_BUFFER_SIZE` bytes. -/
def read_bounded {σ ζ : Type} (s : ReadLoop σ ζ) : Prop :=
  read_entry s ∧ s.end_ ≤ STAGING_BUFFER_SIZE

/-- Both staging slices of the endpoint have at most `STAGING_BUFFER_SIZE`
bytes. -/
def staging_bounded {σ ζ : Type} (ep : secure_endpoint σ ζ) : Prop :=
  ep.read_staging_buffer.length ≤ STAGING_BUFFER_SIZE
    ∧ ep.write_staging_buffer.length ≤ STAGING_BUFFER_SIZE

/-- A copying framer whose `protect` and `protect_flush` calls all return
`TSI_OK`. -/
def always_protects {σ : Type} (F : tsi_frame_protector σ) : Prop :=
  (∀ s inp cap, (F.protect s inp cap).result = tsi_result.TSI_OK)
    ∧ ∀ s cap, (F.protect_flush s cap).result = tsi_result.TSI_OK

/-- A copying framer that, from state `p0`, has emitted at least as many bytes
as it was given once it is flushed. -/
def expanding {σ : Type} (F : tsi_frame_protector σ) (p0 : σ) : Prop :=
  ∀ l q, writer_log l → replay F p0 l = some q → calls_ok l → flushed l →
    (protect_consumed l).length ≤ (protect_emitted l).length

/-- The counterpart of `write_shape` for a copying read that found a staging
slice of `L0` bytes and an empty destination: where the cursor stands and which
slices were appended to the destination, in terms of the number of bytes
emitted so far. -/
def read_shape {σ ζ : Type} (L0 : Nat) (s : ReadLoop σ ζ) : Prop :=
  s.end_ = s.ep.read_staging_buffer.length ∧ s.cur < s.end_
    ∧ ((unprotect_emitted s.log).length < L0 →
        s.end_ = L0 ∧ s.cur = (unprotect_emitted s.log).length
          ∧ s.ep.read_buffer = some [])
    ∧ (L0 ≤ (unprotect_emitted s.log).length →
        s.end_ = STAGING_BUFFER_SIZE
          ∧ s.cur = ((unprotect_emitted s.log).length - L0) % STAGING_BUFFER_SIZE
          ∧ ∃ b, s.ep.read_buffer = some b
            ∧ b.map List.length
              = L0 :: List.replicate
                  (((unprotect_emitted s.log).length - L0) / STAGING_BUFFER_SIZE)
                  STAGING_BUFFER_SIZE)

/-- A zero-copy `protect` call left no byte in its input buffer; every other
event passes. -/
def Event.input_consumed : Event → Bool
  | .zero_copy_protect _ _ remaining => decide (buffer_bytes remaining = [])
  | _ => true

/-- Every zero-copy `protect` call of the log consumed its whole input
buffer. -/
def inputs_consumed (log : List Event) : Prop :=
  ∀ e ∈ log, e.input_consumed = true

instance inputs_consumed_decidable (log : List Event) : Decidable (inputs_consumed log) := by
  unfold inputs_consumed; infer_instance

theorem write_at_length (slice : grpc_slice) (cur : Nat) (out : List Byte)
    (h : cur + out.length ≤ slice.length) : (write_at slice cur out).length = slice.length := by
  unfold write_at
  simp only [List.length_append, List.length_take, List.length_drop]
  omega

theorem write_at_take (slice : grpc_slice) (cur : Nat) (out : List Byte)
    (h : cur + out.length ≤ slice.length) :
    (write_at slice cur out).take (cur + out.length) = slice.take cur ++ out := by
  unfold write_at
  have h1 : (slice.take cur ++ out).length = cur + out.length := by
    simp only [List.length_append, List.length_take]; omega
  rw [← h1, List.take_left]

theorem calls_ok_nil : calls_ok [] := by
  intro e he; cases he

theorem calls_ok_append (l₁ l₂ : List Event) :
    calls_ok (l₁ ++ l₂) ↔ calls_ok l₁ ∧ calls_ok l₂ := by
  unfold calls_ok
  constructor
  · intro h
    exact ⟨fun e he => h e (List.mem_append.mpr (Or.inl he)),
      fun e he => h e (List.mem_append.mpr (Or.inr he))⟩
  · rintro ⟨h1, h2⟩ e he
    rcases List.mem_append.mp he with h | h
    · exact h1 e h
    · exact h2 e h

theorem call_ok_iff (e : Event) :
    e.call_ok = true ↔ ∀ r, e.framer_result = some r → r = tsi_result.TSI_OK := by
  unfold Event.call_ok
  cases h : e.framer_result with
  | none => simp
  | some r => cases r <;> simp

theorem calls_ok_singleton (e : Event) :
    calls_ok [e] ↔ ∀ r, e.framer_result = some r → r = tsi_result.TSI_OK := by
  rw [← call_ok_iff]
  unfold calls_ok
  constructor
  · intro h; exact h e (List.mem_singleton.mpr rfl)
  · intro h e' he'; rw [List.mem_singleton.mp he']; exact h

theorem protect_emitted_append (l₁ l₂ : List Event) :
    protect_emitted (l₁ ++ l₂) = protect_emitted l₁ ++ protect_emitted l₂ :=
  List.flatMap_append _ _ _

theorem protect_consumed_append (l₁ l₂ : List Event) :
    protect_consumed (l₁ ++ l₂) = protect_consumed l₁ ++ protect_consumed l₂ :=
  List.flatMap_append _ _ _

theorem unprotect_emitted_append (l₁ l₂ : List Event) :
    unprotect_emitted (l₁ ++ l₂) = unprotect_emitted l₁ ++ unprotect_emitted l₂ :=
  List.flatMap_append _ _ _

theorem unprotect_consumed_append (l₁ l₂ : List Event) :
    unprotect_consumed (l₁ ++ l₂) = unprotect_consumed l₁ ++ unprotect_consumed l₂ :=
  List.flatMap_append _ _ _

theorem protect_emitted_count_eq (log : List Event) :
    protect_emitted_count log = (protect_emitted log).length := by
  unfold protect_emitted_count protect_emitted
  induction log with
  | nil => rfl
  | cons e l ih => simp [List.flatMap_cons, ih]

theorem buffer_length_eq (b : grpc_slice_buffer) :
    buffer_length b = (buffer_bytes b).length := by
  unfold buffer_length buffer_bytes
  rw [List.length_flatten]

theorem runs_append (l₁ l₂ : List Event) : runs (l₁ ++ l₂) = runs l₁ ++ runs l₂ := by
  induction l₁ with
  | nil => rfl
  | cons e l ih => cases e <;> simp [runs, ih]

theorem wrapped_writes_append (l₁ l₂ : List Event) :
    wrapped_writes (l₁ ++ l₂) = wrapped_writes l₁ ++ wrapped_writes l₂ := by
  induction l₁ with
  | nil => rfl
  | cons e l ih => cases e <;> simp [wrapped_writes, ih]

theorem replay_append {σ : Type} (F : tsi_frame_protector σ) (l₁ l₂ : List Event) :
    ∀ p : σ, replay F p (l₁ ++ l₂) = (replay F p l₁).bind (fun q => replay F q l₂) := by
  induction l₁ with
  | nil => intro p; rfl
  | cons e l ih =>
    intro p
    cases e <;> simp only [List.cons_append, replay]
    case protect m cap r n out => split <;> simp [ih]
    case protect_flush cap r out pending => split <;> simp [ih]
    case unprotect m cap r n out => split <;> simp [ih]
    all_goals exact ih p

/-! ## Rules for the loops of the copying write -/

theorem protect_loop_rule {σ ζ : Type} (F : tsi_frame_protector σ)
    (P : WriteLoop σ ζ → List Byte → Prop) (Q : WriteLoop σ ζ → Prop)
    (hdone : ∀ s, P s [] → Q s)
    (hfail : ∀ s m c, P s m → m ≠ [] → c = F.protect s.ep.protector m (s.end_ - s.cur) →
      c.result ≠ tsi_result.TSI_OK →
      Q (write_called s c.state c.out c.result (protect_event m (s.end_ - s.cur) c)))
    (hstep : ∀ s m c, P s m → m ≠ [] → c = F.protect s.ep.protector m (s.end_ - s.cur) →
      c.result = tsi_result.TSI_OK →
      P (write_advanced
          (write_called s c.state c.out c.result (protect_event m (s.end_ - s.cur) c))
          c.out.length) (m.drop c.processed))
    (fuel : Nat) : ∀ (s : WriteLoop σ ζ) (m : List Byte) (s' : WriteLoop σ ζ),
    P s m → protect_loop F fuel s m = some s' → Q s' := by
  induction fuel with
  | zero => intro s m s' _ h; simp [protect_loop] at h
  | succ fuel ih =>
    intro s m s' hP h
    simp only [protect_loop] at h
    split at h
    · rename_i hm
      have hm' : m ≠ [] := by intro h0; simp [h0] at hm
      split at h
      · rename_i hne
        cases h
        exact hfail s m _ hP hm' rfl hne
      · rename_i hok
        have hok' : (F.protect s.ep.protector m (s.end_ - s.cur)).result = tsi_result.TSI_OK := by
          simpa using hok
        exact ih _ _ _ (hstep s m _ hP hm' rfl hok') h
    · rename_i hm
      have hm' : m = [] := by
        cases m with
        | nil => rfl
        | cons a l => simp at hm
      cases h; subst hm'; exact hdone _ hP

theorem protect_slices_rule {σ ζ : Type} (F : tsi_frame_protector σ) (fuel : Nat)
    (P : WriteLoop σ ζ → List grpc_slice → Prop)
    (hloop : ∀ s plain rest s1, P s (plain :: rest) → protect_loop F fuel s plain = some s1 →
      (s1.result ≠ tsi_result.TSI_OK → P s1 []) ∧ (s1.result = tsi_result.TSI_OK → P s1 rest)) :
    ∀ (slices : List grpc_slice) (s s' : WriteLoop σ ζ),
    P s slices → protect_slices F fuel s slices = some s' → P s' [] := by
  intro slices
  induction slices with
  | nil => intro s s' hP h; simp only [protect_slices] at h; cases h; exact hP
  | cons plain rest ih =>
    intro s s' hP h
    simp only [protect_slices] at h
    split at h
    · cases h
    · rename_i s1 h1
      split at h
      · rename_i hne; cases h; exact (hloop s plain rest _ hP h1).1 hne
      · rename_i hok
        exact ih _ _ ((hloop s plain rest _ hP h1).2 (by simpa using hok)) h

theorem protect_flush_loop_rule {σ ζ : Type} (F : tsi_frame_protector σ)
    (P Q : WriteLoop σ ζ → Prop)
    (hfail : ∀ s c, P s → c = F.protect_flush s.ep.protector (s.end_ - s.cur) →
      c.result ≠ tsi_result.TSI_OK →
      Q (write_called s c.state c.out c.result (protect_flush_event (s.end_ - s.cur) c)))
    (hstep : ∀ s c, P s → c = F.protect_flush s.ep.protector (s.end_ - s.cur) →
      c.result = tsi_result.TSI_OK →
      (0 < c.still_pending → P (write_advanced
          (write_called s c.state c.out c.result (protect_flush_event (s.end_ - s.cur) c))
          c.out.length)) ∧
      (c.still_pending = 0 → Q (write_advanced
          (write_called s c.state c.out c.result (protect_flush_event (s.end_ - s.cur) c))
          c.out.length)))
    (fuel : Nat) : ∀ (s s' : WriteLoop σ ζ),
    P s → protect_flush_loop F fuel s = some s' → Q s' := by
  induction fuel with
  | zero => intro s s' _ h; simp [protect_flush_loop] at h
  | succ fuel ih =>
    intro s s' hP h
    simp only [protect_flush_loop] at h
    split at h
    · rename_i hne
      cases h
      exact hfail s _ hP rfl hne
    · rename_i hok
      have hok' : (F.protect_flush s.ep.protector (s.end_ - s.cur)).result
          = tsi_result.TSI_OK := by simpa using hok
      split at h
      · rename_i hp
        exact ih _ _ ((hstep s _ hP rfl hok').1 hp) h
      · rename_i hp
        cases h
        exact (hstep s _ hP rfl hok').2 (by omega)

/-! ## The invariant of the copying write -/

theorem replay_snoc_other {σ : Type} (F : tsi_frame_protector σ) (p q : σ) (l : List Event)
    (e : Event) (h : replay F p l = some q) (he : replay F q [e] = some q) :
    replay F p (l ++ [e]) = some q := by
  rw [replay_append, h]; exact he

theorem flush_write_staging_buffer_inv {σ ζ : Type} (F : tsi_frame_protector σ)
    (ep0 : secure_endpoint σ ζ) (s : WriteLoop σ ζ) (h : WriteInv F ep0 s)
    (hres : s.result = tsi_result.TSI_OK)
    (hc : s.cur = s.end_) : WriteInv F ep0 (flush_write_staging_buffer s) := by
  obtain ⟨h1, h2, hrep, h3, h4, hfr, hq, hrc⟩ := h
  have hem : protect_emitted (s.log ++ [Event.post_reclaimer]) = protect_emitted s.log := by
    simp [protect_emitted_append, protect_emitted, Event.protect_out]
  have hok : calls_ok (s.log ++ [Event.post_reclaimer]) ↔ calls_ok s.log := by
    rw [calls_ok_append, calls_ok_singleton]
    simp [Event.framer_result]
  have hbytes : s.result = tsi_result.TSI_OK →
      buffer_bytes (s.ep.output_buffer ++ [s.ep.write_staging_buffer]) = protect_emitted s.log := by
    intro hr
    have h3' := (h3 hr).1
    rw [hc, h1, List.take_length] at h3'
    simpa [buffer_bytes] using h3'
  unfold flush_write_staging_buffer maybe_post_reclaimer
  by_cases hp : s.ep.has_posted_reclaimer = true
  · simp only [hp, Bool.not_true, Bool.false_eq_true, if_false]
    constructor
    · simp
    · simp
    · simpa using hrep
    · intro hr
      simp only [grpc_slice_buffer_add_indexed, List.take_zero, List.append_nil]
      exact ⟨hbytes hr, (h3 hr).2⟩
    · intro hr; exact absurd hres hr
    · simpa [write_frame] using hfr
    · simpa using hq
    · simpa [hp] using hrc
  · have hp' : s.ep.has_posted_reclaimer = false := by simpa using hp
    simp only [hp', Bool.not_false, if_true]
    constructor
    · simp [secure_endpoint_ref]
    · simp
    · exact replay_snoc_other F _ _ _ _ hrep rfl
    · intro hr
      simp only [grpc_slice_buffer_add_indexed, List.take_zero, List.append_nil,
        secure_endpoint_ref]
      rw [hem, hok]
      exact ⟨hbytes hr, (h3 hr).2⟩
    · intro hr
      exact absurd hres hr
    · simpa [write_frame, secure_endpoint_ref] using hfr
    · simpa [runs_append, wrapped_writes_append, runs, wrapped_writes] using hq
    · rcases hrc with ⟨a, b, c, d⟩ | ⟨a, b, c, d, e⟩
      · right
        rw [hp'] at a
        refine ⟨a.symm, rfl, ?_, ?_, ?_⟩
        · simp [secure_endpoint_ref, b]
        · simp [secure_endpoint_ref, c]
        · simp [List.count_append, d]
      · rw [hp'] at b; cases b

theorem write_called_inv {σ ζ : Type} (F : tsi_frame_protector σ)
    (ep0 : secure_endpoint σ ζ) (s : WriteLoop σ ζ) (h : WriteInv F ep0 s)
    (hr : s.result = tsi_result.TSI_OK) (p : σ) (out : List Byte)
    (hout : out.length ≤ s.end_ - s.cur) (res : tsi_result) (ev : Event)
    (hev : ev.protect_out = out) (hres : ev.framer_result = some res)
    (hrep : replay F s.ep.protector [ev] = some p) :
    (res ≠ tsi_result.TSI_OK → WriteInv F ep0 (write_called s p out res ev)) ∧
      (res = tsi_result.TSI_OK →
        WriteInv F ep0 (write_advanced (write_called s p out res ev) out.length)
        ∧ (write_advanced (write_called s p out res ev) out.length).result
            = tsi_result.TSI_OK) := by
  obtain ⟨h1, h2, hrp, h3, h4, hfr, hq, hrc⟩ := h
  obtain ⟨h3a, h3b⟩ := h3 hr
  have hlen : s.cur + out.length ≤ s.ep.write_staging_buffer.length := by omega
  have hem : protect_emitted (s.log ++ [ev]) = protect_emitted s.log ++ out := by
    rw [protect_emitted_append]; simp [protect_emitted, hev]
  have hok : res = tsi_result.TSI_OK → calls_ok (s.log ++ [ev]) := by
    intro hres'
    rw [calls_ok_append, calls_ok_singleton]
    refine ⟨h3b, ?_⟩
    intro r hr'
    rw [hres] at hr'
    cases hr'
    exact hres'
  have hbad : ∃ l e, s.log ++ [ev] = l ++ [e] ∧ calls_ok l ∧ e.framer_result = some res :=
    ⟨s.log, ev, rfl, h3b, hres⟩
  have hrp' : replay F ep0.protector (s.log ++ [ev]) = some p := by
    rw [replay_append, hrp]; exact hrep
  have hnot : ∀ cb e, ev ≠ Event.run cb e := by
    intro cb e h0; rw [h0] at hres; cases hres
  have hnotw : ∀ o m, ev ≠ Event.grpc_endpoint_write o m := by
    intro o m h0; rw [h0] at hres; cases hres
  have hnotp : ev ≠ Event.post_reclaimer := by
    intro h0; rw [h0] at hres; cases hres
  have hq' : runs (s.log ++ [ev]) = [] ∧ wrapped_writes (s.log ++ [ev]) = [] := by
    rw [runs_append, wrapped_writes_append, hq.1, hq.2]
    cases ev <;> simp [runs, wrapped_writes] <;> first | exact absurd rfl (hnot _ _) | exact absurd rfl (hnotw _ _)
  have hcnt : (s.log ++ [ev]).count Event.post_reclaimer = s.log.count Event.post_reclaimer := by
    rw [List.count_append]
    simp [List.count_singleton, hnotp]
  have hcalled : res ≠ tsi_result.TSI_OK → WriteInv F ep0 (write_called s p out res ev) := by
    intro hne
    constructor
    · simp only [write_called]; rw [write_at_length _ _ _ hlen]; exact h1
    · exact h2
    · exact hrp'
    · intro hres'; exact absurd hres' hne
    · intro _; exact hbad
    · simpa [write_called, write_frame] using hfr
    · exact hq'
    · simp only [write_called]; rw [hcnt]; exact hrc
  refine ⟨hcalled, ?_⟩
  intro hres'
  have hadv : WriteInv F ep0
      ({ write_called s p out res ev with cur := s.cur + out.length } : WriteLoop σ ζ) := by
    constructor
    · simp only [write_called]; rw [write_at_length _ _ _ hlen]; exact h1
    · simp only [write_called]; omega
    · exact hrp'
    · intro _
      simp only [write_called]
      rw [write_at_take _ _ _ hlen, hem, ← h3a, List.append_assoc]
      exact ⟨rfl, hok hres'⟩
    · intro hne; exact absurd hres' hne
    · simpa [write_called, write_frame] using hfr
    · exact hq'
    · simp only [write_called]; rw [hcnt]; exact hrc
  unfold write_advanced
  split
  · rename_i hc
    refine ⟨flush_write_staging_buffer_inv F ep0 _ hadv hres' hc, ?_⟩
    simp only [flush_write_staging_buffer, write_called]
    exact hres'
  · exact ⟨hadv, hres'⟩

theorem write_advanced_log {σ ζ : Type} (s1 : WriteLoop σ ζ) (n : Nat) :
    (write_advanced s1 n).log = s1.log ∨
      (write_advanced s1 n).log = s1.log ++ [Event.post_reclaimer] := by
  unfold write_advanced
  split
  · by_cases hp : s1.ep.has_posted_reclaimer = true
    · left; simp [flush_write_staging_buffer, maybe_post_reclaimer, hp]
    · right; simp [flush_write_staging_buffer, maybe_post_reclaimer, hp]
  · left; rfl

theorem last_call_snoc (l : List Event) (e : Event) :
    last_call (l ++ [e]) = if e.is_framer_call = true then some e else last_call l := by
  unfold last_call
  rw [List.reverse_append]
  simp only [List.reverse_cons, List.reverse_nil, List.nil_append, List.singleton_append,
    List.find?_cons]
  cases e.is_framer_call <;> simp

theorem write_advanced_last_call {σ ζ : Type} (s1 : WriteLoop σ ζ) (n : Nat) :
    last_call (write_advanced s1 n).log = last_call s1.log := by
  rcases write_advanced_log s1 n with h | h <;> rw [h]
  rw [last_call_snoc]
  simp [Event.is_framer_call, Event.framer_result]

theorem write_advanced_consumed {σ ζ : Type} (s1 : WriteLoop σ ζ) (n : Nat) :
    protect_consumed (write_advanced s1 n).log = protect_consumed s1.log := by
  rcases write_advanced_log s1 n with h | h <;> rw [h]
  simp [protect_consumed_append, protect_consumed, Event.protect_in]

theorem protect_loop_inv {σ ζ : Type} (F : tsi_frame_protector σ) (hF : well_behaved F)
    (ep0 : secure_endpoint σ ζ) (fuel : Nat) (s : WriteLoop σ ζ) (m : List Byte)
    (s' : WriteLoop σ ζ) (hinv : WriteInv F ep0 s) (hr : s.result = tsi_result.TSI_OK)
    (h : protect_loop F fuel s m = some s') :
    WriteInv F ep0 s' ∧
      (s'.result = tsi_result.TSI_OK →
        protect_consumed s'.log = protect_consumed s.log ++ m) := by
  refine protect_loop_rule F
    (fun s1 m1 => WriteInv F ep0 s1 ∧ s1.result = tsi_result.TSI_OK
      ∧ protect_consumed s1.log ++ m1 = protect_consumed s.log ++ m)
    (fun s1 => WriteInv F ep0 s1 ∧ (s1.result = tsi_result.TSI_OK →
        protect_consumed s1.log = protect_consumed s.log ++ m))
    ?_ ?_ ?_ fuel s m s' ⟨hinv, hr, rfl⟩ h
  · rintro s1 ⟨h1, _, h3⟩
    exact ⟨h1, fun _ => by simpa using h3⟩
  · rintro s1 m1 c ⟨h1, h2, _⟩ _ hc hne
    have hrep : replay F s1.ep.protector [protect_event m1 (s1.end_ - s1.cur) c]
        = some c.state := by
      simp [protect_event, replay, hc]
    have := (write_called_inv F ep0 s1 h1 h2 c.state c.out (by rw [hc]; exact hF.protect_out _ _ _)
      c.result (protect_event m1 (s1.end_ - s1.cur) c) rfl rfl hrep).1 hne
    exact ⟨this, fun hok => absurd hok hne⟩
  · rintro s1 m1 c ⟨h1, h2, h3⟩ _ hc hok
    have hrep : replay F s1.ep.protector [protect_event m1 (s1.end_ - s1.cur) c]
        = some c.state := by
      simp [protect_event, replay, hc]
    have := (write_called_inv F ep0 s1 h1 h2 c.state c.out (by rw [hc]; exact hF.protect_out _ _ _)
      c.result (protect_event m1 (s1.end_ - s1.cur) c) rfl rfl hrep).2 hok
    refine ⟨this.1, this.2, ?_⟩
    rw [write_advanced_consumed, ← h3]
    simp only [write_called, protect_consumed_append]
    simp [protect_consumed, protect_event, Event.protect_in]

theorem protect_slices_inv {σ ζ : Type} (F : tsi_frame_protector σ) (hF : well_behaved F)
    (ep0 : secure_endpoint σ ζ) (fuel : Nat) (slices : List grpc_slice)
    (s s' : WriteLoop σ ζ) (hinv : WriteInv F ep0 s) (hr : s.result = tsi_result.TSI_OK)
    (h : protect_slices F fuel s slices = some s') :
    WriteInv F ep0 s' ∧
      (s'.result = tsi_result.TSI_OK →
        protect_consumed s'.log = protect_consumed s.log ++ buffer_bytes slices) := by
  have := protect_slices_rule F fuel
    (fun s1 rest => WriteInv F ep0 s1 ∧
      (s1.result = tsi_result.TSI_OK →
        protect_consumed s1.log ++ buffer_bytes rest
          = protect_consumed s.log ++ buffer_bytes slices) ∧
      (rest ≠ [] → s1.result = tsi_result.TSI_OK))
    ?_ slices s s' ⟨hinv, fun _ => rfl, fun _ => hr⟩ h
  · exact ⟨this.1, fun hok => by simpa [buffer_bytes] using this.2.1 hok⟩
  · rintro s1 plain rest s2 ⟨h1, h2, h3⟩ hl
    have hr1 := h3 (by simp)
    have := protect_loop_inv F hF ep0 fuel s1 plain s2 h1 hr1 hl
    refine ⟨fun hne => ⟨this.1, fun hok => absurd hok hne, fun hx => absurd rfl hx⟩,
      fun hok => ⟨this.1, fun _ => ?_, fun _ => hok⟩⟩
    rw [this.2 hok, ← h2 hr1]
    simp [buffer_bytes]

theorem protect_flush_loop_inv {σ ζ : Type} (F : tsi_frame_protector σ) (hF : well_behaved F)
    (ep0 : secure_endpoint σ ζ) (fuel : Nat) (s s' : WriteLoop σ ζ)
    (hinv : WriteInv F ep0 s) (hr : s.result = tsi_result.TSI_OK)
    (h : protect_flush_loop F fuel s = some s') :
    WriteInv F ep0 s' ∧
      (s'.result = tsi_result.TSI_OK →
        protect_consumed s'.log = protect_consumed s.log ∧ flushed s'.log) := by
  refine protect_flush_loop_rule F
    (fun s1 => WriteInv F ep0 s1 ∧ s1.result = tsi_result.TSI_OK
      ∧ protect_consumed s1.log = protect_consumed s.log)
    (fun s1 => WriteInv F ep0 s1 ∧ (s1.result = tsi_result.TSI_OK →
        protect_consumed s1.log = protect_consumed s.log ∧ flushed s1.log))
    ?_ ?_ fuel s s' ⟨hinv, hr, rfl⟩ h
  · rintro s1 c ⟨h1, h2, _⟩ hc hne
    have hrep : replay F s1.ep.protector [protect_flush_event (s1.end_ - s1.cur) c]
        = some c.state := by
      simp [protect_flush_event, replay, hc]
    have := (write_called_inv F ep0 s1 h1 h2 c.state c.out (by rw [hc]; exact hF.flush_out _ _)
      c.result (protect_flush_event (s1.end_ - s1.cur) c) rfl rfl hrep).1 hne
    exact ⟨this, fun hok => absurd hok hne⟩
  · rintro s1 c ⟨h1, h2, h3⟩ hc hok
    have hrep : replay F s1.ep.protector [protect_flush_event (s1.end_ - s1.cur) c]
        = some c.state := by
      simp [protect_flush_event, replay, hc]
    have := (write_called_inv F ep0 s1 h1 h2 c.state c.out (by rw [hc]; exact hF.flush_out _ _)
      c.result (protect_flush_event (s1.end_ - s1.cur) c) rfl rfl hrep).2 hok
    have hcons : protect_consumed (write_advanced (write_called s1 c.state c.out c.result
        (protect_flush_event (s1.end_ - s1.cur) c)) c.out.length).log
        = protect_consumed s.log := by
      rw [write_advanced_consumed, ← h3]
      simp only [write_called, protect_consumed_append]
      simp [protect_consumed, protect_flush_event, Event.protect_in]
    refine ⟨fun _ => ⟨this.1, this.2, hcons⟩, fun hp => ⟨this.1, fun _ => ⟨hcons, ?_⟩⟩⟩
    refine ⟨s1.end_ - s1.cur, c.result, c.out, ?_⟩
    rw [write_advanced_last_call]
    simp only [write_called]
    rw [last_call_snoc]
    simp [protect_flush_event, Event.is_framer_call, Event.framer_result, hp]

theorem write_split_head_bytes {σ ζ : Type} (s : WriteLoop σ ζ)
    (hc : s.cur ≤ s.ep.write_staging_buffer.length) :
    buffer_bytes (write_split_head s).ep.output_buffer
      = buffer_bytes s.ep.output_buffer ++ s.ep.write_staging_buffer.take s.cur := by
  unfold write_split_head
  split
  · simp [grpc_slice_buffer_add, grpc_slice_split_head, buffer_bytes]
  · rename_i h
    have h0 : s.cur = 0 := by simpa using h
    simp [h0]

theorem write_split_head_other {σ ζ : Type} (s : WriteLoop σ ζ) :
    (write_split_head s).log = s.log ∧ (write_split_head s).result = s.result
      ∧ (write_split_head s).ep.protector = s.ep.protector
      ∧ write_frame (write_split_head s).ep = write_frame s.ep
      ∧ (write_split_head s).ep.has_posted_reclaimer = s.ep.has_posted_reclaimer
      ∧ (write_split_head s).ep.ref = s.ep.ref
      ∧ (write_split_head s).ep.reclaimers = s.ep.reclaimers := by
  unfold write_split_head
  split <;> simp [write_frame]

/-- The initial state of the loops of the copying write satisfies the
invariant. -/
theorem write_inv_init {σ ζ : Type} (F : tsi_frame_protector σ) (ep0 : secure_endpoint σ ζ)
    (h : ep0.output_buffer = []) :
    WriteInv F ep0
      { ep := ep0, cur := 0, end_ := ep0.write_staging_buffer.length,
        result := tsi_result.TSI_OK, log := [] } := by
  constructor
  · rfl
  · exact Nat.zero_le _
  · rfl
  · intro _; simp [h, buffer_bytes, protect_emitted, calls_ok_nil]
  · intro hne; exact absurd rfl hne
  · rfl
  · exact ⟨rfl, rfl⟩
  · left; simp

theorem copying_write_end {σ ζ : Type} (F : tsi_frame_protector σ) (hF : well_behaved F)
    (ep0 : secure_endpoint σ ζ) (h0 : ep0.output_buffer = []) (fuel : Nat)
    (slices : grpc_slice_buffer) (s' : WriteLoop σ ζ)
    (h : copying_write F fuel
      { ep := ep0, cur := 0, end_ := ep0.write_staging_buffer.length,
        result := tsi_result.TSI_OK, log := [] } slices = some s') :
    WriteEnd F ep0 slices s' := by
  unfold copying_write at h
  split at h
  · cases h
  · rename_i s1 h1
    have hs1 := protect_slices_inv F hF ep0 fuel slices _ s1 (write_inv_init F ep0 h0) rfl h1
    split at h
    · rename_i hok1
      split at h
      · cases h
      · rename_i s2 h2
        cases h
        have hs2 := protect_flush_loop_inv F hF ep0 fuel s1 s2 hs1.1 hok1 h2
        obtain ⟨e1, e2, e3, e4, e5, e6, e7, e8⟩ := hs2.1
        obtain ⟨o1, o2, o3, o4, o5, o6, o7⟩ := write_split_head_other s2
        constructor
        · rw [o1, o3]; exact e3
        · rw [o1, o2]
          intro hok
          rw [write_split_head_bytes s2 (by omega)]
          refine ⟨(e4 hok).1, (e4 hok).2, ?_, (hs2.2 hok).2⟩
          rw [(hs2.2 hok).1, hs1.2 hok1]
          simp [protect_consumed]
        · rw [o1, o2]; exact e5
        · rw [o4]; exact e6
        · rw [o1]; exact e7
        · rw [o1, o5, o6, o7]; exact e8
    · rename_i hne
      cases h
      obtain ⟨e1, e2, e3, e4, e5, e6, e7, e8⟩ := hs1.1
      exact ⟨e3, fun hok => absurd hok hne, e5, e6, e7, e8⟩

theorem identity_protector_well_behaved : well_behaved identity_protector := by
  constructor <;> intros <;> simp [identity_protector]

theorem queue_protector_well_behaved : well_behaved queue_protector := by
  constructor <;> intros <;> simp [queue_protector]

theorem limited_protector_well_behaved (code : Nat) :
    well_behaved (limited_protector code) := by
  constructor <;> intros <;> simp only [limited_protector] <;> split <;> simp

/-- On the copying path `endpoint_write` is the locked part followed by the
tail. -/
theorem endpoint_write_copying {σ ζ : Type} (F : tsi_frame_protector σ) (hF : well_behaved F)
    (Z : tsi_zero_copy_grpc_protector ζ) (ts : tsi_result → String) (fuel : Nat)
    (ep : secure_endpoint σ ζ) (slices : grpc_slice_buffer) (cb : Option grpc_closure)
    (args : WriteArgs) (r : WriteDone σ ζ) (hcopy : ep.zero_copy_protector = none)
    (h : endpoint_write F Z ts fuel ep slices cb args = some r) :
    ∃ s : WriteLoop σ ζ, WriteEnd F { ep with output_buffer := [] } slices s
      ∧ r = write_finish ts s.ep slices s.result s.log cb args := by
  cases ep
  simp only at hcopy
  subst hcopy
  simp only [endpoint_write] at h
  split at h
  · cases h
  · rename_i s hs
    cases h
    exact ⟨s, copying_write_end F hF _ rfl fuel slices s hs, rfl⟩

theorem write_finish_ok {σ ζ : Type} (ts : tsi_result → String) (ep : secure_endpoint σ ζ)
    (slices : grpc_slice_buffer) (result : tsi_result) (log : List Event)
    (cb : Option grpc_closure) (args : WriteArgs) (h : result = tsi_result.TSI_OK) :
    write_finish ts ep slices result log cb args =
      { ep := { secure_endpoint_ref ep with write_cb := cb },
        slices := slices,
        result := result,
        log := log ++ [Event.grpc_endpoint_write ep.output_buffer args.max_frame_size] } := by
  simp [write_finish, h, secure_endpoint_ref]

theorem write_finish_failed {σ ζ : Type} (ts : tsi_result → String) (ep : secure_endpoint σ ζ)
    (slices : grpc_slice_buffer) (result : tsi_result) (log : List Event)
    (cb : Option grpc_closure) (args : WriteArgs) (h : result ≠ tsi_result.TSI_OK) :
    write_finish ts ep slices result log cb args =
      { ep := { ep with output_buffer := [] },
        slices := slices,
        result := result,
        log := log ++ [Event.run cb (grpc_error_handle.GRPC_ERROR_CREATE
          ("Wrap failed (" ++ ts result ++ ")"))] } := by
  simp [write_finish, h]

theorem calls_ok_of_snoc_failed (l : List Event) (ev : Event) (res : tsi_result)
    (tail : List Event) (hres : ev.framer_result = some res)
    (hne : res ≠ tsi_result.TSI_OK) : ¬ calls_ok (l ++ [ev] ++ tail) := by
  intro hc
  have h1 := ((calls_ok_append _ _).mp ((calls_ok_append _ _).mp hc).1).2
  exact hne ((calls_ok_singleton ev).mp h1 res hres)

/-- For a copying-framer write that returns, whatever the length of the write staging
slice at entry (zero included), in which every `protect` and `protect_flush`
call returned `TSI_OK`: the write ends by handing `output_buffer` to the wrapped
endpoint's write; the bytes of that buffer, concatenated in slice order, are the
bytes the framer emitted in its `protect` and `protect_flush` calls of the
write, in call order; and the buffer's length is the sum of the emitted byte
counts. -/
theorem copying_write_output {σ ζ : Type} (F : tsi_frame_protector σ)
    (hF : well_behaved F) (Z : tsi_zero_copy_grpc_protector ζ) (ts : tsi_result → String)
    (fuel : Nat) (ep : secure_endpoint σ ζ) (slices : grpc_slice_buffer)
    (cb : Option grpc_closure) (args : WriteArgs) (r : WriteDone σ ζ)
    (hcopy : ep.zero_copy_protector = none)
    (h : endpoint_write F Z ts fuel ep slices cb args = some r)
    (hok : calls_ok r.log) :
    r.log.getLast? = some (Event.grpc_endpoint_write r.ep.output_buffer args.max_frame_size)
      ∧ wrapped_writes r.log = [r.ep.output_buffer]
      ∧ buffer_bytes r.ep.output_buffer = protect_emitted r.log
      ∧ buffer_length r.ep.output_buffer = protect_emitted_count r.log := by
  obtain ⟨s, hs, hr⟩ := endpoint_write_copying F hF Z ts fuel ep slices cb args r hcopy h
  by_cases hres : s.result = tsi_result.TSI_OK
  · rw [write_finish_ok ts _ _ _ _ _ _ hres] at hr
    obtain ⟨hb, _, _, _⟩ := hs.ok hres
    have hem : protect_emitted r.log = protect_emitted s.log := by
      rw [hr]; simp [protect_emitted_append, protect_emitted, Event.protect_out]
    have hbytes : buffer_bytes r.ep.output_buffer = protect_emitted r.log := by
      rw [hem, ← hb, hr]; simp [secure_endpoint_ref]
    refine ⟨?_, ?_, hbytes, ?_⟩
    · rw [hr]; simp [secure_endpoint_ref]
    · rw [hr]; simp [wrapped_writes_append, hs.quiet.2, wrapped_writes, secure_endpoint_ref]
    · rw [buffer_length_eq, protect_emitted_count_eq, hbytes]
  · exfalso
    obtain ⟨l, ev, hl, _, hev⟩ := hs.failed hres
    rw [write_finish_failed ts _ _ _ _ _ _ hres] at hr
    rw [hr] at hok
    simp only [] at hok
    rw [hl] at hok
    exact calls_ok_of_snoc_failed l ev s.result _ hev hres hok

/-! ## Rules for the loops of the copying read -/

theorem unprotect_loop_rule {σ ζ : Type} (F : tsi_frame_protector σ)
    (P : ReadLoop σ ζ → List Byte → Prop) (Q : ReadLoop σ ζ → Prop)
    (hdone : ∀ s, P s [] → s.keep_looping = false → Q s)
    (hfail : ∀ s m c, P s m → (m ≠ [] ∨ s.keep_looping = true) →
      c = F.unprotect s.ep.protector m (s.end_ - s.cur) →
      c.result ≠ tsi_result.TSI_OK →
      Q (read_called s c.state c.out c.result (unprotect_event m (s.end_ - s.cur) c)))
    (hstep : ∀ s m c, P s m → (m ≠ [] ∨ s.keep_looping = true) →
      c = F.unprotect s.ep.protector m (s.end_ - s.cur) →
      c.result = tsi_result.TSI_OK →
      P (read_advanced
          (read_called s c.state c.out c.result (unprotect_event m (s.end_ - s.cur) c))
          c.out.length) (m.drop c.processed))
    (fuel : Nat) : ∀ (s : ReadLoop σ ζ) (m : List Byte) (s' : ReadLoop σ ζ),
    P s m → unprotect_loop F fuel s m = some s' → Q s' := by
  induction fuel with
  | zero => intro s m s' _ h; simp [unprotect_loop] at h
  | succ fuel ih =>
    intro s m s' hP h
    simp only [unprotect_loop] at h
    split at h
    · rename_i hm
      have hm' : m ≠ [] ∨ s.keep_looping = true := by
        rcases hm with hm | hm
        · left; intro h0; simp [h0] at hm
        · right; exact hm
      split at h
      · rename_i hne
        cases h
        exact hfail s m _ hP hm' rfl hne
      · rename_i hok
        have hok' : (F.unprotect s.ep.protector m (s.end_ - s.cur)).result
            = tsi_result.TSI_OK := by simpa using hok
        have hP' := hstep s m _ hP hm' rfl hok'
        refine ih _ _ _ ?_ h
        simpa [read_advanced, read_called, unprotect_event] using hP'
    · rename_i hm
      have hm' : m = [] ∧ s.keep_looping = false := by
        cases m with
        | nil => simpa using hm
        | cons a l => simp at hm
      cases h
      obtain ⟨h1, h2⟩ := hm'
      subst h1
      exact hdone _ hP h2

theorem unprotect_slices_rule {σ ζ : Type} (F : tsi_frame_protector σ) (fuel : Nat)
    (P : ReadLoop σ ζ → List grpc_slice → Prop)
    (hloop : ∀ s encrypted rest s1, P s (encrypted :: rest) →
      unprotect_loop F fuel s encrypted = some s1 →
      (s1.result ≠ tsi_result.TSI_OK → P s1 []) ∧ (s1.result = tsi_result.TSI_OK → P s1 rest)) :
    ∀ (slices : List grpc_slice) (s s' : ReadLoop σ ζ),
    P s slices → unprotect_slices F fuel s slices = some s' → P s' [] := by
  intro slices
  induction slices with
  | nil => intro s s' hP h; simp only [unprotect_slices] at h; cases h; exact hP
  | cons encrypted rest ih =>
    intro s s' hP h
    simp only [unprotect_slices] at h
    split at h
    · cases h
    · rename_i s1 h1
      split at h
      · rename_i hne; cases h; exact (hloop s encrypted rest _ hP h1).1 hne
      · rename_i hok
        exact ih _ _ ((hloop s encrypted rest _ hP h1).2 (by simpa using hok)) h

/-! ## The invariant of the copying read -/

theorem drained_snoc_unprotect (l : List Event) (m : List Byte) (cap : Nat) (r : tsi_result)
    (n : Nat) (out : List Byte) :
    drained (l ++ [Event.unprotect m cap r n out]) ↔ (out = [] ∧ 0 < cap) := by
  unfold drained
  rw [last_call_snoc]
  simp only [Event.is_framer_call, Event.framer_result, Option.isSome_some, if_true,
    Option.some.injEq, Event.unprotect.injEq]
  constructor
  · intro h; exact h m cap r n out ⟨rfl, rfl, rfl, rfl, rfl⟩
  · rintro h m' cap' r' n' out' ⟨_, h2, _, _, h5⟩
    subst h2 h5
    exact h

theorem drained_nil : drained [] := by
  intro m cap r n out h
  simp [last_call] at h

theorem read_called_inv {σ ζ : Type} (F : tsi_frame_protector σ)
    (ep0 : secure_endpoint σ ζ) (d0 : grpc_slice_buffer) (s : ReadLoop σ ζ)
    (h : ReadInv F ep0 d0 s) (hr : s.result = tsi_result.TSI_OK) (m : List Byte)
    (c : FrameCall σ) (hc : c = F.unprotect s.ep.protector m (s.end_ - s.cur))
    (hout : c.out.length ≤ s.end_ - s.cur) :
    (c.result ≠ tsi_result.TSI_OK → ReadInv F ep0 d0
        (read_called s c.state c.out c.result (unprotect_event m (s.end_ - s.cur) c))) ∧
      (c.result = tsi_result.TSI_OK →
        ReadInv F ep0 d0 (read_advanced
          (read_called s c.state c.out c.result (unprotect_event m (s.end_ - s.cur) c))
          c.out.length)
        ∧ (read_advanced
          (read_called s c.state c.out c.result (unprotect_event m (s.end_ - s.cur) c))
          c.out.length).result = tsi_result.TSI_OK) := by
  obtain ⟨h1, h2, hrp, ⟨d, hd, h3⟩, h4, hdr, hfr, hq⟩ := h
  obtain ⟨h3a, h3b⟩ := h3 hr
  have hlen : s.cur + c.out.length ≤ s.ep.read_staging_buffer.length := by omega
  have hem : unprotect_emitted (s.log ++ [unprotect_event m (s.end_ - s.cur) c])
      = unprotect_emitted s.log ++ c.out := by
    rw [unprotect_emitted_append]
    simp [unprotect_emitted, unprotect_event, Event.unprotect_out]
  have hok : c.result = tsi_result.TSI_OK →
      calls_ok (s.log ++ [unprotect_event m (s.end_ - s.cur) c]) := by
    intro hres'
    rw [calls_ok_append, calls_ok_singleton]
    refine ⟨h3b, ?_⟩
    intro r hr'
    simp only [unprotect_event, Event.framer_result, Option.some.injEq] at hr'
    rw [← hr']; exact hres'
  have hrp' : replay F ep0.protector (s.log ++ [unprotect_event m (s.end_ - s.cur) c])
      = some c.state := by
    rw [replay_append, hrp]
    simp [unprotect_event, replay, hc]
  have hq' : runs (s.log ++ [unprotect_event m (s.end_ - s.cur) c]) = []
      ∧ wrapped_writes (s.log ++ [unprotect_event m (s.end_ - s.cur) c]) = [] := by
    rw [runs_append, wrapped_writes_append, hq.1, hq.2]
    simp [runs, wrapped_writes, unprotect_event]
  constructor
  · intro hne
    constructor
    · simp only [read_called]; rw [write_at_length _ _ _ hlen]; exact h1
    · exact h2
    · exact hrp'
    · exact ⟨d, hd, fun hres' => absurd hres' hne⟩
    · intro _; exact ⟨s.log, _, rfl, h3b, rfl⟩
    · intro hres' _; exact absurd hres' hne
    · simpa [read_called, read_frame] using hfr
    · exact hq'
  · intro hres'
    have hbytes : buffer_bytes d
        ++ (write_at s.ep.read_staging_buffer s.cur c.out).take (s.cur + c.out.length)
        = buffer_bytes d0
          ++ unprotect_emitted (s.log ++ [unprotect_event m (s.end_ - s.cur) c]) := by
      rw [write_at_take _ _ _ hlen, hem, ← List.append_assoc, h3a, List.append_assoc]
    unfold read_advanced
    split
    · rename_i hcur
      simp only [read_called] at hcur
      refine ⟨?_, hres'⟩
      constructor
      · simp [flush_read_staging_buffer, update_read_buffer]
      · simp [flush_read_staging_buffer]
      · simpa [flush_read_staging_buffer, update_read_buffer, read_called] using hrp'
      · refine ⟨d ++ [write_at s.ep.read_staging_buffer s.cur c.out], ?_, ?_⟩
        · simp [flush_read_staging_buffer, update_read_buffer, read_called, hd,
            grpc_slice_buffer_add_indexed]
        · intro _
          simp only [flush_read_staging_buffer, update_read_buffer, read_called,
            List.take_zero, List.append_nil]
          refine ⟨?_, hok hres'⟩
          rw [← hbytes]
          have : s.cur + c.out.length = (write_at s.ep.read_staging_buffer s.cur c.out).length := by
            rw [write_at_length _ _ _ hlen]; omega
          rw [this, List.take_length]
          simp [buffer_bytes]
      · intro hne; exact absurd hres' hne
      · intro _ hk; simp at hk
      · simpa [flush_read_staging_buffer, update_read_buffer, read_called, read_frame] using hfr
      · simpa [flush_read_staging_buffer, update_read_buffer, read_called] using hq'
    · rename_i hcur
      simp only [read_called] at hcur
      split
      · refine ⟨?_, hres'⟩
        constructor
        · simp only [read_called]; rw [write_at_length _ _ _ hlen]; exact h1
        · simp only [read_called]; omega
        · exact hrp'
        · exact ⟨d, hd, fun _ => ⟨hbytes, hok hres'⟩⟩
        · intro hne; exact absurd hres' hne
        · intro _ hk; simp at hk
        · simpa [read_called, read_frame] using hfr
        · exact hq'
      · rename_i hn
        refine ⟨?_, hres'⟩
        constructor
        · simp only [read_called]; rw [write_at_length _ _ _ hlen]; exact h1
        · simp only [read_called]; omega
        · exact hrp'
        · exact ⟨d, hd, fun _ => ⟨hbytes, hok hres'⟩⟩
        · intro hne; exact absurd hres' hne
        · intro _ _
          simp only [read_called, unprotect_event]
          rw [drained_snoc_unprotect]
          have h0 : c.out.length = 0 := by omega
          refine ⟨List.length_eq_zero.mp h0, ?_⟩
          rw [h0] at hcur
          simp only [Nat.add_zero] at hcur
          omega
        · simpa [read_called, read_frame] using hfr
        · exact hq'

theorem read_advanced_log {σ ζ : Type} (s1 : ReadLoop σ ζ) (n : Nat) :
    (read_advanced s1 n).log = s1.log := by
  unfold read_advanced
  split
  · rfl
  · split <;> rfl

theorem unprotect_loop_inv {σ ζ : Type} (F : tsi_frame_protector σ) (hF : well_behaved F)
    (ep0 : secure_endpoint σ ζ) (d0 : grpc_slice_buffer) (fuel : Nat) (s : ReadLoop σ ζ)
    (m : List Byte) (s' : ReadLoop σ ζ) (hinv : ReadInv F ep0 d0 s)
    (hr : s.result = tsi_result.TSI_OK) (h : unprotect_loop F fuel s m = some s') :
    ReadInv F ep0 d0 s' ∧
      (s'.result = tsi_result.TSI_OK →
        unprotect_consumed s'.log = unprotect_consumed s.log ++ m
          ∧ s'.keep_looping = false) ∧
      (s'.result ≠ tsi_result.TSI_OK →
        ∃ l m' cap n out, s'.log = l ++ [Event.unprotect m' cap s'.result n out] ∧ calls_ok l
          ∧ unprotect_consumed l ++ m' = unprotect_consumed s.log ++ m) := by
  refine unprotect_loop_rule F
    (fun s1 m1 => ReadInv F ep0 d0 s1 ∧ s1.result = tsi_result.TSI_OK
      ∧ unprotect_consumed s1.log ++ m1 = unprotect_consumed s.log ++ m)
    (fun s1 => ReadInv F ep0 d0 s1 ∧
      (s1.result = tsi_result.TSI_OK →
        unprotect_consumed s1.log = unprotect_consumed s.log ++ m
          ∧ s1.keep_looping = false) ∧
      (s1.result ≠ tsi_result.TSI_OK →
        ∃ l m' cap n out, s1.log = l ++ [Event.unprotect m' cap s1.result n out] ∧ calls_ok l
          ∧ unprotect_consumed l ++ m' = unprotect_consumed s.log ++ m))
    ?_ ?_ ?_ fuel s m s' ⟨hinv, hr, rfl⟩ h
  · rintro s1 ⟨h1, h2, h3⟩ hk
    exact ⟨h1, fun _ => ⟨by simpa using h3, hk⟩, fun hne => absurd h2 hne⟩
  · rintro s1 m1 c ⟨h1, h2, h3⟩ _ hc hne
    have := (read_called_inv F ep0 d0 s1 h1 h2 m1 c hc
      (by rw [hc]; exact hF.unprotect_out _ _ _)).1 hne
    refine ⟨this, fun hok => absurd hok hne, fun _ => ?_⟩
    obtain ⟨d, _, hd⟩ := h1.dst
    exact ⟨s1.log, m1, s1.end_ - s1.cur, c.processed, c.out, rfl, (hd h2).2, h3⟩
  · rintro s1 m1 c ⟨h1, h2, h3⟩ _ hc hok
    have := (read_called_inv F ep0 d0 s1 h1 h2 m1 c hc
      (by rw [hc]; exact hF.unprotect_out _ _ _)).2 hok
    refine ⟨this.1, this.2, ?_⟩
    rw [read_advanced_log, ← h3]
    simp only [read_called, unprotect_consumed_append]
    simp [unprotect_consumed, unprotect_event, Event.unprotect_in]

theorem unprotect_slices_inv {σ ζ : Type} (F : tsi_frame_protector σ) (hF : well_behaved F)
    (ep0 : secure_endpoint σ ζ) (d0 : grpc_slice_buffer) (fuel : Nat)
    (slices : List grpc_slice) (s s' : ReadLoop σ ζ) (hinv : ReadInv F ep0 d0 s)
    (hr : s.result = tsi_result.TSI_OK) (hk : s.keep_looping = false)
    (h : unprotect_slices F fuel s slices = some s') :
    ReadInv F ep0 d0 s' ∧
      (s'.result = tsi_result.TSI_OK →
        unprotect_consumed s'.log = unprotect_consumed s.log ++ buffer_bytes slices
          ∧ s'.keep_looping = false) ∧
      (s'.result ≠ tsi_result.TSI_OK →
        ∃ l m' cap n out, s'.log = l ++ [Event.unprotect m' cap s'.result n out] ∧ calls_ok l
          ∧ ∃ rest, unprotect_consumed l ++ m' ++ rest
              = unprotect_consumed s.log ++ buffer_bytes slices) := by
  have := unprotect_slices_rule F fuel
    (fun s1 rest => ReadInv F ep0 d0 s1 ∧
      (s1.result = tsi_result.TSI_OK →
        unprotect_consumed s1.log ++ buffer_bytes rest
          = unprotect_consumed s.log ++ buffer_bytes slices ∧ s1.keep_looping = false) ∧
      (rest ≠ [] → s1.result = tsi_result.TSI_OK) ∧
      (s1.result ≠ tsi_result.TSI_OK →
        ∃ l m' cap n out, s1.log = l ++ [Event.unprotect m' cap s1.result n out] ∧ calls_ok l
          ∧ ∃ rest', unprotect_consumed l ++ m' ++ rest'
              = unprotect_consumed s.log ++ buffer_bytes slices))
    ?_ slices s s' ⟨hinv, fun _ => ⟨rfl, hk⟩, fun _ => hr, fun hne => absurd hr hne⟩ h
  · exact ⟨this.1, fun hok => by simpa [buffer_bytes] using this.2.1 hok, this.2.2.2⟩
  · rintro s1 encrypted rest s2 ⟨h1, h2, h3, _⟩ hl
    have hr1 := h3 (by simp)
    have := unprotect_loop_inv F hF ep0 d0 fuel s1 encrypted s2 h1 hr1 hl
    refine ⟨fun hne => ⟨this.1, fun hok => absurd hok hne, fun hx => absurd rfl hx, fun _ => ?_⟩,
      fun hok => ⟨this.1, fun _ => ⟨?_, (this.2.1 hok).2⟩, fun _ => hok,
        fun hne => absurd hok hne⟩⟩
    · obtain ⟨l, m', cap, n, out, e1, e2, e3⟩ := this.2.2 hne
      refine ⟨l, m', cap, n, out, e1, e2, buffer_bytes rest, ?_⟩
      rw [e3, ← (h2 hr1).1]
      simp [buffer_bytes]
    · rw [(this.2.1 hok).1, ← (h2 hr1).1]
      simp [buffer_bytes]

theorem read_split_head_bytes {σ ζ : Type} (s : ReadLoop σ ζ) (d : grpc_slice_buffer)
    (hd : s.ep.read_buffer = some d) :
    ∃ d', (read_split_head s).ep.read_buffer = some d'
      ∧ buffer_bytes d' = buffer_bytes d ++ s.ep.read_staging_buffer.take s.cur := by
  unfold read_split_head
  split
  · refine ⟨d ++ [s.ep.read_staging_buffer.take s.cur], ?_, ?_⟩
    · simp [update_read_buffer, hd, grpc_slice_buffer_add, grpc_slice_split_head]
    · simp [buffer_bytes]
  · rename_i h
    have h0 : s.cur = 0 := by simpa using h
    exact ⟨d, hd, by simp [h0]⟩

theorem read_split_head_other {σ ζ : Type} (s : ReadLoop σ ζ) :
    (read_split_head s).log = s.log ∧ (read_split_head s).result = s.result
      ∧ (read_split_head s).ep.protector = s.ep.protector
      ∧ read_frame (read_split_head s).ep = read_frame s.ep := by
  unfold read_split_head
  split <;> simp [read_frame, update_read_buffer]

/-- The initial state of the loops of the copying read satisfies the
invariant. -/
theorem read_inv_init {σ ζ : Type} (F : tsi_frame_protector σ) (ep0 : secure_endpoint σ ζ)
    (d0 : grpc_slice_buffer) (h : ep0.read_buffer = some d0) :
    ReadInv F ep0 d0
      { ep := ep0, cur := 0, end_ := ep0.read_staging_buffer.length, keep_looping := false,
        result := tsi_result.TSI_OK, log := [] } := by
  constructor
  · rfl
  · exact Nat.zero_le _
  · rfl
  · exact ⟨d0, h, fun _ => by simp [unprotect_emitted, calls_ok_nil]⟩
  · intro hne; exact absurd rfl hne
  · intro _ _; exact drained_nil
  · rfl
  · exact ⟨rfl, rfl⟩

theorem copying_read_end {σ ζ : Type} (F : tsi_frame_protector σ) (hF : well_behaved F)
    (ep0 : secure_endpoint σ ζ) (d0 : grpc_slice_buffer) (h0 : ep0.read_buffer = some d0)
    (fuel : Nat) (s' : ReadLoop σ ζ)
    (h : copying_read F fuel
      { ep := ep0, cur := 0, end_ := ep0.read_staging_buffer.length, keep_looping := false,
        result := tsi_result.TSI_OK, log := [] } = some s') :
    ReadEnd F ep0 d0 s' := by
  unfold copying_read at h
  split at h
  · cases h
  · rename_i s1 h1
    cases h
    have hs1 := unprotect_slices_inv F hF ep0 d0 fuel _ _ s1 (read_inv_init F ep0 d0 h0)
      rfl rfl h1
    obtain ⟨e1, e2, e3, ⟨d, hd, e4⟩, e5, e6, e7, e8⟩ := hs1.1
    obtain ⟨o1, o2, o3, o4⟩ := read_split_head_other s1
    obtain ⟨d', hd', hb'⟩ := read_split_head_bytes s1 d hd
    constructor
    · rw [o1, o3]; exact e3
    · refine ⟨d', hd', ?_⟩
      rw [o1, o2]
      intro hok
      have hc := hs1.2.1 hok
      refine ⟨by rw [hb']; exact (e4 hok).1, (e4 hok).2, ?_, e6 hok hc.2⟩
      simpa [unprotect_consumed] using hc.1
    · rw [o1, o2]
      intro hne
      obtain ⟨l, m', cap, n, out, a1, a2, rest, a3⟩ := hs1.2.2 hne
      exact ⟨l, m', cap, n, out, a1, a2, rest, by simpa [unprotect_consumed] using a3⟩
    · rw [o4]; exact e7
    · rw [o1]; exact e8

/-- On the copying path, with the wrapped endpoint still there and a wrapped
read that succeeded, `on_read` is the locked part followed by the tail. -/
theorem on_read_copying {σ ζ : Type} (F : tsi_frame_protector σ) (hF : well_behaved F)
    (Z : tsi_zero_copy_grpc_protector ζ) (ts : tsi_result → String) (fuel : Nat)
    (ep : secure_endpoint σ ζ) (d0 : grpc_slice_buffer) (r : ReadDone σ ζ)
    (hcopy : ep.zero_copy_protector = none) (halive : ep.wrapped_ep ≠ none)
    (hd : ep.read_buffer = some d0)
    (h : on_read F Z ts fuel ep grpc_error_handle.OkStatus = some r) :
    ∃ s : ReadLoop σ ζ, ReadEnd F ep d0 s
      ∧ r = read_finish ts s grpc_error_handle.OkStatus := by
  have hal : ep.wrapped_ep.isNone = false := by
    cases hw : ep.wrapped_ep with
    | none => exact absurd hw halive
    | some w => rfl
  simp only [on_read, hal, grpc_error_handle.ok, hcopy] at h
  simp only [Bool.false_eq_true, false_and, if_false, Bool.not_true] at h
  split at h
  · cases h
  · rename_i s hs
    cases h
    exact ⟨s, copying_read_end F hF ep d0 hd fuel s hs, rfl⟩

theorem endpoint_read_issued {σ ζ : Type} (F : tsi_frame_protector σ)
    (Z : tsi_zero_copy_grpc_protector ζ) (ts : tsi_result → String) (fuel : Nat)
    (ep : secure_endpoint σ ζ) (slices : grpc_slice_buffer) (cb : Option grpc_closure)
    (urgent : Bool) (ep1 : secure_endpoint σ ζ) (log1 : List Event)
    (h : endpoint_read F Z ts fuel ep slices cb urgent = ReadCall.issued ep1 log1) :
    ep1 = secure_endpoint_ref { ep with read_cb := cb, read_buffer := some [] }
      ∧ log1 = [Event.grpc_endpoint_read urgent ep.min_progress_size]
      ∧ ep.leftover_bytes = [] := by
  unfold endpoint_read at h
  simp only [secure_endpoint_ref] at h
  split at h
  · split at h
    · cases h
    · split at h <;> cases h
  · rename_i hl
    cases h
    refine ⟨rfl, rfl, ?_⟩
    simpa using hl

theorem read_finish_ok {σ ζ : Type} (ts : tsi_result → String) (s : ReadLoop σ ζ)
    (h : s.result = tsi_result.TSI_OK) :
    read_finish ts s grpc_error_handle.OkStatus =
      call_read_cb { s.ep with source_buffer := [] } s.result s.log
        grpc_error_handle.OkStatus := by
  simp [read_finish, grpc_error_handle.ok, h]

theorem read_finish_failed {σ ζ : Type} (ts : tsi_result → String) (s : ReadLoop σ ζ)
    (h : s.result ≠ tsi_result.TSI_OK) :
    read_finish ts s grpc_error_handle.OkStatus =
      call_read_cb (update_read_buffer { s.ep with source_buffer := [] } (fun _ => []))
        s.result s.log
        (grpc_error_handle.GRPC_ERROR_CREATE ("Unwrap failed (" ++ ts s.result ++ ")")) := by
  simp [read_finish, grpc_error_handle.ok, h]

/-- For a copying-framer read that returns, whose wrapped read reports success
while the wrapped endpoint has not been released by `destroy`, and whose
`unprotect` calls all returned `TSI_OK`: whatever the destination held before
the read and whatever the length of the read staging slice, the destination
delivered to the caller holds exactly the bytes emitted by the `unprotect` calls
of that read, in call order, and `read_cb` is run once, with OK. -/
theorem copying_read_delivers {σ ζ : Type} (F : tsi_frame_protector σ)
    (hF : well_behaved F) (Z : tsi_zero_copy_grpc_protector ζ) (ts : tsi_result → String)
    (fuel fuel0 : Nat) (ep : secure_endpoint σ ζ) (slices : grpc_slice_buffer)
    (cb : Option grpc_closure) (urgent : Bool) (ep1 : secure_endpoint σ ζ)
    (log1 : List Event) (data : grpc_slice_buffer) (r : ReadDone σ ζ)
    (hcopy : ep.zero_copy_protector = none)
    (hread : endpoint_read F Z ts fuel0 ep slices cb urgent = ReadCall.issued ep1 log1)
    (halive : ep1.wrapped_ep ≠ none)
    (hdone : wrapped_read_done F Z ts fuel ep1 data grpc_error_handle.OkStatus = some r)
    (hok : calls_ok r.log) :
    ∃ d, r.dst = some d ∧ buffer_bytes d = unprotect_emitted r.log
      ∧ runs r.log = [(cb, grpc_error_handle.OkStatus)] := by
  obtain ⟨he1, _, _⟩ := endpoint_read_issued F Z ts fuel0 ep slices cb urgent ep1 log1 hread
  have hz : ({ ep1 with source_buffer := data } : secure_endpoint σ ζ).zero_copy_protector
      = none := by rw [he1]; exact hcopy
  have hb : ({ ep1 with source_buffer := data } : secure_endpoint σ ζ).read_buffer
      = some [] := by rw [he1]; rfl
  obtain ⟨s, hs, hr⟩ := on_read_copying F hF Z ts fuel _ [] r hz halive hb hdone
  have hcb : s.ep.read_cb = cb := by
    have := hs.frame
    simp only [read_frame, Prod.mk.injEq] at this
    rw [this.2.2.1, he1]; rfl
  by_cases hres : s.result = tsi_result.TSI_OK
  · rw [read_finish_ok ts s hres] at hr
    obtain ⟨d, hd, hd'⟩ := hs.dst
    obtain ⟨hbytes, _, _, _⟩ := hd' hres
    refine ⟨d, ?_, ?_, ?_⟩
    · rw [hr]; simpa [call_read_cb] using hd
    · rw [hr]
      simp only [call_read_cb, unprotect_emitted_append]
      simpa [buffer_bytes, unprotect_emitted, Event.unprotect_out] using hbytes
    · rw [hr]
      simp [call_read_cb, runs_append, hs.quiet.1, runs, hcb]
  · exfalso
    obtain ⟨l, m, cap, n, out, hl, _, _⟩ := hs.failed hres
    rw [read_finish_failed ts s hres] at hr
    rw [hr] at hok
    simp only [call_read_cb] at hok
    rw [hl] at hok
    exact calls_ok_of_snoc_failed l (Event.unprotect m cap s.result n out) s.result _ rfl hres hok

/-- C2 as stated fails when `destroy` runs while the read is in flight: the
wrapped read then reports success, no `unprotect` call is made (so none
fails), and `read_cb` is run with an error instead of OK. -/
theorem copying_read_after_destroy_not_ok :
    (match endpoint_read identity_protector passthrough_zero_copy example_result_to_string 10
        (remnant_endpoint () 16) [] (some 7) false with
      | ReadCall.issued ep1 _ =>
        (wrapped_read_done identity_protector passthrough_zero_copy example_result_to_string
          10 (endpoint_destroy ep1) [[1, 2, 3]] grpc_error_handle.OkStatus).map
          (fun r => (decide (calls_ok r.log), r.dst, runs r.log))
      | _ => none)
    = some (true, some [],
        [(some 7, grpc_error_handle.GRPC_ERROR_CREATE_REFERENCING "Secure read failed"
          (grpc_error_handle.CancelledError "secure endpoint shutdown"))]) := by
  rfl

/-! ## The zero-copy write -/

theorem move_first_bytes (src : grpc_slice_buffer) :
    ∀ n, buffer_bytes (move_first src n).2 = (buffer_bytes src).take n
      ∧ buffer_bytes (move_first src n).1 = (buffer_bytes src).drop n := by
  induction src with
  | nil => intro n; simp [move_first, buffer_bytes]
  | cons s rest ih =>
    intro n
    simp only [move_first]
    split
    · rename_i h0; subst h0; simp [buffer_bytes]
    · split
      · rename_i hlt
        have := ih (n - s.length)
        simp only [buffer_bytes] at this ⊢
        simp only [List.flatten_cons, this.1, this.2]
        have hs1 : s.take n = s := List.take_of_length_le (by omega)
        have hs2 : s.drop n = [] := List.drop_of_length_le (by omega)
        constructor
        · rw [List.take_append_eq_append_take, hs1]
        · rw [List.drop_append_eq_append_drop, hs2]
          simp
      · split
        · rename_i heq
          simp only [buffer_bytes, List.flatten_cons, List.flatten_nil, List.append_nil]
          rw [← heq]
          simp
        · have hgt : n < s.length := by omega
          simp only [buffer_bytes, List.flatten_cons, List.flatten_nil, List.append_nil]
          constructor
          · rw [List.take_append_of_le_length (by omega)]
          · rw [List.drop_append_of_le_length (by omega)]

theorem buffer_length_append (a b : grpc_slice_buffer) :
    buffer_length (a ++ b) = buffer_length a + buffer_length b := by
  simp [buffer_length]

theorem buffer_bytes_append (a b : grpc_slice_buffer) :
    buffer_bytes (a ++ b) = buffer_bytes a ++ buffer_bytes b := by
  simp [buffer_bytes]

theorem zero_copy_inputs_append (l₁ l₂ : List Event) :
    zero_copy_inputs (l₁ ++ l₂) = zero_copy_inputs l₁ ++ zero_copy_inputs l₂ := by
  induction l₁ with
  | nil => rfl
  | cons e l ih => cases e <;> simp [zero_copy_inputs, ih]

theorem zero_copy_protect_call_inv {σ ζ : Type} (Z : tsi_zero_copy_grpc_protector ζ)
    (ep0 : secure_endpoint σ ζ) (staged : Bool) (s : ZeroCopyLoop σ ζ)
    (h : ZeroCopyInv ep0 s) (hr : s.result = tsi_result.TSI_OK) :
    ZeroCopyInv ep0 (zero_copy_protect_call Z staged s) := by
  obtain ⟨h1, h2, h3, h4⟩ := h
  constructor
  · intro hok
    simp only [zero_copy_protect_call] at hok ⊢
    rw [calls_ok_append, calls_ok_singleton]
    refine ⟨h1 hr, ?_⟩
    intro r hr'
    simp only [Event.framer_result, Option.some.injEq] at hr'
    rw [← hr']; exact hok
  · intro _
    exact ⟨s.log, _, rfl, h1 hr, rfl⟩
  · simpa [zero_copy_protect_call, zero_copy_frame] using h3
  · simp only [zero_copy_protect_call]
    rw [runs_append, wrapped_writes_append, List.count_append, h4.1, h4.2.1, h4.2.2]
    simp [runs, wrapped_writes]

theorem zero_copy_chunk_loop_inv {σ ζ : Type} (Z : tsi_zero_copy_grpc_protector ζ)
    (ep0 : secure_endpoint σ ζ) (M : Nat) (fuel : Nat) :
    ∀ (s s' : ZeroCopyLoop σ ζ), ZeroCopyInv ep0 s →
    zero_copy_chunk_loop Z M fuel s = some s' → ZeroCopyInv ep0 s' := by
  induction fuel with
  | zero => intro s s' _ h; simp [zero_copy_chunk_loop] at h
  | succ fuel ih =>
    intro s s' hinv h
    simp only [zero_copy_chunk_loop] at h
    split at h
    · rename_i hc
      refine ih _ _ ?_ h
      refine zero_copy_protect_call_inv Z ep0 true _ ?_ hc.2
      obtain ⟨h1, h2, h3, h4⟩ := hinv
      exact ⟨h1, h2, by simpa [zero_copy_frame] using h3, h4⟩
    · cases h; exact hinv

theorem zero_copy_write_inv {σ ζ : Type} (Z : tsi_zero_copy_grpc_protector ζ)
    (ep0 : secure_endpoint σ ζ) (fuel : Nat) (args : WriteArgs) (z : ζ)
    (slices : grpc_slice_buffer) (s' : ZeroCopyLoop σ ζ)
    (h : zero_copy_write Z fuel args
      { ep := ep0, z := z, slices := slices, result := tsi_result.TSI_OK, log := [] }
      = some s') :
    ZeroCopyInv ep0 s' := by
  unfold zero_copy_write at h
  split at h
  · cases h
  · rename_i s1 h1
    cases h
    have hinit : ZeroCopyInv ep0
        ({ ep := ep0, z := z, slices := slices, result := tsi_result.TSI_OK, log := [] } :
          ZeroCopyLoop σ ζ) :=
      ⟨fun _ => calls_ok_nil, fun hne => absurd rfl hne, rfl, ⟨rfl, rfl, rfl⟩⟩
    have hs1 := zero_copy_chunk_loop_inv Z ep0 _ fuel _ s1 hinit h1
    have hs2 : ZeroCopyInv ep0
        (if s1.result = tsi_result.TSI_OK ∧ buffer_length s1.slices > 0 then
          zero_copy_protect_call Z false s1 else s1) := by
      split
      · rename_i hc; exact zero_copy_protect_call_inv Z ep0 false s1 hs1 hc.1
      · exact hs1
    obtain ⟨a1, a2, a3, a4⟩ := hs2
    exact ⟨a1, a2, by simpa [zero_copy_frame] using a3, a4⟩

theorem chunk_sizes_length (M : Nat) (hM : 0 < M) :
    ∀ (k L : Nat), L < k → (chunk_sizes M k L).length = (L + M - 1) / M := by
  intro k
  induction k with
  | zero => intro L h; omega
  | succ k ih =>
    intro L hL
    simp only [chunk_sizes]
    split
    · rename_i hgt
      rw [List.length_cons, ih (L - M) (by omega)]
      have : L + M - 1 = (L - M + M - 1) + M := by omega
      rw [this, Nat.add_div_right _ hM]
    · split
      · rename_i h1 h2
        have h3 : (L + M - 1) / M = 1 := by
          apply Nat.div_eq_of_lt_le <;> omega
        simp [h3]
      · rename_i h1 h2
        have h0 : L = 0 := by omega
        subst h0
        simp only [List.length_nil, Nat.zero_add]
        exact (Nat.div_eq_of_lt (by omega)).symm

theorem chunk_sizes_le (M : Nat) :
    ∀ (k L : Nat), ∀ x ∈ chunk_sizes M k L, x ≤ M := by
  intro k
  induction k with
  | zero => intro L x hx; simp [chunk_sizes] at hx
  | succ k ih =>
    intro L x hx
    simp only [chunk_sizes] at hx
    split at hx
    · rcases List.mem_cons.mp hx with h | h
      · omega
      · exact ih _ x h
    · split at hx
      · simp only [List.mem_singleton] at hx; omega
      · simp at hx

theorem chunk_sizes_fuel (M : Nat) (hM : 0 < M) :
    ∀ (k k' L : Nat), L < k → L < k' → chunk_sizes M k L = chunk_sizes M k' L := by
  intro k
  induction k with
  | zero => intro k' L h; omega
  | succ k ih =>
    intro k' L h h'
    cases k' with
    | zero => omega
    | succ k' =>
      simp only [chunk_sizes]
      split
      · rw [ih k' (L - M) (by omega) (by omega)]
      · rfl

theorem static_cast_size_t_eq (M : Int) (h1 : 0 ≤ M) (h2 : M < 2 ^ 63) :
    static_cast_size_t M = M.toNat := by
  unfold static_cast_size_t
  rw [Int.emod_eq_of_lt h1 (by omega)]

/-- On the zero-copy path `endpoint_write` is the locked part followed by the
tail. -/
theorem endpoint_write_zero_copy {σ ζ : Type} (F : tsi_frame_protector σ)
    (Z : tsi_zero_copy_grpc_protector ζ) (ts : tsi_result → String) (fuel : Nat)
    (ep : secure_endpoint σ ζ) (z : ζ) (slices : grpc_slice_buffer)
    (cb : Option grpc_closure) (args : WriteArgs) (hzc : ep.zero_copy_protector = some z) :
    endpoint_write F Z ts fuel ep slices cb args =
      (zero_copy_write Z fuel args
        { ep := { ep with output_buffer := [] }, z := z, slices := slices,
          result := tsi_result.TSI_OK, log := [] }).map
        (fun s => write_finish ts s.ep s.slices s.result s.log cb args) := by
  cases ep
  simp only at hzc
  subst hzc
  simp only [endpoint_write]
  split <;> simp_all

/-! ## Exits of `on_read` -/

/-- When the error `on_read` works with is not OK, `on_read` returns whatever
the fuel: it resets the destination and runs `read_cb` with "Secure read
failed" referencing that error; no other call is made and no other field
changes except the reference count. -/
theorem on_read_error {σ ζ : Type} (F : tsi_frame_protector σ)
    (Z : tsi_zero_copy_grpc_protector ζ) (ts : tsi_result → String) (fuel : Nat)
    (ep : secure_endpoint σ ζ) (error : grpc_error_handle)
    (h : (read_error ep error).ok = false) :
    on_read F Z ts fuel ep error = some
      (call_read_cb (update_read_buffer ep (fun _ => [])) tsi_result.TSI_OK []
        (grpc_error_handle.GRPC_ERROR_CREATE_REFERENCING "Secure read failed"
          (read_error ep error))) := by
  unfold read_error at h
  simp only [on_read, read_finish, read_error, h]
  simp

/-- On the zero-copy path, with an error that is OK, `on_read` returns whatever
the fuel: one `unprotect` call followed by the tail. -/
theorem on_read_zero_copy {σ ζ : Type} (F : tsi_frame_protector σ)
    (Z : tsi_zero_copy_grpc_protector ζ) (ts : tsi_result → String) (fuel : Nat)
    (ep : secure_endpoint σ ζ) (z : ζ) (error : grpc_error_handle)
    (h : (read_error ep error).ok = true) (hz : ep.zero_copy_protector = some z) :
    on_read F Z ts fuel ep error = some
      (read_finish ts (zero_copy_read Z z
        { ep := ep, cur := 0, end_ := ep.read_staging_buffer.length, keep_looping := false,
          result := tsi_result.TSI_OK, log := [] }) (read_error ep error)) := by
  unfold read_error at h
  simp only [on_read, read_error, h, hz]
  simp

theorem read_error_ok {σ ζ : Type} (ep : secure_endpoint σ ζ) (error : grpc_error_handle)
    (h : (read_error ep error).ok = true) :
    read_error ep error = grpc_error_handle.OkStatus ∧ error = grpc_error_handle.OkStatus
      ∧ ep.wrapped_ep ≠ none := by
  unfold read_error at h ⊢
  split at h
  · simp [grpc_error_handle.ok] at h
  · rename_i hc
    have he : error = grpc_error_handle.OkStatus := by
      cases error <;> simp [grpc_error_handle.ok] at h ⊢
    subst he
    refine ⟨by rw [if_neg hc], rfl, ?_⟩
    intro hw
    exact hc ⟨by rw [hw]; rfl, rfl⟩

theorem endpoint_destroy_fields {σ ζ : Type} (ep : secure_endpoint σ ζ) :
    (endpoint_destroy ep).wrapped_ep = none
      ∧ (endpoint_destroy ep).read_buffer = ep.read_buffer
      ∧ (endpoint_destroy ep).read_cb = ep.read_cb
      ∧ (endpoint_destroy ep).zero_copy_protector = ep.zero_copy_protector := by
  unfold endpoint_destroy reclaimer_callback secure_endpoint_unref
  simp only [Bool.false_eq_true, if_false]
  split <;> split <;> (try split) <;> simp

theorem read_error_released {σ ζ : Type} (ep : secure_endpoint σ ζ)
    (error : grpc_error_handle) (h : ep.wrapped_ep = none) :
    read_error ep error =
        (if error.ok = true then grpc_error_handle.CancelledError "secure endpoint shutdown"
          else error)
      ∧ (read_error ep error).ok = false := by
  unfold read_error
  rw [h]
  cases error <;> simp [grpc_error_handle.ok]

theorem read_error_of_not_ok {σ ζ : Type} (ep : secure_endpoint σ ζ)
    (error : grpc_error_handle) (h : error.ok = false) : read_error ep error = error := by
  unfold read_error
  simp [h]

/-- C6, as amended. For every read that is in flight when `destroy` is called:
when the wrapped read afterwards completes, `on_read` returns, makes no framer
call, leaves the plaintext destination empty and runs `read_cb` once with the
error "Secure read failed"; that error references the cancellation error
"secure endpoint shutdown" when the wrapped read reported success (whatever
ciphertext it brought), and the wrapped read's own error otherwise. -/
theorem read_completion_after_destroy {σ ζ : Type} (F : tsi_frame_protector σ)
    (Z : tsi_zero_copy_grpc_protector ζ) (ts : tsi_result → String) (fuel : Nat)
    (ep : secure_endpoint σ ζ) (slices : grpc_slice_buffer) (cb : Option grpc_closure)
    (urgent : Bool) (ep1 : secure_endpoint σ ζ) (log1 : List Event)
    (data : grpc_slice_buffer) (error : grpc_error_handle)
    (hread : endpoint_read F Z ts fuel ep slices cb urgent = ReadCall.issued ep1 log1) :
    ∃ r, wrapped_read_done F Z ts fuel (endpoint_destroy ep1) data error = some r
      ∧ framer_calls r.log = []
      ∧ r.dst = some []
      ∧ runs r.log = [(cb, grpc_error_handle.GRPC_ERROR_CREATE_REFERENCING "Secure read failed"
          (if error.ok = true then grpc_error_handle.CancelledError "secure endpoint shutdown"
            else error))]
      ∧ (error.ok = true → ∀ e ∈ runs r.log, reports_cancellation e.2 = true) := by
  obtain ⟨he1, _, _⟩ := endpoint_read_issued F Z ts fuel ep slices cb urgent ep1 log1 hread
  obtain ⟨d1, d2, d3, _⟩ := endpoint_destroy_fields ep1
  have hw : ({ endpoint_destroy ep1 with source_buffer := data } :
      secure_endpoint σ ζ).wrapped_ep = none := d1
  obtain ⟨e1, e2⟩ := read_error_released _ error hw
  have hb : (endpoint_destroy ep1).read_buffer = some [] := by rw [d2, he1]; rfl
  have hcb : (endpoint_destroy ep1).read_cb = cb := by rw [d3, he1]; rfl
  refine ⟨_, on_read_error F Z ts fuel _ error e2, ?_, ?_, ?_, ?_⟩
  · simp [call_read_cb, framer_calls, Event.is_framer_call, Event.framer_result]
  · simp [call_read_cb, update_read_buffer, hb]
  · simp only [call_read_cb, List.nil_append, runs, e1]
    simp [update_read_buffer, hcb]
  · intro hok e he
    simp only [call_read_cb, List.nil_append, runs, e1, hok, if_true,
      List.mem_singleton] at he
    rw [he]
    rfl

theorem read_completion_after_destroy_witness :
    ∃ ep1 log1 r,
      endpoint_read identity_protector passthrough_zero_copy example_result_to_string 10
        (remnant_endpoint () 16) [] (some 7) false = ReadCall.issued ep1 log1
      ∧ wrapped_read_done identity_protector passthrough_zero_copy example_result_to_string 10
          (endpoint_destroy ep1) [[1, 2, 3]] grpc_error_handle.OkStatus = some r
      ∧ framer_calls r.log = []
      ∧ r.dst = some []
      ∧ runs r.log = [(some 7,
          grpc_error_handle.GRPC_ERROR_CREATE_REFERENCING "Secure read failed"
            (grpc_error_handle.CancelledError "secure endpoint shutdown"))] := by
  obtain ⟨r, h1, h2, h3, h4, _⟩ := read_completion_after_destroy identity_protector
    passthrough_zero_copy example_result_to_string 10 (remnant_endpoint () 16) [] (some 7)
    false _ _ [[1, 2, 3]] grpc_error_handle.OkStatus rfl
  exact ⟨_, _, r, rfl, h1, h2, h3, h4⟩

/-- C6 as stated fails when the wrapped read that completes after `destroy`
reports an error of its own: the completion delivered to the caller then
references that error and no cancellation. -/
theorem read_after_destroy_reports_wrapped_error :
    (match endpoint_read identity_protector passthrough_zero_copy example_result_to_string 10
        (remnant_endpoint () 16) [] (some 7) false with
      | ReadCall.issued ep1 _ =>
        (wrapped_read_done identity_protector passthrough_zero_copy example_result_to_string
          10 (endpoint_destroy ep1) [] (grpc_error_handle.other 14 "Socket closed")).map
          (fun r => (runs r.log, (runs r.log).map (fun e => reports_cancellation e.2)))
      | _ => none)
    = some ([(some 7, grpc_error_handle.GRPC_ERROR_CREATE_REFERENCING "Secure read failed"
          (grpc_error_handle.other 14 "Socket closed"))], [false]) := by
  rfl

theorem secure_endpoint_unref_fields {σ ζ : Type} (ep : secure_endpoint σ ζ) :
    (secure_endpoint_unref ep).min_progress_size = ep.min_progress_size
      ∧ (secure_endpoint_unref ep).read_staging_buffer = ep.read_staging_buffer
      ∧ (secure_endpoint_unref ep).write_staging_buffer = ep.write_staging_buffer
      ∧ (secure_endpoint_unref ep).write_cb = ep.write_cb
      ∧ (secure_endpoint_unref ep).read_cb = ep.read_cb
      ∧ (secure_endpoint_unref ep).ref = ep.ref - 1 := by
  unfold secure_endpoint_unref
  split <;> simp

/-- C7. For every non-OK result `e` of the wrapped read, `on_read` returns
without a framer call, clears the destination buffer, and runs `read_cb` with
the error whose message is "Secure read failed" and whose child is `e`;
`min_progress_size` and both staging slices are as before. -/
theorem read_transport_error {σ ζ : Type} (F : tsi_frame_protector σ)
    (Z : tsi_zero_copy_grpc_protector ζ) (ts : tsi_result → String) (fuel : Nat)
    (ep : secure_endpoint σ ζ) (e : grpc_error_handle) (d : grpc_slice_buffer)
    (he : e.ok = false) (hd : ep.read_buffer = some d) :
    ∃ r, on_read F Z ts fuel ep e = some r
      ∧ r.log = [Event.run ep.read_cb
          (grpc_error_handle.GRPC_ERROR_CREATE_REFERENCING "Secure read failed" e)]
      ∧ framer_calls r.log = []
      ∧ r.dst = some []
      ∧ r.ep.min_progress_size = ep.min_progress_size
      ∧ r.ep.read_staging_buffer = ep.read_staging_buffer
      ∧ r.ep.write_staging_buffer = ep.write_staging_buffer := by
  have h1 := read_error_of_not_ok ep e he
  have h2 : (read_error ep e).ok = false := by rw [h1]; exact he
  refine ⟨_, on_read_error F Z ts fuel ep e h2, ?_, ?_, ?_, ?_, ?_, ?_⟩
  · simp [call_read_cb, update_read_buffer, h1]
  · simp [call_read_cb, framer_calls, Event.is_framer_call, Event.framer_result]
  · simp [call_read_cb, update_read_buffer, hd]
  · simp only [call_read_cb]
    rw [(secure_endpoint_unref_fields _).1]; rfl
  · simp only [call_read_cb]
    rw [(secure_endpoint_unref_fields _).2.1]; rfl
  · simp only [call_read_cb]
    rw [(secure_endpoint_unref_fields _).2.2.1]; rfl

theorem read_transport_error_witness :
    ∃ r, on_read queue_protector passthrough_zero_copy example_result_to_string 0
        { (remnant_endpoint [] 16 : secure_endpoint (List Byte) Unit) with
          read_cb := some 7, read_buffer := some [], source_buffer := [[1, 2]], ref := 2 }
        (grpc_error_handle.other 14 "Socket closed") = some r
      ∧ r.log = [Event.run (some 7) (grpc_error_handle.GRPC_ERROR_CREATE_REFERENCING
          "Secure read failed" (grpc_error_handle.other 14 "Socket closed"))]
      ∧ framer_calls r.log = []
      ∧ r.dst = some []
      ∧ r.ep.min_progress_size = 1
      ∧ r.ep.read_staging_buffer = List.replicate 16 0
      ∧ r.ep.write_staging_buffer = List.replicate 16 0 :=
  read_transport_error queue_protector passthrough_zero_copy example_result_to_string 0
    { (remnant_endpoint [] 16 : secure_endpoint (List Byte) Unit) with
      read_cb := some 7, read_buffer := some [], source_buffer := [[1, 2]], ref := 2 }
    (grpc_error_handle.other 14 "Socket closed") [] rfl rfl

theorem zero_copy_read_log {σ ζ : Type} (Z : tsi_zero_copy_grpc_protector ζ) (z : ζ)
    (ep : secure_endpoint σ ζ) :
    ∃ c : ZeroCopyUnprotectCall ζ,
      (zero_copy_read Z z
        { ep := ep, cur := 0, end_ := ep.read_staging_buffer.length, keep_looping := false,
          result := tsi_result.TSI_OK, log := [] }).log
        = [Event.zero_copy_unprotect ep.source_buffer c.result]
      ∧ (zero_copy_read Z z
        { ep := ep, cur := 0, end_ := ep.read_staging_buffer.length, keep_looping := false,
          result := tsi_result.TSI_OK, log := [] }).result = c.result
      ∧ (zero_copy_read Z z
        { ep := ep, cur := 0, end_ := ep.read_staging_buffer.length, keep_looping := false,
          result := tsi_result.TSI_OK, log := [] }).ep.read_cb = ep.read_cb
      ∧ (zero_copy_read Z z
        { ep := ep, cur := 0, end_ := ep.read_staging_buffer.length, keep_looping := false,
          result := tsi_result.TSI_OK, log := [] }).ep.read_buffer
          = ep.read_buffer.map (fun _ => c.unprotected_slices) :=
  ⟨Z.unprotect z ep.source_buffer (ep.read_buffer.getD []) 1, rfl, rfl, rfl, rfl⟩

/-- For every read that returns, whose wrapped read succeeds and in which a framer
`unprotect` call, copying or zero-copy, returns a status `s` other than
`TSI_OK`: that call is the last framer call of the read, all calls before it
returned `TSI_OK`, and the only call after it runs `read_cb` with the error
whose message is "Unwrap failed (" followed by the string form of `s` followed
by ")". -/
theorem read_framer_error_exit {σ ζ : Type} (F : tsi_frame_protector σ) (hF : well_behaved F)
    (Z : tsi_zero_copy_grpc_protector ζ) (ts : tsi_result → String) (fuel : Nat)
    (ep : secure_endpoint σ ζ) (d : grpc_slice_buffer) (r : ReadDone σ ζ)
    (hd : ep.read_buffer = some d)
    (h : on_read F Z ts fuel ep grpc_error_handle.OkStatus = some r)
    (hfail : ¬ calls_ok r.log) :
    ∃ l ev s, r.log = l ++ [ev, Event.run ep.read_cb
          (grpc_error_handle.GRPC_ERROR_CREATE ("Unwrap failed (" ++ ts s ++ ")"))]
      ∧ calls_ok l ∧ ev.framer_result = some s ∧ s ≠ tsi_result.TSI_OK := by
  by_cases hok : (read_error ep grpc_error_handle.OkStatus).ok = true
  · obtain ⟨e1, _, halive⟩ := read_error_ok ep _ hok
    cases hz : ep.zero_copy_protector with
    | some z =>
      rw [on_read_zero_copy F Z ts fuel ep z _ hok hz, e1] at h
      cases h
      obtain ⟨c, c1, c2, c3, _⟩ := zero_copy_read_log Z z ep
      by_cases hres : c.result = tsi_result.TSI_OK
      · exfalso
        apply hfail
        rw [read_finish_ok ts _ (by rw [c2]; exact hres)]
        simp only [call_read_cb, c1]
        intro e he
        simp only [List.cons_append, List.nil_append, List.mem_cons, List.mem_singleton,
          List.not_mem_nil, or_false] at he
        rcases he with he | he <;> rw [he] <;> simp [Event.call_ok, Event.framer_result, hres]
      · refine ⟨[], Event.zero_copy_unprotect ep.source_buffer c.result, c.result, ?_,
          calls_ok_nil, rfl, hres⟩
        rw [read_finish_failed ts _ (by rw [c2]; exact hres)]
        simp only [call_read_cb, c1, c2, update_read_buffer, c3]
        rfl
    | none =>
      obtain ⟨s, hs, hr⟩ := on_read_copying F hF Z ts fuel ep d r hz halive hd h
      have hcb : s.ep.read_cb = ep.read_cb := by
        have := hs.frame
        simp only [read_frame, Prod.mk.injEq] at this
        exact this.2.2.1
      by_cases hres : s.result = tsi_result.TSI_OK
      · exfalso
        apply hfail
        obtain ⟨_, _, hd'⟩ := hs.dst
        rw [hr, read_finish_ok ts s hres]
        simp only [call_read_cb]
        rw [calls_ok_append, calls_ok_singleton]
        exact ⟨(hd' hres).2.1, by simp [Event.framer_result]⟩
      · obtain ⟨l, m, cap, n, out, hl, hl2, _⟩ := hs.failed hres
        refine ⟨l, Event.unprotect m cap s.result n out, s.result, ?_, hl2, rfl, hres⟩
        rw [hr, read_finish_failed ts s hres]
        simp only [call_read_cb, hl, update_read_buffer, hcb]
        simp
  · exfalso
    apply hfail
    have hno : (read_error ep grpc_error_handle.OkStatus).ok = false := by
      simpa using hok
    rw [on_read_error F Z ts fuel ep _ hno] at h
    cases h
    simp only [call_read_cb, List.nil_append]
    rw [calls_ok_singleton]
    simp [Event.framer_result]

/-! ## Exits of `endpoint_write` -/

/-- What the locked part of `endpoint_write` hands to the tail, on either
path. -/
theorem endpoint_write_exit {σ ζ : Type} (F : tsi_frame_protector σ) (hF : well_behaved F)
    (Z : tsi_zero_copy_grpc_protector ζ) (ts : tsi_result → String) (fuel : Nat)
    (ep : secure_endpoint σ ζ) (slices : grpc_slice_buffer) (cb : Option grpc_closure)
    (args : WriteArgs) (r : WriteDone σ ζ)
    (h : endpoint_write F Z ts fuel ep slices cb args = some r) :
    ∃ (ep' : secure_endpoint σ ζ) (slices' : grpc_slice_buffer) (result : tsi_result)
      (log : List Event),
      r = write_finish ts ep' slices' result log cb args
      ∧ (result = tsi_result.TSI_OK → calls_ok log)
      ∧ (result ≠ tsi_result.TSI_OK →
          ∃ l ev, log = l ++ [ev] ∧ calls_ok l ∧ ev.framer_result = some result)
      ∧ runs log = [] ∧ wrapped_writes log = []
      ∧ ep'.write_cb = ep.write_cb
      ∧ ep'.ref = ep.ref + log.count Event.post_reclaimer
      ∧ log.count Event.post_reclaimer ≤ 1
      ∧ (ep.has_posted_reclaimer = true → log.count Event.post_reclaimer = 0) := by
  cases hz : ep.zero_copy_protector with
  | some z =>
    rw [endpoint_write_zero_copy F Z ts fuel ep z slices cb args hz] at h
    cases hw : zero_copy_write Z fuel args
        { ep := { ep with output_buffer := [] }, z := z, slices := slices,
          result := tsi_result.TSI_OK, log := [] } with
    | none => rw [hw] at h; cases h
    | some s =>
      rw [hw] at h
      simp only [Option.map_some', Option.some.injEq] at h
      have hs := zero_copy_write_inv Z _ fuel args z slices s hw
      have hfr := hs.frame
      simp only [zero_copy_frame, Prod.mk.injEq] at hfr
      refine ⟨s.ep, s.slices, s.result, s.log, h.symm, hs.ok, hs.failed, hs.quiet.1,
        hs.quiet.2.1, hfr.2.2.2.1, ?_, ?_, ?_⟩
      · rw [hs.quiet.2.2]; simp [hfr.2.2.2.2.2.2.2.2.2.2.2.1]
      · rw [hs.quiet.2.2]; exact Nat.zero_le _
      · intro _; exact hs.quiet.2.2
  | none =>
    obtain ⟨s, hs, hr⟩ := endpoint_write_copying F hF Z ts fuel ep slices cb args r hz h
    have hfr := hs.frame
    simp only [write_frame, Prod.mk.injEq] at hfr
    refine ⟨s.ep, slices, s.result, s.log, hr, fun hok => (hs.ok hok).2.1, hs.failed,
      hs.quiet.1, hs.quiet.2, hfr.2.2.2.1, ?_, ?_, ?_⟩
    · rcases hs.reclaimer with ⟨_, b, _, d⟩ | ⟨_, _, c, _, e⟩
      · rw [d, b]; simp
      · rw [e, c]; simp
    · rcases hs.reclaimer with ⟨_, _, _, d⟩ | ⟨_, _, _, _, e⟩
      · rw [d]; exact Nat.zero_le _
      · rw [e]
    · intro hp
      rcases hs.reclaimer with ⟨_, _, _, d⟩ | ⟨a, _, _, _, _⟩
      · exact d
      · simp only [] at a
        rw [hp] at a
        cases a

/-- For every write that returns and in which a framer call (copying `protect`,
`protect_flush`, or zero-copy `protect`) returns a status `s` other than
`TSI_OK`: that call is the last framer call of the write, `output_buffer` is
empty afterwards, the wrapped endpoint's write is not called, `cb` is run with
the error whose message is "Wrap failed (" followed by the string form of `s`
followed by ")", and `write_cb` is as before the write.  The reference count is
as before the write, plus one when the write posted a reclaimer (it posts at
most one, and none when one was already posted). -/
theorem write_framer_error_exit {σ ζ : Type} (F : tsi_frame_protector σ) (hF : well_behaved F)
    (Z : tsi_zero_copy_grpc_protector ζ) (ts : tsi_result → String) (fuel : Nat)
    (ep : secure_endpoint σ ζ) (slices : grpc_slice_buffer) (cb : Option grpc_closure)
    (args : WriteArgs) (r : WriteDone σ ζ)
    (h : endpoint_write F Z ts fuel ep slices cb args = some r)
    (hfail : ¬ calls_ok r.log) :
    (∃ l ev s, r.log = l ++ [ev, Event.run cb
          (grpc_error_handle.GRPC_ERROR_CREATE ("Wrap failed (" ++ ts s ++ ")"))]
        ∧ calls_ok l ∧ ev.framer_result = some s ∧ s ≠ tsi_result.TSI_OK)
      ∧ r.ep.output_buffer = []
      ∧ wrapped_writes r.log = []
      ∧ r.ep.write_cb = ep.write_cb
      ∧ r.ep.ref = ep.ref + r.log.count Event.post_reclaimer
      ∧ r.log.count Event.post_reclaimer ≤ 1
      ∧ (ep.has_posted_reclaimer = true → r.ep.ref = ep.ref) := by
  obtain ⟨ep', slices', result, log, hr, h1, h2, h3, h4, h5, h6, h7, h8⟩ :=
    endpoint_write_exit F hF Z ts fuel ep slices cb args r h
  by_cases hres : result = tsi_result.TSI_OK
  · exfalso
    apply hfail
    rw [hr, write_finish_ok ts _ _ _ _ _ _ hres]
    simp only []
    rw [calls_ok_append, calls_ok_singleton]
    exact ⟨h1 hres, by simp [Event.framer_result]⟩
  · obtain ⟨l, ev, hl, hl2, hev⟩ := h2 hres
    rw [write_finish_failed ts _ _ _ _ _ _ hres] at hr
    have hcount : r.log.count Event.post_reclaimer = log.count Event.post_reclaimer := by
      rw [hr]; simp [List.count_append]
    refine ⟨⟨l, ev, result, ?_, hl2, hev, hres⟩, ?_, ?_, ?_, ?_, ?_, ?_⟩
    · rw [hr, hl]; simp
    · rw [hr]
    · rw [hr]; simp [wrapped_writes_append, h4, wrapped_writes]
    · rw [hr]; exact h5
    · rw [hcount, hr]; exact h6
    · rw [hcount]; exact h7
    · intro hp
      have := h8 hp
      rw [hr]
      simp only []
      rw [h6, this]
      simp

/-- C9 as stated fails on the reference count: a copying write whose staging
slice fills before the framer fails posts a reclaimer, which keeps a reference.
Here the count is 1 before the write and 2 after it. -/
theorem write_framer_error_keeps_reclaimer_ref :
    (remnant_endpoint 1 2 : secure_endpoint Nat Unit).ref = 1
      ∧ (endpoint_write (limited_protector 5) passthrough_zero_copy example_result_to_string 10
          (remnant_endpoint 1 2) [[1, 2, 3]] (some 7) { max_frame_size := 0 }).map
          (fun r => (decide (calls_ok r.log), r.ep.ref, runs r.log,
            r.log.count Event.post_reclaimer))
        = some (false, 2,
            [(some 7, grpc_error_handle.GRPC_ERROR_CREATE "Wrap failed (TSI_ERROR_5)")], 1) := by
  constructor
  · rfl
  · rfl

/-! ## One completion per operation -/

/-- Every exit of `on_read` runs the stored `read_cb` once and nothing else: with
"Secure read failed" on a transport error (or after `destroy`), with "Unwrap
failed" on a framer error, with OK otherwise. -/
theorem on_read_runs_once {σ ζ : Type} (F : tsi_frame_protector σ) (hF : well_behaved F)
    (Z : tsi_zero_copy_grpc_protector ζ) (ts : tsi_result → String) (fuel : Nat)
    (ep : secure_endpoint σ ζ) (error : grpc_error_handle) (d : grpc_slice_buffer)
    (r : ReadDone σ ζ) (hd : ep.read_buffer = some d)
    (h : on_read F Z ts fuel ep error = some r) :
    runs r.log = [(ep.read_cb, grpc_error_handle.GRPC_ERROR_CREATE_REFERENCING
        "Secure read failed" (read_error ep error))]
      ∨ (∃ s, s ≠ tsi_result.TSI_OK ∧ runs r.log = [(ep.read_cb,
          grpc_error_handle.GRPC_ERROR_CREATE ("Unwrap failed (" ++ ts s ++ ")"))])
      ∨ runs r.log = [(ep.read_cb, grpc_error_handle.OkStatus)] := by
  by_cases hok : (read_error ep error).ok = true
  · obtain ⟨e1, e2, halive⟩ := read_error_ok ep _ hok
    subst e2
    right
    cases hz : ep.zero_copy_protector with
    | some z =>
      rw [on_read_zero_copy F Z ts fuel ep z _ hok hz, e1] at h
      cases h
      obtain ⟨c, c1, c2, c3, _⟩ := zero_copy_read_log Z z ep
      by_cases hres : c.result = tsi_result.TSI_OK
      · right
        rw [read_finish_ok ts _ (by rw [c2]; exact hres)]
        simp only [call_read_cb, c1, c3]
        rfl
      · left
        refine ⟨c.result, hres, ?_⟩
        rw [read_finish_failed ts _ (by rw [c2]; exact hres)]
        simp only [call_read_cb, c1, c2, update_read_buffer, c3]
        rfl
    | none =>
      obtain ⟨s, hs, hr⟩ := on_read_copying F hF Z ts fuel ep d r hz halive hd h
      have hcb : s.ep.read_cb = ep.read_cb := by
        have := hs.frame
        simp only [read_frame, Prod.mk.injEq] at this
        exact this.2.2.1
      by_cases hres : s.result = tsi_result.TSI_OK
      · right
        rw [hr, read_finish_ok ts s hres]
        simp [call_read_cb, runs_append, hs.quiet.1, runs, hcb]
      · left
        refine ⟨s.result, hres, ?_⟩
        rw [hr, read_finish_failed ts s hres]
        simp [call_read_cb, runs_append, hs.quiet.1, runs, hcb, update_read_buffer]
  · left
    have hno : (read_error ep error).ok = false := by simpa using hok
    rw [on_read_error F Z ts fuel ep _ hno] at h
    cases h
    simp [call_read_cb, runs, update_read_buffer]

/-- Every exit of `endpoint_write` either runs `cb` once with "Wrap failed" and
does not call the wrapped write (so no `on_write` follows and `write_cb` is
untouched), or calls the wrapped write once without running `cb` and stores
`cb` in `write_cb`, from where `on_write` runs it once with the result of the
wrapped write and clears `write_cb`. -/
theorem endpoint_write_completes_once {σ ζ : Type} (F : tsi_frame_protector σ)
    (hF : well_behaved F) (Z : tsi_zero_copy_grpc_protector ζ) (ts : tsi_result → String)
    (fuel : Nat) (ep : secure_endpoint σ ζ) (slices : grpc_slice_buffer)
    (cb : Option grpc_closure) (args : WriteArgs) (r : WriteDone σ ζ)
    (h : endpoint_write F Z ts fuel ep slices cb args = some r) :
    (∃ s, s ≠ tsi_result.TSI_OK
        ∧ runs r.log = [(cb, grpc_error_handle.GRPC_ERROR_CREATE
            ("Wrap failed (" ++ ts s ++ ")"))]
        ∧ wrapped_writes r.log = [] ∧ r.ep.write_cb = ep.write_cb)
      ∨ (runs r.log = [] ∧ wrapped_writes r.log = [r.ep.output_buffer]
        ∧ r.ep.write_cb = cb
        ∧ ∀ error, runs (on_write r.ep error).2 = [(cb, error)]
            ∧ wrapped_writes (on_write r.ep error).2 = []
            ∧ (on_write r.ep error).1.write_cb = none) := by
  obtain ⟨ep', slices', result, log, hr, _, _, h3, h4, h5, _, _, _⟩ :=
    endpoint_write_exit F hF Z ts fuel ep slices cb args r h
  by_cases hres : result = tsi_result.TSI_OK
  · right
    rw [write_finish_ok ts _ _ _ _ _ _ hres] at hr
    rw [hr]
    refine ⟨?_, ?_, rfl, ?_⟩
    · simp [runs_append, h3, runs]
    · simp [wrapped_writes_append, h4, wrapped_writes, secure_endpoint_ref]
    · intro error
      refine ⟨rfl, rfl, ?_⟩
      simp only [on_write]
      rw [(secure_endpoint_unref_fields _).2.2.2.1]
  · left
    rw [write_finish_failed ts _ _ _ _ _ _ hres] at hr
    rw [hr]
    refine ⟨result, hres, ?_, ?_, h5⟩
    · simp [runs_append, h3, runs]
    · simp [wrapped_writes_append, h4, wrapped_writes]

/-! ## The loops return for a framer that makes progress -/

theorem protect_loop_nil {σ ζ : Type} (F : tsi_frame_protector σ) (k : Nat)
    (s : WriteLoop σ ζ) : protect_loop F (k + 1) s [] = some s := by
  simp [protect_loop]

theorem protect_loop_fail {σ ζ : Type} (F : tsi_frame_protector σ) (k : Nat)
    (s : WriteLoop σ ζ) (m : List Byte) (c : FrameCall σ)
    (hc : c = F.protect s.ep.protector m (s.end_ - s.cur)) (hm : m ≠ [])
    (h : c.result ≠ tsi_result.TSI_OK) :
    protect_loop F (k + 1) s m = some (write_called s c.state c.out c.result
      (protect_event m (s.end_ - s.cur) c)) := by
  subst hc
  have hl : m.length > 0 := List.length_pos.mpr hm
  simp only [protect_loop, hl, if_true]
  split
  · rfl
  · rename_i hok; exact absurd h hok

theorem protect_loop_ok {σ ζ : Type} (F : tsi_frame_protector σ) (k : Nat)
    (s : WriteLoop σ ζ) (m : List Byte) (c : FrameCall σ)
    (hc : c = F.protect s.ep.protector m (s.end_ - s.cur)) (hm : m ≠ [])
    (h : c.result = tsi_result.TSI_OK) :
    protect_loop F (k + 1) s m = protect_loop F k
      (write_advanced (write_called s c.state c.out c.result
        (protect_event m (s.end_ - s.cur) c)) c.out.length)
      (m.drop c.processed) := by
  subst hc
  have hl : m.length > 0 := List.length_pos.mpr hm
  simp only [protect_loop, hl, if_true]
  split
  · rename_i hne; exact absurd h hne
  · rfl

theorem MakeSlice_length (n : Nat) : (MakeSlice n).length = n := by
  simp [MakeSlice]

theorem write_called_entry {σ ζ : Type} (s : WriteLoop σ ζ) (p : σ) (out : List Byte)
    (res : tsi_result) (ev : Event) (hout : out.length ≤ s.end_ - s.cur) :
    (write_entry s → write_entry (write_called s p out res ev))
      ∧ (write_ready s → write_ready (write_called s p out res ev)) := by
  constructor
  · rintro ⟨h1, h2⟩
    exact ⟨by simp only [write_called]; rw [write_at_length _ _ _ (by omega)]; exact h1, h2⟩
  · rintro ⟨h1, h2⟩
    exact ⟨by simp only [write_called]; rw [write_at_length _ _ _ (by omega)]; exact h1, h2⟩

theorem write_advanced_ready {σ ζ : Type} (s : WriteLoop σ ζ) (p : σ) (out : List Byte)
    (res : tsi_result) (ev : Event) (hout : out.length ≤ s.end_ - s.cur)
    (h : write_entry s) :
    write_ready (write_advanced (write_called s p out res ev) out.length)
      ∧ (write_advanced (write_called s p out res ev) out.length).ep.protector = p
      ∧ (write_advanced (write_called s p out res ev) out.length).result = res := by
  obtain ⟨h1, h2⟩ := h
  unfold write_advanced
  split
  · refine ⟨⟨?_, ?_⟩, ?_, ?_⟩
    · simp [flush_write_staging_buffer]
    · simp only [flush_write_staging_buffer, maybe_post_reclaimer]
      split <;> simp [secure_endpoint_ref, MakeSlice_length, STAGING_BUFFER_SIZE]
    · simp only [flush_write_staging_buffer, maybe_post_reclaimer, write_called]
      split <;> simp [secure_endpoint_ref]
    · simp [flush_write_staging_buffer, write_called]
  · rename_i hne
    simp only [write_called] at hne
    refine ⟨⟨?_, ?_⟩, rfl, rfl⟩
    · simp only [write_called]; rw [write_at_length _ _ _ (by omega)]; exact h1
    · simp only [write_called]; omega

/-- From a state with room in the staging slice, the loop over one source slice
returns, with the same state for every fuel above a bound. -/
theorem protect_loop_returns_ready {σ ζ : Type} (F : tsi_frame_protector σ)
    (hF : well_behaved F) (rank : σ → Nat) (hp : productive F rank) :
    ∀ (L R : Nat) (s : WriteLoop σ ζ) (m : List Byte), m.length = L →
      rank s.ep.protector = R → write_ready s →
      ∃ N s', (∀ fuel, N ≤ fuel → protect_loop F fuel s m = some s') ∧ write_ready s' := by
  intro L
  induction L using Nat.strong_induction_on with
  | _ L ihL =>
    intro R
    induction R using Nat.strong_induction_on with
    | _ R ihR =>
      intro s m hL hR hs
      by_cases hm : m = []
      · subst hm
        refine ⟨1, s, ?_, hs⟩
        intro fuel hf
        obtain ⟨k, rfl⟩ : ∃ k, fuel = k + 1 := ⟨fuel - 1, by omega⟩
        exact protect_loop_nil F k s
      · obtain ⟨c, hc⟩ : ∃ c, c = F.protect s.ep.protector m (s.end_ - s.cur) := ⟨_, rfl⟩
        have hout : c.out.length ≤ s.end_ - s.cur := by rw [hc]; exact hF.protect_out _ _ _
        by_cases hres : c.result = tsi_result.TSI_OK
        · obtain ⟨a1, a2, _⟩ := write_advanced_ready s c.state c.out c.result
            (protect_event m (s.end_ - s.cur) c) hout ⟨hs.1, Nat.le_of_lt hs.2⟩
          have hcap : 0 < s.end_ - s.cur := by have := hs.2; omega
          have hlen : (m.drop c.processed).length = L - c.processed := by
            rw [List.length_drop, hL]
          have hprog : 0 < c.processed ∨ rank c.state < rank s.ep.protector := by
            rw [hc]; exact hp.protect s.ep.protector m (s.end_ - s.cur) hm hcap (by rw [← hc]; exact hres)
          have hnext : ∃ N s', (∀ fuel, N ≤ fuel → protect_loop F fuel
              (write_advanced (write_called s c.state c.out c.result
                (protect_event m (s.end_ - s.cur) c)) c.out.length)
              (m.drop c.processed) = some s') ∧ write_ready s' := by
            have hLpos : 0 < L := by rw [← hL]; exact List.length_pos.mpr hm
            rcases hprog with h1 | h1
            · exact ihL _ (by omega) _ _ _ hlen rfl a1
            · by_cases h0 : c.processed = 0
              · exact ihR _ (by rw [a2, ← hR]; exact h1) _ _ (by rw [hlen, h0]; rfl) rfl a1
              · exact ihL _ (by omega) _ _ _ hlen rfl a1
          obtain ⟨N, s', hN, hs'⟩ := hnext
          refine ⟨N + 1, s', ?_, hs'⟩
          intro fuel hf
          obtain ⟨k, rfl⟩ : ∃ k, fuel = k + 1 := ⟨fuel - 1, by omega⟩
          rw [protect_loop_ok F k s m c hc hm hres]
          exact hN k (by omega)
        · refine ⟨1, write_called s c.state c.out c.result (protect_event m (s.end_ - s.cur) c),
            ?_, (write_called_entry s _ _ _ _ hout).2 hs⟩
          intro fuel hf
          obtain ⟨k, rfl⟩ : ∃ k, fuel = k + 1 := ⟨fuel - 1, by omega⟩
          exact protect_loop_fail F k s m c hc hm hres

theorem write_ready_entry {σ ζ : Type} (s : WriteLoop σ ζ) (h : write_ready s) :
    write_entry s :=
  ⟨h.1, Nat.le_of_lt h.2⟩

/-- From any state of the write loops, the loop over one source slice returns,
with the same state for every fuel above a bound. -/
theorem protect_loop_returns {σ ζ : Type} (F : tsi_frame_protector σ)
    (hF : well_behaved F) (rank : σ → Nat) (hp : productive F rank)
    (s : WriteLoop σ ζ) (m : List Byte) (hs : write_entry s) :
    ∃ N s', (∀ fuel, N ≤ fuel → protect_loop F fuel s m = some s') ∧ write_entry s' := by
  by_cases hr : s.cur < s.end_
  · obtain ⟨N, s', h1, h2⟩ := protect_loop_returns_ready F hF rank hp _ _ s m rfl rfl ⟨hs.1, hr⟩
    exact ⟨N, s', h1, write_ready_entry s' h2⟩
  · by_cases hm : m = []
    · subst hm
      refine ⟨1, s, ?_, hs⟩
      intro fuel hf
      obtain ⟨k, rfl⟩ : ∃ k, fuel = k + 1 := ⟨fuel - 1, by omega⟩
      exact protect_loop_nil F k s
    · obtain ⟨c, hc⟩ : ∃ c, c = F.protect s.ep.protector m (s.end_ - s.cur) := ⟨_, rfl⟩
      have hout : c.out.length ≤ s.end_ - s.cur := by rw [hc]; exact hF.protect_out _ _ _
      by_cases hres : c.result = tsi_result.TSI_OK
      · obtain ⟨a1, _, _⟩ := write_advanced_ready s c.state c.out c.result
          (protect_event m (s.end_ - s.cur) c) hout hs
        obtain ⟨N, s', h1, h2⟩ := protect_loop_returns_ready F hF rank hp _ _ _
          (m.drop c.processed) rfl rfl a1
        refine ⟨N + 1, s', ?_, write_ready_entry s' h2⟩
        intro fuel hf
        obtain ⟨k, rfl⟩ : ∃ k, fuel = k + 1 := ⟨fuel - 1, by omega⟩
        rw [protect_loop_ok F k s m c hc hm hres]
        exact h1 k (by omega)
      · refine ⟨1, write_called s c.state c.out c.result (protect_event m (s.end_ - s.cur) c),
          ?_, (write_called_entry s _ _ _ _ hout).1 hs⟩
        intro fuel hf
        obtain ⟨k, rfl⟩ : ∃ k, fuel = k + 1 := ⟨fuel - 1, by omega⟩
        exact protect_loop_fail F k s m c hc hm hres

theorem protect_slices_returns {σ ζ : Type} (F : tsi_frame_protector σ)
    (hF : well_behaved F) (rank : σ → Nat) (hp : productive F rank)
    (slices : List grpc_slice) :
    ∀ (s : WriteLoop σ ζ), write_entry s →
      ∃ N s', (∀ fuel, N ≤ fuel → protect_slices F fuel s slices = some s')
        ∧ write_entry s' := by
  induction slices with
  | nil => intro s hs; exact ⟨0, s, fun _ _ => rfl, hs⟩
  | cons plain rest ih =>
    intro s hs
    obtain ⟨N1, s1, h1, e1⟩ := protect_loop_returns F hF rank hp s plain hs
    by_cases hres : s1.result = tsi_result.TSI_OK
    · obtain ⟨N2, s2, h2, e2⟩ := ih s1 e1
      refine ⟨max N1 N2, s2, ?_, e2⟩
      intro fuel hf
      simp only [protect_slices, h1 fuel (by omega)]
      simp only [hres, ne_eq, not_true_eq_false, if_false]
      exact h2 fuel (by omega)
    · refine ⟨N1, s1, ?_, e1⟩
      intro fuel hf
      simp only [protect_slices, h1 fuel hf]
      simp [hres]

theorem protect_flush_loop_fail {σ ζ : Type} (F : tsi_frame_protector σ) (k : Nat)
    (s : WriteLoop σ ζ) (c : FlushCall σ)
    (hc : c = F.protect_flush s.ep.protector (s.end_ - s.cur))
    (h : c.result ≠ tsi_result.TSI_OK) :
    protect_flush_loop F (k + 1) s = some (write_called s c.state c.out c.result
      (protect_flush_event (s.end_ - s.cur) c)) := by
  subst hc
  simp only [protect_flush_loop]
  rw [if_pos h]
  rfl

theorem protect_flush_loop_more {σ ζ : Type} (F : tsi_frame_protector σ) (k : Nat)
    (s : WriteLoop σ ζ) (c : FlushCall σ)
    (hc : c = F.protect_flush s.ep.protector (s.end_ - s.cur))
    (h : c.result = tsi_result.TSI_OK) (hp : 0 < c.still_pending) :
    protect_flush_loop F (k + 1) s = protect_flush_loop F k
      (write_advanced (write_called s c.state c.out c.result
        (protect_flush_event (s.end_ - s.cur) c)) c.out.length) := by
  subst hc
  simp only [protect_flush_loop]
  rw [if_neg (not_not.mpr h), if_pos hp]
  rfl

theorem protect_flush_loop_last {σ ζ : Type} (F : tsi_frame_protector σ) (k : Nat)
    (s : WriteLoop σ ζ) (c : FlushCall σ)
    (hc : c = F.protect_flush s.ep.protector (s.end_ - s.cur))
    (h : c.result = tsi_result.TSI_OK) (hp : c.still_pending = 0) :
    protect_flush_loop F (k + 1) s = some
      (write_advanced (write_called s c.state c.out c.result
        (protect_flush_event (s.end_ - s.cur) c)) c.out.length) := by
  subst hc
  simp only [protect_flush_loop]
  rw [if_neg (not_not.mpr h), if_neg (by omega)]
  rfl

theorem protect_flush_loop_returns_ready {σ ζ : Type} (F : tsi_frame_protector σ)
    (hF : well_behaved F) (rank : σ → Nat) (hp : productive F rank) :
    ∀ (R : Nat) (s : WriteLoop σ ζ), rank s.ep.protector = R → write_ready s →
      ∃ N s', (∀ fuel, N ≤ fuel → protect_flush_loop F fuel s = some s')
        ∧ write_entry s' := by
  intro R
  induction R using Nat.strong_induction_on with
  | _ R ihR =>
    intro s hR hs
    obtain ⟨c, hc⟩ : ∃ c, c = F.protect_flush s.ep.protector (s.end_ - s.cur) := ⟨_, rfl⟩
    have hout : c.out.length ≤ s.end_ - s.cur := by rw [hc]; exact hF.flush_out _ _
    have hcap : 0 < s.end_ - s.cur := by have := hs.2; omega
    by_cases hres : c.result = tsi_result.TSI_OK
    · obtain ⟨a1, a2, _⟩ := write_advanced_ready s c.state c.out c.result
        (protect_flush_event (s.end_ - s.cur) c) hout (write_ready_entry s hs)
      by_cases hpend : c.still_pending = 0
      · refine ⟨1, _, ?_, write_ready_entry _ a1⟩
        intro fuel hf
        obtain ⟨k, rfl⟩ : ∃ k, fuel = k + 1 := ⟨fuel - 1, by omega⟩
        exact protect_flush_loop_last F k s c hc hres hpend
      · have hprog : c.still_pending = 0 ∨ rank c.state < rank s.ep.protector := by
          rw [hc]; exact hp.flush s.ep.protector (s.end_ - s.cur) hcap (by rw [← hc]; exact hres)
        rcases hprog with h0 | h0
        · exact absurd h0 hpend
        · obtain ⟨N, s', h1, h2⟩ := ihR (rank c.state) (by rw [← hR]; exact h0) _
            (by rw [a2]) a1
          refine ⟨N + 1, s', ?_, h2⟩
          intro fuel hf
          obtain ⟨k, rfl⟩ : ∃ k, fuel = k + 1 := ⟨fuel - 1, by omega⟩
          rw [protect_flush_loop_more F k s c hc hres (by omega)]
          exact h1 k (by omega)
    · refine ⟨1, write_called s c.state c.out c.result
        (protect_flush_event (s.end_ - s.cur) c), ?_,
        (write_called_entry s _ _ _ _ hout).1 (write_ready_entry s hs)⟩
      intro fuel hf
      obtain ⟨k, rfl⟩ : ∃ k, fuel = k + 1 := ⟨fuel - 1, by omega⟩
      exact protect_flush_loop_fail F k s c hc hres

theorem protect_flush_loop_returns {σ ζ : Type} (F : tsi_frame_protector σ)
    (hF : well_behaved F) (rank : σ → Nat) (hp : productive F rank)
    (s : WriteLoop σ ζ) (hs : write_entry s) :
    ∃ N s', (∀ fuel, N ≤ fuel → protect_flush_loop F fuel s = some s')
      ∧ write_entry s' := by
  by_cases hr : s.cur < s.end_
  · exact protect_flush_loop_returns_ready F hF rank hp _ s rfl ⟨hs.1, hr⟩
  · obtain ⟨c, hc⟩ : ∃ c, c = F.protect_flush s.ep.protector (s.end_ - s.cur) := ⟨_, rfl⟩
    have hout : c.out.length ≤ s.end_ - s.cur := by rw [hc]; exact hF.flush_out _ _
    by_cases hres : c.result = tsi_result.TSI_OK
    · obtain ⟨a1, _, _⟩ := write_advanced_ready s c.state c.out c.result
        (protect_flush_event (s.end_ - s.cur) c) hout hs
      by_cases hpend : c.still_pending = 0
      · refine ⟨1, _, ?_, write_ready_entry _ a1⟩
        intro fuel hf
        obtain ⟨k, rfl⟩ : ∃ k, fuel = k + 1 := ⟨fuel - 1, by omega⟩
        exact protect_flush_loop_last F k s c hc hres hpend
      · obtain ⟨N, s', h1, h2⟩ := protect_flush_loop_returns_ready F hF rank hp _ _ rfl a1
        refine ⟨N + 1, s', ?_, h2⟩
        intro fuel hf
        obtain ⟨k, rfl⟩ : ∃ k, fuel = k + 1 := ⟨fuel - 1, by omega⟩
        rw [protect_flush_loop_more F k s c hc hres (by omega)]
        exact h1 k (by omega)
    · refine ⟨1, write_called s c.state c.out c.result
        (protect_flush_event (s.end_ - s.cur) c), ?_,
        (write_called_entry s _ _ _ _ hout).1 hs⟩
      intro fuel hf
      obtain ⟨k, rfl⟩ : ∃ k, fuel = k + 1 := ⟨fuel - 1, by omega⟩
      exact protect_flush_loop_fail F k s c hc hres

/-- The copying branch of `endpoint_write` returns for every fuel above a
bound when the framer makes progress. -/
theorem copying_write_returns {σ ζ : Type} (F : tsi_frame_protector σ)
    (hF : well_behaved F) (rank : σ → Nat) (hp : productive F rank)
    (s : WriteLoop σ ζ) (slices : grpc_slice_buffer) (hs : write_entry s) :
    ∃ N s', ∀ fuel, N ≤ fuel → copying_write F fuel s slices = some s' := by
  obtain ⟨N1, s1, h1, e1⟩ := protect_slices_returns F hF rank hp slices s hs
  by_cases hres : s1.result = tsi_result.TSI_OK
  · obtain ⟨N2, s2, h2, _⟩ := protect_flush_loop_returns F hF rank hp s1 e1
    refine ⟨max N1 N2, write_split_head s2, ?_⟩
    intro fuel hf
    simp only [copying_write, h1 fuel (by omega), hres, if_true, h2 fuel (by omega)]
  · refine ⟨N1, s1, ?_⟩
    intro fuel hf
    simp only [copying_write, h1 fuel hf, hres, if_false]

theorem unprotect_loop_done {σ ζ : Type} (F : tsi_frame_protector σ) (k : Nat)
    (s : ReadLoop σ ζ) (hk : s.keep_looping = false) :
    unprotect_loop F (k + 1) s [] = some s := by
  simp [unprotect_loop, hk]

theorem unprotect_loop_fail {σ ζ : Type} (F : tsi_frame_protector σ) (k : Nat)
    (s : ReadLoop σ ζ) (m : List Byte) (c : FrameCall σ)
    (hc : c = F.unprotect s.ep.protector m (s.end_ - s.cur))
    (hm : m ≠ [] ∨ s.keep_looping = true) (h : c.result ≠ tsi_result.TSI_OK) :
    unprotect_loop F (k + 1) s m = some (read_called s c.state c.out c.result
      (unprotect_event m (s.end_ - s.cur) c)) := by
  subst hc
  have hl : m.length > 0 ∨ s.keep_looping = true := by
    rcases hm with hm | hm
    · exact Or.inl (List.length_pos.mpr hm)
    · exact Or.inr hm
  simp only [unprotect_loop]
  rw [if_pos hl, if_pos h]
  rfl

theorem unprotect_loop_ok {σ ζ : Type} (F : tsi_frame_protector σ) (k : Nat)
    (s : ReadLoop σ ζ) (m : List Byte) (c : FrameCall σ)
    (hc : c = F.unprotect s.ep.protector m (s.end_ - s.cur))
    (hm : m ≠ [] ∨ s.keep_looping = true) (h : c.result = tsi_result.TSI_OK) :
    unprotect_loop F (k + 1) s m = unprotect_loop F k
      (read_advanced (read_called s c.state c.out c.result
        (unprotect_event m (s.end_ - s.cur) c)) c.out.length)
      (m.drop c.processed) := by
  subst hc
  have hl : m.length > 0 ∨ s.keep_looping = true := by
    rcases hm with hm | hm
    · exact Or.inl (List.length_pos.mpr hm)
    · exact Or.inr hm
  simp only [unprotect_loop]
  rw [if_pos hl, if_neg (not_not.mpr h)]
  rfl

theorem read_called_entry {σ ζ : Type} (s : ReadLoop σ ζ) (p : σ) (out : List Byte)
    (res : tsi_result) (ev : Event) (hout : out.length ≤ s.end_ - s.cur) :
    (read_entry s → read_entry (read_called s p out res ev))
      ∧ (read_ready s → read_ready (read_called s p out res ev)) := by
  constructor
  · rintro ⟨h1, h2⟩
    exact ⟨by simp only [read_called]; rw [write_at_length _ _ _ (by omega)]; exact h1, h2⟩
  · rintro ⟨h1, h2⟩
    exact ⟨by simp only [read_called]; rw [write_at_length _ _ _ (by omega)]; exact h1, h2⟩

theorem read_advanced_ready {σ ζ : Type} (s : ReadLoop σ ζ) (p : σ) (out : List Byte)
    (res : tsi_result) (ev : Event) (hout : out.length ≤ s.end_ - s.cur)
    (h : read_entry s) :
    read_ready (read_advanced (read_called s p out res ev) out.length)
      ∧ (read_advanced (read_called s p out res ev) out.length).ep.protector = p
      ∧ (read_advanced (read_called s p out res ev) out.length).result = res
      ∧ (s.cur < s.end_ → out = [] →
          (read_advanced (read_called s p out res ev) out.length).keep_looping = false) := by
  obtain ⟨h1, h2⟩ := h
  unfold read_advanced
  split
  · rename_i heq
    simp only [read_called] at heq
    refine ⟨⟨?_, ?_⟩, ?_, ?_, ?_⟩
    · simp [flush_read_staging_buffer]
    · simp [flush_read_staging_buffer, MakeSlice_length, STAGING_BUFFER_SIZE]
    · simp [flush_read_staging_buffer, update_read_buffer, read_called]
    · simp [flush_read_staging_buffer, read_called]
    · intro hlt ho
      rw [ho] at heq
      simp only [List.length_nil, Nat.add_zero] at heq
      omega
  · rename_i hne
    simp only [read_called] at hne
    split
    · rename_i hpos
      refine ⟨⟨?_, ?_⟩, rfl, rfl, ?_⟩
      · simp only [read_called]; rw [write_at_length _ _ _ (by omega)]; exact h1
      · simp only [read_called]; omega
      · intro _ ho
        rw [ho] at hpos
        simp at hpos
    · refine ⟨⟨?_, ?_⟩, rfl, rfl, fun _ _ => rfl⟩
      · simp only [read_called]; rw [write_at_length _ _ _ (by omega)]; exact h1
      · simp only [read_called]; omega

theorem read_ready_entry {σ ζ : Type} (s : ReadLoop σ ζ) (h : read_ready s) :
    read_entry s :=
  ⟨h.1, Nat.le_of_lt h.2⟩

/-- From a state with room in the staging slice, the loop over one source slice
of the copying read returns, with the same state for every fuel above a
bound. -/
theorem unprotect_loop_returns_ready {σ ζ : Type} (F : tsi_frame_protector σ)
    (hF : well_behaved F) (rank : σ → Nat) (hp : productive F rank) :
    ∀ (L R : Nat) (s : ReadLoop σ ζ) (m : List Byte), m.length = L →
      rank s.ep.protector = R → read_ready s →
      ∃ N s', (∀ fuel, N ≤ fuel → unprotect_loop F fuel s m = some s') ∧ read_ready s' := by
  intro L
  induction L using Nat.strong_induction_on with
  | _ L ihL =>
    intro R
    induction R using Nat.strong_induction_on with
    | _ R ihR =>
      intro s m hL hR hs
      by_cases hm : m ≠ [] ∨ s.keep_looping = true
      · obtain ⟨c, hc⟩ : ∃ c, c = F.unprotect s.ep.protector m (s.end_ - s.cur) := ⟨_, rfl⟩
        have hout : c.out.length ≤ s.end_ - s.cur := by
          rw [hc]; exact hF.unprotect_out _ _ _
        by_cases hres : c.result = tsi_result.TSI_OK
        · obtain ⟨a1, a2, _, a4⟩ := read_advanced_ready s c.state c.out c.result
            (unprotect_event m (s.end_ - s.cur) c) hout (read_ready_entry s hs)
          have hcap : 0 < s.end_ - s.cur := by have := hs.2; omega
          have hlen : (m.drop c.processed).length = L - c.processed := by
            rw [List.length_drop, hL]
          have hprog : 0 < c.processed ∨ rank c.state < rank s.ep.protector
              ∨ (m = [] ∧ c.out = []) := by
            rw [hc]
            exact hp.unprotect s.ep.protector m (s.end_ - s.cur) hcap (by rw [← hc]; exact hres)
          have hproc : c.processed ≤ L := by
            rw [hc, ← hL]; exact hF.unprotect_processed _ _ _
          have hnext : ∃ N s', (∀ fuel, N ≤ fuel → unprotect_loop F fuel
              (read_advanced (read_called s c.state c.out c.result
                (unprotect_event m (s.end_ - s.cur) c)) c.out.length)
              (m.drop c.processed) = some s') ∧ read_ready s' := by
            rcases hprog with h1 | h1 | h1
            · exact ihL _ (by omega) _ _ _ hlen rfl a1
            · by_cases h0 : c.processed = 0
              · exact ihR (rank c.state) (by rw [← hR]; exact h1) _ _
                  (by rw [hlen, h0]; rfl) (by rw [a2]) a1
              · exact ihL _ (by omega) _ _ _ hlen rfl a1
            · obtain ⟨hm0, ho⟩ := h1
              refine ⟨1, _, ?_, a1⟩
              intro fuel hf
              obtain ⟨k, rfl⟩ : ∃ k, fuel = k + 1 := ⟨fuel - 1, by omega⟩
              have hd : m.drop c.processed = [] := by rw [hm0]; simp
              rw [hd]
              exact unprotect_loop_done F k _ (a4 hs.2 ho)
          obtain ⟨N, s', hN, hs'⟩ := hnext
          refine ⟨N + 1, s', ?_, hs'⟩
          intro fuel hf
          obtain ⟨k, rfl⟩ : ∃ k, fuel = k + 1 := ⟨fuel - 1, by omega⟩
          rw [unprotect_loop_ok F k s m c hc hm hres]
          exact hN k (by omega)
        · refine ⟨1, read_called s c.state c.out c.result
            (unprotect_event m (s.end_ - s.cur) c), ?_,
            (read_called_entry s _ _ _ _ hout).2 hs⟩
          intro fuel hf
          obtain ⟨k, rfl⟩ : ∃ k, fuel = k + 1 := ⟨fuel - 1, by omega⟩
          exact unprotect_loop_fail F k s m c hc hm hres
      · have hm0 : m = [] := by
          by_contra hne; exact hm (Or.inl hne)
        have hk : s.keep_looping = false := by
          cases hkl : s.keep_looping with
          | false => rfl
          | true => exact absurd (Or.inr hkl) hm
        subst hm0
        refine ⟨1, s, ?_, hs⟩
        intro fuel hf
        obtain ⟨k, rfl⟩ : ∃ k, fuel = k + 1 := ⟨fuel - 1, by omega⟩
        exact unprotect_loop_done F k s hk

theorem unprotect_loop_returns {σ ζ : Type} (F : tsi_frame_protector σ)
    (hF : well_behaved F) (rank : σ → Nat) (hp : productive F rank)
    (s : ReadLoop σ ζ) (m : List Byte) (hs : read_entry s) :
    ∃ N s', (∀ fuel, N ≤ fuel → unprotect_loop F fuel s m = some s') ∧ read_entry s' := by
  by_cases hr : s.cur < s.end_
  · obtain ⟨N, s', h1, h2⟩ := unprotect_loop_returns_ready F hF rank hp _ _ s m rfl rfl
      ⟨hs.1, hr⟩
    exact ⟨N, s', h1, read_ready_entry s' h2⟩
  · by_cases hm : m ≠ [] ∨ s.keep_looping = true
    · obtain ⟨c, hc⟩ : ∃ c, c = F.unprotect s.ep.protector m (s.end_ - s.cur) := ⟨_, rfl⟩
      have hout : c.out.length ≤ s.end_ - s.cur := by
        rw [hc]; exact hF.unprotect_out _ _ _
      by_cases hres : c.result = tsi_result.TSI_OK
      · obtain ⟨a1, _, _, _⟩ := read_advanced_ready s c.state c.out c.result
          (unprotect_event m (s.end_ - s.cur) c) hout hs
        obtain ⟨N, s', h1, h2⟩ := unprotect_loop_returns_ready F hF rank hp _ _ _
          (m.drop c.processed) rfl rfl a1
        refine ⟨N + 1, s', ?_, read_ready_entry s' h2⟩
        intro fuel hf
        obtain ⟨k, rfl⟩ : ∃ k, fuel = k + 1 := ⟨fuel - 1, by omega⟩
        rw [unprotect_loop_ok F k s m c hc hm hres]
        exact h1 k (by omega)
      · refine ⟨1, read_called s c.state c.out c.result
          (unprotect_event m (s.end_ - s.cur) c), ?_,
          (read_called_entry s _ _ _ _ hout).1 hs⟩
        intro fuel hf
        obtain ⟨k, rfl⟩ : ∃ k, fuel = k + 1 := ⟨fuel - 1, by omega⟩
        exact unprotect_loop_fail F k s m c hc hm hres
    · have hm0 : m = [] := by
        by_contra hne; exact hm (Or.inl hne)
      have hk : s.keep_looping = false := by
        cases hkl : s.keep_looping with
        | false => rfl
        | true => exact absurd (Or.inr hkl) hm
      subst hm0
      refine ⟨1, s, ?_, hs⟩
      intro fuel hf
      obtain ⟨k, rfl⟩ : ∃ k, fuel = k + 1 := ⟨fuel - 1, by omega⟩
      exact unprotect_loop_done F k s hk

theorem unprotect_slices_returns {σ ζ : Type} (F : tsi_frame_protector σ)
    (hF : well_behaved F) (rank : σ → Nat) (hp : productive F rank)
    (slices : List grpc_slice) :
    ∀ (s : ReadLoop σ ζ), read_entry s →
      ∃ N s', (∀ fuel, N ≤ fuel → unprotect_slices F fuel s slices = some s')
        ∧ read_entry s' := by
  induction slices with
  | nil => intro s hs; exact ⟨0, s, fun _ _ => rfl, hs⟩
  | cons encrypted rest ih =>
    intro s hs
    obtain ⟨N1, s1, h1, e1⟩ := unprotect_loop_returns F hF rank hp s encrypted hs
    by_cases hres : s1.result = tsi_result.TSI_OK
    · obtain ⟨N2, s2, h2, e2⟩ := ih s1 e1
      refine ⟨max N1 N2, s2, ?_, e2⟩
      intro fuel hf
      simp only [unprotect_slices, h1 fuel (by omega)]
      simp only [hres, ne_eq, not_true_eq_false, if_false]
      exact h2 fuel (by omega)
    · refine ⟨N1, s1, ?_, e1⟩
      intro fuel hf
      simp only [unprotect_slices, h1 fuel hf]
      simp [hres]

/-- `on_read` returns for every fuel above a bound when the copying framer makes
progress; on the zero-copy path and on the error path it returns whatever the
fuel. -/
theorem on_read_returns {σ ζ : Type} (F : tsi_frame_protector σ)
    (hF : well_behaved F) (rank : σ → Nat) (hp : productive F rank)
    (Z : tsi_zero_copy_grpc_protector ζ) (ts : tsi_result → String)
    (ep : secure_endpoint σ ζ) (error : grpc_error_handle) :
    ∃ N r, ∀ fuel, N ≤ fuel → on_read F Z ts fuel ep error = some r := by
  by_cases hok : (read_error ep error).ok = true
  · cases hz : ep.zero_copy_protector with
    | some z => exact ⟨0, _, fun fuel _ => on_read_zero_copy F Z ts fuel ep z error hok hz⟩
    | none =>
      obtain ⟨N, s', h1, _⟩ := unprotect_slices_returns F hF rank hp ep.source_buffer
        ({ ep := ep, cur := 0, end_ := ep.read_staging_buffer.length, keep_looping := false,
           result := tsi_result.TSI_OK, log := [] } : ReadLoop σ ζ)
        ⟨rfl, Nat.zero_le _⟩
      refine ⟨N, read_finish ts (read_split_head s') (read_error ep error), ?_⟩
      intro fuel hf
      have hok' := hok
      unfold read_error at hok'
      simp only [on_read, read_error, hok', hz, copying_read, h1 fuel hf]
      simp
  · have hno : (read_error ep error).ok = false := by simpa using hok
    exact ⟨0, _, fun fuel _ => on_read_error F Z ts fuel ep error hno⟩

theorem move_first_zero (src : grpc_slice_buffer) : move_first src 0 = (src, []) := by
  cases src <;> simp [move_first]

/-- The chunk loop of the zero-copy write returns for every fuel above a bound
when the maximum frame size is not zero: every iteration takes that many bytes
from the source. -/
theorem zero_copy_chunk_loop_returns {σ ζ : Type} (Z : tsi_zero_copy_grpc_protector ζ)
    (M : Nat) (hM : 0 < M) :
    ∀ (L : Nat) (s : ZeroCopyLoop σ ζ), buffer_length s.slices = L →
      ∃ N s', ∀ fuel, N ≤ fuel → zero_copy_chunk_loop Z M fuel s = some s' := by
  intro L
  induction L using Nat.strong_induction_on with
  | _ L ih =>
    intro s hL
    by_cases hc : buffer_length s.slices > M ∧ s.result = tsi_result.TSI_OK
    · have hlen : buffer_length (move_first s.slices M).1 = L - M := by
        rw [buffer_length_eq, (move_first_bytes s.slices M).2, List.length_drop,
          ← buffer_length_eq, hL]
      obtain ⟨N, s', h1⟩ := ih (L - M) (by omega)
        (zero_copy_protect_call Z true
          { s with
            ep := { s.ep with protector_staging_buffer :=
              (grpc_slice_buffer_move_first s.slices M s.ep.protector_staging_buffer).2 },
            slices := (grpc_slice_buffer_move_first s.slices M s.ep.protector_staging_buffer).1 })
        (by simp only [zero_copy_protect_call, grpc_slice_buffer_move_first, if_true]
            exact hlen)
      refine ⟨N + 1, s', ?_⟩
      intro fuel hf
      obtain ⟨k, rfl⟩ : ∃ k, fuel = k + 1 := ⟨fuel - 1, by omega⟩
      simp only [zero_copy_chunk_loop]
      rw [if_pos hc]
      exact h1 k (by omega)
    · refine ⟨1, s, ?_⟩
      intro fuel hf
      obtain ⟨k, rfl⟩ : ∃ k, fuel = k + 1 := ⟨fuel - 1, by omega⟩
      simp only [zero_copy_chunk_loop]
      rw [if_neg hc]

/-- With a maximum frame size of zero, a source that is not empty and a framer
that keeps returning `TSI_OK`, the chunk loop of the zero-copy write uses up
any fuel: an iteration moves nothing out of the source. -/
theorem zero_copy_chunk_loop_spins {σ ζ : Type} (Z : tsi_zero_copy_grpc_protector ζ)
    (hZ : ∀ z input output, (Z.protect z input output).result = tsi_result.TSI_OK)
    (fuel : Nat) :
    ∀ (s : ZeroCopyLoop σ ζ), 0 < buffer_length s.slices → s.result = tsi_result.TSI_OK →
      zero_copy_chunk_loop Z 0 fuel s = none := by
  induction fuel with
  | zero => intro s _ _; rfl
  | succ k ih =>
    intro s hL hr
    simp only [zero_copy_chunk_loop]
    rw [if_pos ⟨hL, hr⟩]
    apply ih
    · simp only [zero_copy_protect_call, grpc_slice_buffer_move_first, move_first_zero,
        if_true]
      exact hL
    · simp only [zero_copy_protect_call]
      exact hZ _ _ _

theorem zero_copy_write_returns {σ ζ : Type} (Z : tsi_zero_copy_grpc_protector ζ)
    (args : WriteArgs) (hM : 0 < static_cast_size_t args.max_frame_size)
    (s : ZeroCopyLoop σ ζ) :
    ∃ N s', ∀ fuel, N ≤ fuel → zero_copy_write Z fuel args s = some s' := by
  obtain ⟨N, s1, h1⟩ := zero_copy_chunk_loop_returns Z _ hM _
    ({ s with result := tsi_result.TSI_OK } : ZeroCopyLoop σ ζ) rfl
  refine ⟨N,
    { (if s1.result = tsi_result.TSI_OK ∧ buffer_length s1.slices > 0 then
        zero_copy_protect_call Z false s1 else s1) with
      ep := { (if s1.result = tsi_result.TSI_OK ∧ buffer_length s1.slices > 0 then
        zero_copy_protect_call Z false s1 else s1).ep with protector_staging_buffer := [] } },
    ?_⟩
  intro fuel hf
  simp only [zero_copy_write, h1 fuel hf]

/-- `endpoint_write` returns for every fuel above a bound: on the copying path
when the framer makes progress, on the zero-copy path when the maximum frame
size is not zero. -/
theorem endpoint_write_returns {σ ζ : Type} (F : tsi_frame_protector σ)
    (hF : well_behaved F) (rank : σ → Nat) (hp : productive F rank)
    (Z : tsi_zero_copy_grpc_protector ζ) (ts : tsi_result → String)
    (ep : secure_endpoint σ ζ) (slices : grpc_slice_buffer) (cb : Option grpc_closure)
    (args : WriteArgs)
    (hM : ep.zero_copy_protector ≠ none → 0 < static_cast_size_t args.max_frame_size) :
    ∃ N r, ∀ fuel, N ≤ fuel → endpoint_write F Z ts fuel ep slices cb args = some r := by
  cases hz : ep.zero_copy_protector with
  | some z =>
    have hM' := hM (by rw [hz]; simp)
    obtain ⟨N, s1, h1⟩ := zero_copy_write_returns Z args hM'
      ({ ep := { ep with output_buffer := [] }, z := z, slices := slices,
         result := tsi_result.TSI_OK, log := [] } : ZeroCopyLoop σ ζ)
    refine ⟨N, write_finish ts s1.ep s1.slices s1.result s1.log cb args, ?_⟩
    intro fuel hf
    rw [endpoint_write_zero_copy F Z ts fuel ep z slices cb args hz, h1 fuel hf]
    rfl
  | none =>
    obtain ⟨N, s', h1⟩ := copying_write_returns F hF rank hp
      ({ ep := { ep with output_buffer := [] }, cur := 0,
         end_ := ep.write_staging_buffer.length, result := tsi_result.TSI_OK, log := [] } :
        WriteLoop σ ζ) slices ⟨rfl, Nat.zero_le _⟩
    refine ⟨N, write_finish ts s'.ep slices s'.result s'.log cb args, ?_⟩
    intro fuel hf
    have := h1 fuel hf
    cases ep
    simp only at hz
    subst hz
    simp only [endpoint_write]
    simp only at this
    rw [this]

theorem identity_protector_productive : productive identity_protector (fun _ => 0) := by
  constructor
  · intro s inp cap hi hc _
    left
    simp only [identity_protector]
    have := List.length_pos.mpr hi
    omega
  · intro s cap _ _
    left; rfl
  · intro s inp cap hc _
    by_cases hi : inp = []
    · right; right
      subst hi
      simp [identity_protector]
    · left
      simp only [identity_protector]
      have := List.length_pos.mpr hi
      omega

theorem queue_protector_productive : productive queue_protector List.length := by
  constructor
  · intro s inp cap hi hc _
    left
    simp only [queue_protector]
    exact List.length_pos.mpr hi
  · intro s cap hc _
    simp only [queue_protector, List.length_drop]
    omega
  · intro s inp cap hc _
    by_cases hi : inp = []
    · subst hi
      simp only [queue_protector, List.map_nil, List.append_nil, List.length_drop,
        List.length_nil, Nat.lt_irrefl, false_or, true_and, List.take_eq_nil_iff]
      by_cases hs : s = []
      · right; right; exact hs
      · have := List.length_pos.mpr hs
        left; omega
    · left
      simp only [queue_protector]
      exact List.length_pos.mpr hi

theorem limited_protector_productive (code : Nat) :
    productive (limited_protector code) (fun k => k) := by
  constructor
  · intro s inp cap hi hc hr
    simp only [limited_protector] at hr ⊢
    by_cases hs : s = 0
    · rw [if_pos hs] at hr; cases hr
    · rw [if_neg hs]; right; simp only; omega
  · intro s cap hc hr
    simp only [limited_protector] at hr ⊢
    by_cases hs : s = 0
    · rw [if_pos hs] at hr; cases hr
    · rw [if_neg hs]; left; rfl
  · intro s inp cap hc hr
    simp only [limited_protector] at hr ⊢
    by_cases hs : s = 0
    · rw [if_pos hs] at hr; cases hr
    · rw [if_neg hs]; right; left; simp only; omega
/-! ## The claims on the copying paths and the error exits -/

/-- C1. For a copying-framer write, whatever the length of the write staging
slice at entry (zero included), in which every `protect` and `protect_flush`
call returned `TSI_OK`: the write ends by handing `output_buffer` to the wrapped
endpoint's write; the bytes of that buffer, concatenated in slice order, are the
bytes the framer emitted in its `protect` and `protect_flush` calls of the
write, in call order; and the buffer's length is the sum of the emitted byte
counts.  The write returns, for every fuel above a bound, when the framer makes
progress. -/
theorem copying_write_output_is_framer_output {σ ζ : Type} (F : tsi_frame_protector σ)
    (hF : well_behaved F) (Z : tsi_zero_copy_grpc_protector ζ) (ts : tsi_result → String)
    (ep : secure_endpoint σ ζ) (slices : grpc_slice_buffer)
    (cb : Option grpc_closure) (args : WriteArgs)
    (hcopy : ep.zero_copy_protector = none) :
    (∀ fuel r, endpoint_write F Z ts fuel ep slices cb args = some r → calls_ok r.log →
      r.log.getLast? = some (Event.grpc_endpoint_write r.ep.output_buffer args.max_frame_size)
        ∧ wrapped_writes r.log = [r.ep.output_buffer]
        ∧ buffer_bytes r.ep.output_buffer = protect_emitted r.log
        ∧ buffer_length r.ep.output_buffer = protect_emitted_count r.log)
      ∧ (∀ rank, productive F rank →
          ∃ N r, ∀ fuel, N ≤ fuel → endpoint_write F Z ts fuel ep slices cb args = some r) :=
  ⟨fun fuel r h hok => copying_write_output F hF Z ts fuel ep slices cb args r hcopy h hok,
    fun rank hp => endpoint_write_returns F hF rank hp Z ts ep slices cb args
      (fun hne => absurd hcopy hne)⟩

theorem copying_write_output_is_framer_output_witness :
    (∃ r, endpoint_write queue_protector passthrough_zero_copy example_result_to_string 10
        (remnant_endpoint [] 16) [[1, 2, 3], [4, 5]] (some 7) { max_frame_size := 0 } = some r
      ∧ calls_ok r.log
      ∧ r.ep.output_buffer = [[2, 3, 4, 5, 6]]
      ∧ protect_emitted r.log = [2, 3, 4, 5, 6]
      ∧ buffer_bytes r.ep.output_buffer = protect_emitted r.log
      ∧ buffer_length r.ep.output_buffer = protect_emitted_count r.log)
    ∧ (∃ N r, ∀ fuel, N ≤ fuel →
        endpoint_write queue_protector passthrough_zero_copy example_result_to_string fuel
          (remnant_endpoint [] 16) [[1, 2, 3], [4, 5]] (some 7) { max_frame_size := 0 }
          = some r) :=
  ⟨⟨_, rfl, by decide, rfl, rfl,
      ((copying_write_output_is_framer_output queue_protector queue_protector_well_behaved
        passthrough_zero_copy example_result_to_string (remnant_endpoint [] 16)
        [[1, 2, 3], [4, 5]] (some 7) { max_frame_size := 0 } rfl).1 10 _ rfl
        (by decide)).2.2⟩,
    (copying_write_output_is_framer_output queue_protector queue_protector_well_behaved
      passthrough_zero_copy example_result_to_string (remnant_endpoint [] 16)
      [[1, 2, 3], [4, 5]] (some 7) { max_frame_size := 0 } rfl).2 List.length
      queue_protector_productive⟩

/-- C2, as amended. For a copying-framer read whose wrapped read reports success
while the wrapped endpoint has not been released by `destroy`, and whose
`unprotect` calls all returned `TSI_OK`: whatever the destination held before
the read and whatever the length of the read staging slice, the destination
delivered to the caller holds exactly the bytes emitted by the `unprotect` calls
of that read, in call order, and `read_cb` is run once, with OK.  The completion
returns, for every fuel above a bound, when the framer makes progress. -/
theorem copying_read_delivers_framer_output {σ ζ : Type} (F : tsi_frame_protector σ)
    (hF : well_behaved F) (Z : tsi_zero_copy_grpc_protector ζ) (ts : tsi_result → String)
    (fuel0 : Nat) (ep : secure_endpoint σ ζ) (slices : grpc_slice_buffer)
    (cb : Option grpc_closure) (urgent : Bool) (ep1 : secure_endpoint σ ζ)
    (log1 : List Event) (data : grpc_slice_buffer)
    (hcopy : ep.zero_copy_protector = none)
    (hread : endpoint_read F Z ts fuel0 ep slices cb urgent = ReadCall.issued ep1 log1)
    (halive : ep1.wrapped_ep ≠ none) :
    (∀ fuel r, wrapped_read_done F Z ts fuel ep1 data grpc_error_handle.OkStatus = some r →
      calls_ok r.log →
      ∃ d, r.dst = some d ∧ buffer_bytes d = unprotect_emitted r.log
        ∧ runs r.log = [(cb, grpc_error_handle.OkStatus)])
      ∧ (∀ rank, productive F rank →
          ∃ N r, ∀ fuel, N ≤ fuel →
            wrapped_read_done F Z ts fuel ep1 data grpc_error_handle.OkStatus = some r) :=
  ⟨fun fuel r h hok => copying_read_delivers F hF Z ts fuel fuel0 ep slices cb urgent ep1
      log1 data r hcopy hread halive h hok,
    fun rank hp => on_read_returns F hF rank hp Z ts _ _⟩
theorem copying_read_delivers_framer_output_witness :
    ∃ ep1 log1,
      endpoint_read queue_protector passthrough_zero_copy example_result_to_string 10
        (remnant_endpoint [] 16) [[9, 9]] (some 7) false = ReadCall.issued ep1 log1
      ∧ ep1.wrapped_ep ≠ none
      ∧ (∃ r, wrapped_read_done queue_protector passthrough_zero_copy
            example_result_to_string 10 ep1 [[2, 3, 4], [5, 6]] grpc_error_handle.OkStatus
            = some r
          ∧ unprotect_emitted r.log = [1, 2, 3, 4, 5]
          ∧ ∃ d, r.dst = some d ∧ buffer_bytes d = unprotect_emitted r.log
              ∧ runs r.log = [(some 7, grpc_error_handle.OkStatus)])
      ∧ (∃ N r, ∀ fuel, N ≤ fuel →
          wrapped_read_done queue_protector passthrough_zero_copy example_result_to_string
            fuel ep1 [[2, 3, 4], [5, 6]] grpc_error_handle.OkStatus = some r) :=
  ⟨_, _, rfl, by decide,
    ⟨_, rfl, rfl,
      (copying_read_delivers_framer_output queue_protector queue_protector_well_behaved
        passthrough_zero_copy example_result_to_string 10 (remnant_endpoint [] 16) [[9, 9]]
        (some 7) false _ _ [[2, 3, 4], [5, 6]] rfl rfl (by decide)).1 10 _ rfl (by decide)⟩,
    (copying_read_delivers_framer_output queue_protector queue_protector_well_behaved
      passthrough_zero_copy example_result_to_string 10 (remnant_endpoint [] 16) [[9, 9]]
      (some 7) false _ _ [[2, 3, 4], [5, 6]] rfl rfl (by decide)).2 List.length
      queue_protector_productive⟩

/-- C8. For every read whose wrapped read succeeds and in which a framer
`unprotect` call, copying or zero-copy, returns a status `s` other than
`TSI_OK`: that call is the last framer call of the read, all calls before it
returned `TSI_OK`, and the only call after it runs `read_cb` with the error
whose message is "Unwrap failed (" followed by the string form of `s` followed
by ")".  The completion returns, for every fuel above a bound, when the copying
framer makes progress. -/
theorem read_framer_error {σ ζ : Type} (F : tsi_frame_protector σ) (hF : well_behaved F)
    (Z : tsi_zero_copy_grpc_protector ζ) (ts : tsi_result → String)
    (ep : secure_endpoint σ ζ) (d : grpc_slice_buffer) (hd : ep.read_buffer = some d) :
    (∀ fuel r, on_read F Z ts fuel ep grpc_error_handle.OkStatus = some r →
      ¬ calls_ok r.log →
      ∃ l ev s, r.log = l ++ [ev, Event.run ep.read_cb
            (grpc_error_handle.GRPC_ERROR_CREATE ("Unwrap failed (" ++ ts s ++ ")"))]
        ∧ calls_ok l ∧ ev.framer_result = some s ∧ s ≠ tsi_result.TSI_OK)
      ∧ (∀ rank, productive F rank →
          ∃ N r, ∀ fuel, N ≤ fuel →
            on_read F Z ts fuel ep grpc_error_handle.OkStatus = some r) :=
  ⟨fun fuel r h hfail => read_framer_error_exit F hF Z ts fuel ep d r hd h hfail,
    fun rank hp => on_read_returns F hF rank hp Z ts ep _⟩

theorem read_framer_error_witness :
    ∃ r, on_read (limited_protector 5) passthrough_zero_copy example_result_to_string 10
        { (remnant_endpoint 1 16 : secure_endpoint Nat Unit) with
          read_cb := some 7, read_buffer := some [], source_buffer := [[1, 2], [3]], ref := 2 }
        grpc_error_handle.OkStatus = some r
      ∧ ¬ calls_ok r.log
      ∧ runs r.log = [(some 7,
          grpc_error_handle.GRPC_ERROR_CREATE "Unwrap failed (TSI_ERROR_5)")]
      ∧ (∃ l ev s, r.log = l ++ [ev, Event.run (some 7)
            (grpc_error_handle.GRPC_ERROR_CREATE
              ("Unwrap failed (" ++ example_result_to_string s ++ ")"))]
          ∧ calls_ok l ∧ ev.framer_result = some s ∧ s ≠ tsi_result.TSI_OK)
      ∧ ∃ N r, ∀ fuel, N ≤ fuel →
          on_read (limited_protector 5) passthrough_zero_copy example_result_to_string fuel
            { (remnant_endpoint 1 16 : secure_endpoint Nat Unit) with
              read_cb := some 7, read_buffer := some [], source_buffer := [[1, 2], [3]],
              ref := 2 }
            grpc_error_handle.OkStatus = some r :=
  ⟨_, rfl, by decide, by decide,
    (read_framer_error (limited_protector 5) (limited_protector_well_behaved 5)
      passthrough_zero_copy example_result_to_string
      { (remnant_endpoint 1 16 : secure_endpoint Nat Unit) with
        read_cb := some 7, read_buffer := some [], source_buffer := [[1, 2], [3]], ref := 2 }
      [] rfl).1 10 _ rfl (by decide),
    (read_framer_error (limited_protector 5) (limited_protector_well_behaved 5)
      passthrough_zero_copy example_result_to_string
      { (remnant_endpoint 1 16 : secure_endpoint Nat Unit) with
        read_cb := some 7, read_buffer := some [], source_buffer := [[1, 2], [3]], ref := 2 }
      [] rfl).2 (fun k => k) (limited_protector_productive 5)⟩

/-- C9, as amended. For every write in which a framer call (copying `protect`,
`protect_flush`, or zero-copy `protect`) returns a status `s` other than
`TSI_OK`: that call is the last framer call of the write, `output_buffer` is
empty afterwards, the wrapped endpoint's write is not called, `cb` is run with
the error whose message is "Wrap failed (" followed by the string form of `s`
followed by ")", and `write_cb` is as before the write.  The reference count is
as before the write, plus one when the write posted a reclaimer (it posts at
most one, and none when one was already posted).  The write returns, for every
fuel above a bound, when the copying framer makes progress and the zero-copy
path is given a maximum frame size other than zero. -/
theorem write_framer_error {σ ζ : Type} (F : tsi_frame_protector σ) (hF : well_behaved F)
    (Z : tsi_zero_copy_grpc_protector ζ) (ts : tsi_result → String)
    (ep : secure_endpoint σ ζ) (slices : grpc_slice_buffer) (cb : Option grpc_closure)
    (args : WriteArgs) :
    (∀ fuel r, endpoint_write F Z ts fuel ep slices cb args = some r → ¬ calls_ok r.log →
      (∃ l ev s, r.log = l ++ [ev, Event.run cb
            (grpc_error_handle.GRPC_ERROR_CREATE ("Wrap failed (" ++ ts s ++ ")"))]
          ∧ calls_ok l ∧ ev.framer_result = some s ∧ s ≠ tsi_result.TSI_OK)
        ∧ r.ep.output_buffer = []
        ∧ wrapped_writes r.log = []
        ∧ r.ep.write_cb = ep.write_cb
        ∧ r.ep.ref = ep.ref + r.log.count Event.post_reclaimer
        ∧ r.log.count Event.post_reclaimer ≤ 1
        ∧ (ep.has_posted_reclaimer = true → r.ep.ref = ep.ref))
      ∧ (∀ rank, productive F rank →
          (ep.zero_copy_protector ≠ none → 0 < static_cast_size_t args.max_frame_size) →
          ∃ N r, ∀ fuel, N ≤ fuel → endpoint_write F Z ts fuel ep slices cb args = some r) :=
  ⟨fun fuel r h hfail => write_framer_error_exit F hF Z ts fuel ep slices cb args r h hfail,
    fun rank hp hM => endpoint_write_returns F hF rank hp Z ts ep slices cb args hM⟩

theorem write_framer_error_witness :
    ∃ r, endpoint_write (limited_protector 5) passthrough_zero_copy example_result_to_string 10
        (remnant_endpoint 1 16) [[1, 2, 3], [4]] (some 7) { max_frame_size := 0 } = some r
      ∧ ¬ calls_ok r.log
      ∧ runs r.log = [(some 7, grpc_error_handle.GRPC_ERROR_CREATE "Wrap failed (TSI_ERROR_5)")]
      ∧ r.ep.output_buffer = []
      ∧ wrapped_writes r.log = []
      ∧ r.ep.write_cb = none
      ∧ r.ep.ref = 1
      ∧ ∃ N r, ∀ fuel, N ≤ fuel →
          endpoint_write (limited_protector 5) passthrough_zero_copy example_result_to_string
            fuel (remnant_endpoint 1 16) [[1, 2, 3], [4]] (some 7) { max_frame_size := 0 }
            = some r :=
  ⟨_, rfl, by decide, by decide,
    ((write_framer_error (limited_protector 5) (limited_protector_well_behaved 5)
      passthrough_zero_copy example_result_to_string (remnant_endpoint 1 16)
      [[1, 2, 3], [4]] (some 7) { max_frame_size := 0 }).1 10 _ rfl (by decide)).2.1,
    by decide, rfl, rfl,
    (write_framer_error (limited_protector 5) (limited_protector_well_behaved 5)
      passthrough_zero_copy example_result_to_string (remnant_endpoint 1 16)
      [[1, 2, 3], [4]] (some 7) { max_frame_size := 0 }).2 (fun k => k)
      (limited_protector_productive 5) (fun h => absurd rfl h)⟩

/-- C10 as stated fails on "never neither": a zero-copy write with
`max_frame_size` 0, a source of one byte and a framer that answers `TSI_OK`
stays in the chunk loop, so no amount of fuel lets it return: `cb` is never run
and the wrapped write is never called. -/
theorem zero_frame_size_write_never_completes :
    (grpc_legacy_secure_endpoint_create () (some ()) 1 [] :
        secure_endpoint Unit Unit).zero_copy_protector = some ()
      ∧ ¬ ∃ fuel r, endpoint_write identity_protector passthrough_zero_copy
          example_result_to_string fuel
          (grpc_legacy_secure_endpoint_create () (some ()) 1 []) [[1]] (some 7)
          { max_frame_size := 0 } = some r := by
  refine ⟨rfl, ?_⟩
  rintro ⟨fuel, r, h⟩
  rw [endpoint_write_zero_copy identity_protector passthrough_zero_copy
    example_result_to_string fuel _ () [[1]] (some 7) { max_frame_size := 0 } rfl] at h
  have hspin := zero_copy_chunk_loop_spins passthrough_zero_copy (fun _ _ _ => rfl) fuel
    ({ ep := { (grpc_legacy_secure_endpoint_create () (some ()) 1 [] :
          secure_endpoint Unit Unit) with output_buffer := [] },
       z := (), slices := [[1]], result := tsi_result.TSI_OK, log := [] } :
      ZeroCopyLoop Unit Unit)
    (by decide) rfl
  have h0 : static_cast_size_t ({ max_frame_size := 0 } : WriteArgs).max_frame_size = 0 := rfl
  simp only [zero_copy_write, h0] at h
  rw [hspin] at h
  cases h

/-- C10, as amended. Every read and every write that returns reports exactly one
completion.  Each `on_read` of an outstanding read runs the stored `read_cb`
once and nothing else: with "Secure read failed" on the transport-error exit,
with "Unwrap failed" on the framer-error exit, with OK on success.  Each
`endpoint_write` either runs `cb` once with "Wrap failed" and does not call the
wrapped write, or calls the wrapped write once without running `cb`, after
which `on_write` runs `cb` once with the result of the wrapped write; never
both, never neither.  Both return, for every fuel above a bound, when the
copying framer makes progress and, for a write on the zero-copy path, the
maximum frame size is not zero. -/
theorem single_completion {σ ζ : Type} (F : tsi_frame_protector σ) (hF : well_behaved F)
    (Z : tsi_zero_copy_grpc_protector ζ) (ts : tsi_result → String)
    (rank : σ → Nat) (hp : productive F rank)
    (epr : secure_endpoint σ ζ) (error : grpc_error_handle) (d : grpc_slice_buffer)
    (hd : epr.read_buffer = some d)
    (epw : secure_endpoint σ ζ) (slices : grpc_slice_buffer) (cb : Option grpc_closure)
    (args : WriteArgs)
    (hM : epw.zero_copy_protector ≠ none → 0 < static_cast_size_t args.max_frame_size) :
    (∃ N r, (∀ fuel, N ≤ fuel → on_read F Z ts fuel epr error = some r)
        ∧ (runs r.log = [(epr.read_cb, grpc_error_handle.GRPC_ERROR_CREATE_REFERENCING
              "Secure read failed" (read_error epr error))]
          ∨ (∃ s, s ≠ tsi_result.TSI_OK ∧ runs r.log = [(epr.read_cb,
              grpc_error_handle.GRPC_ERROR_CREATE ("Unwrap failed (" ++ ts s ++ ")"))])
          ∨ runs r.log = [(epr.read_cb, grpc_error_handle.OkStatus)]))
      ∧ (∃ N r, (∀ fuel, N ≤ fuel → endpoint_write F Z ts fuel epw slices cb args = some r)
        ∧ ((∃ s, s ≠ tsi_result.TSI_OK
              ∧ runs r.log = [(cb, grpc_error_handle.GRPC_ERROR_CREATE
                  ("Wrap failed (" ++ ts s ++ ")"))]
              ∧ wrapped_writes r.log = [] ∧ r.ep.write_cb = epw.write_cb)
          ∨ (runs r.log = [] ∧ wrapped_writes r.log = [r.ep.output_buffer]
            ∧ r.ep.write_cb = cb
            ∧ ∀ error, runs (on_write r.ep error).2 = [(cb, error)]
                ∧ wrapped_writes (on_write r.ep error).2 = []
                ∧ (on_write r.ep error).1.write_cb = none))) := by
  constructor
  · obtain ⟨N, r, h⟩ := on_read_returns F hF rank hp Z ts epr error
    exact ⟨N, r, h, on_read_runs_once F hF Z ts N epr error d r hd (h N (Nat.le_refl N))⟩
  · obtain ⟨N, r, h⟩ := endpoint_write_returns F hF rank hp Z ts epw slices cb args hM
    exact ⟨N, r, h,
      endpoint_write_completes_once F hF Z ts N epw slices cb args r (h N (Nat.le_refl N))⟩

theorem single_completion_witness :
    (∃ N r, (∀ fuel, N ≤ fuel →
          on_read queue_protector passthrough_zero_copy example_result_to_string fuel
            { (remnant_endpoint [] 16 : secure_endpoint (List Byte) Unit) with
              read_cb := some 7, read_buffer := some [], source_buffer := [[2, 3]], ref := 2 }
            grpc_error_handle.OkStatus = some r)
        ∧ (runs r.log = [(some 7, grpc_error_handle.GRPC_ERROR_CREATE_REFERENCING
              "Secure read failed" grpc_error_handle.OkStatus)]
          ∨ (∃ s, s ≠ tsi_result.TSI_OK ∧ runs r.log = [(some 7,
              grpc_error_handle.GRPC_ERROR_CREATE
                ("Unwrap failed (" ++ example_result_to_string s ++ ")"))])
          ∨ runs r.log = [(some 7, grpc_error_handle.OkStatus)]))
      ∧ (∃ N r, (∀ fuel, N ≤ fuel →
          endpoint_write queue_protector passthrough_zero_copy example_result_to_string fuel
            (remnant_endpoint [] 16) [[1, 2, 3], [4, 5]] (some 9) { max_frame_size := 0 }
            = some r)
        ∧ ((∃ s, s ≠ tsi_result.TSI_OK
              ∧ runs r.log = [(some 9, grpc_error_handle.GRPC_ERROR_CREATE
                  ("Wrap failed (" ++ example_result_to_string s ++ ")"))]
              ∧ wrapped_writes r.log = [] ∧ r.ep.write_cb = none)
          ∨ (runs r.log = [] ∧ wrapped_writes r.log = [r.ep.output_buffer]
            ∧ r.ep.write_cb = some 9
            ∧ ∀ error, runs (on_write r.ep error).2 = [(some 9, error)]
                ∧ wrapped_writes (on_write r.ep error).2 = []
                ∧ (on_write r.ep error).1.write_cb = none))) :=
  single_completion queue_protector queue_protector_well_behaved passthrough_zero_copy
    example_result_to_string List.length queue_protector_productive
    { (remnant_endpoint [] 16 : secure_endpoint (List Byte) Unit) with
      read_cb := some 7, read_buffer := some [], source_buffer := [[2, 3]], ref := 2 }
    grpc_error_handle.OkStatus [] rfl
    (remnant_endpoint [] 16) [[1, 2, 3], [4, 5]] (some 9) { max_frame_size := 0 }
    (fun h => absurd rfl h)

/-! ## Which framer calls each path makes -/

theorem writer_log_nil : writer_log [] := by
  intro e he; cases he

theorem writer_log_append (l₁ l₂ : List Event) :
    writer_log (l₁ ++ l₂) ↔ writer_log l₁ ∧ writer_log l₂ := by
  unfold writer_log
  constructor
  · intro h
    exact ⟨fun e he => h e (List.mem_append.mpr (Or.inl he)),
      fun e he => h e (List.mem_append.mpr (Or.inr he))⟩
  · rintro ⟨h1, h2⟩ e he
    rcases List.mem_append.mp he with he | he
    · exact h1 e he
    · exact h2 e he

theorem writer_log_singleton (e : Event) (h : e.is_framer_call = true → e.is_protect_call = true) :
    writer_log [e] := by
  intro e' he'
  rw [List.mem_singleton.mp he']
  exact h

theorem reader_log_nil : reader_log [] := by
  intro e he; cases he

theorem reader_log_append (l₁ l₂ : List Event) :
    reader_log (l₁ ++ l₂) ↔ reader_log l₁ ∧ reader_log l₂ := by
  unfold reader_log
  constructor
  · intro h
    exact ⟨fun e he => h e (List.mem_append.mpr (Or.inl he)),
      fun e he => h e (List.mem_append.mpr (Or.inr he))⟩
  · rintro ⟨h1, h2⟩ e he
    rcases List.mem_append.mp he with he | he
    · exact h1 e he
    · exact h2 e he

theorem reader_log_singleton (e : Event)
    (h : e.is_framer_call = true → e.is_unprotect_call = true) : reader_log [e] := by
  intro e' he'
  rw [List.mem_singleton.mp he']
  exact h

theorem flush_write_staging_buffer_writer_log {σ ζ : Type} (s : WriteLoop σ ζ)
    (h : writer_log s.log) : writer_log (flush_write_staging_buffer s).log := by
  simp only [flush_write_staging_buffer, maybe_post_reclaimer]
  split
  · rw [writer_log_append]
    exact ⟨h, writer_log_singleton _ (by intro hc; cases hc)⟩
  · simpa using h

theorem write_advanced_writer_log {σ ζ : Type} (s : WriteLoop σ ζ) (n : Nat)
    (h : writer_log s.log) : writer_log (write_advanced s n).log := by
  unfold write_advanced
  split
  · exact flush_write_staging_buffer_writer_log _ h
  · exact h

theorem write_called_writer_log {σ ζ : Type} (s : WriteLoop σ ζ) (p : σ) (out : List Byte)
    (res : tsi_result) (ev : Event) (h : writer_log s.log)
    (hev : ev.is_protect_call = true) : writer_log (write_called s p out res ev).log := by
  simp only [write_called]
  rw [writer_log_append]
  exact ⟨h, writer_log_singleton _ (fun _ => hev)⟩

theorem protect_loop_writer_log {σ ζ : Type} (F : tsi_frame_protector σ) (fuel : Nat)
    (s : WriteLoop σ ζ) (m : List Byte) (s' : WriteLoop σ ζ) (h : writer_log s.log)
    (hrun : protect_loop F fuel s m = some s') : writer_log s'.log := by
  refine protect_loop_rule F (fun s _ => writer_log s.log) (fun s => writer_log s.log)
    (fun s hP => hP) ?_ ?_ fuel s m s' h hrun
  · intro s m c hP _ _ _
    exact write_called_writer_log _ _ _ _ _ hP rfl
  · intro s m c hP _ _ _
    exact write_advanced_writer_log _ _ (write_called_writer_log _ _ _ _ _ hP rfl)

theorem protect_slices_writer_log {σ ζ : Type} (F : tsi_frame_protector σ) (fuel : Nat)
    (slices : List grpc_slice) (s s' : WriteLoop σ ζ) (h : writer_log s.log)
    (hrun : protect_slices F fuel s slices = some s') : writer_log s'.log := by
  refine protect_slices_rule F fuel (fun s _ => writer_log s.log) ?_ slices s s' h hrun
  intro s plain rest s1 hP h1
  have := protect_loop_writer_log F fuel s plain s1 hP h1
  exact ⟨fun _ => this, fun _ => this⟩

theorem protect_flush_loop_writer_log {σ ζ : Type} (F : tsi_frame_protector σ) (fuel : Nat)
    (s s' : WriteLoop σ ζ) (h : writer_log s.log)
    (hrun : protect_flush_loop F fuel s = some s') : writer_log s'.log := by
  refine protect_flush_loop_rule F (fun s => writer_log s.log) (fun s => writer_log s.log)
    ?_ ?_ fuel s s' h hrun
  · intro s c hP _ _
    exact write_called_writer_log _ _ _ _ _ hP rfl
  · intro s c hP _ _
    have := write_advanced_writer_log _ c.out.length
      (write_called_writer_log s c.state c.out c.result
        (protect_flush_event (s.end_ - s.cur) c) hP rfl)
    exact ⟨fun _ => this, fun _ => this⟩

theorem write_split_head_log {σ ζ : Type} (s : WriteLoop σ ζ) :
    (write_split_head s).log = s.log := by
  unfold write_split_head
  split <;> rfl

theorem copying_write_writer_log {σ ζ : Type} (F : tsi_frame_protector σ) (fuel : Nat)
    (s : WriteLoop σ ζ) (slices : grpc_slice_buffer) (s' : WriteLoop σ ζ)
    (h : writer_log s.log) (hrun : copying_write F fuel s slices = some s') :
    writer_log s'.log := by
  unfold copying_write at hrun
  split at hrun
  · cases hrun
  · rename_i s1 h1
    have hs1 := protect_slices_writer_log F fuel slices s s1 h h1
    split at hrun
    · split at hrun
      · cases hrun
      · rename_i s2 h2
        cases hrun
        rw [write_split_head_log]
        exact protect_flush_loop_writer_log F fuel s1 s2 hs1 h2
    · cases hrun
      exact hs1

theorem read_called_reader_log {σ ζ : Type} (s : ReadLoop σ ζ) (p : σ) (out : List Byte)
    (res : tsi_result) (ev : Event) (h : reader_log s.log)
    (hev : ev.is_unprotect_call = true) : reader_log (read_called s p out res ev).log := by
  simp only [read_called]
  rw [reader_log_append]
  exact ⟨h, reader_log_singleton _ (fun _ => hev)⟩

theorem unprotect_loop_reader_log {σ ζ : Type} (F : tsi_frame_protector σ) (fuel : Nat)
    (s : ReadLoop σ ζ) (m : List Byte) (s' : ReadLoop σ ζ) (h : reader_log s.log)
    (hrun : unprotect_loop F fuel s m = some s') : reader_log s'.log := by
  refine unprotect_loop_rule F (fun s _ => reader_log s.log) (fun s => reader_log s.log)
    (fun s hP _ => hP) ?_ ?_ fuel s m s' h hrun
  · intro s m c hP _ _ _
    exact read_called_reader_log _ _ _ _ _ hP rfl
  · intro s m c hP _ _ _
    rw [read_advanced_log]
    exact read_called_reader_log _ _ _ _ _ hP rfl

theorem unprotect_slices_reader_log {σ ζ : Type} (F : tsi_frame_protector σ) (fuel : Nat)
    (slices : List grpc_slice) (s s' : ReadLoop σ ζ) (h : reader_log s.log)
    (hrun : unprotect_slices F fuel s slices = some s') : reader_log s'.log := by
  refine unprotect_slices_rule F fuel (fun s _ => reader_log s.log) ?_ slices s s' h hrun
  intro s encrypted rest s1 hP h1
  have := unprotect_loop_reader_log F fuel s encrypted s1 hP h1
  exact ⟨fun _ => this, fun _ => this⟩

theorem read_split_head_log {σ ζ : Type} (s : ReadLoop σ ζ) :
    (read_split_head s).log = s.log := by
  unfold read_split_head
  split <;> rfl

theorem copying_read_reader_log {σ ζ : Type} (F : tsi_frame_protector σ) (fuel : Nat)
    (s s' : ReadLoop σ ζ) (h : reader_log s.log)
    (hrun : copying_read F fuel s = some s') : reader_log s'.log := by
  unfold copying_read at hrun
  split at hrun
  · cases hrun
  · rename_i s1 h1
    cases hrun
    rw [read_split_head_log]
    exact unprotect_slices_reader_log F fuel _ s s1 h h1
theorem replay_snoc {σ : Type} (F : tsi_frame_protector σ) (p q' : σ) (l : List Event)
    (e : Event) (h : replay F p (l ++ [e]) = some q') :
    ∃ q, replay F p l = some q ∧ replay F q [e] = some q' := by
  rw [replay_append] at h
  cases hq : replay F p l with
  | none => rw [hq] at h; cases h
  | some q => rw [hq] at h; exact ⟨q, rfl, h⟩

theorem replay_protect_result {σ : Type} (F : tsi_frame_protector σ) (q q' : σ)
    (m : List Byte) (cap : Nat) (r : tsi_result) (n : Nat) (out : List Byte)
    (h : replay F q [Event.protect m cap r n out] = some q') :
    (F.protect q m cap).result = r ∧ (F.protect q m cap).processed = n
      ∧ (F.protect q m cap).out = out ∧ (F.protect q m cap).state = q' := by
  simp only [replay] at h
  split at h
  · rename_i hc
    cases h
    exact ⟨hc.1, hc.2.1, hc.2.2, rfl⟩
  · cases h

theorem replay_protect_flush_result {σ : Type} (F : tsi_frame_protector σ) (q q' : σ)
    (cap : Nat) (r : tsi_result) (out : List Byte) (pending : Nat)
    (h : replay F q [Event.protect_flush cap r out pending] = some q') :
    (F.protect_flush q cap).result = r ∧ (F.protect_flush q cap).out = out
      ∧ (F.protect_flush q cap).still_pending = pending
      ∧ (F.protect_flush q cap).state = q' := by
  simp only [replay] at h
  split at h
  · rename_i hc
    cases h
    exact ⟨hc.1, hc.2.1, hc.2.2, rfl⟩
  · cases h

theorem replay_unprotect_result {σ : Type} (F : tsi_frame_protector σ) (q q' : σ)
    (m : List Byte) (cap : Nat) (r : tsi_result) (n : Nat) (out : List Byte)
    (h : replay F q [Event.unprotect m cap r n out] = some q') :
    (F.unprotect q m cap).result = r ∧ (F.unprotect q m cap).processed = n
      ∧ (F.unprotect q m cap).out = out ∧ (F.unprotect q m cap).state = q' := by
  simp only [replay] at h
  split at h
  · rename_i hc
    cases h
    exact ⟨hc.1, hc.2.1, hc.2.2, rfl⟩
  · cases h

/-- On the copying path `endpoint_write` is the locked part followed by the
tail, and the locked part calls no framer function but `protect` and
`protect_flush`. -/
theorem endpoint_write_copying_trace {σ ζ : Type} (F : tsi_frame_protector σ)
    (hF : well_behaved F) (Z : tsi_zero_copy_grpc_protector ζ) (ts : tsi_result → String)
    (fuel : Nat) (ep : secure_endpoint σ ζ) (slices : grpc_slice_buffer)
    (cb : Option grpc_closure) (args : WriteArgs) (r : WriteDone σ ζ)
    (hcopy : ep.zero_copy_protector = none)
    (h : endpoint_write F Z ts fuel ep slices cb args = some r) :
    ∃ s : WriteLoop σ ζ, WriteEnd F { ep with output_buffer := [] } slices s
      ∧ writer_log s.log
      ∧ r = write_finish ts s.ep slices s.result s.log cb args := by
  cases ep
  simp only at hcopy
  subst hcopy
  simp only [endpoint_write] at h
  split at h
  · cases h
  · rename_i s hs
    cases h
    exact ⟨s, copying_write_end F hF _ rfl fuel slices s hs,
      copying_write_writer_log F fuel _ slices s writer_log_nil hs, rfl⟩

/-- On the copying path, with the wrapped endpoint still there and a wrapped
read that succeeded, `on_read` is the locked part followed by the tail, and the
locked part calls no framer function but `unprotect`. -/
theorem on_read_copying_trace {σ ζ : Type} (F : tsi_frame_protector σ) (hF : well_behaved F)
    (Z : tsi_zero_copy_grpc_protector ζ) (ts : tsi_result → String) (fuel : Nat)
    (ep : secure_endpoint σ ζ) (d0 : grpc_slice_buffer) (r : ReadDone σ ζ)
    (hcopy : ep.zero_copy_protector = none) (halive : ep.wrapped_ep ≠ none)
    (hd : ep.read_buffer = some d0)
    (h : on_read F Z ts fuel ep grpc_error_handle.OkStatus = some r) :
    ∃ s : ReadLoop σ ζ, ReadEnd F ep d0 s ∧ reader_log s.log
      ∧ r = read_finish ts s grpc_error_handle.OkStatus := by
  have hal : ep.wrapped_ep.isNone = false := by
    cases hw : ep.wrapped_ep with
    | none => exact absurd hw halive
    | some w => rfl
  simp only [on_read, hal, grpc_error_handle.ok, hcopy] at h
  simp only [Bool.false_eq_true, false_and, if_false, Bool.not_true] at h
  split at h
  · cases h
  · rename_i s hs
    cases h
    exact ⟨s, copying_read_end F hF ep d0 hd fuel s hs,
      copying_read_reader_log F fuel _ s reader_log_nil hs, rfl⟩

theorem endpoint_read_no_leftover {σ ζ : Type} (F : tsi_frame_protector σ)
    (Z : tsi_zero_copy_grpc_protector ζ) (ts : tsi_result → String) (fuel : Nat)
    (ep : secure_endpoint σ ζ) (slices : grpc_slice_buffer) (cb : Option grpc_closure)
    (urgent : Bool) (h : ep.leftover_bytes = []) :
    endpoint_read F Z ts fuel ep slices cb urgent =
      ReadCall.issued (secure_endpoint_ref { ep with read_cb := cb, read_buffer := some [] })
        [Event.grpc_endpoint_read urgent ep.min_progress_size] := by
  unfold endpoint_read
  simp [secure_endpoint_ref, h]

/-- A framer call that failed on the write path of a loopback pair cannot be:
the calls before it were ones the pair answers with `TSI_OK`. -/
theorem loopback_write_ok {σ ζ : Type} (F : tsi_frame_protector σ) (p0 u0 : σ)
    (hL : loopback F p0 u0) (ep0 : secure_endpoint σ ζ) (hp : ep0.protector = p0)
    (slices : grpc_slice_buffer) (s : WriteLoop σ ζ) (hs : WriteEnd F ep0 slices s)
    (hk : writer_log s.log) : s.result = tsi_result.TSI_OK := by
  by_contra hres
  obtain ⟨l, ev, hl, hlok, hev⟩ := hs.failed hres
  have hrep := hs.replayed
  rw [hl, hp] at hrep
  obtain ⟨q, hq, hq'⟩ := replay_snoc F p0 _ l ev hrep
  rw [hl, writer_log_append] at hk
  have hkev := hk.2 ev (List.mem_singleton.mpr rfl) (by simp [Event.is_framer_call, hev])
  cases ev with
  | protect m cap r n out =>
    obtain ⟨h1, _⟩ := replay_protect_result F q _ m cap r n out hq'
    simp only [Event.framer_result, Option.some.injEq] at hev
    exact hres (by rw [← hev, ← h1]; exact hL.protect_ok l q hk.1 hq hlok m cap)
  | protect_flush cap r out pending =>
    obtain ⟨h1, _⟩ := replay_protect_flush_result F q _ cap r out pending hq'
    simp only [Event.framer_result, Option.some.injEq] at hev
    exact hres (by rw [← hev, ← h1]; exact hL.flush_ok l q hk.1 hq hlok cap)
  | _ => simp [Event.is_protect_call] at hkev

/-- The write half of the round trip on a loopback pair: every framer call of a
copying write returns `TSI_OK`, the buffer handed to the wrapped write holds the
bytes the calls emitted, which are a flushed stream for the bytes of the
source. -/
theorem loopback_write {σ ζ : Type} (F : tsi_frame_protector σ) (hF : well_behaved F)
    (p0 u0 : σ) (hL : loopback F p0 u0) (Z : tsi_zero_copy_grpc_protector ζ)
    (ts : tsi_result → String) (fuel : Nat) (w : secure_endpoint σ ζ)
    (slices : grpc_slice_buffer) (cb : Option grpc_closure) (args : WriteArgs)
    (r : WriteDone σ ζ) (hwz : w.zero_copy_protector = none) (hwp : w.protector = p0)
    (h : endpoint_write F Z ts fuel w slices cb args = some r) :
    ∃ wlog p, writer_log wlog ∧ replay F p0 wlog = some p ∧ calls_ok wlog ∧ flushed wlog
      ∧ protect_consumed wlog = buffer_bytes slices
      ∧ protect_emitted wlog = buffer_bytes r.ep.output_buffer
      ∧ r.log = wlog ++ [Event.grpc_endpoint_write r.ep.output_buffer args.max_frame_size]
      ∧ runs wlog = [] ∧ wrapped_writes wlog = []
      ∧ r.ep.write_cb = cb := by
  obtain ⟨s, hs, hk, hr⟩ := endpoint_write_copying_trace F hF Z ts fuel w slices cb args r hwz h
  have hres := loopback_write_ok F p0 u0 hL { w with output_buffer := [] } hwp slices s hs hk
  obtain ⟨hb, hok, hcons, hfl⟩ := hs.ok hres
  rw [write_finish_ok ts _ _ _ _ _ _ hres] at hr
  have hrep := hs.replayed
  refine ⟨s.log, s.ep.protector, hk, ?_, hok, hfl, hcons, ?_, ?_, hs.quiet.1, hs.quiet.2, ?_⟩
  · rw [← hwp]; exact hrep
  · rw [hr, ← hb]; simp [secure_endpoint_ref]
  · rw [hr]; simp [secure_endpoint_ref]
  · rw [hr]
/-- The read half of the round trip on a loopback pair: a copying read whose
data is a flushed stream of the writer delivers what the writer consumed and
completes with OK. -/
theorem loopback_read {σ ζ : Type} (F : tsi_frame_protector σ) (hF : well_behaved F)
    (p0 u0 : σ) (hL : loopback F p0 u0) (Z : tsi_zero_copy_grpc_protector ζ)
    (ts : tsi_result → String) (fuel : Nat) (ep : secure_endpoint σ ζ) (r : ReadDone σ ζ)
    (wlog : List Event) (p : σ) (hwk : writer_log wlog) (hwr : replay F p0 wlog = some p)
    (hwok : calls_ok wlog) (hwf : flushed wlog)
    (hcopy : ep.zero_copy_protector = none) (halive : ep.wrapped_ep ≠ none)
    (hd : ep.read_buffer = some []) (hp : ep.protector = u0)
    (hdata : buffer_bytes ep.source_buffer = protect_emitted wlog)
    (h : on_read F Z ts fuel ep grpc_error_handle.OkStatus = some r) :
    calls_ok r.log ∧ ∃ d, r.dst = some d ∧ buffer_bytes d = protect_consumed wlog
      ∧ runs r.log = [(ep.read_cb, grpc_error_handle.OkStatus)] := by
  obtain ⟨s, hs, hk, hr⟩ := on_read_copying_trace F hF Z ts fuel ep [] r hcopy halive hd h
  have hcb : s.ep.read_cb = ep.read_cb := by
    have := hs.frame
    simp only [read_frame, Prod.mk.injEq] at this
    exact this.2.2.1
  have hrep := hs.replayed
  rw [hp] at hrep
  have hres : s.result = tsi_result.TSI_OK := by
    by_contra hres
    obtain ⟨l, m, cap, n, out, hl, hlok, rest, hrest⟩ := hs.failed hres
    rw [hl] at hrep hk
    obtain ⟨q, hq, hq'⟩ := replay_snoc F u0 _ l _ hrep
    obtain ⟨h1, _⟩ := replay_unprotect_result F q _ m cap s.result n out hq'
    rw [reader_log_append] at hk
    rw [hdata] at hrest
    exact hres (by
      rw [← h1]
      exact hL.unprotect_ok wlog p l q hwk hwr hwok hwf hk.1 hq hlok m rest cap hrest)
  rw [read_finish_ok ts s hres] at hr
  obtain ⟨d, hd1, hd2⟩ := hs.dst
  obtain ⟨hbytes, hok, hcons, hdr⟩ := hd2 hres
  have hinv := hL.inverts wlog p s.log s.ep.protector hwk hwr hwok hwf hk hrep hok hdr
    (by rw [hcons, hdata])
  refine ⟨?_, d, ?_, ?_, ?_⟩
  · rw [hr]
    simp only [call_read_cb]
    rw [calls_ok_append]
    exact ⟨hok, (calls_ok_singleton _).mpr (by simp [Event.framer_result])⟩
  · rw [hr]; simpa [call_read_cb] using hd1
  · rw [hbytes, hinv]; simp [buffer_bytes]
  · rw [hr]
    simp [call_read_cb, runs_append, hs.quiet.1, runs, hcb]

/-- C4. For every plaintext held by the source buffer `slices`: writing it
through a copying secure endpoint and delivering the buffer handed to its
wrapped write as the wrapped-read data of a peer copying secure endpoint, on a
matching loopback framer pair, makes every framer call return `TSI_OK`; the
write calls the wrapped write once and its completion runs `cb` with the status
of the wrapped write (OK when that succeeded); the peer's read delivers exactly
the bytes of the source and runs its `read_cb` once, with OK.  Both the write
and the read return, for every fuel above a bound, when the framer makes
progress. -/
theorem round_trip_identity {σ ζ : Type} (F : tsi_frame_protector σ) (hF : well_behaved F)
    (p0 u0 : σ) (hL : loopback F p0 u0) (Z : tsi_zero_copy_grpc_protector ζ)
    (ts : tsi_result → String) (w rd : secure_endpoint σ ζ)
    (slices dst : grpc_slice_buffer) (cb cbr : Option grpc_closure) (args : WriteArgs)
    (urgent : Bool)
    (hwz : w.zero_copy_protector = none) (hwp : w.protector = p0)
    (hrz : rd.zero_copy_protector = none) (hrp : rd.protector = u0)
    (hra : rd.wrapped_ep ≠ none) (hrl : rd.leftover_bytes = []) :
    (∀ fuel rw, endpoint_write F Z ts fuel w slices cb args = some rw →
      calls_ok rw.log ∧ runs rw.log = []
        ∧ wrapped_writes rw.log = [rw.ep.output_buffer]
        ∧ runs (on_write rw.ep grpc_error_handle.OkStatus).2
            = [(cb, grpc_error_handle.OkStatus)]
        ∧ ∃ ep1 log1,
            (∀ fuel1, endpoint_read F Z ts fuel1 rd dst cbr urgent = ReadCall.issued ep1 log1)
            ∧ ∀ fuel2 rr,
                wrapped_read_done F Z ts fuel2 ep1 rw.ep.output_buffer
                  grpc_error_handle.OkStatus = some rr →
                calls_ok rr.log
                  ∧ (∃ d, rr.dst = some d ∧ buffer_bytes d = buffer_bytes slices)
                  ∧ runs rr.log = [(cbr, grpc_error_handle.OkStatus)])
      ∧ (∀ rank, productive F rank →
          ∃ N rw, (∀ fuel, N ≤ fuel → endpoint_write F Z ts fuel w slices cb args = some rw)
            ∧ ∀ ep1, ∃ N1 rr, ∀ fuel, N1 ≤ fuel →
                wrapped_read_done F Z ts fuel ep1 rw.ep.output_buffer
                  grpc_error_handle.OkStatus = some rr) := by
  constructor
  · intro fuel rw hw
    obtain ⟨wlog, p, hwk, hwr, hwok, hwf, hcons, hem, hlog, hruns, hww, hwcb⟩ :=
      loopback_write F hF p0 u0 hL Z ts fuel w slices cb args rw hwz hwp hw
    refine ⟨?_, ?_, ?_, ?_, ?_⟩
    · rw [hlog, calls_ok_append]
      exact ⟨hwok, (calls_ok_singleton _).mpr (by simp [Event.framer_result])⟩
    · rw [hlog, runs_append, hruns]; rfl
    · rw [hlog, wrapped_writes_append, hww]; rfl
    · simp only [on_write, runs, hwcb]
    · refine ⟨_, _, fun fuel1 => endpoint_read_no_leftover F Z ts fuel1 rd dst cbr urgent hrl,
        ?_⟩
      intro fuel2 rr hrr
      unfold wrapped_read_done at hrr
      obtain ⟨hrok, d, hd, hbytes, hrun⟩ := loopback_read F hF p0 u0 hL Z ts fuel2 _ rr wlog p
        hwk hwr hwok hwf (by simpa [secure_endpoint_ref] using hrz)
        (by simpa [secure_endpoint_ref] using hra) rfl
        (by simpa [secure_endpoint_ref] using hrp) (by simpa using hem.symm) hrr
      exact ⟨hrok, ⟨d, hd, by rw [hbytes, hcons]⟩, by simpa [secure_endpoint_ref] using hrun⟩
  · intro rank hprod
    obtain ⟨N, rw, hN⟩ := endpoint_write_returns F hF rank hprod Z ts w slices cb args
      (fun hne => absurd hwz hne)
    exact ⟨N, rw, hN, fun ep1 => on_read_returns F hF rank hprod Z ts _ _⟩
/-! ## The queue framer is a loopback pair -/

theorem flushed_snoc_other (l : List Event) (e : Event) (h : e.is_framer_call = false) :
    flushed (l ++ [e]) ↔ flushed l := by
  unfold flushed
  rw [last_call_snoc, h]
  simp

theorem drained_snoc_other (l : List Event) (e : Event) (h : e.is_framer_call = false) :
    drained (l ++ [e]) ↔ drained l := by
  unfold drained
  rw [last_call_snoc, h]
  simp

theorem replay_other {σ : Type} (F : tsi_frame_protector σ) (q q' : σ) (e : Event)
    (he : e.is_framer_call = false) (h : replay F q [e] = some q') : q' = q := by
  cases e <;> simp [Event.is_framer_call, Event.framer_result] at he <;>
    simp only [replay] at h <;> cases h <;> rfl

theorem emitted_other (l : List Event) (e : Event) (he : e.is_framer_call = false) :
    protect_emitted (l ++ [e]) = protect_emitted l
      ∧ protect_consumed (l ++ [e]) = protect_consumed l
      ∧ unprotect_emitted (l ++ [e]) = unprotect_emitted l
      ∧ unprotect_consumed (l ++ [e]) = unprotect_consumed l := by
  rw [protect_emitted_append, protect_consumed_append, unprotect_emitted_append,
    unprotect_consumed_append]
  cases e <;> simp [Event.is_framer_call, Event.framer_result] at he <;>
    simp [protect_emitted, protect_consumed, unprotect_emitted, unprotect_consumed,
      Event.protect_out, Event.protect_in, Event.unprotect_out, Event.unprotect_in]

theorem queue_protector_writer (wlog : List Event) :
    ∀ p, writer_log wlog → replay queue_protector [] wlog = some p →
      protect_emitted wlog ++ p = (protect_consumed wlog).map (· + 1)
        ∧ (flushed wlog → p = []) := by
  induction wlog using List.reverseRecOn with
  | nil =>
    intro p _ h
    simp only [replay, Option.some.injEq] at h
    subst h
    exact ⟨rfl, fun _ => rfl⟩
  | append_singleton l e ih =>
    intro p hk h
    rw [writer_log_append] at hk
    obtain ⟨q, hq, hq'⟩ := replay_snoc queue_protector [] p l e h
    obtain ⟨ih1, ih2⟩ := ih q hk.1 hq
    by_cases hfc : e.is_framer_call = true
    · have hpc := hk.2 e (List.mem_singleton.mpr rfl) hfc
      cases e with
      | protect m cap r n out =>
        obtain ⟨_, h2, h3, h4⟩ := replay_protect_result queue_protector q p m cap r n out hq'
        simp only [queue_protector] at h2 h3 h4
        constructor
        · rw [protect_emitted_append, protect_consumed_append]
          simp only [protect_emitted, protect_consumed, List.flatMap_cons, List.flatMap_nil,
            List.append_nil, Event.protect_out, Event.protect_in] at ih1 ⊢
          rw [← h2, List.take_length, List.map_append, ← ih1, ← h3, ← h4]
          simp [List.append_assoc, List.take_append_drop]
        · intro hf
          obtain ⟨c, r', o, hf⟩ := hf
          rw [last_call_snoc] at hf
          simp [Event.is_framer_call, Event.framer_result] at hf
      | protect_flush cap r out pending =>
        obtain ⟨_, h2, h3, h4⟩ :=
          replay_protect_flush_result queue_protector q p cap r out pending hq'
        simp only [queue_protector] at h2 h3 h4
        constructor
        · rw [protect_emitted_append, protect_consumed_append]
          simp only [protect_emitted, protect_consumed, List.flatMap_cons, List.flatMap_nil,
            List.append_nil, Event.protect_out, Event.protect_in] at ih1 ⊢
          rw [← ih1, ← h2, ← h4]
          simp [List.append_assoc, List.take_append_drop]
        · intro hf
          obtain ⟨c, r', o, hf⟩ := hf
          rw [last_call_snoc] at hf
          simp only [Event.is_framer_call, Event.framer_result, Option.isSome_some, if_true,
            Option.some.injEq, Event.protect_flush.injEq] at hf
          rw [← h4]
          have : (q.drop cap).length = 0 := by rw [h3]; exact hf.2.2.2
          exact List.length_eq_zero.mp this
      | _ => simp [Event.is_protect_call] at hpc
    · have hfc' : e.is_framer_call = false := by simpa using hfc
      have hp := replay_other queue_protector q p e hfc' hq'
      obtain ⟨e1, e2, _, _⟩ := emitted_other l e hfc'
      rw [e1, e2, hp, flushed_snoc_other l e hfc']
      exact ⟨ih1, ih2⟩

theorem queue_protector_reader (rlog : List Event) :
    ∀ u, reader_log rlog → replay queue_protector [] rlog = some u →
      unprotect_emitted rlog ++ u = (unprotect_consumed rlog).map (· - 1)
        ∧ (drained rlog → u = []) := by
  induction rlog using List.reverseRecOn with
  | nil =>
    intro u _ h
    simp only [replay, Option.some.injEq] at h
    subst h
    exact ⟨rfl, fun _ => rfl⟩
  | append_singleton l e ih =>
    intro u hk h
    rw [reader_log_append] at hk
    obtain ⟨q, hq, hq'⟩ := replay_snoc queue_protector [] u l e h
    obtain ⟨ih1, ih2⟩ := ih q hk.1 hq
    by_cases hfc : e.is_framer_call = true
    · have hpc := hk.2 e (List.mem_singleton.mpr rfl) hfc
      cases e with
      | unprotect m cap r n out =>
        obtain ⟨_, h2, h3, h4⟩ := replay_unprotect_result queue_protector q u m cap r n out hq'
        simp only [queue_protector] at h2 h3 h4
        constructor
        · rw [unprotect_emitted_append, unprotect_consumed_append]
          simp only [unprotect_emitted, unprotect_consumed, List.flatMap_cons,
            List.flatMap_nil, List.append_nil, Event.unprotect_out, Event.unprotect_in]
            at ih1 ⊢
          rw [← h2, List.take_length, List.map_append, ← ih1, ← h3, ← h4]
          simp [List.append_assoc, List.take_append_drop]
        · intro hd
          obtain ⟨ho, hcap⟩ := (drained_snoc_unprotect l m cap r n out).mp hd
          rw [← h3] at ho
          rw [← h4]
          rcases List.take_eq_nil_iff.mp ho with hc | hc
          · omega
          · rw [hc]; simp
      | _ => simp [Event.is_unprotect_call] at hpc
    · have hfc' : e.is_framer_call = false := by simpa using hfc
      have hp := replay_other queue_protector q u e hfc' hq'
      obtain ⟨_, _, e1, e2⟩ := emitted_other l e hfc'
      rw [e1, e2, hp, drained_snoc_other l e hfc']
      exact ⟨ih1, ih2⟩

theorem queue_protector_loopback : loopback queue_protector [] [] := by
  constructor
  · intros; rfl
  · intros; rfl
  · intros; rfl
  · intro wlog p rlog u hwk hwr _ hwf hrk hrr _ hrd hcons
    obtain ⟨w1, w2⟩ := queue_protector_writer wlog p hwk hwr
    obtain ⟨r1, r2⟩ := queue_protector_reader rlog u hrk hrr
    rw [w2 hwf, List.append_nil] at w1
    rw [r2 hrd, List.append_nil] at r1
    rw [r1, hcons, w1, List.map_map]
    have : ((fun x : Byte => x - 1) ∘ fun x => x + 1) = id := by
      funext x; simp
    rw [this, List.map_id]
theorem round_trip_identity_witness :
    ∃ rw, endpoint_write queue_protector passthrough_zero_copy example_result_to_string 10
        (remnant_endpoint [] 16) [[1, 2, 3], [4, 5]] (some 7) { max_frame_size := 0 } = some rw
      ∧ buffer_bytes rw.ep.output_buffer = [2, 3, 4, 5, 6]
      ∧ calls_ok rw.log
      ∧ wrapped_writes rw.log = [rw.ep.output_buffer]
      ∧ runs (on_write rw.ep grpc_error_handle.OkStatus).2
          = [(some 7, grpc_error_handle.OkStatus)]
      ∧ ∃ ep1 log1,
          endpoint_read queue_protector passthrough_zero_copy example_result_to_string 10
            (remnant_endpoint [] 16) [[9]] (some 8) false = ReadCall.issued ep1 log1
          ∧ ∃ rr, wrapped_read_done queue_protector passthrough_zero_copy
                example_result_to_string 10 ep1 rw.ep.output_buffer
                grpc_error_handle.OkStatus = some rr
              ∧ calls_ok rr.log
              ∧ (∃ d, rr.dst = some d ∧ buffer_bytes d = buffer_bytes [[1, 2, 3], [4, 5]])
              ∧ runs rr.log = [(some 8, grpc_error_handle.OkStatus)] := by
  obtain ⟨h1, _, h3, h4, ep1, log1, hread, hdone⟩ :=
    (round_trip_identity queue_protector queue_protector_well_behaved [] []
      queue_protector_loopback passthrough_zero_copy example_result_to_string
      (remnant_endpoint [] 16) (remnant_endpoint [] 16) [[1, 2, 3], [4, 5]] [[9]]
      (some 7) (some 8) { max_frame_size := 0 } false rfl rfl rfl rfl (by decide) rfl).1
      10 _ rfl
  refine ⟨_, rfl, rfl, h1, h3, h4, ep1, log1, hread 10, ?_⟩
  have e := hread 10
  rw [endpoint_read_no_leftover _ _ _ _ _ _ _ _ rfl] at e
  injection e with e1 e2
  subst e1
  exact ⟨_, rfl, hdone 10 _ rfl⟩

/-! ## Successive reads -/

theorem secure_endpoint_unref_eq {σ ζ : Type} (ep : secure_endpoint σ ζ) :
    secure_endpoint_unref ep =
      { ep with ref := ep.ref - 1, deleted := if ep.ref - 1 = 0 then true else ep.deleted } := by
  unfold secure_endpoint_unref
  split <;> rfl

/-- C14. When the reclaimer callback runs with a sweep, afterwards both staging
slices are empty slices, `has_posted_reclaimer` is false, the reference count is
lower by exactly one, and every other field of the endpoint is as before; when
it runs without a sweep only the reference count changes (lower by one), so
`has_posted_reclaimer` stays as it was.  In both cases the registration is
used up, and the endpoint is deleted when the count reached zero. -/
theorem reclaimer_callback_effect {σ ζ : Type} (ep : secure_endpoint σ ζ) :
    reclaimer_callback ep true =
        { ep with
          read_staging_buffer := grpc_empty_slice,
          write_staging_buffer := grpc_empty_slice,
          has_posted_reclaimer := false,
          ref := ep.ref - 1,
          reclaimers := ep.reclaimers - 1,
          deleted := if ep.ref - 1 = 0 then true else ep.deleted }
      ∧ reclaimer_callback ep false =
        { ep with
          ref := ep.ref - 1,
          reclaimers := ep.reclaimers - 1,
          deleted := if ep.ref - 1 = 0 then true else ep.deleted }
      ∧ (reclaimer_callback ep true).read_staging_buffer.length = 0
      ∧ (reclaimer_callback ep true).write_staging_buffer.length = 0
      ∧ (reclaimer_callback ep false).has_posted_reclaimer = ep.has_posted_reclaimer := by
  refine ⟨?_, ?_, ?_, ?_, ?_⟩
  · simp only [reclaimer_callback, secure_endpoint_unref_eq, if_true]
  · simp only [reclaimer_callback, secure_endpoint_unref_eq, Bool.false_eq_true, if_false]
  · simp only [reclaimer_callback, secure_endpoint_unref_eq, if_true]; rfl
  · simp only [reclaimer_callback, secure_endpoint_unref_eq, if_true]; rfl
  · simp only [reclaimer_callback, secure_endpoint_unref_eq, Bool.false_eq_true, if_false]

/-- C18. For every result `r` of the wrapped write, OK or error, `on_write` runs
the closure stored in `write_cb` with exactly `r`, and nothing else; it sets
`write_cb` to null and drops exactly one reference, leaving every other field
as it was.  The closure stored is the `cb` of the write that called the wrapped
write. -/
theorem on_write_passes_result {σ ζ : Type} (F : tsi_frame_protector σ)
    (hF : well_behaved F) (Z : tsi_zero_copy_grpc_protector ζ) (ts : tsi_result → String)
    (ep : secure_endpoint σ ζ) (r : grpc_error_handle) :
    (on_write ep r).2 = [Event.run ep.write_cb r]
      ∧ (on_write ep r).1 =
          { ep with
            write_cb := none,
            ref := ep.ref - 1,
            deleted := if ep.ref - 1 = 0 then true else ep.deleted }
      ∧ (∀ fuel slices cb args w,
          endpoint_write F Z ts fuel ep slices cb args = some w →
          wrapped_writes w.log ≠ [] →
          w.ep.write_cb = cb ∧ (on_write w.ep r).2 = [Event.run cb r]
            ∧ (on_write w.ep r).1.write_cb = none
            ∧ (on_write w.ep r).1.ref = w.ep.ref - 1) := by
  refine ⟨rfl, ?_, ?_⟩
  · simp only [on_write, secure_endpoint_unref_eq]
  · intro fuel slices cb args w hw hne
    rcases endpoint_write_completes_once F hF Z ts fuel ep slices cb args w hw with
      ⟨_, _, _, h, _⟩ | ⟨_, _, h, _⟩
    · exact absurd h hne
    · refine ⟨h, ?_, ?_, ?_⟩
      · simp only [on_write, h]
      · simp only [on_write, secure_endpoint_unref_eq]
      · simp only [on_write, secure_endpoint_unref_eq]

theorem on_write_passes_result_witness :
    (on_write (remnant_endpoint [] 16 : secure_endpoint (List Byte) Unit)
        (grpc_error_handle.other 14 "unavailable")).2
        = [Event.run none (grpc_error_handle.other 14 "unavailable")]
      ∧ ∃ w, endpoint_write queue_protector passthrough_zero_copy example_result_to_string 10
          (remnant_endpoint [] 16) [[1, 2]] (some 7) { max_frame_size := 0 } = some w
        ∧ w.ep.write_cb = some 7
        ∧ (on_write w.ep (grpc_error_handle.other 14 "unavailable")).2
            = [Event.run (some 7) (grpc_error_handle.other 14 "unavailable")] :=
  ⟨(on_write_passes_result queue_protector queue_protector_well_behaved
      passthrough_zero_copy example_result_to_string (remnant_endpoint [] 16)
      (grpc_error_handle.other 14 "unavailable")).1,
    _, rfl,
    ((on_write_passes_result queue_protector queue_protector_well_behaved
      passthrough_zero_copy example_result_to_string (remnant_endpoint [] 16)
      (grpc_error_handle.other 14 "unavailable")).2.2 10 [[1, 2]] (some 7)
      { max_frame_size := 0 } _ rfl (by decide)).1,
    ((on_write_passes_result queue_protector queue_protector_well_behaved
      passthrough_zero_copy example_result_to_string (remnant_endpoint [] 16)
      (grpc_error_handle.other 14 "unavailable")).2.2 10 [[1, 2]] (some 7)
      { max_frame_size := 0 } _ rfl (by decide)).2.1⟩

/-- C19. For every callable `f`, `EnsureRunInExecCtx(f)` runs `f` exactly once.
If no execution context is current on the thread, `f` runs under the temporary
context and none is current after the call; if a context is current, `f` runs
under that context and it is current afterwards.  In both cases `exec_ctx_`
after the call is what it was before it. -/
theorem EnsureRunInExecCtx_runs_once {ω : Type} (env : ExecCtxCalls ω) (this : Nat)
    (f : Callable ω) (t : Thread ω) :
    (EnsureRunInExecCtx env this f t).calls
        = t.calls ++ [if t.exec_ctx_ = none then some this else t.exec_ctx_]
      ∧ (EnsureRunInExecCtx env this f t).exec_ctx_ = t.exec_ctx_
      ∧ (t.exec_ctx_ = none →
          (EnsureRunInExecCtx env this f t).exec_ctx_ = none
            ∧ (EnsureRunInExecCtx env this f t).rest
              = env.DecExecCtxCount (env.Flush (f (some this) (env.IncExecCtxCount t.rest))))
      ∧ (t.exec_ctx_ ≠ none →
          (EnsureRunInExecCtx env this f t).rest = f t.exec_ctx_ t.rest) := by
  have hflag : GRPC_EXEC_CTX_FLAG_IS_INTERNAL_THREAD &&& GRPC_EXEC_CTX_FLAG_IS_FINISHED = 0 := by
    decide
  by_cases h : t.exec_ctx_ = none
  · simp [EnsureRunInExecCtx, ExecCtx.Get, h, ExecCtx.destruct, ExecCtx.construct,
      ExecCtx.Set, invoke, hflag]
  · simp [EnsureRunInExecCtx, ExecCtx.Get, h, invoke]

/-! ## What each operation does to the bookkeeping fields -/

theorem call_read_cb_ep {σ ζ : Type} (ep : secure_endpoint σ ζ) (result : tsi_result)
    (log : List Event) (error : grpc_error_handle) :
    (call_read_cb ep result log error).ep =
      { ep with
        read_buffer := none,
        ref := ep.ref - 1,
        deleted := if ep.ref - 1 = 0 then true else ep.deleted } := by
  simp only [call_read_cb, secure_endpoint_unref_eq]

theorem read_finish_ep {σ ζ : Type} (ts : tsi_result → String) (s : ReadLoop σ ζ)
    (error : grpc_error_handle) :
    (read_finish ts s error).ep =
      { s.ep with
        read_buffer := none,
        source_buffer := if error.ok = true then [] else s.ep.source_buffer,
        ref := s.ep.ref - 1,
        deleted := if s.ep.ref - 1 = 0 then true else s.ep.deleted } := by
  unfold read_finish
  cases hok : error.ok
  · simp [call_read_cb_ep]
  · simp only [Bool.not_true, Bool.false_eq_true, if_false, if_true]
    split <;> simp [call_read_cb_ep, update_read_buffer]

/-- The fields that a completion of the wrapped read leaves as they were, and
what it does to the others. -/
theorem on_read_books {σ ζ : Type} (F : tsi_frame_protector σ) (hF : well_behaved F)
    (Z : tsi_zero_copy_grpc_protector ζ) (ts : tsi_result → String) (fuel : Nat)
    (ep : secure_endpoint σ ζ) (error : grpc_error_handle) (d : grpc_slice_buffer)
    (r : ReadDone σ ζ) (hd : ep.read_buffer = some d)
    (h : on_read F Z ts fuel ep error = some r) :
    r.ep.read_buffer = none ∧ r.ep.ref = ep.ref - 1
      ∧ r.ep.deleted = (if ep.ref - 1 = 0 then true else ep.deleted)
      ∧ r.ep.reclaimers = ep.reclaimers
      ∧ r.ep.has_posted_reclaimer = ep.has_posted_reclaimer
      ∧ r.ep.write_cb = ep.write_cb
      ∧ r.ep.leftover_bytes = ep.leftover_bytes
      ∧ r.ep.wrapped_ep = ep.wrapped_ep
      ∧ r.ep.zero_copy_protector.isSome = ep.zero_copy_protector.isSome
      ∧ (ep.zero_copy_protector = none ∨ (read_error ep error).ok = false →
          r.ep.min_progress_size = ep.min_progress_size)
      ∧ (∀ z, ep.zero_copy_protector = some z → (read_error ep error).ok = true →
          r.ep.min_progress_size =
            if (Z.unprotect z ep.source_buffer d 1).result ≠ tsi_result.TSI_OK then 1
            else max 1 (Z.unprotect z ep.source_buffer d 1).min_progress_size)
      ∧ ((read_error ep error).ok = true → r.ep.source_buffer = []) := by
  by_cases hok : (read_error ep error).ok = true
  · obtain ⟨e1, e2, halive⟩ := read_error_ok ep _ hok
    subst e2
    cases hz : ep.zero_copy_protector with
    | some z =>
      rw [on_read_zero_copy F Z ts fuel ep z _ hok hz, e1] at h
      cases h
      refine ⟨?_, ?_, ?_, ?_, ?_, ?_, ?_, ?_, ?_, ?_, ?_, ?_⟩ <;>
        simp only [read_finish_ep, zero_copy_read, update_read_buffer, hd, Option.getD_some,
          hz, grpc_error_handle.ok, if_true, Option.isSome_some]
      · intro hc
        rcases hc with hc | hc
        · cases hc
        · rw [e1] at hc; cases hc
      · intro z' hz' _
        cases hz'
        rfl
      · intro _; trivial
    | none =>
      obtain ⟨s, hs, hr⟩ := on_read_copying F hF Z ts fuel ep d r hz halive hd h
      have hfr := hs.frame
      simp only [read_frame, Prod.mk.injEq] at hfr
      obtain ⟨f1, f2, f3, f4, f5, f6, f7, f8, f9, f10, f11, f12, f13, f14⟩ := hfr
      rw [hr, read_finish_ep]
      refine ⟨rfl, ?_, ?_, f13, f9, f4, f6, f1, ?_, fun _ => f10, ?_, fun _ => rfl⟩
      · show s.ep.ref - 1 = ep.ref - 1
        rw [f12]
      · show (if s.ep.ref - 1 = 0 then true else s.ep.deleted)
          = (if ep.ref - 1 = 0 then true else ep.deleted)
        rw [f12, f14]
      · show s.ep.zero_copy_protector.isSome = (none : Option ζ).isSome
        rw [f2, hz]
      · intro z' hz'
        cases hz'
  · have hno : (read_error ep error).ok = false := by simpa using hok
    rw [on_read_error F Z ts fuel ep _ hno] at h
    cases h
    rw [call_read_cb_ep]
    refine ⟨rfl, rfl, rfl, rfl, rfl, rfl, rfl, rfl, rfl, fun _ => rfl, ?_, ?_⟩
    · intro z _ hc
      rw [hno] at hc; cases hc
    · intro hc
      rw [hno] at hc; cases hc

theorem zero_copy_chunk_loop_keeps_protector {σ ζ : Type}
    (Z : tsi_zero_copy_grpc_protector ζ) (M : Nat) (fuel : Nat) :
    ∀ (s s' : ZeroCopyLoop σ ζ), s.ep.zero_copy_protector.isSome = true →
      zero_copy_chunk_loop Z M fuel s = some s' →
      s'.ep.zero_copy_protector.isSome = true := by
  induction fuel with
  | zero => intro s s' _ h; cases h
  | succ k ih =>
    intro s s' hs h
    simp only [zero_copy_chunk_loop] at h
    split at h
    · exact ih (zero_copy_protect_call Z true _) s' rfl h
    · cases h; exact hs

theorem zero_copy_write_keeps_protector {σ ζ : Type} (Z : tsi_zero_copy_grpc_protector ζ)
    (fuel : Nat) (args : WriteArgs) (s s' : ZeroCopyLoop σ ζ)
    (hs : s.ep.zero_copy_protector.isSome = true)
    (h : zero_copy_write Z fuel args s = some s') :
    s'.ep.zero_copy_protector.isSome = true := by
  unfold zero_copy_write at h
  split at h
  · cases h
  · rename_i s1 h1
    cases h
    have h2 := zero_copy_chunk_loop_keeps_protector Z _ fuel
      ({ s with result := tsi_result.TSI_OK } : ZeroCopyLoop σ ζ) s1 hs h1
    show (if s1.result = tsi_result.TSI_OK ∧ buffer_length s1.slices > 0 then
      zero_copy_protect_call Z false s1 else s1).ep.zero_copy_protector.isSome = true
    split
    · rfl
    · exact h2

/-- The fields that a write leaves as they were, and what it does to the
others: it stores `cb` and takes a reference when it hands the output to the
wrapped endpoint, and it may post the reclaimer, once, when none is posted. -/
theorem endpoint_write_books {σ ζ : Type} (F : tsi_frame_protector σ) (hF : well_behaved F)
    (Z : tsi_zero_copy_grpc_protector ζ) (ts : tsi_result → String) (fuel : Nat)
    (ep : secure_endpoint σ ζ) (slices : grpc_slice_buffer) (cb : Option grpc_closure)
    (args : WriteArgs) (r : WriteDone σ ζ)
    (h : endpoint_write F Z ts fuel ep slices cb args = some r) :
    r.ep.read_buffer = ep.read_buffer
      ∧ r.ep.min_progress_size = ep.min_progress_size
      ∧ r.ep.leftover_bytes = ep.leftover_bytes
      ∧ r.ep.wrapped_ep = ep.wrapped_ep
      ∧ r.ep.deleted = ep.deleted
      ∧ r.ep.source_buffer = ep.source_buffer
      ∧ r.ep.zero_copy_protector.isSome = ep.zero_copy_protector.isSome
      ∧ r.ep.write_cb = (if r.result = tsi_result.TSI_OK then cb else ep.write_cb)
      ∧ ((r.ep.has_posted_reclaimer = ep.has_posted_reclaimer
            ∧ r.ep.reclaimers = ep.reclaimers
            ∧ r.ep.ref = ep.ref + (if r.result = tsi_result.TSI_OK then 1 else 0))
          ∨ (ep.has_posted_reclaimer = false ∧ r.ep.has_posted_reclaimer = true
            ∧ r.ep.reclaimers = ep.reclaimers + 1
            ∧ r.ep.ref = ep.ref + 1 + (if r.result = tsi_result.TSI_OK then 1 else 0))) := by
  have hfin : ∀ (ep' : secure_endpoint σ ζ) (sl : grpc_slice_buffer) (res : tsi_result)
      (log : List Event),
      (write_finish ts ep' sl res log cb args).result = res
        ∧ (write_finish ts ep' sl res log cb args).ep =
          if res = tsi_result.TSI_OK then
            { ep' with ref := ep'.ref + 1, write_cb := cb }
          else { ep' with output_buffer := [] } := by
    intro ep' sl res log
    by_cases hres : res = tsi_result.TSI_OK
    · rw [write_finish_ok ts _ _ _ _ _ _ hres, if_pos hres]
      exact ⟨rfl, rfl⟩
    · rw [write_finish_failed ts _ _ _ _ _ _ hres, if_neg hres]
      exact ⟨rfl, rfl⟩
  cases hz : ep.zero_copy_protector with
  | some z =>
    rw [endpoint_write_zero_copy F Z ts fuel ep z slices cb args hz] at h
    cases hw : zero_copy_write Z fuel args
        { ep := { ep with output_buffer := [] }, z := z, slices := slices,
          result := tsi_result.TSI_OK, log := [] } with
    | none => rw [hw] at h; cases h
    | some s =>
      rw [hw] at h
      simp only [Option.map_some', Option.some.injEq] at h
      have hs := zero_copy_write_inv Z _ fuel args z slices s hw
      have hfr := hs.frame
      simp only [zero_copy_frame, Prod.mk.injEq] at hfr
      obtain ⟨f1, f2, f3, f4, f5, f6, f7, f8, f9, f10, f11, f12, f13, f14⟩ := hfr
      obtain ⟨g1, g2⟩ := hfin s.ep s.slices s.result s.log
      rw [h] at g1 g2
      have hzs : s.ep.zero_copy_protector.isSome = true :=
        zero_copy_write_keeps_protector Z fuel args
          ({ ep := { ep with output_buffer := [] }, z := z, slices := slices,
             result := tsi_result.TSI_OK, log := [] } : ZeroCopyLoop σ ζ) s
          (by simp [hz]) hw
      rw [g1, g2]
      by_cases hres : s.result = tsi_result.TSI_OK
      · simp only [hres, if_true]
        exact ⟨f5, f11, f7, f1, f14, f6, by rw [hzs]; rfl, trivial, Or.inl ⟨f10, f13, by rw [f12]⟩⟩
      · simp only [hres, if_false]
        exact ⟨f5, f11, f7, f1, f14, f6, by rw [hzs]; rfl, f4,
          Or.inl ⟨f10, f13, by rw [f12]; simp⟩⟩
  | none =>
    obtain ⟨s, hs, hr⟩ := endpoint_write_copying F hF Z ts fuel ep slices cb args r hz h
    have hfr := hs.frame
    simp only [write_frame, Prod.mk.injEq] at hfr
    obtain ⟨f1, f2, f3, f4, f5, f6, f7, f8, f9, f10, f11⟩ := hfr
    obtain ⟨g1, g2⟩ := hfin s.ep slices s.result s.log
    rw [← hr] at g1 g2
    rw [g1, g2]
    by_cases hres : s.result = tsi_result.TSI_OK
    · simp only [hres, if_true]
      refine ⟨f5, f9, f7, f1, f11, f6, by rw [f2, hz], trivial, ?_⟩
      rcases hs.reclaimer with ⟨a, b, c, _⟩ | ⟨a, b, c, d, _⟩
      · exact Or.inl ⟨a, c, by rw [b]⟩
      · exact Or.inr ⟨a, b, d, by rw [c]⟩
    · simp only [hres, if_false]
      refine ⟨f5, f9, f7, f1, f11, f6, by rw [f2, hz], f4, ?_⟩
      rcases hs.reclaimer with ⟨a, b, c, _⟩ | ⟨a, b, c, d, _⟩
      · exact Or.inl ⟨a, c, by rw [b]; simp⟩
      · exact Or.inr ⟨a, b, d, by rw [c]; simp⟩
/-- How `endpoint_read` ends: with no leftover slices it issues the wrapped read;
with leftover slices it swaps them into `source_buffer`, and, when `CHECK_EQ`
holds, runs `on_read` with OK before it returns. -/
theorem endpoint_read_cases {σ ζ : Type} (F : tsi_frame_protector σ)
    (Z : tsi_zero_copy_grpc_protector ζ) (ts : tsi_result → String) (fuel : Nat)
    (ep : secure_endpoint σ ζ) (slices : grpc_slice_buffer) (cb : Option grpc_closure)
    (urgent : Bool) :
    (ep.leftover_bytes = []
        ∧ endpoint_read F Z ts fuel ep slices cb urgent =
          ReadCall.issued (secure_endpoint_ref { ep with read_cb := cb, read_buffer := some [] })
            [Event.grpc_endpoint_read urgent ep.min_progress_size])
      ∨ (ep.leftover_bytes ≠ [] ∧ ep.source_buffer ≠ []
        ∧ endpoint_read F Z ts fuel ep slices cb urgent = ReadCall.check_failed)
      ∨ (ep.leftover_bytes ≠ [] ∧ ep.source_buffer = []
        ∧ endpoint_read F Z ts fuel ep slices cb urgent =
          match on_read F Z ts fuel
              { (secure_endpoint_ref { ep with read_cb := cb, read_buffer := some [] }) with
                leftover_bytes := [], source_buffer := ep.leftover_bytes }
              grpc_error_handle.OkStatus with
          | none => ReadCall.out_of_fuel
          | some d => ReadCall.completed d) := by
  by_cases hl : ep.leftover_bytes = []
  · exact Or.inl ⟨hl, endpoint_read_no_leftover F Z ts fuel ep slices cb urgent hl⟩
  · right
    have hl' : ep.leftover_bytes.length ≠ 0 := by
      intro h0; exact hl (List.length_eq_zero.mp h0)
    by_cases hs : ep.source_buffer = []
    · right
      refine ⟨hl, hs, ?_⟩
      unfold endpoint_read
      simp only [secure_endpoint_ref, hl', hs, ne_eq, not_false_eq_true, if_true,
        List.length_nil, not_true_eq_false, if_false]
      all_goals rfl
    · left
      have hs' : ep.source_buffer.length ≠ 0 := by
        intro h0; exact hs (List.length_eq_zero.mp h0)
      refine ⟨hl, hs, ?_⟩
      unfold endpoint_read
      simp only [secure_endpoint_ref, hl', hs', ne_eq, not_false_eq_true, if_true]

/-! ## Invariants of the reachable states -/

theorem consistent_created {σ ζ : Type} (protector : σ) (zero_copy_protector : Option ζ)
    (to_wrap : Nat) (leftover_slices : List grpc_slice) :
    consistent (created protector zero_copy_protector to_wrap leftover_slices :
      endpoint_state σ ζ) := by
  constructor <;> simp [created, grpc_legacy_secure_endpoint_create, in_flight]

theorem consistent_ref_pos {σ ζ : Type} (s : endpoint_state σ ζ) (h : consistent s)
    (hlive : s.destroyed = false ∨ s.read_in_flight = true ∨ s.write_in_flight = true
      ∨ 0 < s.ep.reclaimers) :
    1 ≤ s.ep.ref ∧ s.ep.deleted = false := by
  have hr := h.refs
  have h1 : 1 ≤ s.ep.ref := by
    rw [hr]
    rcases hlive with hl | hl | hl | hl
    · rw [hl]
      cases s.read_in_flight <;> cases s.write_in_flight <;> simp [in_flight] <;> omega
    · rw [hl]
      cases s.destroyed <;> cases s.write_in_flight <;> simp [in_flight] <;> omega
    · rw [hl]
      cases s.destroyed <;> cases s.read_in_flight <;> simp [in_flight] <;> omega
    · cases s.destroyed <;> cases s.read_in_flight <;> cases s.write_in_flight <;>
        simp [in_flight] <;> omega
  refine ⟨h1, ?_⟩
  cases hd : s.ep.deleted
  · rfl
  · have := h.freed.mp hd
    omega

/-- A completion of the wrapped read keeps the state consistent. -/
theorem consistent_on_read {σ ζ : Type} (F : tsi_frame_protector σ) (hF : well_behaved F)
    (Z : tsi_zero_copy_grpc_protector ζ) (ts : tsi_result → String) (fuel : Nat)
    (s : endpoint_state σ ζ) (ep : secure_endpoint σ ζ) (error : grpc_error_handle)
    (d : grpc_slice_buffer) (r : ReadDone σ ζ)
    (hs : consistent s) (hd : ep.read_buffer = some d)
    (href : ep.ref = (if s.destroyed then 0 else 1) + 1 + in_flight s.write_in_flight
      + (s.ep.reclaimers : Int))
    (hdel : ep.deleted = false)
    (h1 : ep.reclaimers = s.ep.reclaimers)
    (h2 : ep.has_posted_reclaimer = s.ep.has_posted_reclaimer)
    (h3 : ep.write_cb = s.ep.write_cb) (h4 : ep.wrapped_ep = s.ep.wrapped_ep)
    (h5 : ep.min_progress_size = s.ep.min_progress_size)
    (h : on_read F Z ts fuel ep error = some r) :
    consistent { s with ep := r.ep, read_in_flight := false } := by
  obtain ⟨b1, b2, b3, b4, b5, b6, b7, b8, b9, b10, b11, b12⟩ :=
    on_read_books F hF Z ts fuel ep error d r hd h
  constructor
  · show r.ep.ref = (if s.destroyed then 0 else 1) + in_flight false
      + in_flight s.write_in_flight + (r.ep.reclaimers : Int)
    rw [b2, href, b4, h1]
    simp only [in_flight, Bool.false_eq_true, if_false]
    omega
  · show r.ep.deleted = true ↔ r.ep.ref = 0
    rw [b3, b2, hdel]
    by_cases hz : ep.ref - 1 = 0 <;> simp [hz]
  · show r.ep.reclaimers ≤ 1
    rw [b4, h1]; exact hs.one_reclaimer
  · show 0 < r.ep.reclaimers → r.ep.has_posted_reclaimer = true
    rw [b4, b5, h1, h2]; exact hs.posted
  · show r.ep.read_buffer.isSome = false
    rw [b1]; rfl
  · show r.ep.write_cb.isSome = s.write_in_flight
    rw [b6, h3]; exact hs.write_closure
  · show 1 ≤ r.ep.min_progress_size
    by_cases hok : (read_error ep error).ok = true
    · cases hz : ep.zero_copy_protector with
      | none => rw [b10 (Or.inl hz), h5]; exact hs.min_progress
      | some z =>
        rw [b11 z hz hok]
        split
        · exact le_refl 1
        · exact le_max_left _ _
    · rw [b10 (Or.inr (by simpa using hok)), h5]; exact hs.min_progress
  · show r.ep.wrapped_ep.isNone = s.destroyed
    rw [b8, h4]; exact hs.released
  · show s.destroyed = true → r.ep.reclaimers = 0
    rw [b4, h1]; exact hs.unregistered

/-- Every operation keeps the state consistent. -/
theorem perform_consistent {σ ζ : Type} (F : tsi_frame_protector σ) (hF : well_behaved F)
    (Z : tsi_zero_copy_grpc_protector ζ) (ts : tsi_result → String) (fuel : Nat)
    (op : Operation) (s s' : endpoint_state σ ζ) (hs : consistent s)
    (h : perform F Z ts fuel op s = some s') : consistent s' := by
  cases op with
  | read slices cb urgent mps =>
    simp only [perform, vtable_read] at h
    split at h
    · rename_i hc
      obtain ⟨hpos, hdel⟩ := consistent_ref_pos s hs (Or.inl hc.1)
      rcases endpoint_read_cases F Z ts fuel s.ep slices (some cb) urgent with
        ⟨_, e⟩ | ⟨_, _, e⟩ | ⟨_, _, e⟩
      · rw [e] at h
        simp only [Option.some.injEq] at h
        subst h
        have hr := hs.refs
        constructor
        · show s.ep.ref + 1 = (if s.destroyed then 0 else 1) + in_flight true
            + in_flight s.write_in_flight + (s.ep.reclaimers : Int)
          rw [hr, hc.2]
          simp only [in_flight, Bool.false_eq_true, if_false, if_true]
          omega
        · show s.ep.deleted = true ↔ s.ep.ref + 1 = 0
          rw [hdel]
          constructor
          · intro hf; cases hf
          · intro hf; omega
        · exact hs.one_reclaimer
        · exact hs.posted
        · rfl
        · exact hs.write_closure
        · exact hs.min_progress
        · exact hs.released
        · exact hs.unregistered
      · rw [e] at h; cases h
      · generalize hon : on_read F Z ts fuel _ grpc_error_handle.OkStatus = o at e
        cases o with
        | none => rw [e] at h; cases h
        | some d =>
          rw [e] at h
          simp only [Option.some.injEq] at h
          subst h
          have hcons := consistent_on_read F hF Z ts fuel s
            ({ (secure_endpoint_ref { s.ep with read_cb := some cb, read_buffer := some [] })
                with leftover_bytes := [], source_buffer := s.ep.leftover_bytes } :
              secure_endpoint σ ζ)
            grpc_error_handle.OkStatus [] d hs rfl
            (by
              show s.ep.ref + 1 = (if s.destroyed then 0 else 1) + 1
                + in_flight s.write_in_flight + (s.ep.reclaimers : Int)
              rw [hs.refs, hc.2]
              simp only [in_flight, Bool.false_eq_true, if_false]
              omega)
            hdel rfl rfl rfl rfl rfl hon
          rw [hc.2]
          exact hcons
    · cases h
  | wrapped_read_completes data error =>
    simp only [perform, wrapped_read_done] at h
    split at h
    · rename_i hc
      split at h
      · cases h
      · rename_i r hr
        simp only [Option.some.injEq] at h
        subst h
        obtain ⟨hpos, hdel⟩ := consistent_ref_pos s hs (Or.inr (Or.inl hc))
        have hb : s.ep.read_buffer.isSome = true := by rw [hs.read_dst, hc]
        obtain ⟨d, hd⟩ := Option.isSome_iff_exists.mp hb
        exact consistent_on_read F hF Z ts fuel s
          ({ s.ep with source_buffer := data } : secure_endpoint σ ζ) error d r hs hd
          (by
            show s.ep.ref = (if s.destroyed then 0 else 1) + 1
              + in_flight s.write_in_flight + (s.ep.reclaimers : Int)
            rw [hs.refs, hc]
            simp only [in_flight, if_true])
          hdel rfl rfl rfl rfl rfl hr
    · cases h
  | write slices cb args =>
    simp only [perform] at h
    split at h
    · rename_i hc
      split at h
      · cases h
      · rename_i r hr
        simp only [Option.some.injEq] at h
        subst h
        obtain ⟨hpos, hdel⟩ := consistent_ref_pos s hs (Or.inl hc.1)
        obtain ⟨b1, b2, b3, b4, b5, b6, b7, b8, b9⟩ :=
          endpoint_write_books F hF Z ts fuel s.ep slices (some cb) args r hr
        have hwc : s.ep.write_cb = none := by
          have := hs.write_closure
          rw [hc.2] at this
          cases hw : s.ep.write_cb with
          | none => rfl
          | some c => rw [hw] at this; cases this
        have hr0 := hs.refs
        rw [hc.1, hc.2] at hr0
        simp only [in_flight, Bool.false_eq_true, if_false] at hr0
        constructor
        · show r.ep.ref = _
          rw [hc.1]
          simp only [in_flight, Bool.false_eq_true, if_false, decide_eq_true_eq]
          rcases b9 with ⟨_, c2, c3⟩ | ⟨_, _, c3, c4⟩
          · rw [c3, c2, hr0]; split <;> omega
          · rw [c4, c3, hr0]; split <;> (push_cast; omega)
        · show r.ep.deleted = true ↔ r.ep.ref = 0
          rw [b5, hdel]
          rcases b9 with ⟨_, _, c3⟩ | ⟨_, _, _, c4⟩
          · rw [c3]; split <;> simp <;> omega
          · rw [c4]; split <;> simp <;> omega
        · show r.ep.reclaimers ≤ 1
          rcases b9 with ⟨_, c2, _⟩ | ⟨c1, _, c3, _⟩
          · rw [c2]; exact hs.one_reclaimer
          · rw [c3]
            have : s.ep.reclaimers = 0 := by
              by_contra hne
              have := hs.posted (Nat.pos_of_ne_zero hne)
              rw [c1] at this; cases this
            omega
        · show 0 < r.ep.reclaimers → r.ep.has_posted_reclaimer = true
          rcases b9 with ⟨c1, c2, _⟩ | ⟨_, c2, _, _⟩
          · rw [c1, c2]; exact hs.posted
          · intro _; exact c2
        · show r.ep.read_buffer.isSome = s.read_in_flight
          rw [b1]; exact hs.read_dst
        · show r.ep.write_cb.isSome = decide (r.result = tsi_result.TSI_OK)
          rw [b8]
          by_cases hres : r.result = tsi_result.TSI_OK
          · simp [hres]
          · simp [hres, hwc]
        · show 1 ≤ r.ep.min_progress_size
          rw [b2]; exact hs.min_progress
        · show r.ep.wrapped_ep.isNone = s.destroyed
          rw [b4]; exact hs.released
        · show s.destroyed = true → r.ep.reclaimers = 0
          intro hd; rw [hc.1] at hd; cases hd
    · cases h
  | wrapped_write_completes error =>
    simp only [perform] at h
    split at h
    · rename_i hc
      simp only [Option.some.injEq] at h
      subst h
      obtain ⟨hpos, hdel⟩ := consistent_ref_pos s hs (Or.inr (Or.inr (Or.inl hc)))
      have hr0 := hs.refs
      rw [hc] at hr0
      simp only [in_flight, if_true] at hr0
      simp only [on_write, secure_endpoint_unref_eq]
      constructor
      · show s.ep.ref - 1 = _
        rw [hr0]; simp [in_flight]; omega
      · show (if s.ep.ref - 1 = 0 then true else s.ep.deleted) = true ↔ s.ep.ref - 1 = 0
        rw [hdel]
        by_cases hz : s.ep.ref - 1 = 0 <;> simp [hz]
      · exact hs.one_reclaimer
      · exact hs.posted
      · exact hs.read_dst
      · rfl
      · exact hs.min_progress
      · exact hs.released
      · exact hs.unregistered
    · cases h
  | reclaimer_sweep =>
    simp only [perform] at h
    split at h
    · rename_i hc
      simp only [Option.some.injEq] at h
      subst h
      obtain ⟨hpos, hdel⟩ := consistent_ref_pos s hs (Or.inr (Or.inr (Or.inr hc)))
      have hone := hs.one_reclaimer
      have hr0 := hs.refs
      have hnd : s.destroyed = false := by
        cases hd : s.destroyed
        · rfl
        · have := hs.unregistered hd; omega
      simp only [reclaimer_callback, secure_endpoint_unref_eq, if_true]
      constructor
      · show s.ep.ref - 1 = (if s.destroyed then 0 else 1) + in_flight s.read_in_flight
          + in_flight s.write_in_flight + ((s.ep.reclaimers - 1 : Nat) : Int)
        rw [hr0]
        omega
      · show (if s.ep.ref - 1 = 0 then true else s.ep.deleted) = true ↔ s.ep.ref - 1 = 0
        rw [hdel]
        by_cases hz : s.ep.ref - 1 = 0 <;> simp [hz]
      · show s.ep.reclaimers - 1 ≤ 1
        omega
      · show 0 < s.ep.reclaimers - 1 → _
        intro hlt; omega
      · exact hs.read_dst
      · exact hs.write_closure
      · exact hs.min_progress
      · exact hs.released
      · intro hd
        show s.ep.reclaimers - 1 = 0
        omega
    · cases h
  | reclaimer_cancel =>
    simp only [perform] at h
    split at h
    · rename_i hc
      simp only [Option.some.injEq] at h
      subst h
      obtain ⟨hpos, hdel⟩ := consistent_ref_pos s hs (Or.inr (Or.inr (Or.inr hc)))
      have hone := hs.one_reclaimer
      have hr0 := hs.refs
      simp only [reclaimer_callback, secure_endpoint_unref_eq, Bool.false_eq_true, if_false]
      constructor
      · show s.ep.ref - 1 = (if s.destroyed then 0 else 1) + in_flight s.read_in_flight
          + in_flight s.write_in_flight + ((s.ep.reclaimers - 1 : Nat) : Int)
        rw [hr0]
        omega
      · show (if s.ep.ref - 1 = 0 then true else s.ep.deleted) = true ↔ s.ep.ref - 1 = 0
        rw [hdel]
        by_cases hz : s.ep.ref - 1 = 0 <;> simp [hz]
      · show s.ep.reclaimers - 1 ≤ 1
        omega
      · show 0 < s.ep.reclaimers - 1 → _
        intro hlt; omega
      · exact hs.read_dst
      · exact hs.write_closure
      · exact hs.min_progress
      · exact hs.released
      · intro hd
        show s.ep.reclaimers - 1 = 0
        omega
    · cases h
  | destroy =>
    simp only [perform] at h
    split at h
    · rename_i hc
      simp only [Option.some.injEq] at h
      subst h
      obtain ⟨hpos, hdel⟩ := consistent_ref_pos s hs (Or.inl hc)
      have hone := hs.one_reclaimer
      have hr0 := hs.refs
      rw [hc] at hr0
      simp only [Bool.false_eq_true, if_false] at hr0
      by_cases hrec : s.ep.reclaimers > 0
      · have h1 : s.ep.reclaimers = 1 := by omega
        have hge : 2 ≤ s.ep.ref := by
          rw [hr0, h1]
          cases s.read_in_flight <;> cases s.write_in_flight <;> simp [in_flight] <;> omega
        have hne : ¬ (s.ep.ref - 1 = 0) := by omega
        simp only [endpoint_destroy, hrec, if_true, reclaimer_callback,
          secure_endpoint_unref_eq, Bool.false_eq_true, if_false, hne]
        constructor
        · show s.ep.ref - 1 - 1 = _
          rw [hr0, h1]; simp
          omega
        · show (if s.ep.ref - 1 - 1 = 0 then true else s.ep.deleted) = true
            ↔ s.ep.ref - 1 - 1 = 0
          rw [hdel]
          by_cases hz : s.ep.ref - 1 - 1 = 0 <;> simp [hz]
        · show s.ep.reclaimers - 1 ≤ 1
          omega
        · show 0 < s.ep.reclaimers - 1 → _
          intro hlt; omega
        · exact hs.read_dst
        · exact hs.write_closure
        · exact hs.min_progress
        · rfl
        · intro _
          show s.ep.reclaimers - 1 = 0
          omega
      · have h0 : s.ep.reclaimers = 0 := by omega
        simp only [endpoint_destroy, hrec, if_false, secure_endpoint_unref_eq]
        constructor
        · show s.ep.ref - 1 = _
          rw [hr0, h0]; simp
          omega
        · show (if s.ep.ref - 1 = 0 then true else s.ep.deleted) = true ↔ s.ep.ref - 1 = 0
          rw [hdel]
          by_cases hz : s.ep.ref - 1 = 0 <;> simp [hz]
        · show s.ep.reclaimers ≤ 1
          omega
        · show 0 < s.ep.reclaimers → _
          intro hlt; omega
        · exact hs.read_dst
        · exact hs.write_closure
        · exact hs.min_progress
        · rfl
        · intro _; exact h0
    · cases h

theorem reachable_consistent {σ ζ : Type} (F : tsi_frame_protector σ) (hF : well_behaved F)
    (Z : tsi_zero_copy_grpc_protector ζ) (ts : tsi_result → String)
    (s : endpoint_state σ ζ) (h : reachable F Z ts s) : consistent s := by
  induction h with
  | construction protector zc to_wrap leftover =>
    exact consistent_created protector zc to_wrap leftover
  | operation s s' fuel op _ hp ih => exact perform_consistent F hF Z ts fuel op s s' ih hp

theorem reachable_perform_all {σ ζ : Type} (F : tsi_frame_protector σ)
    (Z : tsi_zero_copy_grpc_protector ζ) (ts : tsi_result → String) (fuel : Nat)
    (ops : List Operation) :
    ∀ (s s' : endpoint_state σ ζ), reachable F Z ts s →
      perform_all F Z ts fuel ops s = some s' → reachable F Z ts s' := by
  induction ops with
  | nil =>
    intro s s' hs h
    simp only [perform_all, Option.some.injEq] at h
    subst h
    exact hs
  | cons op ops ih =>
    intro s s' hs h
    simp only [perform_all] at h
    split at h
    · cases h
    · rename_i s1 h1
      exact ih s1 s' (reachable.operation s s1 fuel op hs h1) h

/-- C13. In every state reached from construction by writes, reads, their
completions, reclaimer sweeps, reclaimer cancellations and `destroy`, at most
one reclaimer registration is outstanding, and `has_posted_reclaimer` is true
whenever one is outstanding. -/
theorem at_most_one_reclaimer {σ ζ : Type} (F : tsi_frame_protector σ) (hF : well_behaved F)
    (Z : tsi_zero_copy_grpc_protector ζ) (ts : tsi_result → String)
    (s : endpoint_state σ ζ) (h : reachable F Z ts s) :
    s.ep.reclaimers ≤ 1 ∧ (0 < s.ep.reclaimers → s.ep.has_posted_reclaimer = true) :=
  ⟨(reachable_consistent F hF Z ts s h).one_reclaimer,
    (reachable_consistent F hF Z ts s h).posted⟩
theorem write_fills_staging :
    (perform queue_protector passthrough_zero_copy example_result_to_string 10
      (Operation.write [List.replicate STAGING_BUFFER_SIZE 1] 7 { max_frame_size := 0 })
      (created ([] : List Byte) (none : Option Unit) 1 [])).map
        (fun s => (s.ep.ref, s.write_in_flight, s.ep.reclaimers, s.ep.has_posted_reclaimer))
      = some (3, true, 1, true) := by
  have hS : 0 < STAGING_BUFFER_SIZE := by decide
  have hS' : STAGING_BUFFER_SIZE ≠ 0 := by decide
  have hS0 : ¬ 0 = STAGING_BUFFER_SIZE := by decide
  simp [perform, created, grpc_legacy_secure_endpoint_create, endpoint_write, copying_write,
    protect_slices, protect_loop, protect_flush_loop, queue_protector, MakeSlice_length,
    flush_write_staging_buffer, maybe_post_reclaimer,
    secure_endpoint_ref, write_split_head, write_finish, hS, hS', hS0]

theorem at_most_one_reclaimer_witness :
    ∃ s, perform queue_protector passthrough_zero_copy example_result_to_string 10
        (Operation.write [List.replicate STAGING_BUFFER_SIZE 1] 7 { max_frame_size := 0 })
        (created ([] : List Byte) (none : Option Unit) 1 []) = some s
      ∧ s.ep.reclaimers = 1
      ∧ (s.ep.reclaimers ≤ 1 ∧ (0 < s.ep.reclaimers → s.ep.has_posted_reclaimer = true)) := by
  have h := write_fills_staging
  cases hp : perform queue_protector passthrough_zero_copy example_result_to_string 10
      (Operation.write [List.replicate STAGING_BUFFER_SIZE 1] 7 { max_frame_size := 0 })
      (created ([] : List Byte) (none : Option Unit) 1 []) with
  | none => rw [hp] at h; cases h
  | some s =>
    rw [hp] at h
    simp only [Option.map_some', Option.some.injEq, Prod.mk.injEq] at h
    exact ⟨s, rfl, h.2.2.1,
      at_most_one_reclaimer queue_protector queue_protector_well_behaved
        passthrough_zero_copy example_result_to_string s
        (reachable.operation _ s 10 _ (reachable.construction [] none 1 []) hp)⟩

/-- What a read leaves as it was, and whether it is in flight afterwards. -/
theorem perform_read {σ ζ : Type} (F : tsi_frame_protector σ) (hF : well_behaved F)
    (Z : tsi_zero_copy_grpc_protector ζ) (ts : tsi_result → String) (fuel : Nat)
    (slices : grpc_slice_buffer) (cb : grpc_closure) (urgent : Bool) (mps : Int)
    (s s' : endpoint_state σ ζ)
    (h : perform F Z ts fuel (Operation.read slices cb urgent mps) s = some s') :
    s.destroyed = false ∧ s.read_in_flight = false
      ∧ s'.write_in_flight = s.write_in_flight ∧ s'.destroyed = s.destroyed
      ∧ s'.ep.reclaimers = s.ep.reclaimers
      ∧ (s'.read_in_flight = true ↔ s.ep.leftover_bytes = [])
      ∧ s'.ep.leftover_bytes = [] := by
  simp only [perform, vtable_read] at h
  split at h
  · rename_i hc
    rcases endpoint_read_cases F Z ts fuel s.ep slices (some cb) urgent with
      ⟨hl, e⟩ | ⟨_, _, e⟩ | ⟨hl, _, e⟩
    · rw [e] at h
      simp only [Option.some.injEq] at h
      subst h
      exact ⟨hc.1, hc.2, rfl, rfl, rfl, ⟨fun _ => hl, fun _ => rfl⟩, hl⟩
    · rw [e] at h; cases h
    · generalize hon : on_read F Z ts fuel _ grpc_error_handle.OkStatus = o at e
      cases o with
      | none => rw [e] at h; cases h
      | some d =>
        rw [e] at h
        simp only [Option.some.injEq] at h
        subst h
        obtain ⟨_, _, _, b4, _, _, b7, _⟩ := on_read_books F hF Z ts fuel
          ({ (secure_endpoint_ref { s.ep with read_cb := some cb, read_buffer := some [] })
              with leftover_bytes := [], source_buffer := s.ep.leftover_bytes } :
            secure_endpoint σ ζ)
          grpc_error_handle.OkStatus [] d rfl hon
        refine ⟨hc.1, hc.2, rfl, rfl, b4, ⟨?_, ?_⟩, b7⟩
        · intro hf
          have : s.read_in_flight = true := hf
          rw [hc.2] at this; cases this
        · intro hf; exact absurd hf hl
  · cases h

/-- What the completion of a wrapped read leaves as it was. -/
theorem perform_wrapped_read_completes {σ ζ : Type} (F : tsi_frame_protector σ)
    (hF : well_behaved F) (Z : tsi_zero_copy_grpc_protector ζ) (ts : tsi_result → String)
    (fuel : Nat) (data : grpc_slice_buffer) (error : grpc_error_handle)
    (s s' : endpoint_state σ ζ) (hs : consistent s)
    (h : perform F Z ts fuel (Operation.wrapped_read_completes data error) s = some s') :
    s.read_in_flight = true ∧ s'.read_in_flight = false
      ∧ s'.write_in_flight = s.write_in_flight ∧ s'.destroyed = s.destroyed
      ∧ s'.ep.reclaimers = s.ep.reclaimers
      ∧ s'.ep.leftover_bytes = s.ep.leftover_bytes := by
  simp only [perform, wrapped_read_done] at h
  split at h
  · rename_i hc
    split at h
    · cases h
    · rename_i r hr
      simp only [Option.some.injEq] at h
      subst h
      have hb : s.ep.read_buffer.isSome = true := by rw [hs.read_dst, hc]
      obtain ⟨d, hd⟩ := Option.isSome_iff_exists.mp hb
      obtain ⟨_, _, _, b4, _, _, b7, _⟩ := on_read_books F hF Z ts fuel
        ({ s.ep with source_buffer := data } : secure_endpoint σ ζ) error d r hd hr
      exact ⟨hc, rfl, rfl, rfl, b4, b7⟩
  · cases h

/-- What a write leaves as it was; it is in flight afterwards when the framer
did not fail; it may add one reclaimer registration. -/
theorem perform_write {σ ζ : Type} (F : tsi_frame_protector σ) (hF : well_behaved F)
    (Z : tsi_zero_copy_grpc_protector ζ) (ts : tsi_result → String) (fuel : Nat)
    (slices : grpc_slice_buffer) (cb : grpc_closure) (args : WriteArgs)
    (s s' : endpoint_state σ ζ)
    (h : perform F Z ts fuel (Operation.write slices cb args) s = some s') :
    s.destroyed = false ∧ s.write_in_flight = false
      ∧ s'.read_in_flight = s.read_in_flight ∧ s'.destroyed = s.destroyed
      ∧ (s'.ep.reclaimers = s.ep.reclaimers ∨ s'.ep.reclaimers = s.ep.reclaimers + 1)
      ∧ s'.ep.leftover_bytes = s.ep.leftover_bytes
      ∧ (s'.write_in_flight = false → s'.ep.write_cb = s.ep.write_cb) := by
  simp only [perform] at h
  split at h
  · rename_i hc
    split at h
    · cases h
    · rename_i r hr
      simp only [Option.some.injEq] at h
      subst h
      obtain ⟨_, _, b3, _, _, _, _, b8, b9⟩ :=
        endpoint_write_books F hF Z ts fuel s.ep slices (some cb) args r hr
      refine ⟨hc.1, hc.2, rfl, rfl, ?_, b3, ?_⟩
      · rcases b9 with ⟨_, c, _⟩ | ⟨_, _, c, _⟩
        · exact Or.inl c
        · exact Or.inr c
      · intro hf
        have hres : ¬ r.result = tsi_result.TSI_OK := by
          intro hok
          have : decide (r.result = tsi_result.TSI_OK) = false := hf
          simp [hok] at this
        show r.ep.write_cb = s.ep.write_cb
        rw [b8, if_neg hres]
  · cases h

/-- What the completion of a wrapped write leaves as it was. -/
theorem perform_wrapped_write_completes {σ ζ : Type} (F : tsi_frame_protector σ)
    (Z : tsi_zero_copy_grpc_protector ζ) (ts : tsi_result → String)
    (fuel : Nat) (error : grpc_error_handle) (s s' : endpoint_state σ ζ)
    (h : perform F Z ts fuel (Operation.wrapped_write_completes error) s = some s') :
    s.write_in_flight = true ∧ s'.write_in_flight = false
      ∧ s'.read_in_flight = s.read_in_flight ∧ s'.destroyed = s.destroyed
      ∧ s'.ep.reclaimers = s.ep.reclaimers
      ∧ s'.ep.leftover_bytes = s.ep.leftover_bytes := by
  simp only [perform] at h
  split at h
  · rename_i hc
    simp only [Option.some.injEq] at h
    subst h
    exact ⟨hc, rfl, rfl, rfl, by simp only [on_write, secure_endpoint_unref_eq],
      by simp only [on_write, secure_endpoint_unref_eq]⟩
  · cases h

/-- C16 as stated fails on "a write followed by its completion leaves the count
unchanged": a write of 8192 bytes to a new endpoint fills the write staging
slice, so it posts the reclaimer, whose registration keeps a reference.  The
count is 1 at construction, 3 after the write and 2 after its completion, with
one registration outstanding. -/
theorem write_and_completion_keep_reclaimer_ref :
    (created ([] : List Byte) (none : Option Unit) 1 []).ep.ref = 1
      ∧ (perform queue_protector passthrough_zero_copy example_result_to_string 10
          (Operation.write [List.replicate STAGING_BUFFER_SIZE 1] 7 { max_frame_size := 0 })
          (created ([] : List Byte) (none : Option Unit) 1 [])).bind
            (fun s => (perform queue_protector passthrough_zero_copy example_result_to_string
              10 (Operation.wrapped_write_completes grpc_error_handle.OkStatus) s).map
              (fun s' => (s.ep.ref, s.ep.reclaimers, s'.ep.ref, s'.ep.reclaimers,
                s'.read_in_flight, s'.write_in_flight, s'.destroyed)))
        = some (3, 1, 2, 1, false, false, false) := by
  have hS : 0 < STAGING_BUFFER_SIZE := by decide
  have hS' : STAGING_BUFFER_SIZE ≠ 0 := by decide
  have hS0 : ¬ 0 = STAGING_BUFFER_SIZE := by decide
  refine ⟨rfl, ?_⟩
  simp [perform, created, grpc_legacy_secure_endpoint_create, endpoint_write, copying_write,
    protect_slices, protect_loop, protect_flush_loop, queue_protector, MakeSlice_length,
    flush_write_staging_buffer, maybe_post_reclaimer,
    secure_endpoint_ref, write_split_head, write_finish, on_write, secure_endpoint_unref,
    hS, hS', hS0]

/-- C16, as amended. The reference count is 1 at construction, and in every
reachable state it equals (1 if `destroy` has not been called, else 0) + the
number of reads in flight + the number of writes handed to the wrapped endpoint
and not yet completed + the number of outstanding reclaimer registrations; the
endpoint is deleted exactly when the count is zero.  In particular a read
followed by its completion leaves the count unchanged, and a write followed by
its completion, and a write that fails in the framer, leave it unchanged unless
the write posted the reclaimer, which raises it by one. -/
theorem reference_count {σ ζ : Type} (F : tsi_frame_protector σ) (hF : well_behaved F)
    (Z : tsi_zero_copy_grpc_protector ζ) (ts : tsi_result → String)
    (s : endpoint_state σ ζ) (h : reachable F Z ts s) :
    s.ep.ref = (if s.destroyed then 0 else 1) + in_flight s.read_in_flight
        + in_flight s.write_in_flight + (s.ep.reclaimers : Int)
      ∧ (s.ep.deleted = true ↔ s.ep.ref = 0)
      ∧ (∀ (p : σ) (zc : Option ζ) w l, (created p zc w l).ep.ref = 1)
      ∧ (∀ fuel slices cb urgent mps s1,
          perform F Z ts fuel (Operation.read slices cb urgent mps) s = some s1 →
          (s1.read_in_flight = false → s1.ep.ref = s.ep.ref)
            ∧ ∀ fuel2 data error s2,
                perform F Z ts fuel2 (Operation.wrapped_read_completes data error) s1
                  = some s2 →
                s2.ep.ref = s.ep.ref)
      ∧ (∀ fuel slices cb args s1,
          perform F Z ts fuel (Operation.write slices cb args) s = some s1 →
          (s1.ep.reclaimers = s.ep.reclaimers ∨ s1.ep.reclaimers = s.ep.reclaimers + 1)
            ∧ (s1.write_in_flight = false →
                s1.ep.ref = s.ep.ref + ((s1.ep.reclaimers : Int) - s.ep.reclaimers))
            ∧ ∀ fuel2 error s2,
                perform F Z ts fuel2 (Operation.wrapped_write_completes error) s1 = some s2 →
                s2.ep.ref = s.ep.ref + ((s1.ep.reclaimers : Int) - s.ep.reclaimers)) := by
  have hs := reachable_consistent F hF Z ts s h
  refine ⟨hs.refs, hs.freed, fun _ _ _ _ => rfl, ?_, ?_⟩
  · intro fuel slices cb urgent mps s1 h1
    have hs1 := perform_consistent F hF Z ts fuel _ s s1 hs h1
    obtain ⟨a1, a2, a3, a4, a5, _, _⟩ := perform_read F hF Z ts fuel slices cb urgent mps s s1 h1
    have r0 := hs.refs
    have r1 := hs1.refs
    rw [a3, a4, a5] at r1
    rw [a2] at r0
    constructor
    · intro hf
      rw [hf] at r1
      rw [r0, r1]
    · intro fuel2 data error s2 h2
      have hs2 := perform_consistent F hF Z ts fuel2 _ s1 s2 hs1 h2
      obtain ⟨b1, b2, b3, b4, b5, _⟩ :=
        perform_wrapped_read_completes F hF Z ts fuel2 data error s1 s2 hs1 h2
      have r2 := hs2.refs
      rw [b2, b3, b4, b5, a3, a4, a5] at r2
      rw [r0, r2]
  · intro fuel slices cb args s1 h1
    have hs1 := perform_consistent F hF Z ts fuel _ s s1 hs h1
    obtain ⟨a1, a2, a3, a4, a5, _, _⟩ := perform_write F hF Z ts fuel slices cb args s s1 h1
    have r0 := hs.refs
    have r1 := hs1.refs
    rw [a3, a4] at r1
    rw [a2] at r0
    refine ⟨a5, ?_, ?_⟩
    · intro hf
      rw [hf] at r1
      rw [r0, r1]
      simp only [in_flight, Bool.false_eq_true, if_false]
      omega
    · intro fuel2 error s2 h2
      have hs2 := perform_consistent F hF Z ts fuel2 _ s1 s2 hs1 h2
      obtain ⟨b1, b2, b3, b4, b5, _⟩ :=
        perform_wrapped_write_completes F Z ts fuel2 error s1 s2 h2
      have r2 := hs2.refs
      rw [b2, b3, b4, b5, a3, a4] at r2
      rw [r0, r2]
      simp only [in_flight, Bool.false_eq_true, if_false]
      omega

theorem reference_count_witness :
    ∃ s, perform_all identity_protector passthrough_zero_copy example_result_to_string 10
        [Operation.read [] 7 false 5,
          Operation.write [[1, 2, 3]] 9 { max_frame_size := 2 },
          Operation.destroy]
        (created () (some ()) 1 []) = some s
      ∧ s.ep.ref = 2 ∧ s.ep.deleted = false
      ∧ s.read_in_flight = true ∧ s.write_in_flight = true ∧ s.destroyed = true
      ∧ s.ep.ref = (if s.destroyed then 0 else 1) + in_flight s.read_in_flight
          + in_flight s.write_in_flight + (s.ep.reclaimers : Int) :=
  ⟨_, rfl, rfl, rfl, rfl, rfl, rfl,
    (reference_count identity_protector identity_protector_well_behaved passthrough_zero_copy
      example_result_to_string _
      (reachable_perform_all identity_protector passthrough_zero_copy
        example_result_to_string 10
        [Operation.read [] 7 false 5,
          Operation.write [[1, 2, 3]] 9 { max_frame_size := 2 },
          Operation.destroy]
        _ _ (reachable.construction () (some ()) 1 []) rfl)).1⟩

/-- C17. In every reachable state between operations, the stored read
destination is non-null if and only if a read has been submitted and its
completion not yet delivered, and `write_cb` is non-null if and only if a write
has been handed to the wrapped endpoint and its completion not yet delivered; a
write that fails in the framer leaves `write_cb` as it was, null. -/
theorem read_dst_and_write_cb {σ ζ : Type} (F : tsi_frame_protector σ) (hF : well_behaved F)
    (Z : tsi_zero_copy_grpc_protector ζ) (ts : tsi_result → String)
    (s : endpoint_state σ ζ) (h : reachable F Z ts s) :
    (s.ep.read_buffer ≠ none ↔ s.read_in_flight = true)
      ∧ (s.ep.write_cb ≠ none ↔ s.write_in_flight = true)
      ∧ (∀ fuel slices cb args s1,
          perform F Z ts fuel (Operation.write slices cb args) s = some s1 →
          s1.write_in_flight = false → s1.ep.write_cb = none) := by
  have hs := reachable_consistent F hF Z ts s h
  refine ⟨?_, ?_, ?_⟩
  · rw [← hs.read_dst]
    cases s.ep.read_buffer <;> simp
  · rw [← hs.write_closure]
    cases s.ep.write_cb <;> simp
  · intro fuel slices cb args s1 h1 hf
    obtain ⟨_, a2, _, _, _, _, a7⟩ := perform_write F hF Z ts fuel slices cb args s s1 h1
    rw [a7 hf]
    have := hs.write_closure
    rw [a2] at this
    cases hw : s.ep.write_cb with
    | none => rfl
    | some c => rw [hw] at this; cases this

theorem read_dst_and_write_cb_witness :
    ∃ s, perform_all identity_protector passthrough_zero_copy example_result_to_string 10
        [Operation.read [] 7 false 5,
          Operation.write [[1, 2, 3]] 9 { max_frame_size := 2 },
          Operation.wrapped_read_completes [[4, 5]] grpc_error_handle.OkStatus]
        (created () (some ()) 1 []) = some s
      ∧ s.ep.read_buffer = none ∧ s.read_in_flight = false
      ∧ s.ep.write_cb = some 9 ∧ s.write_in_flight = true
      ∧ (s.ep.read_buffer ≠ none ↔ s.read_in_flight = true)
      ∧ (s.ep.write_cb ≠ none ↔ s.write_in_flight = true) :=
  ⟨_, rfl, rfl, rfl, rfl, rfl,
    (read_dst_and_write_cb identity_protector identity_protector_well_behaved
      passthrough_zero_copy example_result_to_string _
      (reachable_perform_all identity_protector passthrough_zero_copy
        example_result_to_string 10
        [Operation.read [] 7 false 5,
          Operation.write [[1, 2, 3]] 9 { max_frame_size := 2 },
          Operation.wrapped_read_completes [[4, 5]] grpc_error_handle.OkStatus]
        _ _ (reachable.construction () (some ()) 1 []) rfl)).1,
    (read_dst_and_write_cb identity_protector identity_protector_well_behaved
      passthrough_zero_copy example_result_to_string _
      (reachable_perform_all identity_protector passthrough_zero_copy
        example_result_to_string 10
        [Operation.read [] 7 false 5,
          Operation.write [[1, 2, 3]] 9 { max_frame_size := 2 },
          Operation.wrapped_read_completes [[4, 5]] grpc_error_handle.OkStatus]
        _ _ (reachable.construction () (some ()) 1 []) rfl)).2.1⟩

/-- C12. `min_progress_size` is 1 at construction.  After an `on_read` that
calls the zero-copy framer's `unprotect` it is `max(1, mp)` when the call
returned `TSI_OK` and left `mp` as its hint, and 1 when the call returned an
error.  No read on the copying path changes it.  So in every reachable state it
is at least 1; and the hint given to the wrapped read is this stored value,
whatever `min_progress_size` the caller of `read` passed. -/
theorem min_progress_size_rule {σ ζ : Type} (F : tsi_frame_protector σ)
    (hF : well_behaved F) (Z : tsi_zero_copy_grpc_protector ζ) (ts : tsi_result → String) :
    (∀ (p : σ) (zc : Option ζ) w l, (created p zc w l).ep.min_progress_size = 1)
      ∧ (∀ fuel (ep : secure_endpoint σ ζ) z d error r,
          ep.zero_copy_protector = some z → ep.read_buffer = some d →
          (read_error ep error).ok = true → on_read F Z ts fuel ep error = some r →
          r.ep.min_progress_size =
            if (Z.unprotect z ep.source_buffer d 1).result ≠ tsi_result.TSI_OK then 1
            else max 1 (Z.unprotect z ep.source_buffer d 1).min_progress_size)
      ∧ (∀ fuel (ep : secure_endpoint σ ζ) d error r,
          ep.zero_copy_protector = none → ep.read_buffer = some d →
          on_read F Z ts fuel ep error = some r →
          r.ep.min_progress_size = ep.min_progress_size)
      ∧ (∀ s, reachable F Z ts s → 1 ≤ s.ep.min_progress_size)
      ∧ (∀ fuel (ep : secure_endpoint σ ζ) slices cb urgent mps ep1 log1,
          vtable_read F Z ts fuel ep slices cb urgent mps = ReadCall.issued ep1 log1 →
          log1 = [Event.grpc_endpoint_read urgent ep.min_progress_size]
            ∧ wrapped_read_hints log1 = [ep.min_progress_size]
            ∧ ep1.min_progress_size = ep.min_progress_size) := by
  refine ⟨fun _ _ _ _ => rfl, ?_, ?_, ?_, ?_⟩
  · intro fuel ep z d error r hz hd hok h
    exact (on_read_books F hF Z ts fuel ep error d r hd h).2.2.2.2.2.2.2.2.2.2.1 z hz hok
  · intro fuel ep d error r hz hd h
    exact (on_read_books F hF Z ts fuel ep error d r hd h).2.2.2.2.2.2.2.2.2.1 (Or.inl hz)
  · intro s hs
    exact (reachable_consistent F hF Z ts s hs).min_progress
  · intro fuel ep slices cb urgent mps ep1 log1 h
    obtain ⟨e1, e2, _⟩ := endpoint_read_issued F Z ts fuel ep slices cb urgent ep1 log1 h
    subst e1 e2
    exact ⟨rfl, rfl, rfl⟩

theorem min_progress_size_rule_witness :
    ∃ s, perform_all identity_protector (hinting_zero_copy 17) example_result_to_string 10
        [Operation.read [] 7 false 1,
          Operation.wrapped_read_completes [[4, 5]] grpc_error_handle.OkStatus]
        (created () (some ()) 1 []) = some s
      ∧ s.ep.min_progress_size = 17
      ∧ 1 ≤ s.ep.min_progress_size
      ∧ ∃ ep1 log1,
          vtable_read identity_protector (hinting_zero_copy 17) example_result_to_string 10
            s.ep [] (some 8) false 3 = ReadCall.issued ep1 log1
          ∧ wrapped_read_hints log1 = [17]
          ∧ wrapped_read_hints log1 = [s.ep.min_progress_size] := by
  refine ⟨_, rfl, rfl, ?_, _, _, rfl, rfl, ?_⟩
  · exact (min_progress_size_rule identity_protector identity_protector_well_behaved
      (hinting_zero_copy 17) example_result_to_string).2.2.2.1 _
      (reachable_perform_all identity_protector (hinting_zero_copy 17)
        example_result_to_string 10
        [Operation.read [] 7 false 1,
          Operation.wrapped_read_completes [[4, 5]] grpc_error_handle.OkStatus]
        _ _ (reachable.construction () (some ()) 1 []) rfl)
  · exact ((min_progress_size_rule identity_protector identity_protector_well_behaved
      (hinting_zero_copy 17) example_result_to_string).2.2.2.2 10 _ [] (some 8) false 3 _ _
      (by rfl)).2.1

/-! ## The leftover bytes of the handshake -/

theorem wrapped_read_hints_append (l₁ l₂ : List Event) :
    wrapped_read_hints (l₁ ++ l₂) = wrapped_read_hints l₁ ++ wrapped_read_hints l₂ := by
  induction l₁ with
  | nil => rfl
  | cons e l ih => cases e <;> simp [wrapped_read_hints, ih]

theorem copying_read_no_wrapped_read {σ ζ : Type} (F : tsi_frame_protector σ) (fuel : Nat)
    (s s' : ReadLoop σ ζ) (h : wrapped_read_hints s.log = [])
    (hrun : copying_read F fuel s = some s') : wrapped_read_hints s'.log = [] := by
  unfold copying_read at hrun
  split at hrun
  · cases hrun
  · rename_i s1 h1
    cases hrun
    rw [read_split_head_log]
    refine unprotect_slices_rule F fuel (fun s _ => wrapped_read_hints s.log = []) ?_
      _ s s1 h h1
    intro s encrypted rest s2 hP h2
    have : wrapped_read_hints s2.log = [] := by
      refine unprotect_loop_rule F (fun s _ => wrapped_read_hints s.log = [])
        (fun s => wrapped_read_hints s.log = []) (fun s hP _ => hP) ?_ ?_ fuel s encrypted s2
        hP h2
      · intro s m c hP _ _ _
        simp only [read_called, wrapped_read_hints_append, hP, unprotect_event]
        rfl
      · intro s m c hP _ _ _
        rw [read_advanced_log]
        simp only [read_called, wrapped_read_hints_append, hP, unprotect_event]
        rfl
    exact ⟨fun _ => this, fun _ => this⟩

/-- `on_read` does not call the wrapped endpoint's read. -/
theorem on_read_no_wrapped_read {σ ζ : Type} (F : tsi_frame_protector σ)
    (Z : tsi_zero_copy_grpc_protector ζ) (ts : tsi_result → String) (fuel : Nat)
    (ep : secure_endpoint σ ζ) (error : grpc_error_handle) (r : ReadDone σ ζ)
    (h : on_read F Z ts fuel ep error = some r) : wrapped_read_hints r.log = [] := by
  have hfin : ∀ (s : ReadLoop σ ζ) (e : grpc_error_handle),
      wrapped_read_hints s.log = [] → wrapped_read_hints (read_finish ts s e).log = [] := by
    intro s e hs
    unfold read_finish
    split
    · simp [call_read_cb, wrapped_read_hints_append, hs, wrapped_read_hints]
    · split <;> simp [call_read_cb, wrapped_read_hints_append, hs, wrapped_read_hints]
  by_cases hok : (read_error ep error).ok = true
  · obtain ⟨e1, e2, halive⟩ := read_error_ok ep _ hok
    subst e2
    cases hz : ep.zero_copy_protector with
    | some z =>
      rw [on_read_zero_copy F Z ts fuel ep z _ hok hz] at h
      cases h
      apply hfin
      simp [zero_copy_read, wrapped_read_hints]
    | none =>
      have hal : ep.wrapped_ep.isNone = false := by
        cases hw : ep.wrapped_ep with
        | none => exact absurd hw halive
        | some w => rfl
      simp only [on_read, hal, grpc_error_handle.ok, hz] at h
      simp only [Bool.false_eq_true, false_and, if_false, Bool.not_true] at h
      split at h
      · cases h
      · rename_i s hs
        cases h
        exact hfin _ _ (copying_read_no_wrapped_read F fuel
          ({ ep := ep, cur := 0, end_ := ep.read_staging_buffer.length, keep_looping := false,
             result := tsi_result.TSI_OK, log := [] } : ReadLoop σ ζ) s rfl hs)
  · have hno : (read_error ep error).ok = false := by simpa using hok
    rw [on_read_error F Z ts fuel ep _ hno] at h
    cases h
    simp [call_read_cb, wrapped_read_hints]

/-- While leftover slices are waiting, no read was made: `source_buffer` is
empty and no read is in flight. -/
theorem reachable_leftover {σ ζ : Type} (F : tsi_frame_protector σ) (hF : well_behaved F)
    (Z : tsi_zero_copy_grpc_protector ζ) (ts : tsi_result → String)
    (s : endpoint_state σ ζ) (h : reachable F Z ts s) :
    s.ep.leftover_bytes ≠ [] → s.ep.source_buffer = [] ∧ s.read_in_flight = false := by
  induction h with
  | construction protector zc to_wrap leftover => intro _; exact ⟨rfl, rfl⟩
  | operation s s' fuel op hr hp ih =>
    have hs := reachable_consistent F hF Z ts s hr
    intro hne
    cases op with
    | read slices cb urgent mps =>
      exact absurd (perform_read F hF Z ts fuel slices cb urgent mps s s' hp).2.2.2.2.2.2 hne
    | wrapped_read_completes data error =>
      obtain ⟨a1, _, _, _, _, a6⟩ :=
        perform_wrapped_read_completes F hF Z ts fuel data error s s' hs hp
      rw [a6] at hne
      have := (ih hne).2
      rw [a1] at this; cases this
    | write slices cb args =>
      obtain ⟨_, _, a3, _, _, a6, _⟩ := perform_write F hF Z ts fuel slices cb args s s' hp
      rw [a6] at hne
      simp only [perform] at hp
      split at hp
      · split at hp
        · cases hp
        · rename_i r hr'
          simp only [Option.some.injEq] at hp
          subst hp
          have b6 := (endpoint_write_books F hF Z ts fuel s.ep slices (some cb) args r
            hr').2.2.2.2.2.1
          exact ⟨by show r.ep.source_buffer = []; rw [b6]; exact (ih hne).1, (ih hne).2⟩
      · cases hp
    | wrapped_write_completes error =>
      simp only [perform] at hp
      split at hp
      · simp only [Option.some.injEq] at hp
        subst hp
        simp only [on_write, secure_endpoint_unref_eq] at hne ⊢
        exact ih hne
      · cases hp
    | reclaimer_sweep =>
      simp only [perform] at hp
      split at hp
      · simp only [Option.some.injEq] at hp
        subst hp
        simp only [reclaimer_callback, secure_endpoint_unref_eq, if_true] at hne ⊢
        exact ih hne
      · cases hp
    | reclaimer_cancel =>
      simp only [perform] at hp
      split at hp
      · simp only [Option.some.injEq] at hp
        subst hp
        simp only [reclaimer_callback, secure_endpoint_unref_eq, Bool.false_eq_true,
          if_false] at hne ⊢
        exact ih hne
      · cases hp
    | destroy =>
      simp only [perform] at hp
      split at hp
      · simp only [Option.some.injEq] at hp
        subst hp
        have e1 : (endpoint_destroy s.ep).leftover_bytes = s.ep.leftover_bytes := by
          simp only [endpoint_destroy, reclaimer_callback, secure_endpoint_unref_eq]
          split <;> rfl
        have e2 : (endpoint_destroy s.ep).source_buffer = s.ep.source_buffer := by
          simp only [endpoint_destroy, reclaimer_callback, secure_endpoint_unref_eq]
          split <;> rfl
        have hne' : s.ep.leftover_bytes ≠ [] := by rw [← e1]; exact hne
        exact ⟨by show (endpoint_destroy s.ep).source_buffer = []; rw [e2]; exact (ih hne').1,
          (ih hne').2⟩
      · cases hp

/-- Once the leftover slices are gone they stay gone. -/
theorem perform_no_leftover {σ ζ : Type} (F : tsi_frame_protector σ) (hF : well_behaved F)
    (Z : tsi_zero_copy_grpc_protector ζ) (ts : tsi_result → String) (fuel : Nat)
    (op : Operation) (s s' : endpoint_state σ ζ) (hs : consistent s)
    (hl : s.ep.leftover_bytes = []) (hp : perform F Z ts fuel op s = some s') :
    s'.ep.leftover_bytes = [] := by
  cases op with
  | read slices cb urgent mps =>
    exact (perform_read F hF Z ts fuel slices cb urgent mps s s' hp).2.2.2.2.2.2
  | wrapped_read_completes data error =>
    rw [(perform_wrapped_read_completes F hF Z ts fuel data error s s' hs hp).2.2.2.2.2]
    exact hl
  | write slices cb args =>
    rw [(perform_write F hF Z ts fuel slices cb args s s' hp).2.2.2.2.2.1]
    exact hl
  | wrapped_write_completes error =>
    rw [(perform_wrapped_write_completes F Z ts fuel error s s' hp).2.2.2.2.2]
    exact hl
  | reclaimer_sweep =>
    simp only [perform] at hp
    split at hp
    · simp only [Option.some.injEq] at hp
      subst hp
      simp only [reclaimer_callback, secure_endpoint_unref_eq, if_true]
      exact hl
    · cases hp
  | reclaimer_cancel =>
    simp only [perform] at hp
    split at hp
    · simp only [Option.some.injEq] at hp
      subst hp
      simp only [reclaimer_callback, secure_endpoint_unref_eq, Bool.false_eq_true, if_false]
      exact hl
    · cases hp
  | destroy =>
    simp only [perform] at hp
    split at hp
    · simp only [Option.some.injEq] at hp
      subst hp
      show (endpoint_destroy s.ep).leftover_bytes = []
      simp only [endpoint_destroy, reclaimer_callback, secure_endpoint_unref_eq]
      split <;> exact hl
    · cases hp

/-- C11. For every endpoint constructed with leftover slices, as long as no read
was made: the first read moves the leftover slices, in their order, into
`source_buffer`, runs `on_read` before it returns exactly as the completion of a
successful wrapped read with those slices as data, calls no wrapped read, and
leaves `leftover_bytes` empty.  From then on `leftover_bytes` stays empty and
every read issues a wrapped read.  The first read returns, for every fuel above
a bound, when the framer makes progress. -/
theorem leftover_consumed_by_first_read {σ ζ : Type} (F : tsi_frame_protector σ)
    (hF : well_behaved F) (Z : tsi_zero_copy_grpc_protector ζ) (ts : tsi_result → String)
    (s : endpoint_state σ ζ) (h : reachable F Z ts s) :
    (∀ (p : σ) (zc : Option ζ) w l,
        (created p zc w l).ep.leftover_bytes = l ∧ (created p zc w l).ep.source_buffer = [])
      ∧ (s.ep.leftover_bytes ≠ [] →
          s.read_in_flight = false
            ∧ ∀ fuel slices cb urgent,
              endpoint_read F Z ts fuel s.ep slices cb urgent =
                  (match wrapped_read_done F Z ts fuel
                      { (secure_endpoint_ref
                          { s.ep with read_cb := cb, read_buffer := some [] }) with
                        leftover_bytes := [] }
                      s.ep.leftover_bytes grpc_error_handle.OkStatus with
                    | none => ReadCall.out_of_fuel
                    | some d => ReadCall.completed d)
                ∧ (∀ d, endpoint_read F Z ts fuel s.ep slices cb urgent = ReadCall.completed d →
                    wrapped_read_hints d.log = [] ∧ d.ep.leftover_bytes = []
                      ∧ d.ep.read_buffer = none)
                ∧ (∀ rank, productive F rank → ∃ N d, ∀ fuel2, N ≤ fuel2 →
                    endpoint_read F Z ts fuel2 s.ep slices cb urgent = ReadCall.completed d))
      ∧ (∀ fuel slices cb urgent mps s',
          perform F Z ts fuel (Operation.read slices cb urgent mps) s = some s' →
          s'.ep.leftover_bytes = [] ∧ (s'.read_in_flight = true ↔ s.ep.leftover_bytes = []))
      ∧ (s.ep.leftover_bytes = [] →
          (∀ fuel op s', perform F Z ts fuel op s = some s' → s'.ep.leftover_bytes = [])
            ∧ ∀ fuel slices cb urgent,
                endpoint_read F Z ts fuel s.ep slices cb urgent =
                  ReadCall.issued
                    (secure_endpoint_ref { s.ep with read_cb := cb, read_buffer := some [] })
                    [Event.grpc_endpoint_read urgent s.ep.min_progress_size]) := by
  have hs := reachable_consistent F hF Z ts s h
  refine ⟨fun _ _ _ _ => ⟨rfl, rfl⟩, ?_, ?_, ?_⟩
  · intro hne
    obtain ⟨hsrc, hrf⟩ := reachable_leftover F hF Z ts s h hne
    refine ⟨hrf, ?_⟩
    intro fuel slices cb urgent
    have hcase : ∀ fuel, endpoint_read F Z ts fuel s.ep slices cb urgent =
        (match wrapped_read_done F Z ts fuel
            { (secure_endpoint_ref { s.ep with read_cb := cb, read_buffer := some [] }) with
              leftover_bytes := [] }
            s.ep.leftover_bytes grpc_error_handle.OkStatus with
          | none => ReadCall.out_of_fuel
          | some d => ReadCall.completed d) := by
      intro fuel
      rcases endpoint_read_cases F Z ts fuel s.ep slices cb urgent with
        ⟨hl, _⟩ | ⟨_, hso, _⟩ | ⟨_, _, e⟩
      · exact absurd hl hne
      · exact absurd hsrc hso
      · rw [e]; rfl
    refine ⟨hcase fuel, ?_, ?_⟩
    · intro d hd
      rw [hcase fuel] at hd
      simp only [wrapped_read_done] at hd
      generalize hon : on_read F Z ts fuel _ grpc_error_handle.OkStatus = o at hd
      cases o with
      | none => cases hd
      | some d' =>
        simp only [ReadCall.completed.injEq] at hd
        subst hd
        obtain ⟨b1, _, _, _, _, _, b7, _⟩ := on_read_books F hF Z ts fuel _
          grpc_error_handle.OkStatus [] d' rfl hon
        exact ⟨on_read_no_wrapped_read F Z ts fuel _ _ d' hon, b7, b1⟩
    · intro rank hp
      obtain ⟨N, d, hN⟩ := on_read_returns F hF rank hp Z ts
        ({ ({ (secure_endpoint_ref { s.ep with read_cb := cb, read_buffer := some [] }) with
              leftover_bytes := [] } : secure_endpoint σ ζ) with
            source_buffer := s.ep.leftover_bytes })
        grpc_error_handle.OkStatus
      refine ⟨N, d, ?_⟩
      intro fuel2 hf
      rw [hcase fuel2]
      unfold wrapped_read_done
      rw [hN fuel2 hf]
  · intro fuel slices cb urgent mps s' hp
    obtain ⟨_, _, _, _, _, a6, a7⟩ := perform_read F hF Z ts fuel slices cb urgent mps s s' hp
    exact ⟨a7, a6⟩
  · intro hl
    exact ⟨fun fuel op s' hp => perform_no_leftover F hF Z ts fuel op s s' hs hl hp,
      fun fuel slices cb urgent => endpoint_read_no_leftover F Z ts fuel s.ep slices cb urgent hl⟩

theorem leftover_consumed_by_first_read_witness :
    ∃ d, endpoint_read identity_protector passthrough_zero_copy example_result_to_string 10
        (created () (some ()) 1 [[2, 3], [4]]).ep [[9]] (some 7) false = ReadCall.completed d
      ∧ d.dst = some [[2, 3], [4]]
      ∧ runs d.log = [(some 7, grpc_error_handle.OkStatus)]
      ∧ wrapped_read_hints d.log = [] ∧ d.ep.leftover_bytes = [] ∧ d.ep.read_buffer = none
      ∧ ∃ ep1 log1,
          endpoint_read identity_protector passthrough_zero_copy example_result_to_string 10
            d.ep [] (some 8) false = ReadCall.issued ep1 log1 := by
  refine ⟨_, rfl, rfl, rfl, ?_⟩
  have h := ((leftover_consumed_by_first_read identity_protector
    identity_protector_well_behaved passthrough_zero_copy example_result_to_string
    (created () (some ()) 1 [[2, 3], [4]])
    (reachable.construction () (some ()) 1 [[2, 3], [4]])).2.1 (by decide)).2 10 [[9]] (some 7)
    false
  obtain ⟨h1, h2, h3⟩ := h.2.1 _ (by rfl)
  exact ⟨h1, h2, h3, _, _, rfl⟩

/-! ## Staging slices after a reclaimer sweep -/

theorem some_call_ok_append (l₁ l₂ : List Event) :
    some_call_ok (l₁ ++ l₂) ↔ some_call_ok l₁ ∨ some_call_ok l₂ := by
  unfold some_call_ok
  constructor
  · rintro ⟨e', he', h⟩
    rcases List.mem_append.mp he' with h1 | h1
    · exact Or.inl ⟨e', h1, h⟩
    · exact Or.inr ⟨e', h1, h⟩
  · rintro (⟨e', he', h⟩ | ⟨e', he', h⟩)
    · exact ⟨e', List.mem_append.mpr (Or.inl he'), h⟩
    · exact ⟨e', List.mem_append.mpr (Or.inr he'), h⟩

theorem write_split_head_staging {σ ζ : Type} (s : WriteLoop σ ζ) :
    (write_split_head s).ep.write_staging_buffer.length
      = s.ep.write_staging_buffer.length - s.cur := by
  unfold write_split_head
  split
  · simp [grpc_slice_split_head]
  · rename_i h
    have h0 : s.cur = 0 := by simpa using h
    simp [h0]

theorem read_advanced_end {σ ζ : Type} (s1 : ReadLoop σ ζ) (n : Nat) :
    (read_advanced s1 n).end_ = s1.end_
      ∨ (read_advanced s1 n).end_ = STAGING_BUFFER_SIZE := by
  unfold read_advanced
  split
  · right
    simp [flush_read_staging_buffer, update_read_buffer, MakeSlice_length]
  · split
    · left; rfl
    · left; rfl

theorem read_split_head_staging {σ ζ : Type} (s : ReadLoop σ ζ) :
    (read_split_head s).ep.read_staging_buffer.length
      = s.ep.read_staging_buffer.length - s.cur
      ∧ (read_split_head s).log = s.log := by
  unfold read_split_head
  split
  · simp [grpc_slice_split_head, update_read_buffer]
  · rename_i h
    have h0 : s.cur = 0 := by simpa using h
    simp [h0]

theorem endpoint_write_copying_run {σ ζ : Type} (F : tsi_frame_protector σ)
    (Z : tsi_zero_copy_grpc_protector ζ) (ts : tsi_result → String)
    (fuel : Nat) (ep : secure_endpoint σ ζ) (slices : grpc_slice_buffer)
    (cb : Option grpc_closure) (args : WriteArgs) (r : WriteDone σ ζ)
    (hcopy : ep.zero_copy_protector = none)
    (h : endpoint_write F Z ts fuel ep slices cb args = some r) :
    ∃ s : WriteLoop σ ζ,
      copying_write F fuel
        { ep := { ep with output_buffer := [] }, cur := 0,
          end_ := ep.write_staging_buffer.length,
          result := tsi_result.TSI_OK, log := [] } slices = some s
      ∧ r = write_finish ts s.ep slices s.result s.log cb args := by
  cases ep
  simp only at hcopy
  subst hcopy
  simp only [endpoint_write] at h
  split at h
  · cases h
  · rename_i s hs
    cases h
    exact ⟨s, hs, rfl⟩

theorem on_read_copying_run {σ ζ : Type} (F : tsi_frame_protector σ)
    (Z : tsi_zero_copy_grpc_protector ζ) (ts : tsi_result → String) (fuel : Nat)
    (ep : secure_endpoint σ ζ) (r : ReadDone σ ζ)
    (hcopy : ep.zero_copy_protector = none) (halive : ep.wrapped_ep ≠ none)
    (h : on_read F Z ts fuel ep grpc_error_handle.OkStatus = some r) :
    ∃ s : ReadLoop σ ζ,
      copying_read F fuel
        { ep := ep, cur := 0, end_ := ep.read_staging_buffer.length, keep_looping := false,
          result := tsi_result.TSI_OK, log := [] } = some s
      ∧ r = read_finish ts s grpc_error_handle.OkStatus := by
  have hal : ep.wrapped_ep.isNone = false := by
    cases hw : ep.wrapped_ep with
    | none => exact absurd hw halive
    | some w => rfl
  simp only [on_read, hal, grpc_error_handle.ok, hcopy] at h
  simp only [Bool.false_eq_true, false_and, if_false, Bool.not_true] at h
  split at h
  · cases h
  · rename_i s hs
    cases h
    exact ⟨s, hs, rfl⟩

/-- C29. `ServerConfigSelectorFilter::Call::OnClientInitialMetadata`, for a
filter whose `config_selector_` holds a value: when the config selector is an
error status it returns that status unchanged; when `GetCallConfig` fails it
returns an Unavailable status whose message is the string form of the failure;
otherwise it returns OK.  A `ServiceConfigCallData` is created for the call in
the last case, and given the call config's service config and method configs,
and in that case only: in the other two no call is made on the arena. -/
theorem OnClientInitialMetadata_result {δ κ μ : Type} (StatusToString : absl_Status → String)
    (md : δ) (filter : ServerConfigSelectorFilter δ κ μ)
    (sel : absl_StatusOr (ServerConfigSelector δ κ μ))
    (hsel : filter.config_selector_ = some sel) :
    (∀ s, sel = absl_StatusOr.error s →
        OnClientInitialMetadata StatusToString md filter = some (s, []))
      ∧ (∀ selector s, sel = absl_StatusOr.value selector →
          selector.GetCallConfig md = absl_StatusOr.error s →
          OnClientInitialMetadata StatusToString md filter
            = some ({ code := absl_StatusCode.kUnavailable, message := StatusToString s },
                []))
      ∧ (∀ selector call_config, sel = absl_StatusOr.value selector →
          selector.GetCallConfig md = absl_StatusOr.value call_config →
          OnClientInitialMetadata StatusToString md filter
            = some ({ code := absl_StatusCode.kOk, message := "" },
                [ArenaCall.New_ServiceConfigCallData,
                  ArenaCall.SetServiceConfig call_config.service_config
                    call_config.method_configs]))
      ∧ (∀ status calls,
          OnClientInitialMetadata StatusToString md filter = some (status, calls) →
          calls ≠ [] →
          ∃ selector call_config, sel = absl_StatusOr.value selector
            ∧ selector.GetCallConfig md = absl_StatusOr.value call_config
            ∧ status.ok = true) := by
  refine ⟨?_, ?_, ?_, ?_⟩
  · intro s hs
    simp [OnClientInitialMetadata, ServerConfigSelectorFilter.config_selector, hsel, hs]
  · intro selector s hs hc
    simp [OnClientInitialMetadata, ServerConfigSelectorFilter.config_selector, hsel, hs, hc,
      absl_UnavailableError]
  · intro selector call_config hs hc
    simp [OnClientInitialMetadata, ServerConfigSelectorFilter.config_selector, hsel, hs, hc,
      absl_OkStatus]
  · intro status calls h hne
    cases sel with
    | error s =>
      simp [OnClientInitialMetadata, ServerConfigSelectorFilter.config_selector, hsel] at h
      exact absurd h.2 hne
    | value selector =>
      cases hc : selector.GetCallConfig md with
      | error s =>
        simp [OnClientInitialMetadata, ServerConfigSelectorFilter.config_selector, hsel, hc]
          at h
        exact absurd h.2 hne
      | value call_config =>
        simp [OnClientInitialMetadata, ServerConfigSelectorFilter.config_selector, hsel, hc]
          at h
        refine ⟨selector, call_config, rfl, hc, ?_⟩
        rw [← h.1]
        rfl

theorem OnClientInitialMetadata_result_witness :
    OnClientInitialMetadata (fun s => s.message) (5 : Nat)
        ({ config_selector_ := some (absl_StatusOr.value
            { GetCallConfig := fun md =>
                if md = 5 then absl_StatusOr.value { method_configs := 2, service_config := 1 }
                else absl_StatusOr.error { code := absl_StatusCode.other 3, message := "no" } }) } :
          ServerConfigSelectorFilter Nat Nat Nat)
      = some ({ code := absl_StatusCode.kOk, message := "" },
          [ArenaCall.New_ServiceConfigCallData, ArenaCall.SetServiceConfig 1 2]) :=
  (OnClientInitialMetadata_result (fun s => s.message) (5 : Nat)
    ({ config_selector_ := some (absl_StatusOr.value
        { GetCallConfig := fun md =>
            if md = 5 then absl_StatusOr.value { method_configs := 2, service_config := 1 }
            else absl_StatusOr.error { code := absl_StatusCode.other 3, message := "no" } }) } :
      ServerConfigSelectorFilter Nat Nat Nat)
    _ rfl).2.2.1 _
    { method_configs := 2, service_config := 1 } rfl rfl

theorem ContextListMemory_set_same (mem : ContextListMemory) (a : Nat) (e : ContextListEntry) :
    mem.set a e a = e := by
  simp [ContextListMemory.set]

theorem ContextListMemory_set_other (mem : ContextListMemory) (a b : Nat)
    (e : ContextListEntry) (h : b ≠ a) : mem.set a e b = mem b := by
  simp [ContextListMemory.set, h]

/-- C30. Move-constructing a `ContextListEntry` at `this` from the entry at
`other`, or move-assigning to the entry at `this` from a distinct entry at
`other`, gives the destination all five fields of the source, sets the source's
trace context to null and leaves the source's other fields and every other
object unchanged; move-assigning an entry to itself changes nothing.  So after
a move of a trace context that is not null exactly one of the two entries holds
it, and destroying both invokes the delete function once, for it. -/
theorem ContextListEntry_move (mem : ContextListMemory) (this other : Nat) :
    (this ≠ other →
      ∀ m, (m = ContextListEntry.move_construct mem this other
          ∨ m = ContextListEntry.move_assign mem this other) →
        m this = mem other
          ∧ m other = { mem other with trace_context_ := none }
          ∧ (∀ a, a ≠ this → a ≠ other → m a = mem a)
          ∧ (∀ c, (mem other).trace_context_ = some c →
              (m this).trace_context_ = some c ∧ (m other).trace_context_ ≠ some c)
          ∧ (m this).destruct ++ (m other).destruct = (mem other).destruct
          ∧ ∀ c, ((m this).destruct ++ (m other).destruct).count c ≤ 1)
      ∧ ContextListEntry.move_assign mem this this = mem := by
  constructor
  · intro hne m hm
    have hno : other ≠ this := fun h => hne h.symm
    have h1 : m this = mem other := by
      rcases hm with hm | hm
      · subst hm
        simp [ContextListEntry.move_construct, ContextListMemory.set, hne]
      · subst hm
        simp [ContextListEntry.move_assign, ContextListMemory.set, hne, hno]
    have h2 : m other = { mem other with trace_context_ := none } := by
      rcases hm with hm | hm
      · subst hm
        simp [ContextListEntry.move_construct, ContextListMemory.set, hno]
      · subst hm
        simp [ContextListEntry.move_assign, ContextListMemory.set, hne, hno]
    refine ⟨h1, h2, ?_, ?_, ?_, ?_⟩
    · intro a ha hb
      rcases hm with hm | hm
      · subst hm
        simp [ContextListEntry.move_construct, ContextListMemory.set, ha, hb]
      · subst hm
        simp [ContextListEntry.move_assign, ContextListMemory.set, hne, ha, hb]
    · intro c hc
      rw [h1, h2]
      exact ⟨hc, by simp⟩
    · rw [h1, h2]
      simp [ContextListEntry.destruct]
    · intro c
      rw [h1, h2]
      simp only [ContextListEntry.destruct, List.append_nil]
      cases (mem other).trace_context_ with
      | none => simp
      | some d => exact List.count_le_length c [d]
  · simp [ContextListEntry.move_assign]

theorem ContextListEntry_move_witness :
    ((1 : Nat) ≠ 2)
      ∧ ContextListEntry.move_assign
          (fun a => { trace_context_ := some (10 + a), outbuf_offset_ := 3,
                      num_traced_bytes_in_chunk_ := 4, byte_offset_in_stream_ := a,
                      stream_index_ := 6 }) 1 2 1
        = { trace_context_ := some 12, outbuf_offset_ := 3,
            num_traced_bytes_in_chunk_ := 4, byte_offset_in_stream_ := 2,
            stream_index_ := 6 } :=
  ⟨by decide,
    ((ContextListEntry_move
      (fun a => { trace_context_ := some (10 + a), outbuf_offset_ := 3,
                  num_traced_bytes_in_chunk_ := 4, byte_offset_in_stream_ := a,
                  stream_index_ := 6 }) 1 2).1 (by decide) _ (Or.inr rfl)).1⟩

/-! ## The source buffer and the destination at the completion of a read -/

/-- C23 as stated fails on the transport error: `on_read` run with a status
that is not OK calls `call_read_cb` and returns before the statement that
resets `source_buffer`, which still holds what the wrapped endpoint put
there. -/
theorem transport_error_keeps_source_buffer :
    ∃ r, wrapped_read_done identity_protector passthrough_zero_copy example_result_to_string 10
        (secure_endpoint_ref
          { remnant_endpoint () 16 with read_cb := some 7, read_buffer := some [] })
        [[1, 2]] (grpc_error_handle.other 14 "connection reset") = some r
      ∧ runs r.log = [(some 7, grpc_error_handle.GRPC_ERROR_CREATE_REFERENCING
          "Secure read failed" (grpc_error_handle.other 14 "connection reset"))]
      ∧ r.ep.source_buffer = [[1, 2]] :=
  ⟨_, rfl, rfl, rfl⟩

/-- C23 (amended). For every completion of `on_read` that is a success or a
framer error (the wrapped read reported OK and the endpoint was not destroyed),
`source_buffer` is empty when `read_cb` is run.  On a transport error (the
wrapped read reported an error, or the endpoint was destroyed and the status is
replaced by the cancellation) `read_cb` is run with "Secure read failed" and
`source_buffer` is as `on_read` found it.  `on_read` returns, for every fuel
above a bound, when the framer makes progress. -/
theorem source_buffer_at_read_cb {σ ζ : Type} (F : tsi_frame_protector σ)
    (hF : well_behaved F) (Z : tsi_zero_copy_grpc_protector ζ) (ts : tsi_result → String)
    (ep : secure_endpoint σ ζ) (error : grpc_error_handle) (d : grpc_slice_buffer)
    (hd : ep.read_buffer = some d) :
    (∀ fuel r, on_read F Z ts fuel ep error = some r →
      (ep.wrapped_ep ≠ none → error.ok = true → r.ep.source_buffer = [])
        ∧ (ep.wrapped_ep = none ∨ error.ok = false →
            r.ep.source_buffer = ep.source_buffer
              ∧ runs r.log = [(ep.read_cb, grpc_error_handle.GRPC_ERROR_CREATE_REFERENCING
                  "Secure read failed" (read_error ep error))]))
      ∧ (∀ rank, productive F rank →
          ∃ N r, ∀ fuel, N ≤ fuel → on_read F Z ts fuel ep error = some r) := by
  refine ⟨?_, fun rank hp => on_read_returns F hF rank hp Z ts ep error⟩
  intro fuel r h
  constructor
  · intro halive hok
    have hre : (read_error ep error).ok = true := by
      unfold read_error
      cases hw : ep.wrapped_ep with
      | none => exact absurd hw halive
      | some w => simpa using hok
    exact (on_read_books F hF Z ts fuel ep error d r hd h).2.2.2.2.2.2.2.2.2.2.2 hre
  · intro hbad
    have hre : (read_error ep error).ok = false := by
      unfold read_error
      rcases hbad with hw | he
      · by_cases hok : error.ok = true
        · rw [if_pos ⟨by rw [hw]; rfl, hok⟩]
          rfl
        · rw [if_neg (fun hc => hok hc.2)]
          simpa using hok
      · rw [if_neg (fun hc => by rw [he] at hc; exact absurd hc.2 (by decide))]
        exact he
    rw [on_read_error F Z ts fuel ep error hre] at h
    cases h
    simp [call_read_cb, update_read_buffer, secure_endpoint_unref_eq, runs]

theorem source_buffer_at_read_cb_witness :
    ∃ r, on_read (limited_protector 5) passthrough_zero_copy example_result_to_string 10
        { (remnant_endpoint 1 16 : secure_endpoint Nat Unit) with
          read_cb := some 7, read_buffer := some [], source_buffer := [[1, 2], [3]], ref := 2 }
        grpc_error_handle.OkStatus = some r
      ∧ ¬ calls_ok r.log
      ∧ r.ep.source_buffer = [] :=
  ⟨_, rfl, by decide,
    ((source_buffer_at_read_cb (limited_protector 5) (limited_protector_well_behaved 5)
      passthrough_zero_copy example_result_to_string
      { (remnant_endpoint 1 16 : secure_endpoint Nat Unit) with
        read_cb := some 7, read_buffer := some [], source_buffer := [[1, 2], [3]], ref := 2 }
      grpc_error_handle.OkStatus [] rfl).1 10 _ rfl).1 (by decide) rfl⟩

/-- C24 as stated fails: a read whose first `unprotect` call emits two bytes
and whose second call fails completes with "Unwrap failed" and an empty
destination; the two bytes are not in it. -/
theorem framer_error_discards_plaintext :
    ∃ r, on_read (limited_protector 5) passthrough_zero_copy example_result_to_string 10
        { (remnant_endpoint 1 16 : secure_endpoint Nat Unit) with
          read_cb := some 7, read_buffer := some [], source_buffer := [[1, 2], [3]], ref := 2 }
        grpc_error_handle.OkStatus = some r
      ∧ unprotect_emitted r.log = [1, 2]
      ∧ runs r.log = [(some 7,
          grpc_error_handle.GRPC_ERROR_CREATE "Unwrap failed (TSI_ERROR_5)")]
      ∧ r.dst = some [] :=
  ⟨_, rfl, by decide, by decide, rfl⟩

/-- C24 (amended). When an `unprotect` call of a copying-framer read fails,
also after earlier calls of the same read emitted plaintext, the destination
buffer handed to the caller together with the error completion is empty:
`on_read` resets it before it runs `read_cb` with "Unwrap failed".  The read
returns, for every fuel above a bound, when the framer makes progress. -/
theorem framer_error_empties_destination {σ ζ : Type} (F : tsi_frame_protector σ)
    (hF : well_behaved F) (Z : tsi_zero_copy_grpc_protector ζ) (ts : tsi_result → String)
    (ep : secure_endpoint σ ζ) (d : grpc_slice_buffer)
    (hcopy : ep.zero_copy_protector = none) (hd : ep.read_buffer = some d) :
    (∀ fuel r, on_read F Z ts fuel ep grpc_error_handle.OkStatus = some r →
      ¬ calls_ok r.log →
      r.dst = some []
        ∧ ∃ s, s ≠ tsi_result.TSI_OK ∧ r.result = s
          ∧ runs r.log = [(ep.read_cb,
              grpc_error_handle.GRPC_ERROR_CREATE ("Unwrap failed (" ++ ts s ++ ")"))])
      ∧ (∀ rank, productive F rank →
          ∃ N r, ∀ fuel, N ≤ fuel →
            on_read F Z ts fuel ep grpc_error_handle.OkStatus = some r) := by
  refine ⟨?_, fun rank hp => on_read_returns F hF rank hp Z ts ep _⟩
  intro fuel r h hfail
  by_cases hok : (read_error ep grpc_error_handle.OkStatus).ok = true
  · obtain ⟨_, _, halive⟩ := read_error_ok ep _ hok
    obtain ⟨s, hs, hr⟩ := on_read_copying F hF Z ts fuel ep d r hcopy halive hd h
    have hcb : s.ep.read_cb = ep.read_cb := by
      have := hs.frame
      simp only [read_frame, Prod.mk.injEq] at this
      exact this.2.2.1
    obtain ⟨d', hd1, hd2⟩ := hs.dst
    by_cases hres : s.result = tsi_result.TSI_OK
    · exfalso
      apply hfail
      rw [hr, read_finish_ok ts s hres]
      simp only [call_read_cb]
      rw [calls_ok_append, calls_ok_singleton]
      exact ⟨(hd2 hres).2.1, by simp [Event.framer_result]⟩
    · rw [hr, read_finish_failed ts s hres]
      refine ⟨?_, s.result, hres, rfl, ?_⟩
      · simp [call_read_cb, update_read_buffer, hd1]
      · simp [call_read_cb, update_read_buffer, runs_append, hs.quiet.1, runs, hcb]
  · exfalso
    apply hfail
    have hno : (read_error ep grpc_error_handle.OkStatus).ok = false := by
      simpa using hok
    rw [on_read_error F Z ts fuel ep _ hno] at h
    cases h
    simp only [call_read_cb, List.nil_append]
    rw [calls_ok_singleton]
    simp [Event.framer_result]

theorem framer_error_empties_destination_witness :
    ∃ r, on_read (limited_protector 5) passthrough_zero_copy example_result_to_string 10
        { (remnant_endpoint 1 16 : secure_endpoint Nat Unit) with
          read_cb := some 7, read_buffer := some [], source_buffer := [[3, 4, 5]], ref := 2 }
        grpc_error_handle.OkStatus = some r
      ∧ ¬ calls_ok r.log
      ∧ unprotect_emitted r.log = [3, 4, 5]
      ∧ r.dst = some [] :=
  ⟨_, rfl, by decide, by decide,
    ((framer_error_empties_destination (limited_protector 5)
      (limited_protector_well_behaved 5) passthrough_zero_copy example_result_to_string
      { (remnant_endpoint 1 16 : secure_endpoint Nat Unit) with
        read_cb := some 7, read_buffer := some [], source_buffer := [[3, 4, 5]], ref := 2 }
      [] rfl rfl).1 10 _ rfl (by decide)).1⟩

theorem perform_all_no_leftover {σ ζ : Type} (F : tsi_frame_protector σ) (hF : well_behaved F)
    (Z : tsi_zero_copy_grpc_protector ζ) (ts : tsi_result → String) (fuel : Nat)
    (ops : List Operation) :
    ∀ (s s' : endpoint_state σ ζ), reachable F Z ts s → s.ep.leftover_bytes = [] →
      perform_all F Z ts fuel ops s = some s' → s'.ep.leftover_bytes = [] := by
  induction ops with
  | nil =>
    intro s s' _ hl h
    simp only [perform_all, Option.some.injEq] at h
    rw [← h]; exact hl
  | cons op ops ih =>
    intro s s' hr hl h
    simp only [perform_all] at h
    split at h
    · cases h
    · rename_i s1 h1
      exact ih s1 s' (reachable.operation s s1 fuel op hr h1)
        (perform_no_leftover F hF Z ts fuel op s s1 (reachable_consistent F hF Z ts s hr) hl h1)
        h

/-- C28. In every state reachable through the public interface the assertion
`CHECK_EQ(ep->leftover_bytes.count, 0u)` of `endpoint_read` holds: a read never
ends in the failed check, because `source_buffer` is empty whenever
`leftover_bytes` is not, so that the swap leaves `leftover_bytes` empty.
`leftover_bytes` can be non-empty only before the first read: after a read,
whatever operations follow, it is empty. -/
theorem leftover_check_holds {σ ζ : Type} (F : tsi_frame_protector σ) (hF : well_behaved F)
    (Z : tsi_zero_copy_grpc_protector ζ) (ts : tsi_result → String)
    (s : endpoint_state σ ζ) (h : reachable F Z ts s) :
    (∀ fuel slices cb urgent,
        endpoint_read F Z ts fuel s.ep slices cb urgent ≠ ReadCall.check_failed)
      ∧ (s.ep.leftover_bytes ≠ [] → s.ep.source_buffer = [])
      ∧ (∀ fuel slices cb urgent mps s',
          perform F Z ts fuel (Operation.read slices cb urgent mps) s = some s' →
          s'.ep.leftover_bytes = []
            ∧ ∀ fuel2 ops s'', perform_all F Z ts fuel2 ops s' = some s'' →
                s''.ep.leftover_bytes = []) := by
  have hl := reachable_leftover F hF Z ts s h
  refine ⟨?_, fun hne => (hl hne).1, ?_⟩
  · intro fuel slices cb urgent
    rcases endpoint_read_cases F Z ts fuel s.ep slices cb urgent with
      ⟨_, e⟩ | ⟨h1, h2, _⟩ | ⟨_, _, e⟩
    · rw [e]; intro hc; cases hc
    · exact absurd (hl h1).1 h2
    · rw [e]
      generalize on_read F Z ts fuel _ grpc_error_handle.OkStatus = o
      cases o <;> intro hc <;> cases hc
  · intro fuel slices cb urgent mps s' hp
    have h1 := (perform_read F hF Z ts fuel slices cb urgent mps s s' hp).2.2.2.2.2.2
    refine ⟨h1, ?_⟩
    intro fuel2 ops s'' hall
    exact perform_all_no_leftover F hF Z ts fuel2 ops s' s''
      (reachable.operation s s' fuel _ h hp) h1 hall

theorem leftover_check_holds_witness :
    (created () (some ()) 1 [[2, 3], [4]] : endpoint_state Unit Unit).ep.leftover_bytes ≠ []
      ∧ (∀ fuel slices cb urgent,
          endpoint_read identity_protector passthrough_zero_copy example_result_to_string fuel
            (created () (some ()) 1 [[2, 3], [4]]).ep slices cb urgent
            ≠ ReadCall.check_failed)
      ∧ (created () (some ()) 1 [[2, 3], [4]] : endpoint_state Unit Unit).ep.source_buffer
          = [] :=
  ⟨by decide,
    (leftover_check_holds identity_protector identity_protector_well_behaved
      passthrough_zero_copy example_result_to_string (created () (some ()) 1 [[2, 3], [4]])
      (reachable.construction () (some ()) 1 [[2, 3], [4]])).1,
    rfl⟩

/-! ## The chunk loop of the zero-copy write, iteration by iteration -/

theorem zero_copy_chunk_loop_step {σ ζ : Type} (Z : tsi_zero_copy_grpc_protector ζ)
    (M fuel : Nat) (s : ZeroCopyLoop σ ζ) :
    zero_copy_chunk_loop Z M (fuel + 1) s =
      if buffer_length s.slices > M ∧ s.result = tsi_result.TSI_OK then
        zero_copy_chunk_loop Z M fuel (zero_copy_chunk_iteration Z M s)
      else some s := by
  simp only [zero_copy_chunk_loop, zero_copy_chunk_iteration]

theorem zero_copy_chunk_iteration_length {σ ζ : Type} (Z : tsi_zero_copy_grpc_protector ζ)
    (M : Nat) (s : ZeroCopyLoop σ ζ) :
    buffer_length (zero_copy_chunk_iteration Z M s).slices = buffer_length s.slices - M := by
  simp only [zero_copy_chunk_iteration, zero_copy_protect_call, grpc_slice_buffer_move_first,
    if_true]
  rw [buffer_length_eq, (move_first_bytes s.slices M).2, List.length_drop, ← buffer_length_eq]

theorem chunk_bound_step (L M : Nat) (hM : 0 < M) (hL : M < L) :
    (L + M - 1) / M - 1 = ((L - M) + M - 1) / M - 1 + 1 := by
  have h1 : L + M - 1 = (L - M + M - 1) + M := by omega
  rw [h1, Nat.add_div_right _ hM]
  have h2 : 1 ≤ (L - M + M - 1) / M := by
    rw [Nat.le_div_iff_mul_le hM]
    omega
  omega

theorem chunk_bound_pos (L M : Nat) (hM : 0 < M) (h : 0 < (L + M - 1) / M - 1) : M < L := by
  by_contra hle
  have h1 : (L + M - 1) / M ≤ 1 := by
    have : L + M - 1 < 2 * M := by omega
    have := (Nat.div_lt_iff_lt_mul hM).mpr this
    omega
  omega

theorem zero_copy_chunk_loop_run {σ ζ : Type} (Z : tsi_zero_copy_grpc_protector ζ)
    (M : Nat) (hM : 0 < M) :
    ∀ (N : Nat) (s : ZeroCopyLoop σ ζ), buffer_length s.slices < N →
      ∃ n, n ≤ (buffer_length s.slices + M - 1) / M - 1
        ∧ (∀ fuel, n < fuel →
            zero_copy_chunk_loop Z M fuel s
              = some (Nat.iterate (zero_copy_chunk_iteration Z M) n s))
        ∧ (∀ k, k < n →
            zero_copy_chunk_condition M (Nat.iterate (zero_copy_chunk_iteration Z M) k s)
              ∧ buffer_length
                    (Nat.iterate (zero_copy_chunk_iteration Z M) (k + 1) s).slices + M
                  = buffer_length (Nat.iterate (zero_copy_chunk_iteration Z M) k s).slices)
        ∧ ¬ zero_copy_chunk_condition M (Nat.iterate (zero_copy_chunk_iteration Z M) n s)
        ∧ (n < (buffer_length s.slices + M - 1) / M - 1 →
            (Nat.iterate (zero_copy_chunk_iteration Z M) n s).result
              ≠ tsi_result.TSI_OK) := by
  intro N
  induction N with
  | zero => intro s h; omega
  | succ N ih =>
    intro s hN
    by_cases hc : buffer_length s.slices > M ∧ s.result = tsi_result.TSI_OK
    · have hlen := zero_copy_chunk_iteration_length Z M s
      obtain ⟨n, h1, h2, h3, h4, h5⟩ := ih (zero_copy_chunk_iteration Z M s)
        (by rw [hlen]; omega)
      rw [hlen] at h1 h5
      have hb := chunk_bound_step (buffer_length s.slices) M hM hc.1
      refine ⟨n + 1, by omega, ?_, ?_, ?_, ?_⟩
      · intro fuel hf
        obtain ⟨k, rfl⟩ : ∃ k, fuel = k + 1 := ⟨fuel - 1, by omega⟩
        rw [zero_copy_chunk_loop_step, if_pos hc, Function.iterate_succ_apply]
        exact h2 k (by omega)
      · intro k hk
        cases k with
        | zero =>
          refine ⟨hc, ?_⟩
          simp only [Function.iterate_succ_apply, Function.iterate_zero, id_eq, zero_add]
          rw [hlen]
          omega
        | succ k =>
          have := h3 k (by omega)
          simp only [Function.iterate_succ_apply] at this ⊢
          exact this
      · rw [Function.iterate_succ_apply]; exact h4
      · intro hlt
        rw [Function.iterate_succ_apply]
        exact h5 (by omega)
    · refine ⟨0, Nat.zero_le _, ?_, ?_, ?_, ?_⟩
      · intro fuel hf
        obtain ⟨k, rfl⟩ : ∃ k, fuel = k + 1 := ⟨fuel - 1, by omega⟩
        rw [zero_copy_chunk_loop_step, if_neg hc]
        rfl
      · intro k hk; omega
      · exact hc
      · intro hpos
        have hgt := chunk_bound_pos _ M hM hpos
        intro hr
        exact hc ⟨hgt, hr⟩

/-- C27. The chunk loop of the zero-copy write, for a source of `L` bytes.  With
a maximum frame size `M` of at least 1 it makes `n` iterations for some `n` of
at most `ceil(L/M) - 1` (zero when that is negative) and returns; every
iteration is entered with more than `M` bytes in the source and `TSI_OK`, and
takes exactly `M` bytes out of the source; and it makes fewer iterations than
that only when the framer call of the last one did not return `TSI_OK`.  With
`M = 0`, a source that is not empty and a framer that keeps returning `TSI_OK`,
an iteration leaves the source length unchanged, the loop condition holds after
any number of iterations, and no amount of fuel lets the loop return. -/
theorem zero_copy_chunk_loop_iterations {σ ζ : Type} (Z : tsi_zero_copy_grpc_protector ζ)
    (s : ZeroCopyLoop σ ζ) (hr : s.result = tsi_result.TSI_OK) :
    (∀ M, 1 ≤ M →
      ∃ n, n ≤ (buffer_length s.slices + M - 1) / M - 1
        ∧ (∀ fuel, n < fuel →
            zero_copy_chunk_loop Z M fuel s
              = some (Nat.iterate (zero_copy_chunk_iteration Z M) n s))
        ∧ (∀ k, k < n →
            zero_copy_chunk_condition M (Nat.iterate (zero_copy_chunk_iteration Z M) k s)
              ∧ buffer_length
                    (Nat.iterate (zero_copy_chunk_iteration Z M) (k + 1) s).slices + M
                  = buffer_length (Nat.iterate (zero_copy_chunk_iteration Z M) k s).slices)
        ∧ ¬ zero_copy_chunk_condition M (Nat.iterate (zero_copy_chunk_iteration Z M) n s)
        ∧ (n < (buffer_length s.slices + M - 1) / M - 1 →
            0 < n ∧ (Nat.iterate (zero_copy_chunk_iteration Z M) n s).result
              ≠ tsi_result.TSI_OK))
      ∧ ((∀ z input output, (Z.protect z input output).result = tsi_result.TSI_OK) →
          0 < buffer_length s.slices →
          (∀ n, zero_copy_chunk_condition 0
                (Nat.iterate (zero_copy_chunk_iteration Z 0) n s)
              ∧ buffer_length (Nat.iterate (zero_copy_chunk_iteration Z 0) n s).slices
                  = buffer_length s.slices)
            ∧ ∀ fuel, zero_copy_chunk_loop Z 0 fuel s = none) := by
  constructor
  · intro M hM
    obtain ⟨n, h1, h2, h3, h4, h5⟩ :=
      zero_copy_chunk_loop_run Z M hM (buffer_length s.slices + 1) s (by omega)
    refine ⟨n, h1, h2, h3, h4, ?_⟩
    intro hlt
    have hres := h5 hlt
    refine ⟨?_, hres⟩
    by_contra h0
    have hn : n = 0 := by omega
    rw [hn] at hres
    exact hres hr
  · intro hZ hL
    refine ⟨?_, fun fuel => zero_copy_chunk_loop_spins Z hZ fuel s hL hr⟩
    intro n
    induction n with
    | zero => exact ⟨⟨hL, hr⟩, rfl⟩
    | succ n ih =>
      rw [Function.iterate_succ_apply']
      have hlen := zero_copy_chunk_iteration_length Z 0
        (Nat.iterate (zero_copy_chunk_iteration Z 0) n s)
      rw [Nat.sub_zero, ih.2] at hlen
      refine ⟨⟨by rw [hlen]; exact hL, ?_⟩, hlen⟩
      simp only [zero_copy_chunk_iteration, zero_copy_protect_call]
      exact hZ _ _ _

theorem zero_copy_chunk_loop_iterations_witness :
    ∃ n, n ≤ (10 + 3 - 1) / 3 - 1
      ∧ ∀ fuel, n < fuel →
          zero_copy_chunk_loop passthrough_zero_copy 3 fuel
            ({ ep := grpc_legacy_secure_endpoint_create () (some ()) 1 [], z := (),
               slices := [[1, 2, 3, 4], [5, 6, 7, 8, 9, 10]],
               result := tsi_result.TSI_OK, log := [] } : ZeroCopyLoop Unit Unit)
            = some (Nat.iterate (zero_copy_chunk_iteration passthrough_zero_copy 3) n
                { ep := grpc_legacy_secure_endpoint_create () (some ()) 1 [], z := (),
                  slices := [[1, 2, 3, 4], [5, 6, 7, 8, 9, 10]],
                  result := tsi_result.TSI_OK, log := [] }) := by
  obtain ⟨n, h1, h2, _⟩ := (zero_copy_chunk_loop_iterations passthrough_zero_copy
    ({ ep := grpc_legacy_secure_endpoint_create () (some ()) 1 [], z := (),
       slices := [[1, 2, 3, 4], [5, 6, 7, 8, 9, 10]],
       result := tsi_result.TSI_OK, log := [] } : ZeroCopyLoop Unit Unit) rfl).1 3 (by decide)
  exact ⟨n, h1, h2⟩

/-! ## The `protect_flush` calls of a copying write -/

theorem flush_calls_append (l₁ l₂ : List Event) :
    flush_calls (l₁ ++ l₂) = flush_calls l₁ ++ flush_calls l₂ := by
  simp [flush_calls]

theorem protect_calls_append (l₁ l₂ : List Event) :
    protect_calls (l₁ ++ l₂) = protect_calls l₁ ++ protect_calls l₂ := by
  simp [protect_calls]

theorem write_advanced_calls {σ ζ : Type} (s1 : WriteLoop σ ζ) (n : Nat) :
    flush_calls (write_advanced s1 n).log = flush_calls s1.log
      ∧ protect_calls (write_advanced s1 n).log = protect_calls s1.log
      ∧ (write_advanced s1 n).result = s1.result := by
  unfold write_advanced
  split
  · simp only [flush_write_staging_buffer, maybe_post_reclaimer]
    split
    · rw [flush_calls_append, protect_calls_append]
      simp [flush_calls, protect_calls]
    · simp
  · exact ⟨rfl, rfl, rfl⟩

theorem flush_chain_snoc (pre : List Event) (cap : Nat) (r : tsi_result) (out : List Byte)
    (pending : Nat) (hpre : flush_open pre) (hstop : ¬ (r = tsi_result.TSI_OK ∧ 0 < pending)) :
    flush_chain (pre ++ [Event.protect_flush cap r out pending]) := by
  induction pre with
  | nil => exact hstop
  | cons e l ih =>
    cases e with
    | protect_flush cap' r' out' pending' =>
      obtain ⟨h1, h2⟩ := hpre
      have := ih h2
      cases l with
      | nil => exact ⟨h1, this⟩
      | cons e' l' => exact ⟨h1, this⟩
    | _ => exact absurd hpre (by simp [flush_open])

theorem flush_open_snoc (pre : List Event) (cap : Nat) (out : List Byte) (pending : Nat)
    (hpre : flush_open pre) (hp : 0 < pending) :
    flush_open (pre ++ [Event.protect_flush cap tsi_result.TSI_OK out pending]) := by
  induction pre with
  | nil => exact ⟨⟨rfl, hp⟩, trivial⟩
  | cons e l ih =>
    cases e with
    | protect_flush cap' r' out' pending' =>
      obtain ⟨h1, h2⟩ := hpre
      exact ⟨h1, ih h2⟩
    | _ => exact absurd hpre (by simp [flush_open])

theorem protect_phase_failed {σ ζ : Type} (s : WriteLoop σ ζ) (p : σ) (m : List Byte)
    (cap : Nat) (c : FrameCall σ) (hne : c.result ≠ tsi_result.TSI_OK)
    (h : protect_phase s) :
    protect_phase (write_called s p c.out c.result (protect_event m cap c)) := by
  obtain ⟨h1, _⟩ := h
  constructor
  · simp only [write_called]
    rw [flush_calls_append, h1]
    simp [flush_calls, protect_event]
  · intro _
    refine ⟨protect_event m cap c, ?_, ?_⟩
    · simp only [write_called]
      rw [protect_calls_append]
      simp [protect_calls, protect_event]
    · simp only [protect_event, Event.framer_result, ne_eq, Option.some.injEq]
      exact hne

theorem protect_phase_advanced {σ ζ : Type} (s : WriteLoop σ ζ) (p : σ) (m : List Byte)
    (cap : Nat) (c : FrameCall σ) (hok : c.result = tsi_result.TSI_OK)
    (h : protect_phase s) :
    protect_phase
      (write_advanced (write_called s p c.out c.result (protect_event m cap c))
        c.out.length) := by
  obtain ⟨h1, _⟩ := h
  obtain ⟨a1, _, a3⟩ := write_advanced_calls
    (write_called s p c.out c.result (protect_event m cap c)) c.out.length
  constructor
  · rw [a1]
    simp only [write_called]
    rw [flush_calls_append, h1]
    simp [flush_calls, protect_event]
  · intro hne
    rw [a3] at hne
    exact absurd hok hne

theorem protect_loop_phase {σ ζ : Type} (F : tsi_frame_protector σ)
    (fuel : Nat) (s : WriteLoop σ ζ) (m : List Byte) (s' : WriteLoop σ ζ)
    (h : protect_phase s) (hrun : protect_loop F fuel s m = some s') : protect_phase s' := by
  refine protect_loop_rule F (fun s _ => protect_phase s) (fun s => protect_phase s)
    (fun s hP => hP) ?_ ?_ fuel s m s' h hrun
  · intro s m c hP _ hc hne
    exact protect_phase_failed s _ m _ c hne hP
  · intro s m c hP _ hc hok
    exact protect_phase_advanced s _ m _ c hok hP

theorem protect_slices_phase {σ ζ : Type} (F : tsi_frame_protector σ)
    (fuel : Nat) (slices : List grpc_slice) (s s' : WriteLoop σ ζ)
    (h : protect_phase s) (hrun : protect_slices F fuel s slices = some s') :
    protect_phase s' := by
  refine protect_slices_rule F fuel (fun s _ => protect_phase s) ?_ slices s s' h hrun
  intro s plain rest s1 hP h1
  have := protect_loop_phase F fuel s plain s1 hP h1
  exact ⟨fun _ => this, fun _ => this⟩

theorem protect_flush_loop_chain {σ ζ : Type} (F : tsi_frame_protector σ)
    (fuel : Nat) (base : List Event) (s s' : WriteLoop σ ζ)
    (h : flush_calls s.log = base)
    (hrun : protect_flush_loop F fuel s = some s') :
    ∃ calls, flush_calls s'.log = base ++ calls ∧ flush_chain calls
      ∧ (s'.result = tsi_result.TSI_OK → flush_done calls) := by
  refine protect_flush_loop_rule F
    (fun s => ∃ pre, flush_calls s.log = base ++ pre ∧ flush_open pre)
    (fun s' => ∃ calls, flush_calls s'.log = base ++ calls ∧ flush_chain calls
      ∧ (s'.result = tsi_result.TSI_OK → flush_done calls))
    ?_ ?_ fuel s s' ⟨[], by simp [h], trivial⟩ hrun
  · intro s c ⟨pre, hP1, hP2⟩ hc hne
    refine ⟨pre ++ [protect_flush_event (s.end_ - s.cur) c], ?_, ?_, ?_⟩
    · simp only [write_called]
      rw [flush_calls_append, hP1, List.append_assoc]
      simp [flush_calls, protect_flush_event]
    · exact flush_chain_snoc pre _ _ _ _ hP2 (fun hh => hne hh.1)
    · intro hok
      exact absurd hok hne
  · intro s c ⟨pre, hP1, hP2⟩ hc hok
    obtain ⟨a1, _, a3⟩ := write_advanced_calls
      (write_called s c.state c.out c.result (protect_flush_event (s.end_ - s.cur) c))
      c.out.length
    have hlog : flush_calls (write_advanced
        (write_called s c.state c.out c.result (protect_flush_event (s.end_ - s.cur) c))
        c.out.length).log = base ++ (pre ++ [protect_flush_event (s.end_ - s.cur) c]) := by
      rw [a1]
      simp only [write_called]
      rw [flush_calls_append, hP1, List.append_assoc]
      simp [flush_calls, protect_flush_event]
    constructor
    · intro hp
      refine ⟨_, hlog, ?_⟩
      simp only [protect_flush_event, hok]
      exact flush_open_snoc pre _ _ _ hP2 hp
    · intro hp
      refine ⟨_, hlog, ?_, ?_⟩
      · exact flush_chain_snoc pre _ _ _ _ hP2 (fun hh => by rw [hp] at hh; exact absurd hh.2 (by decide))
      · intro _
        refine ⟨s.end_ - s.cur, c.out, ?_⟩
        simp [protect_flush_event, hok, hp]

/-- The `protect_flush` calls of a copying write whose `protect` calls all
returned `TSI_OK`. -/
theorem copying_write_flush_chain {σ ζ : Type} (F : tsi_frame_protector σ)
    (fuel : Nat) (s0 s : WriteLoop σ ζ) (slices : grpc_slice_buffer)
    (hlog : s0.log = []) (hres : s0.result = tsi_result.TSI_OK)
    (hrun : copying_write F fuel s0 slices = some s)
    (hok : ∀ e ∈ protect_calls s.log, e.framer_result = some tsi_result.TSI_OK) :
    flush_chain (flush_calls s.log)
      ∧ (s.result = tsi_result.TSI_OK → flush_done (flush_calls s.log)) := by
  have h0 : protect_phase s0 := by
    refine ⟨by rw [hlog]; rfl, fun hne => absurd hres hne⟩
  unfold copying_write at hrun
  split at hrun
  · cases hrun
  · rename_i s1 h1
    obtain ⟨p1, p2⟩ := protect_slices_phase F fuel slices s0 s1 h0 h1
    split at hrun
    · split at hrun
      · cases hrun
      · rename_i s2 h2
        cases hrun
        obtain ⟨calls, c1, c2, c3⟩ := protect_flush_loop_chain F fuel [] s1 s2 p1 h2
        rw [write_split_head_log, c1]
        simp only [List.nil_append]
        refine ⟨c2, ?_⟩
        intro hr
        apply c3
        unfold write_split_head at hr
        split at hr
        · exact hr
        · exact hr
    · rename_i hne
      cases hrun
      exfalso
      obtain ⟨e, he, hbad⟩ := p2 hne
      exact hbad (hok e he)
theorem write_finish_calls {σ ζ : Type} (ts : tsi_result → String)
    (ep : secure_endpoint σ ζ) (slices : grpc_slice_buffer) (result : tsi_result)
    (log : List Event) (cb : Option grpc_closure) (args : WriteArgs) :
    flush_calls (write_finish ts ep slices result log cb args).log = flush_calls log
      ∧ protect_calls (write_finish ts ep slices result log cb args).log = protect_calls log
      ∧ (write_finish ts ep slices result log cb args).result = result := by
  by_cases hres : result = tsi_result.TSI_OK
  · rw [write_finish_ok ts _ _ _ _ _ _ hres]
    simp [flush_calls, protect_calls]
  · rw [write_finish_failed ts _ _ _ _ _ _ hres]
    simp [flush_calls, protect_calls]

/-- C21. For every copying-framer write whose `protect` calls all returned
`TSI_OK`: `protect_flush` is called at least once, also when the source is
empty; each `protect_flush` call but the last returned `TSI_OK` and reported
bytes pending, and the last one did not (it failed or reported nothing
pending), so that the call is repeated exactly as long as the previous one
returned `TSI_OK` with bytes pending; and when the write succeeds the last
`protect_flush` call returned `TSI_OK` and reported nothing pending.  The write
returns, for every fuel above a bound, when the framer respects the capacities
and makes progress. -/
theorem flush_until_nothing_pending {σ ζ : Type} (F : tsi_frame_protector σ)
    (Z : tsi_zero_copy_grpc_protector ζ) (ts : tsi_result → String)
    (ep : secure_endpoint σ ζ) (slices : grpc_slice_buffer) (cb : Option grpc_closure)
    (args : WriteArgs) (hcopy : ep.zero_copy_protector = none) :
    (∀ fuel r, endpoint_write F Z ts fuel ep slices cb args = some r →
      (∀ e ∈ protect_calls r.log, e.framer_result = some tsi_result.TSI_OK) →
      flush_calls r.log ≠ [] ∧ flush_chain (flush_calls r.log)
        ∧ (r.result = tsi_result.TSI_OK → flush_done (flush_calls r.log)))
      ∧ (well_behaved F → ∀ rank, productive F rank →
          ∃ N r, ∀ fuel, N ≤ fuel → endpoint_write F Z ts fuel ep slices cb args = some r) := by
  refine ⟨?_, fun hF rank hp => endpoint_write_returns F hF rank hp Z ts ep slices cb args
    (fun hne => absurd hcopy hne)⟩
  intro fuel r h hok
  obtain ⟨s, hs, hr⟩ := endpoint_write_copying_run F Z ts fuel ep slices cb args r hcopy h
  obtain ⟨e1, e2, e3⟩ := write_finish_calls ts s.ep slices s.result s.log cb args
  rw [hr] at hok ⊢
  rw [e2] at hok
  rw [e1, e3]
  obtain ⟨c1, c2⟩ := copying_write_flush_chain F fuel _ s slices rfl rfl hs hok
  refine ⟨?_, c1, c2⟩
  intro hnil
  rw [hnil] at c1
  exact c1

theorem flush_until_nothing_pending_witness :
    ∃ r, endpoint_write queue_protector passthrough_zero_copy example_result_to_string 10
        (remnant_endpoint [] 16) [[1, 2, 3]] (some 7) { max_frame_size := 0 } = some r
      ∧ flush_calls r.log = [Event.protect_flush 13 tsi_result.TSI_OK [] 0]
      ∧ flush_chain (flush_calls r.log) :=
  ⟨_, rfl, rfl,
    ((flush_until_nothing_pending queue_protector passthrough_zero_copy
      example_result_to_string (remnant_endpoint [] 16) [[1, 2, 3]] (some 7)
      { max_frame_size := 0 } rfl).1 10 _ rfl (by decide)).2.1⟩

/-! ## The `unprotect` calls of a copying read, slice by slice -/

theorem read_advanced_keep_looping {σ ζ : Type} (s : ReadLoop σ ζ) (p : σ) (out : List Byte)
    (res : tsi_result) (ev : Event) (h : read_entry s) :
    (read_advanced (read_called s p out res ev) out.length).keep_looping
      = decide (out.length = s.end_ - s.cur ∨ 0 < out.length) := by
  obtain ⟨_, h2⟩ := h
  unfold read_advanced
  split
  · rename_i heq
    simp only [read_called] at heq
    have : out.length = s.end_ - s.cur := by omega
    simp [this]
  · rename_i hne
    simp only [read_called] at hne
    have h1 : ¬ out.length = s.end_ - s.cur := by omega
    split
    · rename_i hpos
      simp [h1, hpos]
    · rename_i hpos
      have h2 : ¬ 0 < out.length := hpos
      simp only [h1, h2, or_self, decide_False]

theorem unprotect_chain_last : ∀ (l : List Event) (m : List Byte) (k : Bool),
    unprotect_chain m k l → l ≠ [] →
    ∃ input cap processed,
      l.getLast? = some (Event.unprotect input cap tsi_result.TSI_OK processed [])
        ∧ 0 < cap := by
  intro l
  induction l with
  | nil => intro m k _ h; exact absurd rfl h
  | cons e l ih =>
    intro m k h _
    cases e with
    | unprotect input cap r processed out =>
      obtain ⟨_, _, hr, hrest⟩ := h
      cases l with
      | nil =>
        obtain ⟨_, hk⟩ := hrest
        have hk' : ¬ (out.length = cap ∨ 0 < out.length) := by simpa using hk
        have ho : out = [] := by
          cases out with
          | nil => rfl
          | cons a b => exact absurd (Or.inr (by simp)) hk'
        subst ho
        subst hr
        refine ⟨input, cap, processed, rfl, ?_⟩
        by_contra hc
        exact hk' (Or.inl (by simp; omega))
      | cons e' l' =>
        obtain ⟨i, c, n, h1, h2⟩ := ih _ _ hrest (by simp)
        exact ⟨i, c, n, by rw [List.getLast?_cons_cons]; exact h1, h2⟩
    | _ => exact absurd h (by simp [unprotect_chain])

theorem unprotect_chain_nil_iff (m : List Byte) (l : List Event)
    (h : unprotect_chain m false l) : l = [] ↔ m = [] := by
  cases l with
  | nil => exact ⟨fun _ => h.1, fun _ => rfl⟩
  | cons e l =>
    cases e with
    | unprotect input cap r processed out =>
      obtain ⟨h1, _⟩ := h
      constructor
      · intro hc; cases hc
      · intro hm
        rcases h1 with h1 | h1
        · exact absurd hm h1
        · cases h1
    | _ => exact absurd h (by simp [unprotect_chain])

theorem unprotect_loop_chain {σ ζ : Type} (F : tsi_frame_protector σ) (hF : well_behaved F)
    (fuel : Nat) (base : List Event) (m0 : List Byte) (k0 : Bool)
    (s : ReadLoop σ ζ) (s' : ReadLoop σ ζ)
    (hbase : s.log = base) (hm : read_entry s) (hk : s.keep_looping = k0)
    (hrun : unprotect_loop F fuel s m0 = some s') :
    s'.result = tsi_result.TSI_OK →
      ∃ calls, s'.log = base ++ calls ∧ unprotect_chain m0 k0 calls
        ∧ s'.keep_looping = false ∧ read_entry s' := by
  refine unprotect_loop_rule F
    (fun s m => read_entry s ∧ ∃ pre, s.log = base ++ pre
      ∧ ∀ rest, unprotect_chain m s.keep_looping rest → unprotect_chain m0 k0 (pre ++ rest))
    (fun s' => s'.result = tsi_result.TSI_OK →
      ∃ calls, s'.log = base ++ calls ∧ unprotect_chain m0 k0 calls
        ∧ s'.keep_looping = false ∧ read_entry s')
    ?_ ?_ ?_ fuel s m0 s' ⟨hm, [], by simp [hbase], fun rest hr => by rw [hk] at hr; exact hr⟩
    hrun
  · intro s ⟨he, pre, hl, hc⟩ hkl _
    refine ⟨pre, hl, ?_, hkl, he⟩
    have := hc [] ⟨rfl, hkl⟩
    simpa using this
  · intro s m c _ _ hc hne hok
    exact absurd hok hne
  · intro s m c ⟨he, pre, hl, hcont⟩ hgo hc hok
    subst hc
    obtain ⟨r1, _, _, _⟩ := read_advanced_ready s
      (F.unprotect s.ep.protector m (s.end_ - s.cur)).state
      (F.unprotect s.ep.protector m (s.end_ - s.cur)).out
      (F.unprotect s.ep.protector m (s.end_ - s.cur)).result
      (unprotect_event m (s.end_ - s.cur) (F.unprotect s.ep.protector m (s.end_ - s.cur)))
      (hF.unprotect_out _ _ _) he
    refine ⟨⟨r1.1, Nat.le_of_lt r1.2⟩,
      pre ++ [unprotect_event m (s.end_ - s.cur)
        (F.unprotect s.ep.protector m (s.end_ - s.cur))], ?_, ?_⟩
    · rw [read_advanced_log]
      simp only [read_called]
      rw [hl, List.append_assoc]
    · intro rest hrest
      rw [read_advanced_keep_looping _ _ _ _ _ he] at hrest
      rw [List.append_assoc]
      apply hcont
      exact ⟨hgo, rfl, hok, hrest⟩

theorem unprotect_slices_chains {σ ζ : Type} (F : tsi_frame_protector σ)
    (hF : well_behaved F) (fuel : Nat) (all : List grpc_slice) (s0 s' : ReadLoop σ ζ)
    (hlog : s0.log = []) (hres : s0.result = tsi_result.TSI_OK) (hentry : read_entry s0)
    (hk : s0.keep_looping = false)
    (hrun : unprotect_slices F fuel s0 all = some s') :
    s'.result = tsi_result.TSI_OK → unprotect_chains all s'.log := by
  have key := unprotect_slices_rule F fuel
    (fun (s : ReadLoop σ ζ) rest => (rest ≠ [] → s.result = tsi_result.TSI_OK)
      ∧ (s.result = tsi_result.TSI_OK → read_entry s ∧ s.keep_looping = false
          ∧ ∀ tail, unprotect_chains rest tail → unprotect_chains all (s.log ++ tail)))
    ?_ all s0 s' ⟨fun _ => hres, fun _ => ⟨hentry, hk, fun tail ht => by rw [hlog]; exact ht⟩⟩
    hrun
  · intro hr
    have := (key.2 hr).2.2 [] rfl
    simpa using this
  · intro s encrypted rest s1 ⟨hP1, hP2⟩ h1
    obtain ⟨he, hkl, hcont⟩ := hP2 (hP1 (by simp))
    have hloop := unprotect_loop_chain F hF fuel s.log encrypted false s s1 rfl he hkl h1
    constructor
    · intro hne
      exact ⟨fun hc => absurd rfl hc, fun hok => absurd hok hne⟩
    · intro hok
      obtain ⟨calls, c1, c2, c3, c4⟩ := hloop hok
      refine ⟨fun _ => hok, fun _ => ⟨c4, c3, ?_⟩⟩
      intro tail ht
      rw [c1, List.append_assoc]
      exact hcont _ ⟨calls, tail, rfl, c2, ht⟩
/-- C22. In a copying-framer read without framer error (the wrapped read
reported OK on an endpoint that is not destroyed, and every `unprotect` call
returned `TSI_OK`) the `unprotect` calls are, slice by slice of the source, the
runs of a loop that is entered with the flag `keep_looping` clear, runs again
exactly when bytes of the slice are left or the call before filled the staging
slice or emitted at least one byte, and so stops exactly when the bytes of the
slice are exhausted and the latest call emitted no byte without filling the
staging slice.  So no call is made for a slice exactly when the slice is empty,
and whenever a call is made for a slice the last call for it emitted zero bytes
into a staging slice that had room.  The read returns, for every fuel above a
bound, when the framer makes progress. -/
theorem unprotect_until_drained {σ ζ : Type} (F : tsi_frame_protector σ)
    (hF : well_behaved F) (Z : tsi_zero_copy_grpc_protector ζ) (ts : tsi_result → String)
    (ep : secure_endpoint σ ζ) (d : grpc_slice_buffer)
    (hcopy : ep.zero_copy_protector = none) (halive : ep.wrapped_ep ≠ none)
    (hd : ep.read_buffer = some d) :
    (∀ fuel r, on_read F Z ts fuel ep grpc_error_handle.OkStatus = some r →
      calls_ok r.log →
      ∃ calls, r.log = calls ++ [Event.run ep.read_cb grpc_error_handle.OkStatus]
        ∧ unprotect_chains ep.source_buffer calls)
      ∧ (∀ (m : List Byte) (l : List Event), unprotect_chain m false l →
          (l = [] ↔ m = [])
            ∧ (l ≠ [] → ∃ input cap processed,
                l.getLast? = some (Event.unprotect input cap tsi_result.TSI_OK processed [])
                  ∧ 0 < cap))
      ∧ (∀ rank, productive F rank →
          ∃ N r, ∀ fuel, N ≤ fuel →
            on_read F Z ts fuel ep grpc_error_handle.OkStatus = some r) := by
  refine ⟨?_, fun m l h => ⟨unprotect_chain_nil_iff m l h, unprotect_chain_last l m false h⟩,
    fun rank hp => on_read_returns F hF rank hp Z ts ep _⟩
  intro fuel r h hok
  obtain ⟨s, hs, hr⟩ := on_read_copying_run F Z ts fuel ep r hcopy halive h
  have hend := copying_read_end F hF ep d hd fuel s hs
  have hcb : s.ep.read_cb = ep.read_cb := by
    have := hend.frame
    simp only [read_frame, Prod.mk.injEq] at this
    exact this.2.2.1
  have hres : s.result = tsi_result.TSI_OK := by
    by_contra hres
    obtain ⟨l, m, cap, n, out, hl, _, _⟩ := hend.failed hres
    rw [hr, read_finish_failed ts s hres] at hok
    simp only [call_read_cb, hl] at hok
    exact calls_ok_of_snoc_failed l (Event.unprotect m cap s.result n out) s.result _ rfl
      hres hok
  refine ⟨s.log, ?_, ?_⟩
  · rw [hr, read_finish_ok ts s hres]
    simp only [call_read_cb, hcb]
  · unfold copying_read at hs
    split at hs
    · cases hs
    · rename_i s1 h1
      cases hs
      obtain ⟨_, e2⟩ := read_split_head_staging s1
      rw [e2]
      apply unprotect_slices_chains F hF fuel ep.source_buffer _ s1 rfl rfl
        ⟨rfl, Nat.zero_le _⟩ rfl h1
      unfold read_split_head at hres
      split at hres
      · exact hres
      · exact hres

theorem unprotect_until_drained_witness :
    ∃ r, on_read identity_protector passthrough_zero_copy example_result_to_string 10
        { (remnant_endpoint () 16 : secure_endpoint Unit Unit) with
          read_cb := some 7, read_buffer := some [], source_buffer := [[1, 2], [], [3]],
          ref := 2 }
        grpc_error_handle.OkStatus = some r
      ∧ framer_calls r.log =
          [Event.unprotect [1, 2] 16 tsi_result.TSI_OK 2 [1, 2],
            Event.unprotect [] 14 tsi_result.TSI_OK 0 [],
            Event.unprotect [3] 14 tsi_result.TSI_OK 1 [3],
            Event.unprotect [] 13 tsi_result.TSI_OK 0 []]
      ∧ ∃ calls, r.log = calls ++ [Event.run (some 7) grpc_error_handle.OkStatus]
          ∧ unprotect_chains [[1, 2], [], [3]] calls :=
  ⟨_, rfl, rfl,
    (unprotect_until_drained identity_protector identity_protector_well_behaved
      passthrough_zero_copy example_result_to_string
      { (remnant_endpoint () 16 : secure_endpoint Unit Unit) with
        read_cb := some 7, read_buffer := some [], source_buffer := [[1, 2], [], [3]],
        ref := 2 }
      [] rfl (by decide) rfl).1 10 _ rfl (by decide)⟩

/-! ## Lengths of the staging slices and of the slices appended whole -/

theorem write_advanced_flushed {σ ζ : Type} (s1 : WriteLoop σ ζ) (n : Nat)
    (h : s1.cur + n = s1.end_) :
    (write_advanced s1 n).cur = 0 ∧ (write_advanced s1 n).end_ = STAGING_BUFFER_SIZE
      ∧ (write_advanced s1 n).ep.write_staging_buffer.length = STAGING_BUFFER_SIZE
      ∧ (write_advanced s1 n).ep.output_buffer
          = s1.ep.output_buffer ++ [s1.ep.write_staging_buffer] := by
  unfold write_advanced
  rw [if_pos h]
  simp only [flush_write_staging_buffer, maybe_post_reclaimer, grpc_slice_buffer_add_indexed]
  split <;> simp [secure_endpoint_ref, MakeSlice_length]

theorem write_advanced_kept {σ ζ : Type} (s1 : WriteLoop σ ζ) (n : Nat)
    (h : s1.cur + n ≠ s1.end_) :
    write_advanced s1 n = { s1 with cur := s1.cur + n } := by
  unfold write_advanced
  rw [if_neg h]

theorem write_advanced_emitted {σ ζ : Type} (s1 : WriteLoop σ ζ) (n : Nat) :
    protect_emitted (write_advanced s1 n).log = protect_emitted s1.log := by
  unfold write_advanced
  split
  · simp only [flush_write_staging_buffer, maybe_post_reclaimer]
    split
    · rw [protect_emitted_append]
      simp [protect_emitted, Event.protect_out]
    · simp
  · rfl

theorem write_shape_advanced {σ ζ : Type} (L0 : Nat) (hL : 0 < L0) (s : WriteLoop σ ζ)
    (p : σ) (out : List Byte) (res : tsi_result) (ev : Event)
    (hout : out.length ≤ s.end_ - s.cur) (hev : ev.protect_out = out)
    (h : write_shape L0 s) :
    write_shape L0 (write_advanced (write_called s p out res ev) out.length) := by
  obtain ⟨h1, h2, h3, h4⟩ := h
  have hS : STAGING_BUFFER_SIZE = 8192 := rfl
  have hem : (protect_emitted (write_advanced (write_called s p out res ev) out.length).log).length
      = (protect_emitted s.log).length + out.length := by
    rw [write_advanced_emitted]
    simp only [write_called]
    rw [protect_emitted_append]
    simp [protect_emitted, hev]
  have hlen : (write_at s.ep.write_staging_buffer s.cur out).length
      = s.ep.write_staging_buffer.length := write_at_length _ _ _ (by omega)
  obtain ⟨r1, _, _⟩ := write_advanced_ready s p out res ev hout ⟨h1, Nat.le_of_lt h2⟩
  refine ⟨r1.1, r1.2, ?_, ?_⟩
  · intro hlt
    rw [hem] at hlt ⊢
    obtain ⟨a1, a2, a3⟩ := h3 (by omega)
    have hne : (write_called s p out res ev).cur + out.length
        ≠ (write_called s p out res ev).end_ := by
      simp only [write_called]; omega
    rw [write_advanced_kept _ _ hne]
    simp only [write_called]
    exact ⟨a1, by omega, a3⟩
  · intro hge
    rw [hem] at hge ⊢
    by_cases hfl : (write_called s p out res ev).cur + out.length
        = (write_called s p out res ev).end_
    · obtain ⟨f1, f2, _, f4⟩ := write_advanced_flushed _ _ hfl
      rw [f1, f2, f4]
      simp only [write_called] at hfl ⊢
      rw [List.map_append, List.map_cons, List.map_nil, hlen, ← h1]
      by_cases hlt : (protect_emitted s.log).length < L0
      · obtain ⟨a1, a2, a3⟩ := h3 hlt
        have e1 : (protect_emitted s.log).length + out.length - L0 = 0 := by omega
        rw [e1, a3, a1]
        simp
      · obtain ⟨a1, a2, a3⟩ := h4 (by omega)
        rw [hS] at a1 a2 a3 ⊢
        have e1 : ((protect_emitted s.log).length + out.length - L0) % 8192 = 0 := by
          omega
        have e2 : ((protect_emitted s.log).length + out.length - L0) / 8192
            = ((protect_emitted s.log).length - L0) / 8192 + 1 := by omega
        rw [e1, e2, a3, a1, List.replicate_succ']
        simp
    · rw [write_advanced_kept _ _ hfl]
      simp only [write_called] at hfl ⊢
      by_cases hlt : (protect_emitted s.log).length < L0
      · obtain ⟨a1, a2, a3⟩ := h3 hlt
        exfalso
        omega
      · obtain ⟨a1, a2, a3⟩ := h4 (by omega)
        rw [hS] at a1 a2 a3 ⊢
        have e1 : ((protect_emitted s.log).length + out.length - L0) % 8192
            = s.cur + out.length := by omega
        have e2 : ((protect_emitted s.log).length + out.length - L0) / 8192
            = ((protect_emitted s.log).length - L0) / 8192 := by omega
        rw [e1, e2]
        exact ⟨a1, rfl, a3⟩
theorem protect_loop_shape {σ ζ : Type} (F : tsi_frame_protector σ) (hF : well_behaved F)
    (L0 : Nat) (hL : 0 < L0) (fuel : Nat) (s : WriteLoop σ ζ) (m : List Byte)
    (s' : WriteLoop σ ζ) (hr : s.result = tsi_result.TSI_OK) (h : write_shape L0 s)
    (hrun : protect_loop F fuel s m = some s') :
    s'.result = tsi_result.TSI_OK → write_shape L0 s' := by
  refine protect_loop_rule F
    (fun s _ => s.result = tsi_result.TSI_OK ∧ write_shape L0 s)
    (fun s => s.result = tsi_result.TSI_OK → write_shape L0 s)
    (fun s hP _ => hP.2) ?_ ?_ fuel s m s' ⟨hr, h⟩ hrun
  · intro s m c _ _ hc hne hok
    exact absurd hok hne
  · intro s m c hP _ hc hok
    subst hc
    refine ⟨?_, write_shape_advanced L0 hL s _ _ _ _ (hF.protect_out _ _ _) rfl hP.2⟩
    rw [(write_advanced_calls _ _).2.2]
    exact hok

theorem protect_slices_shape {σ ζ : Type} (F : tsi_frame_protector σ) (hF : well_behaved F)
    (L0 : Nat) (hL : 0 < L0) (fuel : Nat) (slices : List grpc_slice) (s s' : WriteLoop σ ζ)
    (hr : s.result = tsi_result.TSI_OK) (h : write_shape L0 s)
    (hrun : protect_slices F fuel s slices = some s') :
    s'.result = tsi_result.TSI_OK → write_shape L0 s' := by
  have key := protect_slices_rule F fuel
    (fun (s : WriteLoop σ ζ) rest => (rest ≠ [] → s.result = tsi_result.TSI_OK)
      ∧ (s.result = tsi_result.TSI_OK → write_shape L0 s))
    ?_ slices s s' ⟨fun _ => hr, fun _ => h⟩ hrun
  · exact key.2
  · intro s plain rest s1 ⟨hP1, hP2⟩ h1
    have hs := hP1 (by simp)
    have := protect_loop_shape F hF L0 hL fuel s plain s1 hs (hP2 hs) h1
    exact ⟨fun hne => ⟨fun hc => absurd rfl hc, fun hok => absurd hok hne⟩,
      fun hok => ⟨fun _ => hok, fun _ => this hok⟩⟩

theorem protect_flush_loop_shape {σ ζ : Type} (F : tsi_frame_protector σ)
    (hF : well_behaved F) (L0 : Nat) (hL : 0 < L0) (fuel : Nat) (s s' : WriteLoop σ ζ)
    (h : write_shape L0 s) (hrun : protect_flush_loop F fuel s = some s') :
    s'.result = tsi_result.TSI_OK → write_shape L0 s' := by
  refine protect_flush_loop_rule F (fun s => write_shape L0 s)
    (fun s => s.result = tsi_result.TSI_OK → write_shape L0 s)
    ?_ ?_ fuel s s' h hrun
  · intro s c _ hc hne hok
    exact absurd hok hne
  · intro s c hP hc _
    subst hc
    have := write_shape_advanced L0 hL s
      (F.protect_flush s.ep.protector (s.end_ - s.cur)).state
      (F.protect_flush s.ep.protector (s.end_ - s.cur)).out
      (F.protect_flush s.ep.protector (s.end_ - s.cur)).result
      (protect_flush_event (s.end_ - s.cur) (F.protect_flush s.ep.protector (s.end_ - s.cur)))
      (hF.flush_out _ _) rfl hP
    exact ⟨fun _ => this, fun _ _ => this⟩

/-- The staging slice and the slices of `output_buffer` after a copying write
whose framer calls returned `TSI_OK`, for a staging slice of `L0 > 0` bytes at
entry and `E` bytes emitted. -/
theorem copying_write_shape {σ ζ : Type} (F : tsi_frame_protector σ) (hF : well_behaved F)
    (fuel : Nat) (ep : secure_endpoint σ ζ) (slices : grpc_slice_buffer)
    (s : WriteLoop σ ζ) (hL : 0 < ep.write_staging_buffer.length)
    (hrun : copying_write F fuel
      { ep := { ep with output_buffer := [] }, cur := 0,
        end_ := ep.write_staging_buffer.length,
        result := tsi_result.TSI_OK, log := [] } slices = some s)
    (hok : s.result = tsi_result.TSI_OK) :
    ((protect_emitted s.log).length < ep.write_staging_buffer.length →
        s.ep.write_staging_buffer.length
            = ep.write_staging_buffer.length - (protect_emitted s.log).length
          ∧ s.ep.output_buffer.map List.length
            = if (protect_emitted s.log).length = 0 then []
              else [(protect_emitted s.log).length])
      ∧ (ep.write_staging_buffer.length ≤ (protect_emitted s.log).length →
          s.ep.write_staging_buffer.length
              = STAGING_BUFFER_SIZE
                - ((protect_emitted s.log).length - ep.write_staging_buffer.length)
                    % STAGING_BUFFER_SIZE
            ∧ s.ep.output_buffer.map List.length
              = ep.write_staging_buffer.length
                :: List.replicate
                    (((protect_emitted s.log).length - ep.write_staging_buffer.length)
                      / STAGING_BUFFER_SIZE) STAGING_BUFFER_SIZE
                ++ (if ((protect_emitted s.log).length - ep.write_staging_buffer.length)
                      % STAGING_BUFFER_SIZE = 0 then []
                    else [((protect_emitted s.log).length - ep.write_staging_buffer.length)
                      % STAGING_BUFFER_SIZE])) := by
  have h0 : write_shape ep.write_staging_buffer.length
      ({ ep := { ep with output_buffer := [] }, cur := 0,
         end_ := ep.write_staging_buffer.length,
         result := tsi_result.TSI_OK, log := [] } : WriteLoop σ ζ) := by
    refine ⟨rfl, hL, fun _ => ⟨rfl, rfl, rfl⟩, ?_⟩
    intro hge
    simp only [protect_emitted, List.flatMap_nil, List.length_nil] at hge
    omega
  unfold copying_write at hrun
  split at hrun
  · cases hrun
  · rename_i s1 h1
    have hs1 := protect_slices_shape F hF _ hL fuel slices _ s1 rfl h0 h1
    split at hrun
    · rename_i hr1
      split at hrun
      · cases hrun
      · rename_i s2 h2
        cases hrun
        have hr2 : s2.result = tsi_result.TSI_OK := by
          unfold write_split_head at hok
          split at hok
          · exact hok
          · exact hok
        obtain ⟨b1, b2, b3, b4⟩ := protect_flush_loop_shape F hF _ hL fuel s1 s2 (hs1 hr1) h2 hr2
        rw [write_split_head_log, write_split_head_staging]
        have hob : (write_split_head s2).ep.output_buffer.map List.length
            = s2.ep.output_buffer.map List.length ++ (if s2.cur = 0 then [] else [s2.cur]) := by
          unfold write_split_head
          by_cases hc : s2.cur = 0
          · simp [hc]
          · rw [if_pos hc, if_neg hc]
            simp only [grpc_slice_buffer_add, grpc_slice_split_head, List.map_append,
              List.map_cons, List.map_nil, List.length_take]
            rw [← b1, Nat.min_eq_left (Nat.le_of_lt b2)]
        rw [hob, ← b1]
        constructor
        · intro hlt
          obtain ⟨a1, a2, a3⟩ := b3 hlt
          rw [a1, a2, a3]
          simp
        · intro hge
          obtain ⟨a1, a2, a3⟩ := b4 hge
          rw [a1, a3, ← a2]
          simp
    · rename_i hr1
      cases hrun
      exact absurd hok hr1

theorem write_bounded_called {σ ζ : Type} (s : WriteLoop σ ζ) (p : σ) (out : List Byte)
    (res : tsi_result) (ev : Event) (hout : out.length ≤ s.end_ - s.cur)
    (h : write_bounded s) : write_bounded (write_called s p out res ev) := by
  obtain ⟨h1, h2, h3⟩ := h
  exact ⟨(write_called_entry s p out res ev hout).1 h1, h2, h3⟩

theorem write_bounded_advanced {σ ζ : Type} (s : WriteLoop σ ζ) (p : σ) (out : List Byte)
    (res : tsi_result) (ev : Event) (hout : out.length ≤ s.end_ - s.cur)
    (h : write_bounded s) :
    write_bounded (write_advanced (write_called s p out res ev) out.length) := by
  obtain ⟨h1, h2, h3⟩ := h
  obtain ⟨r1, _, _⟩ := write_advanced_ready s p out res ev hout h1
  have hlen : (write_at s.ep.write_staging_buffer s.cur out).length
      = s.ep.write_staging_buffer.length := write_at_length _ _ _ (by have := h1.1; have := h1.2; omega)
  refine ⟨⟨r1.1, Nat.le_of_lt r1.2⟩, ?_, ?_⟩
  · by_cases hfl : (write_called s p out res ev).cur + out.length
        = (write_called s p out res ev).end_
    · rw [(write_advanced_flushed _ _ hfl).2.1]
    · rw [write_advanced_kept _ _ hfl]
      exact h2
  · by_cases hfl : (write_called s p out res ev).cur + out.length
        = (write_called s p out res ev).end_
    · rw [(write_advanced_flushed _ _ hfl).2.2.2]
      intro slice hs
      rcases List.mem_append.mp hs with hs | hs
      · exact h3 slice hs
      · rw [List.mem_singleton] at hs
        rw [hs]
        simp only [write_called]
        rw [hlen, ← h1.1]
        exact h2
    · rw [write_advanced_kept _ _ hfl]
      exact h3

theorem protect_loop_bounded {σ ζ : Type} (F : tsi_frame_protector σ) (hF : well_behaved F)
    (fuel : Nat) (s : WriteLoop σ ζ) (m : List Byte) (s' : WriteLoop σ ζ)
    (h : write_bounded s) (hrun : protect_loop F fuel s m = some s') : write_bounded s' := by
  refine protect_loop_rule F (fun s _ => write_bounded s) (fun s => write_bounded s)
    (fun s hP => hP) ?_ ?_ fuel s m s' h hrun
  · intro s m c hP _ hc _
    subst hc
    exact write_bounded_called s _ _ _ _ (hF.protect_out _ _ _) hP
  · intro s m c hP _ hc _
    subst hc
    exact write_bounded_advanced s _ _ _ _ (hF.protect_out _ _ _) hP

theorem protect_slices_bounded {σ ζ : Type} (F : tsi_frame_protector σ)
    (hF : well_behaved F) (fuel : Nat) (slices : List grpc_slice) (s s' : WriteLoop σ ζ)
    (h : write_bounded s) (hrun : protect_slices F fuel s slices = some s') :
    write_bounded s' := by
  refine protect_slices_rule F fuel (fun s _ => write_bounded s) ?_ slices s s' h hrun
  intro s plain rest s1 hP h1
  have := protect_loop_bounded F hF fuel s plain s1 hP h1
  exact ⟨fun _ => this, fun _ => this⟩

theorem protect_flush_loop_bounded {σ ζ : Type} (F : tsi_frame_protector σ)
    (hF : well_behaved F) (fuel : Nat) (s s' : WriteLoop σ ζ)
    (h : write_bounded s) (hrun : protect_flush_loop F fuel s = some s') :
    write_bounded s' := by
  refine protect_flush_loop_rule F (fun s => write_bounded s) (fun s => write_bounded s)
    ?_ ?_ fuel s s' h hrun
  · intro s c hP hc _
    subst hc
    exact write_bounded_called s _ _ _ _ (hF.flush_out _ _) hP
  · intro s c hP hc _
    subst hc
    have := write_bounded_advanced s
      (F.protect_flush s.ep.protector (s.end_ - s.cur)).state
      (F.protect_flush s.ep.protector (s.end_ - s.cur)).out
      (F.protect_flush s.ep.protector (s.end_ - s.cur)).result
      (protect_flush_event (s.end_ - s.cur) (F.protect_flush s.ep.protector (s.end_ - s.cur)))
      (hF.flush_out _ _) hP
    exact ⟨fun _ => this, fun _ => this⟩

theorem write_split_head_bounded {σ ζ : Type} (s : WriteLoop σ ζ) (h : write_bounded s) :
    (write_split_head s).ep.write_staging_buffer.length ≤ STAGING_BUFFER_SIZE
      ∧ ∀ slice ∈ (write_split_head s).ep.output_buffer,
          slice.length ≤ STAGING_BUFFER_SIZE := by
  obtain ⟨h1, h2, h3⟩ := h
  have hl : s.ep.write_staging_buffer.length ≤ STAGING_BUFFER_SIZE := by
    rw [← h1.1]; exact h2
  constructor
  · rw [write_split_head_staging]
    omega
  · unfold write_split_head
    split
    · intro slice hs
      simp only [grpc_slice_buffer_add, grpc_slice_split_head] at hs
      rcases List.mem_append.mp hs with hs | hs
      · exact h3 slice hs
      · rw [List.mem_singleton] at hs
        rw [hs, List.length_take]
        omega
    · exact h3

theorem copying_write_bounded {σ ζ : Type} (F : tsi_frame_protector σ) (hF : well_behaved F)
    (fuel : Nat) (ep : secure_endpoint σ ζ) (slices : grpc_slice_buffer)
    (s : WriteLoop σ ζ) (hb : ep.write_staging_buffer.length ≤ STAGING_BUFFER_SIZE)
    (hrun : copying_write F fuel
      { ep := { ep with output_buffer := [] }, cur := 0,
        end_ := ep.write_staging_buffer.length,
        result := tsi_result.TSI_OK, log := [] } slices = some s) :
    s.ep.write_staging_buffer.length ≤ STAGING_BUFFER_SIZE
      ∧ ∀ slice ∈ s.ep.output_buffer, slice.length ≤ STAGING_BUFFER_SIZE := by
  have h0 : write_bounded
      ({ ep := { ep with output_buffer := [] }, cur := 0,
         end_ := ep.write_staging_buffer.length,
         result := tsi_result.TSI_OK, log := [] } : WriteLoop σ ζ) :=
    ⟨⟨rfl, Nat.zero_le _⟩, hb, fun slice hs => by cases hs⟩
  unfold copying_write at hrun
  split at hrun
  · cases hrun
  · rename_i s1 h1
    have hs1 := protect_slices_bounded F hF fuel slices _ s1 h0 h1
    split at hrun
    · split at hrun
      · cases hrun
      · rename_i s2 h2
        cases hrun
        exact write_split_head_bounded s2 (protect_flush_loop_bounded F hF fuel s1 s2 hs1 h2)
    · cases hrun
      obtain ⟨b1, b2, b3⟩ := hs1
      exact ⟨by rw [← b1.1]; exact b2, b3⟩

theorem read_bounded_called {σ ζ : Type} (s : ReadLoop σ ζ) (p : σ) (out : List Byte)
    (res : tsi_result) (ev : Event) (hout : out.length ≤ s.end_ - s.cur)
    (h : read_bounded s) : read_bounded (read_called s p out res ev) := by
  obtain ⟨h1, h2⟩ := h
  exact ⟨(read_called_entry s p out res ev hout).1 h1, h2⟩

theorem read_bounded_advanced {σ ζ : Type} (s : ReadLoop σ ζ) (p : σ) (out : List Byte)
    (res : tsi_result) (ev : Event) (hout : out.length ≤ s.end_ - s.cur)
    (h : read_bounded s) :
    read_bounded (read_advanced (read_called s p out res ev) out.length) := by
  obtain ⟨h1, h2⟩ := h
  obtain ⟨r1, _, _⟩ := read_advanced_ready s p out res ev hout h1
  refine ⟨⟨r1.1, Nat.le_of_lt r1.2⟩, ?_⟩
  rcases read_advanced_end (read_called s p out res ev) out.length with e | e
  · rw [e]; exact h2
  · rw [e]

theorem unprotect_loop_bounded {σ ζ : Type} (F : tsi_frame_protector σ)
    (hF : well_behaved F) (fuel : Nat) (s : ReadLoop σ ζ) (m : List Byte) (s' : ReadLoop σ ζ)
    (h : read_bounded s) (hrun : unprotect_loop F fuel s m = some s') : read_bounded s' := by
  refine unprotect_loop_rule F (fun s _ => read_bounded s) (fun s => read_bounded s)
    (fun s hP _ => hP) ?_ ?_ fuel s m s' h hrun
  · intro s m c hP _ hc _
    subst hc
    exact read_bounded_called s _ _ _ _ (hF.unprotect_out _ _ _) hP
  · intro s m c hP _ hc _
    subst hc
    exact read_bounded_advanced s _ _ _ _ (hF.unprotect_out _ _ _) hP

theorem unprotect_slices_bounded {σ ζ : Type} (F : tsi_frame_protector σ)
    (hF : well_behaved F) (fuel : Nat) (slices : List grpc_slice) (s s' : ReadLoop σ ζ)
    (h : read_bounded s) (hrun : unprotect_slices F fuel s slices = some s') :
    read_bounded s' := by
  refine unprotect_slices_rule F fuel (fun s _ => read_bounded s) ?_ slices s s' h hrun
  intro s encrypted rest s1 hP h1
  have := unprotect_loop_bounded F hF fuel s encrypted s1 hP h1
  exact ⟨fun _ => this, fun _ => this⟩

theorem copying_read_bounded {σ ζ : Type} (F : tsi_frame_protector σ) (hF : well_behaved F)
    (fuel : Nat) (s0 s : ReadLoop σ ζ) (h0 : read_bounded s0)
    (hrun : copying_read F fuel s0 = some s) :
    s.ep.read_staging_buffer.length ≤ STAGING_BUFFER_SIZE := by
  unfold copying_read at hrun
  split at hrun
  · cases hrun
  · rename_i s1 h1
    cases hrun
    obtain ⟨b1, b2⟩ := unprotect_slices_bounded F hF fuel _ s0 s1 h0 h1
    rw [(read_split_head_staging s1).1, ← b1.1]
    omega

theorem on_read_staging {σ ζ : Type} (F : tsi_frame_protector σ) (hF : well_behaved F)
    (Z : tsi_zero_copy_grpc_protector ζ) (ts : tsi_result → String) (fuel : Nat)
    (ep : secure_endpoint σ ζ) (error : grpc_error_handle) (d : grpc_slice_buffer)
    (r : ReadDone σ ζ) (hd : ep.read_buffer = some d)
    (h : on_read F Z ts fuel ep error = some r) (hb : staging_bounded ep) :
    staging_bounded r.ep := by
  obtain ⟨hb1, hb2⟩ := hb
  by_cases hok : (read_error ep error).ok = true
  · obtain ⟨e1, e2, halive⟩ := read_error_ok ep _ hok
    cases hz : ep.zero_copy_protector with
    | some z =>
      rw [on_read_zero_copy F Z ts fuel ep z _ hok hz] at h
      cases h
      rw [staging_bounded, read_finish_ep]
      exact ⟨hb1, hb2⟩
    | none =>
      subst e2
      obtain ⟨s, hs, hr⟩ := on_read_copying_run F Z ts fuel ep r hz halive h
      have hend := copying_read_end F hF ep d hd fuel s hs
      have hfr := hend.frame
      simp only [read_frame, Prod.mk.injEq] at hfr
      have hrd := copying_read_bounded F hF fuel _ s ⟨⟨rfl, Nat.zero_le _⟩, hb1⟩ hs
      rw [hr, staging_bounded, read_finish_ep]
      exact ⟨hrd, by rw [hfr.2.2.2.2.2.2.1]; exact hb2⟩
  · have hno : (read_error ep error).ok = false := by simpa using hok
    rw [on_read_error F Z ts fuel ep error hno] at h
    cases h
    rw [staging_bounded, call_read_cb_ep]
    exact ⟨hb1, hb2⟩

theorem endpoint_write_staging {σ ζ : Type} (F : tsi_frame_protector σ) (hF : well_behaved F)
    (Z : tsi_zero_copy_grpc_protector ζ) (ts : tsi_result → String) (fuel : Nat)
    (ep : secure_endpoint σ ζ) (slices : grpc_slice_buffer) (cb : Option grpc_closure)
    (args : WriteArgs) (r : WriteDone σ ζ)
    (h : endpoint_write F Z ts fuel ep slices cb args = some r) (hb : staging_bounded ep) :
    staging_bounded r.ep
      ∧ (ep.zero_copy_protector = none →
          ∀ slice ∈ r.ep.output_buffer, slice.length ≤ STAGING_BUFFER_SIZE) := by
  obtain ⟨hb1, hb2⟩ := hb
  have hfin : ∀ (ep' : secure_endpoint σ ζ) (sl : grpc_slice_buffer) (res : tsi_result)
      (log : List Event),
      (write_finish ts ep' sl res log cb args).ep.read_staging_buffer
          = ep'.read_staging_buffer
        ∧ (write_finish ts ep' sl res log cb args).ep.write_staging_buffer
          = ep'.write_staging_buffer
        ∧ ∀ slice ∈ (write_finish ts ep' sl res log cb args).ep.output_buffer,
            slice ∈ ep'.output_buffer := by
    intro ep' sl res log
    by_cases hres : res = tsi_result.TSI_OK
    · rw [write_finish_ok ts _ _ _ _ _ _ hres]
      exact ⟨rfl, rfl, fun _ hs => hs⟩
    · rw [write_finish_failed ts _ _ _ _ _ _ hres]
      exact ⟨rfl, rfl, fun _ hs => by cases hs⟩
  cases hz : ep.zero_copy_protector with
  | some z =>
    rw [endpoint_write_zero_copy F Z ts fuel ep z slices cb args hz] at h
    cases hw : zero_copy_write Z fuel args
        { ep := { ep with output_buffer := [] }, z := z, slices := slices,
          result := tsi_result.TSI_OK, log := [] } with
    | none => rw [hw] at h; cases h
    | some s =>
      rw [hw] at h
      simp only [Option.map_some', Option.some.injEq] at h
      have hs := zero_copy_write_inv Z _ fuel args z slices s hw
      have hfr := hs.frame
      simp only [zero_copy_frame, Prod.mk.injEq] at hfr
      obtain ⟨g1, g2, _⟩ := hfin s.ep s.slices s.result s.log
      rw [h] at g1 g2
      refine ⟨⟨?_, ?_⟩, fun hc => by cases hc⟩
      · rw [g1, hfr.2.2.2.2.2.2.2.1]; exact hb1
      · rw [g2, hfr.2.2.2.2.2.2.2.2.1]; exact hb2
  | none =>
    obtain ⟨s, hs, hr⟩ := endpoint_write_copying_run F Z ts fuel ep slices cb args r hz h
    have hend := copying_write_end F hF _ rfl fuel slices s hs
    have hfr := hend.frame
    simp only [write_frame, Prod.mk.injEq] at hfr
    obtain ⟨c1, c2⟩ := copying_write_bounded F hF fuel ep slices s hb2 hs
    obtain ⟨g1, g2, g3⟩ := hfin s.ep slices s.result s.log
    rw [← hr] at g1 g2 g3
    refine ⟨⟨?_, ?_⟩, fun _ slice hsl => c2 slice (g3 slice hsl)⟩
    · rw [g1, hfr.2.2.2.2.2.2.2.1]; exact hb1
    · rw [g2]; exact c1

theorem perform_staging {σ ζ : Type} (F : tsi_frame_protector σ) (hF : well_behaved F)
    (Z : tsi_zero_copy_grpc_protector ζ) (ts : tsi_result → String) (fuel : Nat)
    (op : Operation) (s s' : endpoint_state σ ζ) (hs : consistent s)
    (hb : staging_bounded s.ep) (hp : perform F Z ts fuel op s = some s') :
    staging_bounded s'.ep := by
  cases op with
  | read slices cb urgent mps =>
    simp only [perform, vtable_read] at hp
    split at hp
    · rcases endpoint_read_cases F Z ts fuel s.ep slices (some cb) urgent with
        ⟨_, e⟩ | ⟨_, _, e⟩ | ⟨_, _, e⟩
      · rw [e] at hp
        simp only [Option.some.injEq] at hp
        subst hp
        exact hb
      · rw [e] at hp; cases hp
      · generalize hon : on_read F Z ts fuel _ grpc_error_handle.OkStatus = o at e
        cases o with
        | none => rw [e] at hp; cases hp
        | some d =>
          rw [e] at hp
          simp only [Option.some.injEq] at hp
          subst hp
          exact on_read_staging F hF Z ts fuel
            ({ (secure_endpoint_ref { s.ep with read_cb := some cb, read_buffer := some [] })
                with leftover_bytes := [], source_buffer := s.ep.leftover_bytes } :
              secure_endpoint σ ζ)
            grpc_error_handle.OkStatus [] d rfl hon hb
    · cases hp
  | wrapped_read_completes data error =>
    simp only [perform, wrapped_read_done] at hp
    split at hp
    · rename_i hc
      split at hp
      · cases hp
      · rename_i r hr
        simp only [Option.some.injEq] at hp
        subst hp
        have hbuf : s.ep.read_buffer.isSome = true := by rw [hs.read_dst, hc]
        obtain ⟨d, hd⟩ := Option.isSome_iff_exists.mp hbuf
        exact on_read_staging F hF Z ts fuel
          ({ s.ep with source_buffer := data } : secure_endpoint σ ζ) error d r hd hr hb
    · cases hp
  | write slices cb args =>
    simp only [perform] at hp
    split at hp
    · split at hp
      · cases hp
      · rename_i r hr
        simp only [Option.some.injEq] at hp
        subst hp
        exact (endpoint_write_staging F hF Z ts fuel s.ep slices (some cb) args r hr hb).1
    · cases hp
  | wrapped_write_completes error =>
    simp only [perform] at hp
    split at hp
    · simp only [Option.some.injEq] at hp
      subst hp
      simp only [staging_bounded, on_write, secure_endpoint_unref_eq]
      exact hb
    · cases hp
  | reclaimer_sweep =>
    simp only [perform] at hp
    split at hp
    · simp only [Option.some.injEq] at hp
      subst hp
      simp [staging_bounded, reclaimer_callback, secure_endpoint_unref_eq, grpc_empty_slice]
    · cases hp
  | reclaimer_cancel =>
    simp only [perform] at hp
    split at hp
    · simp only [Option.some.injEq] at hp
      subst hp
      simp only [staging_bounded, reclaimer_callback, secure_endpoint_unref_eq,
        Bool.false_eq_true, if_false]
      exact hb
    · cases hp
  | destroy =>
    simp only [perform] at hp
    split at hp
    · simp only [Option.some.injEq] at hp
      subst hp
      show staging_bounded (endpoint_destroy s.ep)
      simp only [staging_bounded, endpoint_destroy, reclaimer_callback,
        secure_endpoint_unref_eq]
      split <;> exact hb
    · cases hp

theorem reachable_staging {σ ζ : Type} (F : tsi_frame_protector σ) (hF : well_behaved F)
    (Z : tsi_zero_copy_grpc_protector ζ) (ts : tsi_result → String)
    (s : endpoint_state σ ζ) (h : reachable F Z ts s) : staging_bounded s.ep := by
  induction h with
  | construction protector zero_copy_protector to_wrap leftover_slices =>
    simp only [staging_bounded, created, grpc_legacy_secure_endpoint_create]
    split <;> simp [grpc_empty_slice, MakeSlice_length]
  | operation s s' fuel op hr hp ih =>
    exact perform_staging F hF Z ts fuel op s s' (reachable_consistent F hF Z ts s hr) ih hp

/-! ## A write of 20,000 bytes -/

theorem always_protects_result {σ ζ : Type} (F : tsi_frame_protector σ)
    (hok : always_protects F) (ep0 : secure_endpoint σ ζ) (slices : grpc_slice_buffer)
    (s : WriteLoop σ ζ) (hs : WriteEnd F ep0 slices s) (hk : writer_log s.log) :
    s.result = tsi_result.TSI_OK := by
  by_contra hres
  obtain ⟨l, ev, hl, _, hev⟩ := hs.failed hres
  have hrep := hs.replayed
  rw [hl] at hrep
  obtain ⟨q, _, hq'⟩ := replay_snoc F _ _ l ev hrep
  rw [hl, writer_log_append] at hk
  have hkev := hk.2 ev (List.mem_singleton.mpr rfl) (by simp [Event.is_framer_call, hev])
  cases ev with
  | protect m cap r n out =>
    obtain ⟨h1, _⟩ := replay_protect_result F q _ m cap r n out hq'
    simp only [Event.framer_result, Option.some.injEq] at hev
    exact hres (by rw [← hev, ← h1]; exact hok.1 q m cap)
  | protect_flush cap r out pending =>
    obtain ⟨h1, _⟩ := replay_protect_flush_result F q _ cap r out pending hq'
    simp only [Event.framer_result, Option.some.injEq] at hev
    exact hres (by rw [← hev, ← h1]; exact hok.2 q cap)
  | _ => simp [Event.is_protect_call] at hkev

theorem shape_length (b : grpc_slice_buffer) (L k S r : Nat)
    (h : b.map List.length = L :: List.replicate k S ++ (if r = 0 then [] else [r])) :
    b.length = 1 + k + (if r = 0 then 0 else 1) := by
  have hl := congrArg List.length h
  rw [List.length_map] at hl
  rw [hl]
  by_cases h0 : r = 0
  · simp [h0]
    omega
  · simp [h0]
    omega

/-- C25. A copying-framer write of 20,000 plaintext bytes that finds a write
staging slice of 8192 bytes, with a framer whose calls return `TSI_OK` and that
has emitted at least as many bytes as it was given once flushed (and that
respects the capacities and makes progress): the write returns with `TSI_OK`,
runs no closure itself and hands `output_buffer` to the wrapped write, whose
completion with OK runs `cb` with OK; `output_buffer` holds at least 20,000
bytes in at least three slices, none longer than 8192 bytes and the first of
8192 bytes: the staging slice was flushed at least three times, counting the
full slices and the final dirty prefix. -/
theorem write_20000_flushes_thrice {σ ζ : Type} (F : tsi_frame_protector σ)
    (hF : well_behaved F) (rank : σ → Nat) (hprod : productive F rank)
    (Z : tsi_zero_copy_grpc_protector ζ) (ts : tsi_result → String)
    (ep : secure_endpoint σ ζ) (slices : grpc_slice_buffer) (cb : Option grpc_closure)
    (args : WriteArgs) (hcopy : ep.zero_copy_protector = none)
    (hstage : ep.write_staging_buffer.length = STAGING_BUFFER_SIZE)
    (hlen : buffer_length slices = 20000)
    (hok : always_protects F) (hexp : expanding F ep.protector) :
    ∃ N r, (∀ fuel, N ≤ fuel → endpoint_write F Z ts fuel ep slices cb args = some r)
      ∧ r.result = tsi_result.TSI_OK ∧ calls_ok r.log ∧ runs r.log = []
      ∧ wrapped_writes r.log = [r.ep.output_buffer]
      ∧ (on_write r.ep grpc_error_handle.OkStatus).2
          = [Event.run cb grpc_error_handle.OkStatus]
      ∧ 20000 ≤ buffer_length r.ep.output_buffer
      ∧ 3 ≤ r.ep.output_buffer.length
      ∧ (∀ slice ∈ r.ep.output_buffer, slice.length ≤ STAGING_BUFFER_SIZE)
      ∧ r.ep.output_buffer.head?.map List.length = some STAGING_BUFFER_SIZE := by
  obtain ⟨N, r, hN⟩ := endpoint_write_returns F hF rank hprod Z ts ep slices cb args
    (fun hne => absurd hcopy hne)
  have h := hN N (Nat.le_refl N)
  obtain ⟨s, hs, hr⟩ := endpoint_write_copying_run F Z ts N ep slices cb args r hcopy h
  have hend := copying_write_end F hF _ rfl N slices s hs
  have hk := copying_write_writer_log F N _ slices s writer_log_nil hs
  have hres := always_protects_result F hok _ slices s hend hk
  obtain ⟨hb, hc, hcons, hfl⟩ := hend.ok hres
  have hE : 20000 ≤ (protect_emitted s.log).length := by
    have := hexp s.log s.ep.protector hk hend.replayed hc hfl
    rw [hcons, ← buffer_length_eq, hlen] at this
    exact this
  have hS : STAGING_BUFFER_SIZE = 8192 := rfl
  obtain ⟨_, hshape⟩ := copying_write_shape F hF N ep slices s (by rw [hstage, hS]; omega)
    hs hres
  obtain ⟨_, hmap⟩ := hshape (by rw [hstage, hS]; omega)
  obtain ⟨_, hbound⟩ := copying_write_bounded F hF N ep slices s (by rw [hstage]) hs
  rw [write_finish_ok ts _ _ _ _ _ _ hres] at hr
  have hob : r.ep.output_buffer = s.ep.output_buffer := by rw [hr]; rfl
  refine ⟨N, r, hN, by rw [hr]; exact hres, ?_, ?_, ?_, ?_, ?_, ?_, ?_, ?_⟩
  · rw [hr]
    simp only []
    rw [calls_ok_append, calls_ok_singleton]
    exact ⟨hc, by simp [Event.framer_result]⟩
  · rw [hr]; simp [runs_append, hend.quiet.1, runs]
  · rw [hr]; simp [wrapped_writes_append, hend.quiet.2, wrapped_writes, secure_endpoint_ref]
  · rw [hr]; simp [on_write, secure_endpoint_ref]
  · rw [hob, buffer_length_eq, hb]; exact hE
  · rw [hob]
    have hl := shape_length _ _ _ _ _ hmap
    rw [hstage] at hl
    generalize (protect_emitted s.log).length = E at hE hl
    rw [hS] at hl
    by_cases h0 : (E - 8192) % 8192 = 0
    · rw [if_pos h0] at hl
      omega
    · rw [if_neg h0] at hl
      omega
  · rw [hob]; exact hbound
  · rw [hob]
    cases hob2 : s.ep.output_buffer with
    | nil => rw [hob2] at hmap; simp at hmap
    | cons a b =>
      rw [hob2] at hmap
      simp only [List.map_cons, List.cons_append, List.cons.injEq] at hmap
      simp [hmap.1, hstage]

theorem queue_protector_always_protects : always_protects queue_protector :=
  ⟨fun _ _ _ => rfl, fun _ _ => rfl⟩

theorem queue_protector_expanding : expanding queue_protector [] := by
  intro l q hk h _ hf
  obtain ⟨h1, h2⟩ := queue_protector_writer l q hk h
  rw [h2 hf, List.append_nil] at h1
  rw [h1, List.length_map]

theorem write_20000_flushes_thrice_witness :
    ∃ N r, (∀ fuel, N ≤ fuel →
        endpoint_write queue_protector passthrough_zero_copy example_result_to_string fuel
          (created ([] : List Byte) (none : Option Unit) 1 []).ep [List.replicate 20000 1]
          (some 7) { max_frame_size := 0 } = some r)
      ∧ r.result = tsi_result.TSI_OK
      ∧ 3 ≤ r.ep.output_buffer.length := by
  have hstage : (created ([] : List Byte) (none : Option Unit) 1 []).ep.write_staging_buffer.length
      = STAGING_BUFFER_SIZE := by
    simp [created, grpc_legacy_secure_endpoint_create, MakeSlice_length]
  have hlen : buffer_length [List.replicate 20000 (1 : Byte)] = 20000 := by
    unfold buffer_length
    rw [List.map_cons, List.map_nil, List.sum_cons, List.sum_nil, List.length_replicate,
      Nat.add_zero]
  obtain ⟨N, r, h1, h2, _, _, _, _, _, h3, _⟩ :=
    write_20000_flushes_thrice queue_protector queue_protector_well_behaved List.length
      queue_protector_productive passthrough_zero_copy example_result_to_string
      (created ([] : List Byte) (none : Option Unit) 1 []).ep [List.replicate 20000 1]
      (some 7) { max_frame_size := 0 } rfl hstage hlen queue_protector_always_protects
      queue_protector_expanding
  exact ⟨N, r, h1, h2, h3⟩

theorem read_advanced_flushed {σ ζ : Type} (s1 : ReadLoop σ ζ) (n : Nat)
    (h : s1.cur + n = s1.end_) :
    (read_advanced s1 n).cur = 0 ∧ (read_advanced s1 n).end_ = STAGING_BUFFER_SIZE
      ∧ (read_advanced s1 n).ep.read_staging_buffer.length = STAGING_BUFFER_SIZE
      ∧ (read_advanced s1 n).ep.read_buffer
          = s1.ep.read_buffer.map (fun b => b ++ [s1.ep.read_staging_buffer]) := by
  unfold read_advanced
  rw [if_pos h]
  simp [flush_read_staging_buffer, update_read_buffer, grpc_slice_buffer_add_indexed,
    MakeSlice_length]

theorem read_advanced_kept {σ ζ : Type} (s1 : ReadLoop σ ζ) (n : Nat)
    (h : s1.cur + n ≠ s1.end_) :
    (read_advanced s1 n).cur = s1.cur + n ∧ (read_advanced s1 n).end_ = s1.end_
      ∧ (read_advanced s1 n).ep = s1.ep := by
  unfold read_advanced
  rw [if_neg h]
  split <;> exact ⟨rfl, rfl, rfl⟩

theorem read_shape_advanced {σ ζ : Type} (L0 : Nat) (hL : 0 < L0) (s : ReadLoop σ ζ)
    (p : σ) (out : List Byte) (res : tsi_result) (ev : Event)
    (hout : out.length ≤ s.end_ - s.cur) (hev : ev.unprotect_out = out)
    (h : read_shape L0 s) :
    read_shape L0 (read_advanced (read_called s p out res ev) out.length) := by
  obtain ⟨h1, h2, h3, h4⟩ := h
  have hS : STAGING_BUFFER_SIZE = 8192 := rfl
  have hem : (unprotect_emitted
      (read_advanced (read_called s p out res ev) out.length).log).length
      = (unprotect_emitted s.log).length + out.length := by
    rw [read_advanced_log]
    simp only [read_called]
    rw [unprotect_emitted_append]
    simp [unprotect_emitted, hev]
  have hlen : (write_at s.ep.read_staging_buffer s.cur out).length
      = s.ep.read_staging_buffer.length := write_at_length _ _ _ (by omega)
  obtain ⟨r1, _, _⟩ := read_advanced_ready s p out res ev hout ⟨h1, Nat.le_of_lt h2⟩
  refine ⟨r1.1, r1.2, ?_, ?_⟩
  · intro hlt
    rw [hem] at hlt ⊢
    obtain ⟨a1, a2, a3⟩ := h3 (by omega)
    have hne : (read_called s p out res ev).cur + out.length
        ≠ (read_called s p out res ev).end_ := by
      simp only [read_called]; omega
    obtain ⟨k1, k2, k3⟩ := read_advanced_kept _ _ hne
    rw [k1, k2, k3]
    simp only [read_called]
    exact ⟨a1, by omega, a3⟩
  · intro hge
    rw [hem] at hge ⊢
    by_cases hfl : (read_called s p out res ev).cur + out.length
        = (read_called s p out res ev).end_
    · obtain ⟨f1, f2, _, f4⟩ := read_advanced_flushed _ _ hfl
      rw [f1, f2, f4]
      have hrb : (read_called s p out res ev).ep.read_buffer = s.ep.read_buffer := rfl
      have hst : (read_called s p out res ev).ep.read_staging_buffer
          = write_at s.ep.read_staging_buffer s.cur out := rfl
      rw [hrb, hst]
      simp only [read_called] at hfl
      by_cases hlt : (unprotect_emitted s.log).length < L0
      · obtain ⟨a1, a2, a3⟩ := h3 hlt
        have e1 : (unprotect_emitted s.log).length + out.length - L0 = 0 := by omega
        rw [e1, a3]
        refine ⟨rfl, by simp, _, rfl, ?_⟩
        simp [hlen, ← h1, a1]
      · obtain ⟨a1, a2, b, a3, a4⟩ := h4 (by omega)
        rw [hS] at a1 a2 a4 ⊢
        have e1 : ((unprotect_emitted s.log).length + out.length - L0) % 8192 = 0 := by
          omega
        have e2 : ((unprotect_emitted s.log).length + out.length - L0) / 8192
            = ((unprotect_emitted s.log).length - L0) / 8192 + 1 := by omega
        rw [e1, e2, a3]
        refine ⟨rfl, rfl, _, rfl, ?_⟩
        rw [List.map_append, a4, List.replicate_succ']
        simp [hlen, ← h1, a1]
    · obtain ⟨k1, k2, k3⟩ := read_advanced_kept _ _ hfl
      rw [k1, k2, k3]
      simp only [read_called] at hfl ⊢
      by_cases hlt : (unprotect_emitted s.log).length < L0
      · obtain ⟨a1, a2, a3⟩ := h3 hlt
        exfalso
        omega
      · obtain ⟨a1, a2, a3⟩ := h4 (by omega)
        rw [hS] at a1 a2 a3 ⊢
        have e1 : ((unprotect_emitted s.log).length + out.length - L0) % 8192
            = s.cur + out.length := by omega
        have e2 : ((unprotect_emitted s.log).length + out.length - L0) / 8192
            = ((unprotect_emitted s.log).length - L0) / 8192 := by omega
        rw [e1, e2]
        exact ⟨a1, rfl, a3⟩

theorem unprotect_loop_shape {σ ζ : Type} (F : tsi_frame_protector σ) (hF : well_behaved F)
    (L0 : Nat) (hL : 0 < L0) (fuel : Nat) (s : ReadLoop σ ζ) (m : List Byte)
    (s' : ReadLoop σ ζ) (hr : s.result = tsi_result.TSI_OK) (h : read_shape L0 s)
    (hrun : unprotect_loop F fuel s m = some s') :
    s'.result = tsi_result.TSI_OK → read_shape L0 s' := by
  refine unprotect_loop_rule F
    (fun s _ => s.result = tsi_result.TSI_OK ∧ read_shape L0 s)
    (fun s => s.result = tsi_result.TSI_OK → read_shape L0 s)
    (fun s hP _ _ => hP.2) ?_ ?_ fuel s m s' ⟨hr, h⟩ hrun
  · intro s m c _ _ hc hne hok
    exact absurd hok hne
  · intro s m c hP _ hc hok
    subst hc
    refine ⟨?_, read_shape_advanced L0 hL s _ _ _ _ (hF.unprotect_out _ _ _) rfl hP.2⟩
    rw [(read_advanced_ready s _ _ _ _ (hF.unprotect_out _ _ _)
      ⟨hP.2.1, Nat.le_of_lt hP.2.2.1⟩).2.2.1]
    exact hok

theorem unprotect_slices_shape {σ ζ : Type} (F : tsi_frame_protector σ)
    (hF : well_behaved F) (L0 : Nat) (hL : 0 < L0) (fuel : Nat) (slices : List grpc_slice)
    (s s' : ReadLoop σ ζ) (hr : s.result = tsi_result.TSI_OK) (h : read_shape L0 s)
    (hrun : unprotect_slices F fuel s slices = some s') :
    s'.result = tsi_result.TSI_OK → read_shape L0 s' := by
  have key := unprotect_slices_rule F fuel
    (fun (s : ReadLoop σ ζ) rest => (rest ≠ [] → s.result = tsi_result.TSI_OK)
      ∧ (s.result = tsi_result.TSI_OK → read_shape L0 s))
    ?_ slices s s' ⟨fun _ => hr, fun _ => h⟩ hrun
  · exact key.2
  · intro s encrypted rest s1 ⟨hP1, hP2⟩ h1
    have hs := hP1 (by simp)
    have := unprotect_loop_shape F hF L0 hL fuel s encrypted s1 hs (hP2 hs) h1
    exact ⟨fun hne => ⟨fun hc => absurd rfl hc, fun hok => absurd hok hne⟩,
      fun hok => ⟨fun _ => hok, fun _ => this hok⟩⟩

/-- The staging slice and the slices of the destination after a copying read
whose framer calls returned `TSI_OK`, for a staging slice of `L0 > 0` bytes and
an empty destination at entry and `E` bytes emitted. -/
theorem copying_read_shape {σ ζ : Type} (F : tsi_frame_protector σ) (hF : well_behaved F)
    (fuel : Nat) (ep : secure_endpoint σ ζ) (s : ReadLoop σ ζ)
    (hL : 0 < ep.read_staging_buffer.length) (hd : ep.read_buffer = some [])
    (hrun : copying_read F fuel
      { ep := ep, cur := 0, end_ := ep.read_staging_buffer.length, keep_looping := false,
        result := tsi_result.TSI_OK, log := [] } = some s)
    (hok : s.result = tsi_result.TSI_OK) :
    ∃ b, s.ep.read_buffer = some b
      ∧ ((unprotect_emitted s.log).length < ep.read_staging_buffer.length →
          s.ep.read_staging_buffer.length
              = ep.read_staging_buffer.length - (unprotect_emitted s.log).length
            ∧ b.map List.length
              = if (unprotect_emitted s.log).length = 0 then []
                else [(unprotect_emitted s.log).length])
      ∧ (ep.read_staging_buffer.length ≤ (unprotect_emitted s.log).length →
          s.ep.read_staging_buffer.length
              = STAGING_BUFFER_SIZE
                - ((unprotect_emitted s.log).length - ep.read_staging_buffer.length)
                    % STAGING_BUFFER_SIZE
            ∧ b.map List.length
              = ep.read_staging_buffer.length
                :: List.replicate
                    (((unprotect_emitted s.log).length - ep.read_staging_buffer.length)
                      / STAGING_BUFFER_SIZE) STAGING_BUFFER_SIZE
                ++ (if ((unprotect_emitted s.log).length - ep.read_staging_buffer.length)
                      % STAGING_BUFFER_SIZE = 0 then []
                    else [((unprotect_emitted s.log).length - ep.read_staging_buffer.length)
                      % STAGING_BUFFER_SIZE])) := by
  have h0 : read_shape ep.read_staging_buffer.length
      ({ ep := ep, cur := 0, end_ := ep.read_staging_buffer.length, keep_looping := false,
         result := tsi_result.TSI_OK, log := [] } : ReadLoop σ ζ) := by
    refine ⟨rfl, hL, fun _ => ⟨rfl, rfl, hd⟩, ?_⟩
    intro hge
    simp only [unprotect_emitted, List.flatMap_nil, List.length_nil] at hge
    omega
  unfold copying_read at hrun
  split at hrun
  · cases hrun
  · rename_i s1 h1
    cases hrun
    have hr1 : s1.result = tsi_result.TSI_OK := by
      unfold read_split_head at hok
      split at hok
      · exact hok
      · exact hok
    obtain ⟨b1, b2, b3, b4⟩ := unprotect_slices_shape F hF _ hL fuel _ _ s1 rfl h0 h1 hr1
    obtain ⟨e1, e2⟩ := read_split_head_staging s1
    rw [e1, e2, ← b1]
    have hob : ∀ b, s1.ep.read_buffer = some b →
        (read_split_head s1).ep.read_buffer
          = some (b ++ (if s1.cur = 0 then [] else [s1.ep.read_staging_buffer.take s1.cur])) := by
      intro b hb
      unfold read_split_head
      by_cases hc : s1.cur = 0
      · simp [hc, hb]
      · rw [if_pos hc, if_neg hc]
        simp [update_read_buffer, grpc_slice_buffer_add, grpc_slice_split_head, hb]
    have htake : (s1.ep.read_staging_buffer.take s1.cur).length = s1.cur := by
      rw [List.length_take, ← b1, Nat.min_eq_left (Nat.le_of_lt b2)]
    by_cases hlt : (unprotect_emitted s1.log).length < ep.read_staging_buffer.length
    · obtain ⟨a1, a2, a3⟩ := b3 hlt
      refine ⟨_, hob _ a3, ?_, fun hge => absurd hlt (by omega)⟩
      intro _
      rw [a1, a2]
      refine ⟨rfl, ?_⟩
      by_cases hc : s1.cur = 0
      · rw [← a2]; simp [hc]
      · rw [← a2]; simp [hc, htake]
    · obtain ⟨a1, a2, b, a3, a4⟩ := b4 (by omega)
      refine ⟨_, hob _ a3, fun hl => absurd hl hlt, ?_⟩
      intro _
      rw [a1, ← a2]
      refine ⟨rfl, ?_⟩
      rw [List.map_append, a4]
      by_cases hc : s1.cur = 0
      · simp [hc]
      · simp [hc, htake]

/-- The write staging slice and the slices of `output_buffer` after a copying
write whose framer calls all returned `TSI_OK`, by the length `L0 > 0` of the
staging slice it found and the number `E` of bytes the framer emitted. -/
theorem endpoint_write_shape {σ ζ : Type} (F : tsi_frame_protector σ) (hF : well_behaved F)
    (Z : tsi_zero_copy_grpc_protector ζ) (ts : tsi_result → String) (fuel : Nat)
    (ep : secure_endpoint σ ζ) (slices : grpc_slice_buffer) (cb : Option grpc_closure)
    (args : WriteArgs) (r : WriteDone σ ζ) (hcopy : ep.zero_copy_protector = none)
    (hL : 0 < ep.write_staging_buffer.length)
    (h : endpoint_write F Z ts fuel ep slices cb args = some r) (hok : calls_ok r.log) :
    ((protect_emitted r.log).length < ep.write_staging_buffer.length →
        r.ep.write_staging_buffer.length
            = ep.write_staging_buffer.length - (protect_emitted r.log).length
          ∧ r.ep.output_buffer.map List.length
            = if (protect_emitted r.log).length = 0 then []
              else [(protect_emitted r.log).length])
      ∧ (ep.write_staging_buffer.length ≤ (protect_emitted r.log).length →
          r.ep.write_staging_buffer.length
              = STAGING_BUFFER_SIZE
                - ((protect_emitted r.log).length - ep.write_staging_buffer.length)
                    % STAGING_BUFFER_SIZE
            ∧ r.ep.output_buffer.map List.length
              = ep.write_staging_buffer.length
                :: List.replicate
                    (((protect_emitted r.log).length - ep.write_staging_buffer.length)
                      / STAGING_BUFFER_SIZE) STAGING_BUFFER_SIZE
                ++ (if ((protect_emitted r.log).length - ep.write_staging_buffer.length)
                      % STAGING_BUFFER_SIZE = 0 then []
                    else [((protect_emitted r.log).length - ep.write_staging_buffer.length)
                      % STAGING_BUFFER_SIZE])) := by
  obtain ⟨s, hs, hr⟩ := endpoint_write_copying_run F Z ts fuel ep slices cb args r hcopy h
  have hend := copying_write_end F hF _ rfl fuel slices s hs
  have hres : s.result = tsi_result.TSI_OK := by
    by_contra hres
    obtain ⟨l, ev, hl, _, hev⟩ := hend.failed hres
    rw [hr, write_finish_failed ts _ _ _ _ _ _ hres] at hok
    simp only [] at hok
    rw [hl] at hok
    exact calls_ok_of_snoc_failed l ev s.result _ hev hres hok
  rw [write_finish_ok ts _ _ _ _ _ _ hres] at hr
  have hem : protect_emitted r.log = protect_emitted s.log := by
    rw [hr]; simp [protect_emitted_append, protect_emitted, Event.protect_out]
  have hst : r.ep.write_staging_buffer = s.ep.write_staging_buffer := by rw [hr]; rfl
  have hob : r.ep.output_buffer = s.ep.output_buffer := by rw [hr]; rfl
  rw [hem, hst, hob]
  exact copying_write_shape F hF fuel ep slices s hL hs hres

/-- The read staging slice and the slices of the destination after a copying
read whose framer calls all returned `TSI_OK`, by the length `L0 > 0` of the
staging slice it found and the number `E` of bytes the framer emitted. -/
theorem on_read_shape {σ ζ : Type} (F : tsi_frame_protector σ) (hF : well_behaved F)
    (Z : tsi_zero_copy_grpc_protector ζ) (ts : tsi_result → String) (fuel : Nat)
    (ep : secure_endpoint σ ζ) (r : ReadDone σ ζ)
    (hcopy : ep.zero_copy_protector = none) (halive : ep.wrapped_ep ≠ none)
    (hd : ep.read_buffer = some []) (hL : 0 < ep.read_staging_buffer.length)
    (h : on_read F Z ts fuel ep grpc_error_handle.OkStatus = some r)
    (hok : calls_ok r.log) :
    ∃ b, r.dst = some b
      ∧ ((unprotect_emitted r.log).length < ep.read_staging_buffer.length →
          r.ep.read_staging_buffer.length
              = ep.read_staging_buffer.length - (unprotect_emitted r.log).length
            ∧ b.map List.length
              = if (unprotect_emitted r.log).length = 0 then []
                else [(unprotect_emitted r.log).length])
      ∧ (ep.read_staging_buffer.length ≤ (unprotect_emitted r.log).length →
          r.ep.read_staging_buffer.length
              = STAGING_BUFFER_SIZE
                - ((unprotect_emitted r.log).length - ep.read_staging_buffer.length)
                    % STAGING_BUFFER_SIZE
            ∧ b.map List.length
              = ep.read_staging_buffer.length
                :: List.replicate
                    (((unprotect_emitted r.log).length - ep.read_staging_buffer.length)
                      / STAGING_BUFFER_SIZE) STAGING_BUFFER_SIZE
                ++ (if ((unprotect_emitted r.log).length - ep.read_staging_buffer.length)
                      % STAGING_BUFFER_SIZE = 0 then []
                    else [((unprotect_emitted r.log).length - ep.read_staging_buffer.length)
                      % STAGING_BUFFER_SIZE])) := by
  obtain ⟨s, hs, hr⟩ := on_read_copying_run F Z ts fuel ep r hcopy halive h
  have hend := copying_read_end F hF ep [] hd fuel s hs
  have hres : s.result = tsi_result.TSI_OK := by
    by_contra hres
    obtain ⟨l, m, cap, n, out, hl, _, _⟩ := hend.failed hres
    rw [hr, read_finish_failed ts s hres] at hok
    simp only [call_read_cb, hl] at hok
    exact calls_ok_of_snoc_failed l (Event.unprotect m cap s.result n out) s.result _ rfl
      hres hok
  rw [read_finish_ok ts s hres] at hr
  have hem : unprotect_emitted r.log = unprotect_emitted s.log := by
    rw [hr]
    simp [call_read_cb, unprotect_emitted_append, unprotect_emitted, Event.unprotect_out]
  have hst : r.ep.read_staging_buffer = s.ep.read_staging_buffer := by
    rw [hr, call_read_cb_ep]
  have hdst : r.dst = s.ep.read_buffer := by rw [hr]; rfl
  rw [hem, hst, hdst]
  exact copying_read_shape F hF fuel ep s hL hd hs hres

theorem short_staging_reachable :
    (perform_all queue_protector passthrough_zero_copy example_result_to_string 10
      [Operation.write [[1, 2, 3]] 5 { max_frame_size := 0 },
        Operation.wrapped_write_completes grpc_error_handle.OkStatus,
        Operation.read [] 6 false 1,
        Operation.wrapped_read_completes [[4, 5]] grpc_error_handle.OkStatus]
      (created ([] : List Byte) (none : Option Unit) 1 [])).map
        (fun s => (s.ep.write_staging_buffer.length, s.ep.read_staging_buffer.length,
          s.ep.zero_copy_protector, s.ep.wrapped_ep, s.ep.protector, s.ep.leftover_bytes))
      = some (STAGING_BUFFER_SIZE - 3, STAGING_BUFFER_SIZE - 2, none, some 1, [], []) := by
  have hS : 0 < STAGING_BUFFER_SIZE := by decide
  have hS' : STAGING_BUFFER_SIZE ≠ 0 := by decide
  have hS0 : ¬ 0 = STAGING_BUFFER_SIZE := by decide
  have h3 : ¬ 3 = STAGING_BUFFER_SIZE := by decide
  have h2 : ¬ 2 = STAGING_BUFFER_SIZE := by decide
  have m3 : min 3 STAGING_BUFFER_SIZE = 3 := by decide
  have m2 : min 2 STAGING_BUFFER_SIZE = 2 := by decide
  have l3 : 3 ≤ STAGING_BUFFER_SIZE := by decide
  have l2 : 2 ≤ STAGING_BUFFER_SIZE := by decide
  have d3 : ∀ a b c : Byte, List.drop STAGING_BUFFER_SIZE [a, b, c] = [] := by
    intro a b c; exact List.drop_of_length_le (by simp only [List.length_cons, List.length_nil]; exact (by decide : 3 ≤ STAGING_BUFFER_SIZE))
  have d2 : ∀ a b : Byte, List.drop STAGING_BUFFER_SIZE [a, b] = [] := by
    intro a b; exact List.drop_of_length_le (by simp only [List.length_cons, List.length_nil]; exact (by decide : 2 ≤ STAGING_BUFFER_SIZE))
  have t3 : ∀ a b c : Byte, List.take STAGING_BUFFER_SIZE [a, b, c] = [a, b, c] := by
    intro a b c; exact List.take_of_length_le (by simp only [List.length_cons, List.length_nil]; exact (by decide : 3 ≤ STAGING_BUFFER_SIZE))
  have t2 : ∀ a b : Byte, List.take STAGING_BUFFER_SIZE [a, b] = [a, b] := by
    intro a b; exact List.take_of_length_le (by simp only [List.length_cons, List.length_nil]; exact (by decide : 2 ≤ STAGING_BUFFER_SIZE))
  simp [perform_all, perform, vtable_read, endpoint_read, wrapped_read_done, on_read,
    copying_read, unprotect_slices, unprotect_loop, read_split_head, read_finish,
    call_read_cb, update_read_buffer, flush_read_staging_buffer, grpc_error_handle.ok,
    created, grpc_legacy_secure_endpoint_create, endpoint_write,
    copying_write, protect_slices, protect_loop, protect_flush_loop, queue_protector,
    MakeSlice_length, flush_write_staging_buffer, maybe_post_reclaimer,
    secure_endpoint_ref, write_split_head, write_finish, on_write,
    secure_endpoint_unref_eq, grpc_slice_split_head, grpc_slice_buffer_add, write_at,
    hS, hS', hS0, h3, h2, m3, m2, l3, l2, d3, d2, t3, t2]

theorem always_protects_write {σ ζ : Type} (F : tsi_frame_protector σ) (hF : well_behaved F)
    (Z : tsi_zero_copy_grpc_protector ζ) (ts : tsi_result → String) (fuel : Nat)
    (ep : secure_endpoint σ ζ) (slices : grpc_slice_buffer) (cb : Option grpc_closure)
    (args : WriteArgs) (r : WriteDone σ ζ) (hcopy : ep.zero_copy_protector = none)
    (hok : always_protects F) (hexp : expanding F ep.protector)
    (h : endpoint_write F Z ts fuel ep slices cb args = some r) :
    calls_ok r.log ∧ buffer_length slices ≤ (protect_emitted r.log).length := by
  obtain ⟨s, hs, hr⟩ := endpoint_write_copying_run F Z ts fuel ep slices cb args r hcopy h
  have hend := copying_write_end F hF _ rfl fuel slices s hs
  have hk := copying_write_writer_log F fuel _ slices s writer_log_nil hs
  have hres := always_protects_result F hok _ slices s hend hk
  obtain ⟨_, hc, hcons, hfl⟩ := hend.ok hres
  rw [write_finish_ok ts _ _ _ _ _ _ hres] at hr
  constructor
  · rw [hr]
    simp only []
    rw [calls_ok_append, calls_ok_singleton]
    exact ⟨hc, by simp [Event.framer_result]⟩
  · have hem : protect_emitted r.log = protect_emitted s.log := by
      rw [hr]; simp [protect_emitted_append, protect_emitted, Event.protect_out]
    have := hexp s.log s.ep.protector hk hend.replayed hc hfl
    rw [hcons, ← buffer_length_eq] at this
    rw [hem]
    exact this

theorem queue_protector_read {ζ : Type} (Z : tsi_zero_copy_grpc_protector ζ)
    (ts : tsi_result → String) (fuel : Nat) (ep : secure_endpoint (List Byte) ζ)
    (d : grpc_slice_buffer) (r : ReadDone (List Byte) ζ)
    (hcopy : ep.zero_copy_protector = none) (halive : ep.wrapped_ep ≠ none)
    (hd : ep.read_buffer = some d) (hp : ep.protector = [])
    (h : on_read queue_protector Z ts fuel ep grpc_error_handle.OkStatus = some r) :
    calls_ok r.log ∧ (unprotect_emitted r.log).length = buffer_length ep.source_buffer := by
  obtain ⟨s, hs, hr⟩ := on_read_copying_run queue_protector Z ts fuel ep r hcopy halive h
  have hend := copying_read_end queue_protector queue_protector_well_behaved ep d hd fuel s hs
  have hk := copying_read_reader_log queue_protector fuel _ s reader_log_nil hs
  have hres : s.result = tsi_result.TSI_OK := by
    by_contra hres
    obtain ⟨l, m, cap, n, out, hl, _, _⟩ := hend.failed hres
    have hrep := hend.replayed
    rw [hl] at hrep
    obtain ⟨q, _, hq'⟩ := replay_snoc queue_protector _ _ l _ hrep
    obtain ⟨h1, _⟩ := replay_unprotect_result queue_protector q _ m cap s.result n out hq'
    exact hres h1.symm
  obtain ⟨d', _, hd2⟩ := hend.dst
  obtain ⟨_, hc, hcons, hdr⟩ := hd2 hres
  have hrep := hend.replayed
  rw [hp] at hrep
  obtain ⟨q1, q2⟩ := queue_protector_reader s.log s.ep.protector hk hrep
  rw [q2 hdr, List.append_nil] at q1
  rw [read_finish_ok ts s hres] at hr
  constructor
  · rw [hr]
    simp only [call_read_cb]
    rw [calls_ok_append, calls_ok_singleton]
    exact ⟨hc, by simp [Event.framer_result]⟩
  · have hem : unprotect_emitted r.log = unprotect_emitted s.log := by
      rw [hr]
      simp [call_read_cb, unprotect_emitted_append, unprotect_emitted, Event.unprotect_out]
    rw [hem, q1, List.length_map, hcons, ← buffer_length_eq]

theorem head_of_shape (b : grpc_slice_buffer) (L : Nat) (tail : List Nat)
    (h : b.map List.length = L :: tail) : b.head?.map List.length = some L := by
  cases b with
  | nil => simp at h
  | cons a rest =>
    simp only [List.map_cons, List.cons.injEq] at h
    simp [h.1]

/-- A state of a copying endpoint, reached by a write of three bytes and a read of
two, whose staging slices are shorter than 8192 bytes; the next write and the
next read that fill them append them whole, with 8189 and 8190 bytes. -/
theorem short_staging_slices_appended :
    ∃ s, reachable queue_protector passthrough_zero_copy example_result_to_string s
      ∧ s.ep.zero_copy_protector = none
      ∧ s.ep.write_staging_buffer.length = 8189 ∧ s.ep.read_staging_buffer.length = 8190
      ∧ (∃ N r, (∀ fuel, N ≤ fuel →
            endpoint_write queue_protector passthrough_zero_copy example_result_to_string fuel
              s.ep [List.replicate 9000 1] (some 5) { max_frame_size := 0 } = some r)
          ∧ r.ep.output_buffer.head?.map List.length = some 8189)
      ∧ (∃ N r, (∀ fuel, N ≤ fuel →
            wrapped_read_done queue_protector passthrough_zero_copy example_result_to_string
              fuel (secure_endpoint_ref
                { s.ep with read_cb := some 6, read_buffer := some [] })
              [List.replicate 9000 1] grpc_error_handle.OkStatus = some r)
          ∧ ∃ b, r.dst = some b ∧ b.head?.map List.length = some 8190) := by
  have h := short_staging_reachable
  have hlen : buffer_length [List.replicate 9000 (1 : Byte)] = 9000 := by
    unfold buffer_length
    rw [List.map_cons, List.map_nil, List.sum_cons, List.sum_nil, List.length_replicate,
      Nat.add_zero]
  cases hp : perform_all queue_protector passthrough_zero_copy example_result_to_string 10
      [Operation.write [[1, 2, 3]] 5 { max_frame_size := 0 },
        Operation.wrapped_write_completes grpc_error_handle.OkStatus,
        Operation.read [] 6 false 1,
        Operation.wrapped_read_completes [[4, 5]] grpc_error_handle.OkStatus]
      (created ([] : List Byte) (none : Option Unit) 1 []) with
  | none => rw [hp] at h; cases h
  | some s =>
    rw [hp] at h
    simp only [Option.map_some', Option.some.injEq, Prod.mk.injEq] at h
    obtain ⟨h1, h2, h3, h4, h5, h6⟩ := h
    have hw : s.ep.write_staging_buffer.length = 8189 := h1
    have hrd : s.ep.read_staging_buffer.length = 8190 := h2
    have halive : s.ep.wrapped_ep ≠ none := by rw [h4]; simp
    refine ⟨s, reachable_perform_all queue_protector passthrough_zero_copy
      example_result_to_string 10 _ _ s (reachable.construction [] none 1 []) hp,
      h3, hw, hrd, ?_, ?_⟩
    · obtain ⟨N, r, hN⟩ := endpoint_write_returns queue_protector queue_protector_well_behaved
        List.length queue_protector_productive passthrough_zero_copy example_result_to_string
        s.ep [List.replicate 9000 1] (some 5) { max_frame_size := 0 }
        (fun hne => absurd h3 hne)
      refine ⟨N, r, hN, ?_⟩
      have hrun := hN N (Nat.le_refl N)
      obtain ⟨c1, c2⟩ := always_protects_write queue_protector queue_protector_well_behaved
        passthrough_zero_copy example_result_to_string N s.ep _ _ _ r h3
        queue_protector_always_protects (by rw [h5]; exact queue_protector_expanding) hrun
      rw [hlen] at c2
      obtain ⟨_, hsh⟩ := endpoint_write_shape queue_protector queue_protector_well_behaved
        passthrough_zero_copy example_result_to_string N s.ep _ _ _ r h3
        (by rw [hw]; omega) hrun c1
      obtain ⟨_, hmap⟩ := hsh (by rw [hw]; omega)
      rw [hw] at hmap
      rw [List.cons_append] at hmap
      exact head_of_shape _ _ _ hmap
    · obtain ⟨N, r, hN⟩ := on_read_returns queue_protector queue_protector_well_behaved
        List.length queue_protector_productive passthrough_zero_copy example_result_to_string
        ({ (secure_endpoint_ref { s.ep with read_cb := some 6, read_buffer := some [] })
            with source_buffer := [List.replicate 9000 1] } :
          secure_endpoint (List Byte) Unit)
        grpc_error_handle.OkStatus
      refine ⟨N, r, hN, ?_⟩
      have hrun := hN N (Nat.le_refl N)
      obtain ⟨c1, c2⟩ := queue_protector_read passthrough_zero_copy example_result_to_string
        N _ [] r (by simp only [secure_endpoint_ref]; exact h3)
        (by simp only [secure_endpoint_ref]; exact halive) rfl
        (by simp only [secure_endpoint_ref]; exact h5) hrun
      have c2' : (unprotect_emitted r.log).length = 9000 := by rw [c2]; exact hlen
      obtain ⟨b, hb, _, hsh⟩ := on_read_shape queue_protector queue_protector_well_behaved
        passthrough_zero_copy example_result_to_string N _ r
        (by simp only [secure_endpoint_ref]; exact h3)
        (by simp only [secure_endpoint_ref]; exact halive) rfl
        (by simp only [secure_endpoint_ref]; rw [hrd]; omega) hrun c1
      have hrd' : ({ (secure_endpoint_ref { s.ep with read_cb := some 6, read_buffer := some [] })
            with source_buffer := [List.replicate 9000 1] } :
          secure_endpoint (List Byte) Unit).read_staging_buffer.length = 8190 := hrd
      obtain ⟨_, hmap⟩ := hsh (by rw [hrd', c2']; omega)
      rw [hrd', List.cons_append] at hmap
      exact ⟨b, hb, head_of_shape _ _ _ hmap⟩

/-- C26. For a framer that respects the capacities it is given: in every
reachable state each staging slice has at most 8192 bytes.  A copying endpoint
is constructed with staging slices of 8192 bytes.  A copying write (read) whose
framer calls returned `TSI_OK`, that found a staging slice of `L0 > 0` bytes
and emitted `E` bytes: if `E < L0` it leaves the staging slice `E` bytes
shorter, the tail left by the split, and appends only the dirty prefix of `E`
bytes, if any, to the output (destination) buffer; a fresh slice of 8192 bytes
is reserved only when the slice fills, so if `L0 ≤ E` the slice found was
appended whole with its `L0` bytes, followed by the fresh slices that were
filled and by the dirty prefix of the last one, of which the tail stays.  So a
staging slice appended whole can be shorter than 8192 bytes: there is a
reachable state from which a write appends one of 8189 bytes and a read one of
8190 bytes. -/
theorem staging_slice_lengths {σ ζ : Type} (F : tsi_frame_protector σ) (hF : well_behaved F)
    (Z : tsi_zero_copy_grpc_protector ζ) (ts : tsi_result → String) :
    (∀ s, reachable F Z ts s →
        s.ep.read_staging_buffer.length ≤ 8192 ∧ s.ep.write_staging_buffer.length ≤ 8192)
      ∧ (∀ (p : σ) w l,
          (created p (none : Option ζ) w l).ep.read_staging_buffer.length = 8192
            ∧ (created p (none : Option ζ) w l).ep.write_staging_buffer.length = 8192)
      ∧ (∀ fuel (ep : secure_endpoint σ ζ) slices cb args r,
          ep.zero_copy_protector = none → 0 < ep.write_staging_buffer.length →
          endpoint_write F Z ts fuel ep slices cb args = some r → calls_ok r.log →
          ((protect_emitted r.log).length < ep.write_staging_buffer.length →
              r.ep.write_staging_buffer.length
                  = ep.write_staging_buffer.length - (protect_emitted r.log).length
                ∧ r.ep.output_buffer.map List.length
                  = if (protect_emitted r.log).length = 0 then []
                    else [(protect_emitted r.log).length])
            ∧ (ep.write_staging_buffer.length ≤ (protect_emitted r.log).length →
                r.ep.write_staging_buffer.length
                    = 8192
                      - ((protect_emitted r.log).length - ep.write_staging_buffer.length)
                          % 8192
                  ∧ r.ep.output_buffer.map List.length
                    = ep.write_staging_buffer.length
                      :: List.replicate
                          (((protect_emitted r.log).length - ep.write_staging_buffer.length)
                            / 8192) 8192
                      ++ (if ((protect_emitted r.log).length
                              - ep.write_staging_buffer.length) % 8192 = 0 then []
                          else [((protect_emitted r.log).length
                              - ep.write_staging_buffer.length) % 8192])))
      ∧ (∀ fuel (ep : secure_endpoint σ ζ) r,
          ep.zero_copy_protector = none → ep.wrapped_ep ≠ none →
          ep.read_buffer = some [] → 0 < ep.read_staging_buffer.length →
          on_read F Z ts fuel ep grpc_error_handle.OkStatus = some r → calls_ok r.log →
          ∃ b, r.dst = some b
            ∧ ((unprotect_emitted r.log).length < ep.read_staging_buffer.length →
                r.ep.read_staging_buffer.length
                    = ep.read_staging_buffer.length - (unprotect_emitted r.log).length
                  ∧ b.map List.length
                    = if (unprotect_emitted r.log).length = 0 then []
                      else [(unprotect_emitted r.log).length])
            ∧ (ep.read_staging_buffer.length ≤ (unprotect_emitted r.log).length →
                r.ep.read_staging_buffer.length
                    = 8192
                      - ((unprotect_emitted r.log).length - ep.read_staging_buffer.length)
                          % 8192
                  ∧ b.map List.length
                    = ep.read_staging_buffer.length
                      :: List.replicate
                          (((unprotect_emitted r.log).length
                              - ep.read_staging_buffer.length) / 8192) 8192
                      ++ (if ((unprotect_emitted r.log).length
                              - ep.read_staging_buffer.length) % 8192 = 0 then []
                          else [((unprotect_emitted r.log).length
                              - ep.read_staging_buffer.length) % 8192])))
      ∧ (∃ s, reachable queue_protector passthrough_zero_copy example_result_to_string s
          ∧ s.ep.zero_copy_protector = none
          ∧ s.ep.write_staging_buffer.length = 8189
          ∧ s.ep.read_staging_buffer.length = 8190
          ∧ (∃ N r, (∀ fuel, N ≤ fuel →
                endpoint_write queue_protector passthrough_zero_copy
                  example_result_to_string fuel
                  s.ep [List.replicate 9000 1] (some 5) { max_frame_size := 0 } = some r)
              ∧ r.ep.output_buffer.head?.map List.length = some 8189)
          ∧ (∃ N r, (∀ fuel, N ≤ fuel →
                wrapped_read_done queue_protector passthrough_zero_copy
                  example_result_to_string fuel
                  (secure_endpoint_ref
                    { s.ep with read_cb := some 6, read_buffer := some [] })
                  [List.replicate 9000 1] grpc_error_handle.OkStatus = some r)
              ∧ ∃ b, r.dst = some b ∧ b.head?.map List.length = some 8190)) := by
  refine ⟨?_, ?_, ?_, ?_, short_staging_slices_appended⟩
  · intro s hs
    exact reachable_staging F hF Z ts s hs
  · intro p w l
    simp [created, grpc_legacy_secure_endpoint_create, MakeSlice_length, STAGING_BUFFER_SIZE]
  · intro fuel ep slices cb args r hcopy hL h hok
    exact endpoint_write_shape F hF Z ts fuel ep slices cb args r hcopy hL h hok
  · intro fuel ep r hcopy halive hd hL h hok
    exact on_read_shape F hF Z ts fuel ep r hcopy halive hd hL h hok

theorem staging_slice_lengths_witness :
    well_behaved identity_protector
      ∧ (created () (none : Option Unit) 1 [[1]]).ep.write_staging_buffer.length ≤ 8192
      ∧ (created () (none : Option Unit) 1 [[1]]).ep.read_staging_buffer.length = 8192 :=
  ⟨identity_protector_well_behaved,
    ((staging_slice_lengths identity_protector identity_protector_well_behaved
      passthrough_zero_copy example_result_to_string).1 _
      (reachable.construction () none 1 [[1]])).2,
    ((staging_slice_lengths identity_protector identity_protector_well_behaved
      passthrough_zero_copy example_result_to_string).2.1 () 1 [[1]]).1⟩

/-! ## Frames of a zero-copy write -/

theorem inputs_consumed_append (l₁ l₂ : List Event) :
    inputs_consumed (l₁ ++ l₂) ↔ inputs_consumed l₁ ∧ inputs_consumed l₂ := by
  unfold inputs_consumed
  constructor
  · intro h
    exact ⟨fun e he => h e (List.mem_append.mpr (Or.inl he)),
      fun e he => h e (List.mem_append.mpr (Or.inr he))⟩
  · rintro ⟨h1, h2⟩ e he
    rcases List.mem_append.mp he with h | h
    · exact h1 e h
    · exact h2 e h

/-- One run of the loop `while (slices->length > max_frame_size && result ==
TSI_OK)`, read off its calls: when every call of the run returned `TSI_OK` and
left no byte in `protector_staging_buffer`, each call was given `M` bytes, the
loop ends with `TSI_OK` and at most `M` bytes left in the source, and the
inputs followed by what is left are the bytes of the source. -/
theorem zero_copy_chunk_loop_calls {σ ζ : Type} (Z : tsi_zero_copy_grpc_protector ζ)
    (M : Nat) (hM : 0 < M) (fuel : Nat) :
    ∀ (s s' : ZeroCopyLoop σ ζ), zero_copy_chunk_loop Z M fuel s = some s' →
    ∃ calls, s'.log = s.log ++ calls
      ∧ (s.result = tsi_result.TSI_OK → buffer_bytes s.ep.protector_staging_buffer = [] →
          calls_ok calls → inputs_consumed calls →
          s'.result = tsi_result.TSI_OK
          ∧ (zero_copy_inputs calls).map buffer_length
              ++ (if buffer_length s'.slices > 0 then [buffer_length s'.slices] else [])
            = chunk_sizes M (buffer_length s.slices + 1) (buffer_length s.slices)
          ∧ (zero_copy_inputs calls).flatMap buffer_bytes ++ buffer_bytes s'.slices
            = buffer_bytes s.slices) := by
  induction fuel with
  | zero => intro s s' h; simp [zero_copy_chunk_loop] at h
  | succ fuel ih =>
    intro s s' h
    simp only [zero_copy_chunk_loop] at h
    split at h
    · rename_i hc
      obtain ⟨mb1, mb2⟩ := move_first_bytes s.slices M
      have hlen1 : buffer_length (move_first s.slices M).1 = buffer_length s.slices - M := by
        rw [buffer_length_eq, mb2, List.length_drop, buffer_length_eq]
      have hlen2 : buffer_length (move_first s.slices M).2 = M := by
        have hc1 := hc.1
        rw [buffer_length_eq] at hc1
        rw [buffer_length_eq, mb1, List.length_take]
        omega
      obtain ⟨calls, h3, h4⟩ := ih _ _ h
      simp only [zero_copy_protect_call, grpc_slice_buffer_move_first, if_true] at h3 h4
      refine ⟨Event.zero_copy_protect
        (s.ep.protector_staging_buffer ++ (move_first s.slices M).2)
        (Z.protect s.z (s.ep.protector_staging_buffer ++ (move_first s.slices M).2)
          s.ep.output_buffer).result
        (Z.protect s.z (s.ep.protector_staging_buffer ++ (move_first s.slices M).2)
          s.ep.output_buffer).unprotected_slices :: calls, ?_, ?_⟩
      · rw [h3, List.append_assoc]; rfl
      · intro hr hst hok hin
        have hok1 : (Z.protect s.z (s.ep.protector_staging_buffer ++ (move_first s.slices M).2)
            s.ep.output_buffer).result = tsi_result.TSI_OK := by
          have := hok _ (List.mem_cons_self _ _)
          exact (call_ok_iff _).mp this _ rfl
        have hin1 : buffer_bytes (Z.protect s.z
            (s.ep.protector_staging_buffer ++ (move_first s.slices M).2)
            s.ep.output_buffer).unprotected_slices = [] := by
          have := hin _ (List.mem_cons_self _ _)
          simpa [Event.input_consumed] using this
        obtain ⟨g1, g2, g3⟩ := h4 hok1 hin1
          (fun e he => hok e (List.mem_cons_of_mem _ he))
          (fun e he => hin e (List.mem_cons_of_mem _ he))
        refine ⟨g1, ?_, ?_⟩
        · simp only [zero_copy_inputs, List.map_cons, List.cons_append, chunk_sizes, hc.1,
            if_true]
          rw [g2, hlen1, buffer_length_append, hlen2, buffer_length_eq, hst,
            chunk_sizes_fuel M hM (buffer_length s.slices - M + 1) (buffer_length s.slices)
              (buffer_length s.slices - M) (by omega) (by have := hc.1; omega)]
          simp
        · simp only [zero_copy_inputs, List.flatMap_cons, List.append_assoc]
          rw [g3, buffer_bytes_append, hst, mb1, mb2]
          simp
    · rename_i hc
      cases h
      refine ⟨[], by simp, ?_⟩
      intro hr _ _ _
      have hle : buffer_length s.slices ≤ M := by
        by_contra hgt
        exact hc ⟨by omega, hr⟩
      refine ⟨hr, ?_, by simp [zero_copy_inputs]⟩
      simp only [zero_copy_inputs, List.map_nil, List.nil_append, chunk_sizes]
      have : ¬ buffer_length s.slices > M := by omega
      simp [this]

/-! ## `protector_staging_buffer` between operations -/

theorem write_advanced_protector_staging {σ ζ : Type} (s1 : WriteLoop σ ζ) (n : Nat) :
    (write_advanced s1 n).ep.protector_staging_buffer = s1.ep.protector_staging_buffer := by
  unfold write_advanced
  split
  · simp only [flush_write_staging_buffer, maybe_post_reclaimer]
    split <;> simp [secure_endpoint_ref]
  · rfl

theorem read_advanced_protector_staging {σ ζ : Type} (s1 : ReadLoop σ ζ) (n : Nat) :
    (read_advanced s1 n).ep.protector_staging_buffer = s1.ep.protector_staging_buffer := by
  unfold read_advanced
  split
  · simp [flush_read_staging_buffer, update_read_buffer]
  · split <;> rfl

/-- The copying write never assigns `protector_staging_buffer`. -/
theorem copying_write_protector_staging {σ ζ : Type} (F : tsi_frame_protector σ)
    (fuel : Nat) (s : WriteLoop σ ζ) (slices : grpc_slice_buffer) (s' : WriteLoop σ ζ)
    (hrun : copying_write F fuel s slices = some s') :
    s'.ep.protector_staging_buffer = s.ep.protector_staging_buffer := by
  have hloop : ∀ (s : WriteLoop σ ζ) (m : List Byte) (s' : WriteLoop σ ζ),
      protect_loop F fuel s m = some s' →
      s'.ep.protector_staging_buffer = s.ep.protector_staging_buffer := by
    intro s m s' h
    refine protect_loop_rule F
      (fun t _ => t.ep.protector_staging_buffer = s.ep.protector_staging_buffer)
      (fun t => t.ep.protector_staging_buffer = s.ep.protector_staging_buffer)
      (fun t hP => hP) ?_ ?_ fuel s m s' rfl h
    · intro t m c hP _ _ _
      exact hP
    · intro t m c hP _ _ _
      rw [write_advanced_protector_staging]
      exact hP
  have hslices : ∀ (slices : List grpc_slice) (s s' : WriteLoop σ ζ),
      protect_slices F fuel s slices = some s' →
      s'.ep.protector_staging_buffer = s.ep.protector_staging_buffer := by
    intro slices s s' h
    refine protect_slices_rule F fuel
      (fun t _ => t.ep.protector_staging_buffer = s.ep.protector_staging_buffer)
      ?_ slices s s' rfl h
    intro t plain rest t1 hP h1
    have := (hloop t plain t1 h1).trans hP
    exact ⟨fun _ => this, fun _ => this⟩
  have hflush : ∀ (s s' : WriteLoop σ ζ), protect_flush_loop F fuel s = some s' →
      s'.ep.protector_staging_buffer = s.ep.protector_staging_buffer := by
    intro s s' h
    refine protect_flush_loop_rule F
      (fun t => t.ep.protector_staging_buffer = s.ep.protector_staging_buffer)
      (fun t => t.ep.protector_staging_buffer = s.ep.protector_staging_buffer)
      ?_ ?_ fuel s s' rfl h
    · intro t c hP _ _
      exact hP
    · intro t c hP _ _
      have : (write_advanced
          (write_called t c.state c.out c.result (protect_flush_event (t.end_ - t.cur) c))
          c.out.length).ep.protector_staging_buffer = s.ep.protector_staging_buffer := by
        rw [write_advanced_protector_staging]
        exact hP
      exact ⟨fun _ => this, fun _ => this⟩
  unfold copying_write at hrun
  split at hrun
  · cases hrun
  · rename_i s1 h1
    have e1 := hslices slices s s1 h1
    split at hrun
    · split at hrun
      · cases hrun
      · rename_i s2 h2
        cases hrun
        have e2 := hflush s1 s2 h2
        have e3 : (write_split_head s2).ep.protector_staging_buffer
            = s2.ep.protector_staging_buffer := by
          unfold write_split_head
          split <;> rfl
        rw [e3, e2, e1]
    · cases hrun
      exact e1

/-- The copying read never assigns `protector_staging_buffer`. -/
theorem copying_read_protector_staging {σ ζ : Type} (F : tsi_frame_protector σ)
    (fuel : Nat) (s s' : ReadLoop σ ζ) (hrun : copying_read F fuel s = some s') :
    s'.ep.protector_staging_buffer = s.ep.protector_staging_buffer := by
  have hloop : ∀ (s : ReadLoop σ ζ) (m : List Byte) (s' : ReadLoop σ ζ),
      unprotect_loop F fuel s m = some s' →
      s'.ep.protector_staging_buffer = s.ep.protector_staging_buffer := by
    intro s m s' h
    refine unprotect_loop_rule F
      (fun t _ => t.ep.protector_staging_buffer = s.ep.protector_staging_buffer)
      (fun t => t.ep.protector_staging_buffer = s.ep.protector_staging_buffer)
      (fun t hP _ => hP) ?_ ?_ fuel s m s' rfl h
    · intro t m c hP _ _ _
      exact hP
    · intro t m c hP _ _ _
      rw [read_advanced_protector_staging]
      exact hP
  have hslices : ∀ (slices : List grpc_slice) (s s' : ReadLoop σ ζ),
      unprotect_slices F fuel s slices = some s' →
      s'.ep.protector_staging_buffer = s.ep.protector_staging_buffer := by
    intro slices s s' h
    refine unprotect_slices_rule F fuel
      (fun t _ => t.ep.protector_staging_buffer = s.ep.protector_staging_buffer)
      ?_ slices s s' rfl h
    intro t encrypted rest t1 hP h1
    have := (hloop t encrypted t1 h1).trans hP
    exact ⟨fun _ => this, fun _ => this⟩
  unfold copying_read at hrun
  split at hrun
  · cases hrun
  · rename_i s1 h1
    cases hrun
    have e1 := hslices _ s s1 h1
    have e3 : (read_split_head s1).ep.protector_staging_buffer
        = s1.ep.protector_staging_buffer := by
      unfold read_split_head
      split
      · simp [update_read_buffer]
      · rfl
    rw [e3, e1]

/-- `on_read` never assigns `protector_staging_buffer`. -/
theorem on_read_protector_staging {σ ζ : Type} (F : tsi_frame_protector σ)
    (Z : tsi_zero_copy_grpc_protector ζ) (ts : tsi_result → String) (fuel : Nat)
    (ep : secure_endpoint σ ζ) (error : grpc_error_handle) (r : ReadDone σ ζ)
    (h : on_read F Z ts fuel ep error = some r) :
    r.ep.protector_staging_buffer = ep.protector_staging_buffer := by
  by_cases hok : (read_error ep error).ok = true
  · obtain ⟨e1, e2, halive⟩ := read_error_ok ep _ hok
    cases hz : ep.zero_copy_protector with
    | some z =>
      rw [on_read_zero_copy F Z ts fuel ep z _ hok hz] at h
      cases h
      rw [read_finish_ep]
      simp [zero_copy_read, update_read_buffer]
    | none =>
      subst e2
      obtain ⟨s, hs, hr⟩ := on_read_copying_run F Z ts fuel ep r hz halive h
      rw [hr, read_finish_ep]
      exact copying_read_protector_staging F fuel _ s hs
  · have hno : (read_error ep error).ok = false := by simpa using hok
    rw [on_read_error F Z ts fuel ep error hno] at h
    cases h
    rw [call_read_cb_ep]
    simp [update_read_buffer]

/-- `endpoint_write` finds `protector_staging_buffer` empty and leaves it
empty. -/
theorem endpoint_write_protector_staging {σ ζ : Type} (F : tsi_frame_protector σ)
    (Z : tsi_zero_copy_grpc_protector ζ) (ts : tsi_result → String) (fuel : Nat)
    (ep : secure_endpoint σ ζ) (slices : grpc_slice_buffer) (cb : Option grpc_closure)
    (args : WriteArgs) (r : WriteDone σ ζ)
    (h : endpoint_write F Z ts fuel ep slices cb args = some r)
    (hb : ep.protector_staging_buffer = []) :
    r.ep.protector_staging_buffer = [] := by
  have hfin : ∀ (ep' : secure_endpoint σ ζ) (sl : grpc_slice_buffer) (res : tsi_result)
      (log : List Event),
      (write_finish ts ep' sl res log cb args).ep.protector_staging_buffer
        = ep'.protector_staging_buffer := by
    intro ep' sl res log
    by_cases hres : res = tsi_result.TSI_OK
    · rw [write_finish_ok ts _ _ _ _ _ _ hres]
      rfl
    · rw [write_finish_failed ts _ _ _ _ _ _ hres]
  cases hz : ep.zero_copy_protector with
  | some z =>
    rw [endpoint_write_zero_copy F Z ts fuel ep z slices cb args hz] at h
    cases hw : zero_copy_write Z fuel args
        { ep := { ep with output_buffer := [] }, z := z, slices := slices,
          result := tsi_result.TSI_OK, log := [] } with
    | none => rw [hw] at h; cases h
    | some s =>
      rw [hw] at h
      simp only [Option.map_some', Option.some.injEq] at h
      rw [← h, hfin]
      unfold zero_copy_write at hw
      split at hw
      · cases hw
      · cases hw
        rfl
  | none =>
    obtain ⟨s, hs, hr⟩ := endpoint_write_copying_run F Z ts fuel ep slices cb args r hz h
    rw [hr, hfin, copying_write_protector_staging F fuel _ slices s hs]
    exact hb

theorem perform_protector_staging {σ ζ : Type} (F : tsi_frame_protector σ)
    (Z : tsi_zero_copy_grpc_protector ζ) (ts : tsi_result → String) (fuel : Nat)
    (op : Operation) (s s' : endpoint_state σ ζ)
    (hb : s.ep.protector_staging_buffer = []) (hp : perform F Z ts fuel op s = some s') :
    s'.ep.protector_staging_buffer = [] := by
  cases op with
  | read slices cb urgent mps =>
    simp only [perform, vtable_read] at hp
    split at hp
    · rcases endpoint_read_cases F Z ts fuel s.ep slices (some cb) urgent with
        ⟨_, e⟩ | ⟨_, _, e⟩ | ⟨_, _, e⟩
      · rw [e] at hp
        simp only [Option.some.injEq] at hp
        subst hp
        exact hb
      · rw [e] at hp; cases hp
      · generalize hon : on_read F Z ts fuel _ grpc_error_handle.OkStatus = o at e
        cases o with
        | none => rw [e] at hp; cases hp
        | some d =>
          rw [e] at hp
          simp only [Option.some.injEq] at hp
          subst hp
          rw [on_read_protector_staging F Z ts fuel _ _ d hon]
          exact hb
    · cases hp
  | wrapped_read_completes data error =>
    simp only [perform, wrapped_read_done] at hp
    split at hp
    · split at hp
      · cases hp
      · rename_i r hr
        simp only [Option.some.injEq] at hp
        subst hp
        rw [on_read_protector_staging F Z ts fuel _ _ r hr]
        exact hb
    · cases hp
  | write slices cb args =>
    simp only [perform] at hp
    split at hp
    · split at hp
      · cases hp
      · rename_i r hr
        simp only [Option.some.injEq] at hp
        subst hp
        exact endpoint_write_protector_staging F Z ts fuel s.ep slices (some cb) args r hr hb
    · cases hp
  | wrapped_write_completes error =>
    simp only [perform] at hp
    split at hp
    · simp only [Option.some.injEq] at hp
      subst hp
      simp only [on_write, secure_endpoint_unref_eq]
      exact hb
    · cases hp
  | reclaimer_sweep =>
    simp only [perform] at hp
    split at hp
    · simp only [Option.some.injEq] at hp
      subst hp
      simp only [reclaimer_callback, secure_endpoint_unref_eq, if_true]
      exact hb
    · cases hp
  | reclaimer_cancel =>
    simp only [perform] at hp
    split at hp
    · simp only [Option.some.injEq] at hp
      subst hp
      simp only [reclaimer_callback, secure_endpoint_unref_eq, Bool.false_eq_true, if_false]
      exact hb
    · cases hp
  | destroy =>
    simp only [perform] at hp
    split at hp
    · simp only [Option.some.injEq] at hp
      subst hp
      simp only [endpoint_destroy, reclaimer_callback, secure_endpoint_unref_eq,
        Bool.false_eq_true, if_false]
      split <;> exact hb
    · cases hp

/-- Between operations `protector_staging_buffer` is empty: the constructor
initialises it empty, the zero-copy write resets it before it returns, and
nothing else assigns it. -/
theorem reachable_protector_staging {σ ζ : Type} (F : tsi_frame_protector σ)
    (Z : tsi_zero_copy_grpc_protector ζ) (ts : tsi_result → String)
    (s : endpoint_state σ ζ) (h : reachable F Z ts s) :
    s.ep.protector_staging_buffer = [] := by
  induction h with
  | construction protector zero_copy_protector to_wrap leftover_slices => rfl
  | operation s s' fuel op _ hp ih =>
    exact perform_protector_staging F Z ts fuel op s s' ih hp

/-- C3. A zero-copy write of a source of `L` bytes with `max_frame_size`
`M ≥ 1`, on an endpoint in a state reached from its construction by operations
(where `protector_staging_buffer` is empty).  The write returns.  When every
`protect` call of the write returned `TSI_OK` and left no byte in the buffer it
was given, `protect` was called exactly `ceil(L / M)` times (no call for an
empty source), every call received at most `M` bytes, and the inputs
concatenated in call order are the source bytes; for `L = 4096` and `M = 1024`
these are four calls of 1024 bytes each. -/
theorem zero_copy_write_frames {σ ζ : Type} (F : tsi_frame_protector σ)
    (Z : tsi_zero_copy_grpc_protector ζ) (ts : tsi_result → String)
    (s : endpoint_state σ ζ) (hs : reachable F Z ts s) (z : ζ)
    (hzc : s.ep.zero_copy_protector = some z)
    (slices : grpc_slice_buffer) (cb : Option grpc_closure) (M : Int)
    (hM1 : 1 ≤ M) (hM2 : M < 2 ^ 63) :
    (∃ N r, ∀ fuel, N ≤ fuel →
        endpoint_write F Z ts fuel s.ep slices cb { max_frame_size := M } = some r)
      ∧ ∀ fuel r,
        endpoint_write F Z ts fuel s.ep slices cb { max_frame_size := M } = some r →
        calls_ok r.log → inputs_consumed r.log →
        (zero_copy_inputs r.log).length = (buffer_length slices + M.toNat - 1) / M.toNat
          ∧ (∀ input ∈ zero_copy_inputs r.log, buffer_length input ≤ M.toNat)
          ∧ (zero_copy_inputs r.log).flatMap buffer_bytes = buffer_bytes slices
          ∧ (buffer_length slices = 4096 → M = 1024 →
              (zero_copy_inputs r.log).map buffer_length = [1024, 1024, 1024, 1024]) := by
  have hMpos : 0 < M.toNat := by omega
  have hcast : static_cast_size_t M = M.toNat := static_cast_size_t_eq M (by omega) hM2
  have hst := reachable_protector_staging F Z ts s hs
  constructor
  · obtain ⟨N, s', hN⟩ := zero_copy_write_returns Z ({ max_frame_size := M } : WriteArgs)
      (by simp only [hcast]; exact hMpos)
      ({ ep := { s.ep with output_buffer := [] }, z := z, slices := slices,
         result := tsi_result.TSI_OK, log := [] } : ZeroCopyLoop σ ζ)
    refine ⟨N, write_finish ts s'.ep s'.slices s'.result s'.log cb { max_frame_size := M }, ?_⟩
    intro fuel hf
    rw [endpoint_write_zero_copy F Z ts fuel s.ep z slices cb _ hzc, hN fuel hf]
    rfl
  · intro fuel r h hok hin
    rw [endpoint_write_zero_copy F Z ts fuel s.ep z slices cb _ hzc] at h
    unfold zero_copy_write at h
    simp only [hcast] at h
    split at h
    · cases h
    · rename_i s1 h1
      simp only [Option.map_some', Option.some.injEq] at h
      obtain ⟨calls, h3, h4⟩ := zero_copy_chunk_loop_calls Z M.toNat hMpos fuel _ s1 h1
      simp only [List.nil_append] at h3
      have hlog : ∃ ev, r.log = (if s1.result = tsi_result.TSI_OK ∧ buffer_length s1.slices > 0
          then zero_copy_protect_call Z false s1 else s1).log ++ [ev]
          ∧ zero_copy_inputs [ev] = [] := by
        rw [← h]
        by_cases hres : (if s1.result = tsi_result.TSI_OK ∧ buffer_length s1.slices > 0
          then zero_copy_protect_call Z false s1 else s1).result = tsi_result.TSI_OK
        · rw [write_finish_ok ts _ _ _ _ _ _ hres]
          exact ⟨_, rfl, rfl⟩
        · rw [write_finish_failed ts _ _ _ _ _ _ hres]
          exact ⟨_, rfl, rfl⟩
      obtain ⟨ev, hl, hev⟩ := hlog
      rw [hl] at hok hin
      have hok2 := ((calls_ok_append _ _).mp hok).1
      have hin2 := ((inputs_consumed_append _ _).mp hin).1
      have hpre : calls_ok calls ∧ inputs_consumed calls := by
        by_cases hc : s1.result = tsi_result.TSI_OK ∧ buffer_length s1.slices > 0
        · rw [if_pos hc] at hok2 hin2
          simp only [zero_copy_protect_call, h3] at hok2 hin2
          exact ⟨((calls_ok_append _ _).mp hok2).1, ((inputs_consumed_append _ _).mp hin2).1⟩
        · rw [if_neg hc, h3] at hok2 hin2
          exact ⟨hok2, hin2⟩
      obtain ⟨g1, g2, g3⟩ := h4 rfl (by simp [hst, buffer_bytes]) hpre.1 hpre.2
      have hsizes : (zero_copy_inputs r.log).map buffer_length
            = chunk_sizes M.toNat (buffer_length slices + 1) (buffer_length slices)
          ∧ (zero_copy_inputs r.log).flatMap buffer_bytes = buffer_bytes slices := by
        rw [hl, zero_copy_inputs_append, hev, List.append_nil]
        simp only at g2 g3
        rw [← g2, ← g3]
        split
        · rename_i hc
          simp only [zero_copy_protect_call, h3, zero_copy_inputs_append, zero_copy_inputs,
            List.map_append, List.map_cons, List.map_nil, List.flatMap_append,
            List.flatMap_cons, List.flatMap_nil, List.append_nil, hc.2, if_true]
          simp
        · rename_i hc
          have h0 : buffer_length s1.slices = 0 := by
            by_contra hne
            exact hc ⟨g1, by omega⟩
          have hb : buffer_bytes s1.slices = [] := by
            rw [buffer_length_eq] at h0
            exact List.length_eq_zero.mp h0
          simp [h3, h0, hb]
      obtain ⟨hs1, hs2⟩ := hsizes
      refine ⟨?_, ?_, hs2, ?_⟩
      · have := congrArg List.length hs1
        rw [List.length_map] at this
        rw [this, chunk_sizes_length M.toNat hMpos _ _ (Nat.lt_succ_self _)]
      · intro input hi
        apply chunk_sizes_le M.toNat (buffer_length slices + 1) (buffer_length slices)
        rw [← hs1]
        exact List.mem_map_of_mem _ hi
      · intro hL hM
        subst hM
        have h1024 : (1024 : Int).toNat = 1024 := rfl
        rw [hs1, hL, h1024]
        simp [chunk_sizes]

theorem zero_copy_write_frames_witness :
    (∃ N r, ∀ fuel, N ≤ fuel →
        endpoint_write identity_protector passthrough_zero_copy example_result_to_string fuel
          (created () (some ()) 1 []).ep [[1, 2, 3], [4, 5, 6, 7, 8]] (some 7)
          { max_frame_size := 3 } = some r)
      ∧ ∃ r, endpoint_write identity_protector passthrough_zero_copy example_result_to_string 9
          (created () (some ()) 1 []).ep [[1, 2, 3], [4, 5, 6, 7, 8]] (some 7)
          { max_frame_size := 3 } = some r
        ∧ calls_ok r.log ∧ inputs_consumed r.log
        ∧ zero_copy_inputs r.log = [[[1, 2, 3]], [[4, 5, 6]], [[7, 8]]]
        ∧ (zero_copy_inputs r.log).length = (8 + 3 - 1) / 3
        ∧ (∀ input ∈ zero_copy_inputs r.log, buffer_length input ≤ 3)
        ∧ (zero_copy_inputs r.log).flatMap buffer_bytes = [1, 2, 3, 4, 5, 6, 7, 8] :=
  have h := zero_copy_write_frames identity_protector passthrough_zero_copy
    example_result_to_string (created () (some ()) 1 [])
    (reachable.construction () (some ()) 1 []) () rfl [[1, 2, 3], [4, 5, 6, 7, 8]] (some 7) 3
    (by decide) (by decide)
  ⟨h.1, _, rfl, by decide, by decide, rfl,
    (h.2 9 _ rfl (by decide) (by decide)).1,
    (h.2 9 _ rfl (by decide) (by decide)).2.1,
    (h.2 9 _ rfl (by decide) (by decide)).2.2.1⟩

/-! ## The size of the staging slice reserved after a reclaimer sweep -/

end SecureEndpoint
